import Mathlib

/-!
# esp_tool: a shallow embedding of the image codec and the loader transport

Bytes and machine words are natural numbers.  Unsigned 32-bit arithmetic that
can wrap in the C++ source carries an explicit `% 2 ^ 32`.  Status codes are
integers, exactly the values of `esp.h`.
-/

namespace EspTool

/-! ## Constants of `esp.h` -/

def ESP_SUCCESS : Int := 0
def ESP_ERROR_GENERAL : Int := -1
def ESP_ERROR_TIMEOUT : Int := -2
def ESP_ERROR_PARAM : Int := -4
def ESP_ERROR_COMM_WRITE : Int := -7
def ESP_ERROR_REPLY : Int := -9
def ESP_ERROR_FILE_READ : Int := -12
def ESP_ERROR_FILE_WRITE : Int := -13
def ESP_ERROR_FILE_SEEK : Int := -14
def ESP_ERROR_RESP_HDR : Int := -17
def ESP_ERROR_SLIP_FRAME : Int := -19
def ESP_ERROR_SLIP_STATE : Int := -20
def ESP_ERROR_SLIP_DATA : Int := -21

def ESP_FLASH_BEGIN : Nat := 0x02
def ESP_FLASH_DATA : Nat := 0x03
def ESP_FLASH_BLK_SIZE : Nat := 0x0400
def ESP_IMAGE_MAGIC : Nat := 0xe9
def ESP_CHECKSUM_MAGIC : Nat := 0xef
def DEF_TIMEOUT : Nat := 500

/-- Conversion of a `uint32_t` value to `int` (two's complement, 32 bits). -/
def toInt32 (v : Nat) : Int :=
  if v % 2 ^ 32 < 2 ^ 31 then ((v % 2 ^ 32 : Nat) : Int) else ((v % 2 ^ 32 : Nat) : Int) - 2 ^ 32

/-! ## `putData` / `getData` (esp.cpp) -/

/-- The loop of `putData`: `byteCnt` times store `val & 0xff` and shift `val` right by 8. -/
def putDataLoop : Nat → Nat → List Nat
  | 0, _ => []
  | n + 1, val => (val &&& 0xff) :: putDataLoop n (val >>> 8)

/-- The bytes `putData(val, byteCnt, buf, ofst)` stores at `buf + ofst`: 1 to 4 bytes of a
32-bit value, little endian; nothing when `byteCnt` is 0. -/
def putData (val byteCnt : Nat) : List Nat :=
  putDataLoop (if byteCnt > 4 then 4 else byteCnt) (val % 2 ^ 32)

/-- The loop of `getData`: or the bytes from `ofst` on into `val`, each shifted by `shiftCnt`. -/
def getDataLoop (buf : List Nat) : Nat → Nat → Nat → Nat → Nat
  | 0, _, _, val => val
  | n + 1, ofst, shiftCnt, val =>
    getDataLoop buf n (ofst + 1) (shiftCnt + 8) (val ||| ((buf.getD ofst 0 <<< shiftCnt) % 2 ^ 32))

/-- The value `getData(byteCnt, buf, ofst)` reads: 1 to 4 bytes, little endian. -/
def getData (byteCnt : Nat) (buf : List Nat) (ofst : Nat) : Nat :=
  getDataLoop buf (if byteCnt > 4 then 4 else byteCnt) ofst 0 0

/-- `memcpy(buf + ofs, src, src.length)` on a buffer held as a list. -/
def writeAt (buf : List Nat) (ofs : Nat) (src : List Nat) : List Nat :=
  buf.take ofs ++ src ++ buf.drop (ofs + src.length)

/-! ## `VFile` in virtual (in-memory) mode (elf.cpp)

`data` holds the bytes `m_buf[0 .. m_size)`, so `m_size` is `data.length`; `isOpen` says
that `m_buf` is allocated; `m_bufSize` is the number of bytes allocated.  `overrun` is set
once the buffer no longer holds the file: `Write` or `Fill` has copied past the end of the
`m_bufSize` bytes, or `NeedSpace` has made the buffer shorter than the file.  The behaviour
of the C++ is undefined from then on.  While `overrun` is `false`, `m_pos` and `m_size` are
at most `m_bufSize`, which is below `2^32`, so that no 32-bit offset has wrapped. -/

structure VFile where
  isOpen : Bool
  data : List Nat
  m_bufSize : Nat
  m_pos : Nat
  m_increment : Nat
  overrun : Bool
deriving DecidableEq, Repr

namespace VFile

def m_size (vf : VFile) : Nat := vf.data.length

/-- State after the constructor's `init()`. -/
def init : VFile :=
  { isOpen := false, data := [], m_bufSize := 0, m_pos := 0, m_increment := 100,
    overrun := false }

/-- `VFile::Open(name, "v")` with a non-empty name: allocate `m_increment` bytes. -/
def OpenVirt : VFile :=
  { init with isOpen := true, m_bufSize := init.m_increment }

def IsOpen (vf : VFile) : Bool := vf.isOpen

/-- `VFile::NeedSpace(uint32_t space)`: the sums are those of 32-bit unsigned numbers;
`realloc` gives the buffer `newSize` bytes (and allocates one when there was none). -/
def NeedSpace (vf : VFile) (space : Nat) : VFile :=
  let space := space % 2 ^ 32
  if space = 0 then vf
  else if (vf.m_pos + space) % 2 ^ 32 ≤ vf.m_bufSize then vf
  else
    let space := if space < vf.m_increment then vf.m_increment else space
    let newSize := (vf.m_pos + space) % 2 ^ 32
    { vf with m_bufSize := newSize, isOpen := true,
              overrun := vf.overrun || decide (newSize < vf.m_size) }

/-- `VFile::Write(buf, size, count)`: the value returned and the file afterwards.  The
`memcpy(m_buf + m_pos, buf, total)` stays inside the buffer when
`m_pos + total ≤ m_bufSize`. -/
def Write (vf : VFile) (buf : List Nat) (size count : Nat) : Int × VFile :=
  let total := size * count
  if total = 0 then (0, vf)
  else if !vf.isOpen then (-1, vf)
  else
    let vf := vf.NeedSpace total
    let data := writeAt vf.data vf.m_pos (buf.take total)
    ((count : Int), { vf with data := data, m_pos := vf.m_pos + total,
                              overrun := vf.overrun || decide (vf.m_pos + total > vf.m_bufSize) })

/-- `VFile::Read(buf, size, count)`: the value returned, the bytes delivered, the file. -/
def Read (vf : VFile) (size count : Nat) : Int × List Nat × VFile :=
  let total := size * count
  if total = 0 then (0, [], vf)
  else if !vf.isOpen then (-1, [], vf)
  else if vf.m_pos + total ≥ vf.m_size then
    let total := vf.m_size - vf.m_pos
    let count := (total / size) * size
    if count = 0 then (0, [], vf)
    else ((count : Int), (vf.data.drop vf.m_pos).take total, { vf with m_pos := vf.m_pos + total })
  else ((count : Int), (vf.data.drop vf.m_pos).take total, { vf with m_pos := vf.m_pos + total })

/-- `VFile::Position()`. -/
def Position (vf : VFile) : Int := if vf.isOpen then (vf.m_pos : Int) else -1

/-- `VFile::Position(pos)`, that is `Seek(pos, SEEK_SET)`. -/
def SetPosition (vf : VFile) (pos : Nat) : Int × VFile :=
  if vf.isOpen then
    if pos > vf.m_size then (-1, vf) else (0, { vf with m_pos := pos })
  else (-1, vf)

def EndOfFile (vf : VFile) : Bool := decide (vf.m_pos ≥ vf.m_size)

/-- `VFile::Size()`. -/
def Size (vf : VFile) : Int := if vf.isOpen then (vf.m_size : Int) else -1

end VFile

/-! ## `ELF` (elf.cpp)

The section table as `collectSections` leaves it (entry `i` is section header `i + 1`),
the entry point of the header, and the bytes of the ELF file that `fread` delivers. -/

structure ELF_section where
  name : List Char
  offset : Nat
  address : Nat
  size : Nat
deriving DecidableEq, Repr

structure ELF where
  e_entry : Nat
  m_sections : List ELF_section
  file : List Nat
deriving DecidableEq, Repr

namespace ELF

/-- Number of section headers, `m_header.e_shnum`: the table has `e_shnum - 1` entries. -/
def e_shnum (elf : ELF) : Nat := elf.m_sections.length + 1

def GetEntry (elf : ELF) : Nat := elf.e_entry

/-- The search loop of `GetSectionNum`, `cnt` is the 1-based number of the head. -/
def getSectionNumLoop (sectName : List Char) : List ELF_section → Nat → Nat
  | [], _ => 0
  | s :: ss, cnt => if s.name = sectName then cnt else getSectionNumLoop sectName ss (cnt + 1)

/-- `ELF::GetSectionNum`: 1-based number of the first section of that name, 0 if none. -/
def GetSectionNum (elf : ELF) (sectName : List Char) : Nat :=
  if sectName = [] then 0 else getSectionNumLoop sectName elf.m_sections 1

/-- `ELF::GetSectionSize`. -/
def GetSectionSize (elf : ELF) (secIdx : Nat) : Nat :=
  if secIdx < elf.e_shnum then (elf.m_sections.getD secIdx ⟨[], 0, 0, 0⟩).size else 0

/-- `ELF::GetSectionAddress`. -/
def GetSectionAddress (elf : ELF) (secIdx : Nat) : Nat :=
  if secIdx < elf.e_shnum then (elf.m_sections.getD secIdx ⟨[], 0, 0, 0⟩).address else 0

/-- First loop of `WriteSection`: copy `n` bytes one at a time from file position `fpos`,
xor-ing each into `cksum`.  The flag is `false` at the `return(-1)` of a failed `fread` or
`Write`; the file and checksum are those reached so far. -/
def copyLoop (elf : ELF) : Nat → Nat → VFile → Nat → Bool × VFile × Nat
  | 0, _, vf, cksum => (true, vf, cksum)
  | n + 1, fpos, vf, cksum =>
    match elf.file.get? fpos with
    | none => (false, vf, cksum)
    | some b =>
      let r := vf.Write [b] 1 1
      if r.1 ≠ 1 then (false, r.2, cksum) else copyLoop elf n (fpos + 1) r.2 (cksum ^^^ b)

/-- Second loop of `WriteSection`: write `n` zero bytes; the flag is `false` when a `Write`
fails. -/
def padLoop : Nat → VFile → Bool × VFile
  | 0, vf => (true, vf)
  | n + 1, vf =>
    let r := vf.Write [0] 1 1
    if r.1 ≠ 1 then (false, r.2) else padLoop n r.2

/-- `ELF::WriteSection(sectIdx, vf, cksum, paddedSize)`: the `int` returned, the file and
the checksum afterwards.  A seek in the ELF file always succeeds; reading past its end
fails. -/
def WriteSection (elf : ELF) (sectIdx : Nat) (vf : VFile) (cksum paddedSize : Nat) :
    Int × VFile × Nat :=
  if !vf.IsOpen then (-1, vf, cksum)
  else
    let sec := elf.m_sections.getD sectIdx ⟨[], 0, 0, 0⟩
    let sectSize := sec.size
    if sectSize ≠ 0 then
      let len := if sectSize < paddedSize then paddedSize else sectSize
      let vf := vf.NeedSpace len
      let c := copyLoop elf sectSize sec.offset vf cksum
      if !c.1 then (-1, c.2.1, c.2.2)
      else
        let p := padLoop (paddedSize - sectSize) c.2.1
        if !p.1 then (-1, p.2, c.2.2)
        else (toInt32 len, p.2, c.2.2)
    else (toInt32 sectSize, vf, cksum)

end ELF

/-! ## `ESP::WriteSections` (esp.cpp) -/

/-- The section list after every `','` has been overwritten by `'\0'`: the names the
pointer `p` walks over, one more than there are commas. -/
def splitComma : List Char → List (List Char)
  | [] => [[]]
  | c :: cs =>
    if c = ',' then [] :: splitComma cs
    else
      match splitComma cs with
      | [] => [[c]]
      | h :: t => (c :: h) :: t

/-- The segment loop of `WriteSections`; the head of the list is the name at `p`, the last
name is the one with `lastSeg`. -/
def writeSegments (elf : ELF) : List (List Char) → VFile → Nat → Nat → Int × VFile
  | [], vf, _, _ => (0, vf)
  | p :: rest, vf, cksum, imageSize =>
    let sectNum := elf.GetSectionNum p
    if sectNum = 0 then (ESP_ERROR_PARAM, vf)
    else
      let sectIdx := sectNum - 1
      let segSize := elf.GetSectionSize sectIdx
      let paddedSize := ((segSize + 3) % 2 ^ 32) &&& 0xfffffffc
      let buf := putData (elf.GetSectionAddress sectIdx) 4 ++ putData paddedSize 4
      let w := vf.Write buf 1 8
      if w.1 ≠ 8 then (ESP_ERROR_FILE_WRITE, w.2)
      else
        let imageSize := (imageSize + 8) % 2 ^ 32
        let r := elf.WriteSection sectIdx w.2 cksum paddedSize
        if r.1 < 0 then (r.1, r.2.1)
        else
          let imageSize := (imageSize + paddedSize) % 2 ^ 32
          if rest.isEmpty then
            let paddedSize := ((imageSize + 16) % 2 ^ 32) &&& 0xfffffff0
            let padSize := (paddedSize + 2 ^ 32 - imageSize) % 2 ^ 32
            let padBuf := (List.replicate 16 0).set (padSize - 1) r.2.2
            let w2 := r.2.1.Write padBuf 1 padSize
            if w2.1 ≠ (padSize : Int) then (ESP_ERROR_FILE_WRITE, w2.2)
            else writeSegments elf rest w2.2 r.2.2 imageSize
          else writeSegments elf rest r.2.1 r.2.2 imageSize

/-- `ESP::WriteSections(vf, sectName, flashParm)`: the status returned and the output file. -/
def WriteSections (elf : ELF) (vf : VFile) (sectName : List Char) (flashParm : Nat) :
    Int × VFile :=
  let cksum := ESP_CHECKSUM_MAGIC
  if sectName.contains ',' then
    let len := if sectName.length ≥ 200 then 199 else sectName.length
    let sectList := sectName.take len
    let names := splitComma sectList
    let sectCnt := names.length
    let buf := [ESP_IMAGE_MAGIC, sectCnt % 256] ++ putData flashParm 2 ++ putData elf.GetEntry 4
    let w := vf.Write buf 1 8
    if w.1 ≠ 8 then (ESP_ERROR_FILE_WRITE, w.2)
    else writeSegments elf names w.2 cksum 8
  else
    let sectNum := elf.GetSectionNum sectName
    if sectNum = 0 then (ESP_ERROR_PARAM, vf)
    else
      let r := elf.WriteSection (sectNum - 1) vf cksum 0
      (r.1, r.2.1)

/-! ## Specification-side vocabulary -/

/-- The file is open and positioned at its end, so that every write appends. -/
def AtEnd (vf : VFile) : Prop := vf.isOpen = true ∧ vf.m_pos = vf.data.length

/-- Xor of `cksum` with every byte of a list, in order. -/
def xorFold (cksum : Nat) (l : List Nat) : Nat := l.foldl (· ^^^ ·) cksum

/-- Little-endian bytes of a 16-bit field. -/
def le16 (v : Nat) : List Nat := [v % 256, v / 256 % 256]

/-- Little-endian bytes of a 32-bit field. -/
def le32 (v : Nat) : List Nat := [v % 256, v / 256 % 256, v / 65536 % 256, v / 16777216 % 256]

/-- The table entry a name of the list denotes: entry `GetSectionNum - 1`. -/
def ELF.namedSection (elf : ELF) (nm : List Char) : ELF_section :=
  elf.m_sections.getD (elf.GetSectionNum nm - 1) ⟨[], 0, 0, 0⟩

/-- The bytes of a section in the ELF file: `size` bytes from `offset` (fewer if the file ends). -/
def ELF.sectionBytes (elf : ELF) (sec : ELF_section) : List Nat :=
  (elf.file.drop sec.offset).take sec.size

/-- A size rounded up to a multiple of 4. -/
def roundUp4 (n : Nat) : Nat := (n + 3) / 4 * 4

/-- A name of the list whose segment can be written: the section is found, its bytes are all
in the ELF file, and its rounded size is a non-negative `int`. -/
def Emittable (elf : ELF) (nm : List Char) : Prop :=
  elf.GetSectionNum nm ≠ 0 ∧
  (elf.sectionBytes (elf.namedSection nm)).length = (elf.namedSection nm).size ∧
  roundUp4 (elf.namedSection nm).size < 2 ^ 31

instance (elf : ELF) (nm : List Char) : Decidable (Emittable elf nm) := by
  unfold Emittable; infer_instance

/-- One segment of the image: address, rounded size, the section bytes, zero fill. -/
def specSegment (elf : ELF) (nm : List Char) : List Nat :=
  le32 (elf.namedSection nm).address ++ le32 (roundUp4 (elf.namedSection nm).size) ++
    elf.sectionBytes (elf.namedSection nm) ++
    List.replicate (roundUp4 (elf.namedSection nm).size - (elf.namedSection nm).size) 0

/-- The names `WriteSections` processes in image mode: the list, cut to 199 characters when
it has 200 or more, split at the commas. -/
def sectionNames (sectName : List Char) : List (List Char) :=
  splitComma (sectName.take (if sectName.length ≥ 200 then 199 else sectName.length))

/-- The standard ESP image for a list of section names, in the words of the format: the
8-byte header, one segment per name, then `k` pad bytes, `1 ≤ k ≤ 16`, to a multiple of
16, all zero but the last, which is the checksum (0xEF xor every section byte). -/
def specImage (elf : ELF) (names : List (List Char)) (flashParm : Nat) : List Nat :=
  let body := [0xe9, names.length] ++ le16 flashParm ++ le32 elf.e_entry ++
    names.flatMap (specSegment elf)
  let k := 16 - body.length % 16
  body ++ List.replicate (k - 1) 0 ++
    [xorFold 0xef (names.flatMap fun nm => elf.sectionBytes (elf.namedSection nm))]

/-- Every data byte of the segments, fill included, in file order. -/
def segmentData (elf : ELF) (names : List (List Char)) : List Nat :=
  names.flatMap fun nm => elf.sectionBytes (elf.namedSection nm) ++
    List.replicate (roundUp4 (elf.namedSection nm).size - (elf.namedSection nm).size) 0

/-- The size fields of `n` consecutive segment records `addr | size | bytes[size]`. -/
def segmentSizes : Nat → List Nat → List Nat
  | 0, _ => []
  | n + 1, bytes => getData 4 bytes 4 :: segmentSizes n (bytes.drop (8 + getData 4 bytes 4))

/-- A small ELF: `.text` holds 5 bytes, `.data` 2 bytes, `.rodata` none. -/
def demoElf : ELF :=
  { e_entry := 0x40100004,
    m_sections := [⟨".text".toList, 4, 0x40100000, 5⟩, ⟨".data".toList, 9, 0x3ffe8000, 2⟩,
                   ⟨".rodata".toList, 0, 0x3ffe8100, 0⟩],
    file := [0x7f, 0x45, 0x4c, 0x46, 1, 2, 3, 4, 5, 0xaa, 0xbb] }

/-- An ELF whose `.text`, `.data` and `.rodata` are empty. -/
def emptyElf : ELF :=
  { e_entry := 0x40100004,
    m_sections := [⟨".text".toList, 0, 0x40100000, 0⟩, ⟨".data".toList, 0, 0x3ffe8000, 0⟩,
                   ⟨".rodata".toList, 0, 0x3ffe8100, 0⟩],
    file := [] }

def ESP_ERROR_FILE_SIZE : Int := -15
def COMPOSITE_SIG : List Nat := [0x65, 0x73, 0x70]

/-! ## `ESP::stdImageInfo` and `ESP::ImageInfo` (esp.cpp)

The text printed on `fpOut` is kept as a record of the values it shows. -/

/-- What `stdImageInfo` prints when it returns 0: the flash parameters, one
`(address, size)` line per segment, whether the checksum is called correct, the byte shown
as the checksum (`none` when `lastByte` was never assigned), and the
"Additional Flash data" line `(address, size)` if any. -/
structure StdImageReport where
  flashParm : Nat
  segments : List (Nat × Nat)
  checksumOk : Bool
  lastByte : Option Nat
  additional : Option (Nat × Nat)
deriving DecidableEq, Repr

/-- `while (len--)`: read `len` bytes one at a time and xor them into `cksum`; `none` is
the failed `Read`. -/
def readSegData : Nat → VFile → Nat → Option (VFile × Nat)
  | 0, vf, cksum => some (vf, cksum)
  | len + 1, vf, cksum =>
    let r := vf.Read 1 1
    if r.1 ≠ 1 then none else readSegData len r.2.2 (cksum ^^^ r.2.1.getD 0 0)

/-- The segment loop of `stdImageInfo`: `segCnt` descriptors, each followed by its data. -/
def readSegments : Nat → VFile → Nat → List (Nat × Nat) → Option (VFile × Nat × List (Nat × Nat))
  | 0, vf, cksum, segs => some (vf, cksum, segs)
  | n + 1, vf, cksum, segs =>
    let r := vf.Read 1 8
    if r.1 ≠ 8 then none
    else
      let addr := getData 4 r.2.1 0
      let len := getData 4 r.2.1 4
      match readSegData len r.2.2 cksum with
      | none => none
      | some (vf1, cksum1) => readSegments n vf1 cksum1 (segs ++ [(addr, len)])

/-- `while ((pos++ & 0x0f) != 0)`: read the padding up to the next multiple of 16; the
loop body runs fewer than 16 times, `fuel` bounds it.  Returns `pos`, the file, the
checksum and `lastByte`; `none` is the failed `Read`. -/
def readPadding : Nat → Nat → VFile → Nat → Option Nat → Option (Nat × VFile × Nat × Option Nat)
  | 0, pos, vf, cksum, lastByte => some (pos, vf, cksum, lastByte)
  | fuel + 1, pos, vf, cksum, lastByte =>
    if pos &&& 0x0f ≠ 0 then
      let r := vf.Read 1 1
      if r.1 ≠ 1 then none
      else readPadding fuel ((pos + 1) % 2 ^ 32) r.2.2 (cksum ^^^ r.2.1.getD 0 0)
        (some (r.2.1.getD 0 0))
    else some ((pos + 1) % 2 ^ 32, vf, cksum, lastByte)

/-- `ESP::stdImageInfo(vf, ofst, size, prefix, fpOut)` with an output stream: the status
and, on status 0, what was printed. -/
def stdImageInfo (vf : VFile) (ofst size : Nat) : Int × Option StdImageReport :=
  if !vf.IsOpen || size = 0 then (ESP_ERROR_PARAM, none)
  else
    let s := vf.SetPosition ofst
    if s.1 < 0 then (ESP_ERROR_FILE_SEEK, none)
    else
      let r := s.2.Read 1 8
      if r.1 ≠ 8 then (ESP_ERROR_FILE_READ, none)
      else if r.2.1.getD 0 0 ≠ ESP_IMAGE_MAGIC then (ESP_ERROR_GENERAL, none)
      else
        let flashParm := getData 2 r.2.1 2 % 2 ^ 16
        let cksum := ESP_CHECKSUM_MAGIC
        let segCnt := r.2.1.getD 1 0
        match readSegments segCnt r.2.2 cksum [] with
        | none => (ESP_ERROR_FILE_READ, none)
        | some (vf1, cksum1, segs) =>
          let pos := (vf1.m_pos + 2 ^ 32 - ofst % 2 ^ 32) % 2 ^ 32
          match readPadding 16 pos vf1 cksum1 none with
          | none => (ESP_ERROR_FILE_READ, none)
          | some (pos1, _, cksum2, lastByte) =>
            let pos2 := pos1 &&& 0xfffffff0
            (0, some { flashParm := flashParm, segments := segs,
                       checksumOk := decide (cksum2 = 0), lastByte := lastByte,
                       additional := if pos2 < size then some (pos2, size - pos2) else none })

/-- One line "Image i: Flash address, size" of a combined file, with the report of the
standard image inside when the entry starts with the image magic. -/
structure CombinedEntryReport where
  addr : Nat
  len : Nat
  image : Option StdImageReport
deriving DecidableEq, Repr

/-- What `ImageInfo` prints when it returns 0. -/
inductive ImageReport where
  | standard (r : StdImageReport)
  | combined (imageCnt : Nat) (entries : List CombinedEntryReport)
deriving DecidableEq, Repr

/-- The entry loop of `ImageInfo` over a combined file. -/
def infoEntries : Nat → VFile → List CombinedEntryReport → Int × List CombinedEntryReport
  | 0, _, acc => (0, acc)
  | n + 1, vf, acc =>
    let h := vf.Read 1 8
    if h.1 ≠ 8 then (ESP_ERROR_FILE_READ, acc)
    else
      let addr := getData 4 h.2.1 0
      let len := getData 4 h.2.1 4
      let pos := h.2.2.m_pos % 2 ^ 32
      let b := h.2.2.Read 1 4
      if b.1 ≠ 4 then (ESP_ERROR_FILE_READ, acc)
      else
        let std := if b.2.1.getD 0 0 = ESP_IMAGE_MAGIC then stdImageInfo b.2.2 pos len
                   else (0, none)
        if std.1 ≠ 0 then (std.1, acc)
        else
          let s := b.2.2.SetPosition ((pos + len) % 2 ^ 32)
          if s.1 < 0 then (ESP_ERROR_FILE_SEEK, acc ++ [⟨addr, len, std.2⟩])
          else infoEntries n s.2 (acc ++ [⟨addr, len, std.2⟩])

/-- `ESP::ImageInfo(vf, fpOut)` with an output stream: the status and, on status 0, what
was printed. -/
def ImageInfo (vf : VFile) : Int × Option ImageReport :=
  if !vf.IsOpen then (ESP_ERROR_PARAM, none)
  else
    let fileSize := vf.m_size
    let s := vf.SetPosition 0
    let r := s.2.Read 1 4
    if s.1 ≠ 0 ∨ r.1 ≠ 4 then (ESP_ERROR_FILE_READ, none)
    else if r.2.1.getD 0 0 = ESP_IMAGE_MAGIC then
      let std := stdImageInfo r.2.2 0 fileSize
      (std.1, std.2.map ImageReport.standard)
    else if r.2.1.take 3 ≠ COMPOSITE_SIG then (ESP_ERROR_GENERAL, none)
    else
      let imageCnt := r.2.1.getD 3 0
      let e := infoEntries imageCnt r.2.2 []
      (e.1, if e.1 = 0 then some (ImageReport.combined imageCnt e.2) else none)

def DIAG_NO_TIME_LIMIT : Nat := 0x0001

/-! ## The serial port (serial.cpp)

The driver and the device behind it: `rx` are the bytes the driver has received and the
program has not read yet, `tx` is every byte the program has written, `script` are the
answers of the device that have not arrived yet.  The driver accepts every byte written
to it and delivers what it has when asked. -/

structure Port where
  rx : List Nat
  tx : List Nat
  script : List (List Nat)
deriving DecidableEq, Repr

namespace Port

/-- `SerialAvailable`. -/
def SerialAvailable (p : Port) : Nat := p.rx.length

/-- `SerialRead(hand, buf, count)`: the bytes placed in `buf` and the port afterwards. -/
def SerialRead (p : Port) (count : Nat) : List Nat × Port :=
  (p.rx.take count, { p with rx := p.rx.drop count })

/-- `SerialWrite(hand, buf, count)`: the number of bytes written and the port afterwards. -/
def SerialWrite (p : Port) (buf : List Nat) : Nat × Port :=
  (buf.length, { p with tx := p.tx ++ buf })

/-- `SerialFlush`: drop the driver's input queue. -/
def SerialFlush (p : Port) : Port := { p with rx := [] }

/-- The device answers: its next scripted answer arrives in the driver's input queue. -/
def answer (p : Port) : Port :=
  match p.script with
  | [] => p
  | r :: rest => { p with rx := p.rx ++ r, script := rest }

end Port

/-! ## `SerialQueue` (serial.cpp)

`m_data` is the allocated buffer, `m_curSize` bytes long; a fresh allocation is filled
with zeros.  Every function takes and returns the port the queue reads from.  `overlap` is
set once `Refresh` has called `memcpy` with a source that overlaps the destination, which C
leaves undefined; `m_data` is then given as a copy from low to high addresses leaves it. -/

structure SerialQueue where
  m_maxSize : Nat
  m_curSize : Nat
  m_count : Nat
  m_head : Nat
  m_data : List Nat
  overlap : Bool
deriving DecidableEq, Repr

namespace SerialQueue

/-- The queue of a `SerialChannel`: constructed with `maxSize = 0`, `initialSize = 0`. -/
def init : SerialQueue :=
  { m_maxSize := 0, m_curSize := 0, m_count := 0, m_head := 0, m_data := [], overlap := false }

/-- First part of `Refresh`, "determine how much to read": the number `part` of bytes to
read when `count` are available, and the queue, grown in unbounded mode if it must. -/
def refreshRoom (q : SerialQueue) (count : Nat) : Nat × SerialQueue :=
  if q.m_maxSize = 0 then
    if count > q.m_curSize - q.m_count then
      let newSize := count + q.m_count
      let p := writeAt (List.replicate newSize 0) 0 ((q.m_data.drop q.m_head).take q.m_count)
      (count, { q with m_data := p, m_curSize := newSize, m_head := 0 })
    else (count, q)
  else if q.m_curSize < q.m_maxSize ∧ q.m_count < q.m_curSize then (q.m_curSize - q.m_count, q)
  else (0, q)

/-- Second part of `Refresh`, "move the existing data to the beginning of the queue":
`memcpy(m_data, m_data + m_head, m_count)`.  The source `[m_head, m_head + m_count)` overlaps
the destination `[0, m_count)` when `m_head < m_count`. -/
def refreshCompact (q : SerialQueue) : SerialQueue :=
  if q.m_count ≠ 0 ∧ q.m_head ≠ 0 then
    { q with m_data := writeAt q.m_data 0 ((q.m_data.drop q.m_head).take q.m_count), m_head := 0,
             overlap := q.overlap || decide (q.m_head < q.m_count) }
  else { q with m_head := 0 }

/-- Last part of `Refresh`, "add data to the queue": read `part` bytes behind the live ones. -/
def refreshFill (q : SerialQueue) (p : Port) (part : Nat) : SerialQueue × Port :=
  if part ≠ 0 then
    let r := p.SerialRead part
    ({ q with m_data := writeAt q.m_data q.m_count r.1, m_count := q.m_count + r.1.length }, r.2)
  else (q, p)

/-- `SerialQueue::Refresh`: the count returned, the queue and the port afterwards. -/
def Refresh (q : SerialQueue) (p : Port) : Nat × SerialQueue × Port :=
  let count := p.SerialAvailable
  if count ≠ 0 then
    let g := q.refreshRoom count
    let q2 := g.2.refreshCompact
    let part := if g.1 > count then count else g.1
    let f := q2.refreshFill p part
    (f.1.m_count, f.1, f.2)
  else (q.m_count, q, p)

/-- `SerialQueue::Available`. -/
def Available (q : SerialQueue) (p : Port) : Nat × SerialQueue × Port :=
  let r := q.Refresh p
  (r.2.1.m_count + r.2.2.SerialAvailable, r.2.1, r.2.2)

/-- The `do … while (count)` loop of `GetData`.  The port holds what has arrived and
nothing arrives during the call, so a pass that copies nothing repeats forever: the flag
returned is `false` then, and `true` when the loop ends.  Every other pass copies at least
one byte, so `count` passes are enough. -/
def getDataLoop : Nat → SerialQueue → Port → Nat → List Nat → Bool × List Nat × SerialQueue × Port
  | 0, q, p, _, acc => (false, acc, q, p)
  | fuel + 1, q, p, count, acc =>
    let r := q.Refresh p
    let q1 := r.2.1
    let part := if count > q1.m_count then q1.m_count else count
    if part > 0 then
      let bytes := (q1.m_data.drop q1.m_head).take part
      let q2 := { q1 with m_head := q1.m_head + part, m_count := q1.m_count - part }
      if count - part ≠ 0 then getDataLoop fuel q2 r.2.2 (count - part) (acc ++ bytes)
      else (true, acc ++ bytes, q2, r.2.2)
    else (false, acc, q1, r.2.2)

/-- `SerialQueue::GetData(buf, count)` with a buffer: whether it returns, the bytes copied,
the queue and the port. -/
def GetData (q : SerialQueue) (p : Port) (count : Nat) : Bool × List Nat × SerialQueue × Port :=
  if count ≠ 0 then getDataLoop count q p count [] else (true, [], q, p)

/-- `SerialQueue::Flush`. -/
def Flush (q : SerialQueue) (p : Port) : SerialQueue × Port :=
  ({ q with m_count := 0, m_head := 0 }, p.SerialFlush)

end SerialQueue

/-! ## `SerialChannel` (serial.cpp, serial.h) -/

structure SerialChannel where
  port : Port
  m_queue : SerialQueue
deriving DecidableEq, Repr

namespace SerialChannel

/-- `SerialChannel::Available`. -/
def Available (ch : SerialChannel) : Nat × SerialChannel :=
  let r := ch.m_queue.Available ch.port
  (r.1, { port := r.2.2, m_queue := r.2.1 })

/-- `SerialChannel::Flush`. -/
def Flush (ch : SerialChannel) : SerialChannel :=
  let r := ch.m_queue.Flush ch.port
  { port := r.2, m_queue := r.1 }

/-- `SerialChannel::Read(buf, count)`: the bytes placed in `buf` (their number is the value
returned) and the channel.  `count` is cut to what `Refresh` reports, so `GetData` returns. -/
def Read (ch : SerialChannel) (count : Nat) : List Nat × SerialChannel :=
  let r := ch.m_queue.Refresh ch.port
  let count := if count > r.1 then r.1 else count
  let g := r.2.1.GetData r.2.2 count
  (g.2.1, { port := g.2.2.2, m_queue := g.2.2.1 })

/-- `SerialChannel::ReadByte()`: `Read(&b, 1) ? b : 0`. -/
def ReadByteRaw (ch : SerialChannel) : Nat × SerialChannel :=
  let r := ch.Read 1
  (if r.1.length ≠ 0 then r.1.getD 0 0 else 0, r.2)

/-- `SerialChannel::ReadByte(data, slipDecode)`: the status, the value left in `data`
(`none` when it was not assigned), the channel. -/
def ReadByte (ch : SerialChannel) (slipDecode : Bool) : Int × Option Nat × SerialChannel :=
  let a := ch.Available
  if a.1 = 0 then (0, none, a.2)
  else
    let r := a.2.ReadByteRaw
    if !slipDecode then (1, some r.1, r.2)
    else if r.1 = 0xc0 then (-1, some r.1, r.2)
    else if r.1 ≠ 0xdb then (1, some r.1, r.2)
    else
      let a2 := r.2.Available
      if a2.1 = 0 then (-2, some r.1, a2.2)
      else
        let r2 := a2.2.ReadByteRaw
        if r2.1 = 0xdc then (2, some 0xc0, r2.2)
        else if r2.1 = 0xdd then (2, some 0xdb, r2.2)
        else (-3, some r2.1, r2.2)

/-- `SerialChannel::Write`. -/
def Write (ch : SerialChannel) (buf : List Nat) : Nat × SerialChannel :=
  let r := ch.port.SerialWrite buf
  (r.1, { ch with port := r.2 })

/-- `SerialChannel::WriteByte(b, slipEncode)`: the number of bytes written, the channel. -/
def WriteByte (ch : SerialChannel) (b : Nat) (slipEncode : Bool) : Nat × SerialChannel :=
  if slipEncode ∧ b = 0xc0 then ch.Write [0xdb, 0xdc]
  else if slipEncode ∧ b = 0xdb then ch.Write [0xdb, 0xdd]
  else ch.Write [b]

end SerialChannel

/-- The queue is unbounded and its live bytes lie inside its buffer. -/
def QInv (q : SerialQueue) : Prop :=
  q.m_maxSize = 0 ∧ q.m_head + q.m_count ≤ q.m_data.length ∧ q.m_curSize = q.m_data.length

/-- The bytes held in the queue, oldest first. -/
def SerialQueue.live (q : SerialQueue) : List Nat := (q.m_data.drop q.m_head).take q.m_count

/-- Every byte received and not yet delivered: the queue's bytes, then the driver's. -/
def SerialChannel.pend (ch : SerialChannel) : List Nat := ch.m_queue.live ++ ch.port.rx

/-- The channel holds the undelivered bytes `S`, has written `tx`, and the device still owes
the answers `sc`. -/
def Chan (ch : SerialChannel) (S tx : List Nat) (sc : List (List Nat)) : Prop :=
  QInv ch.m_queue ∧ ch.pend = S ∧ ch.port.tx = tx ∧ ch.port.script = sc

/-- One step of the SLIP decoder on the undelivered bytes: status, value left in `data`,
the bytes that remain. -/
def slipStep : List Nat → Int × Option Nat × List Nat
  | [] => (0, none, [])
  | b :: S =>
    if b = 0xc0 then (-1, some b, S)
    else if b ≠ 0xdb then (1, some b, S)
    else
      match S with
      | [] => (-2, some b, [])
      | c :: S' =>
        if c = 0xdc then (2, some 0xc0, S')
        else if c = 0xdd then (2, some 0xdb, S')
        else (-3, some c, S')

/-! ## `ESP`: the loader transport (esp.cpp)

The object is its serial channel, the millisecond clock it reads, and the global
`diagCode`.  `ticks k` is the value the `k`-th call of `getTickCount` returns. -/

structure ESP where
  m_serial : SerialChannel
  ticks : Nat → Nat
  tickCalls : Nat
  diagCode : Nat

/-- A request data block: `data` is `none` for a null pointer. -/
structure DataBlock_t where
  dataLen : Nat
  data : Option (List Nat)
deriving DecidableEq, Repr

namespace ESP

/-- `getTickCount()`: an `unsigned` number of milliseconds. -/
def getTickCount (esp : ESP) : Nat × ESP :=
  (esp.ticks esp.tickCalls % 2 ^ 32, { esp with tickCalls := esp.tickCalls + 1 })

/-- `ESP::BytesAvailable`. -/
def BytesAvailable (esp : ESP) : Nat × ESP :=
  let a := esp.m_serial.Available
  (a.1, { esp with m_serial := a.2 })

/-- `ESP::FlushComm`. -/
def FlushComm (esp : ESP) : ESP := { esp with m_serial := esp.m_serial.Flush }

/-- `ESP::checksum(data, dataLen, cksum)`: xor of the first `dataLen` bytes into `cksum`. -/
def checksum (data : List Nat) (dataLen : Nat) (cksum : Nat := ESP_CHECKSUM_MAGIC) : Nat :=
  (data.take dataLen).foldl (· ^^^ ·) cksum

/-- The `do … while (--len)` loop of `writePacket(data, len)`: `len ≥ 1` bytes from index
`i` on, each written with SLIP encoding. -/
def writePacketLoop (data : List Nat) : Nat → Nat → SerialChannel → Int × SerialChannel
  | 0, _, ch => (0, ch)
  | len + 1, i, ch =>
    let w := ch.WriteByte (data.getD i 0) true
    if w.1 ≠ 1 ∧ w.1 ≠ 2 then (ESP_ERROR_COMM_WRITE, w.2)
    else writePacketLoop data len (i + 1) w.2

/-- `ESP::writePacket(data, len)`: send a block of data with SLIP encoding. -/
def writePacketData (ch : SerialChannel) (data : Option (List Nat)) (len : Nat) :
    Int × SerialChannel :=
  match data with
  | none => (ESP_ERROR_PARAM, ch)
  | some d => if len = 0 then (ESP_ERROR_PARAM, ch) else writePacketLoop d len 0 ch

/-- The loop over the data blocks in `writePacket(hdr, hdrLen, blockList, blockCnt)`. -/
def writeBlocks : List DataBlock_t → SerialChannel → Int × SerialChannel
  | [], ch => (0, ch)
  | b :: bs, ch =>
    let w := writePacketData ch b.data b.dataLen
    if w.1 ≠ 0 then w else writeBlocks bs w.2

/-- `ESP::writePacket(hdr, hdrLen, blockList, blockCnt)` with a header and a block list:
the frame start, the header, the blocks, the frame end. -/
def writePacket (ch : SerialChannel) (hdr : List Nat) (hdrLen : Nat)
    (blockList : List DataBlock_t) : Int × SerialChannel :=
  if hdrLen = 0 then (ESP_ERROR_PARAM, ch)
  else
    let s := ch.WriteByte 0xc0 false
    if s.1 = 0 then (ESP_ERROR_COMM_WRITE, s.2)
    else
      let h := writePacketData s.2 (some hdr) hdrLen
      if h.1 ≠ 0 then h
      else
        let b := writeBlocks blockList h.2
        if b.1 ≠ 0 then b
        else
          let e := b.2.WriteByte 0xc0 false
          (if e.1 ≠ 0 then 0 else ESP_ERROR_COMM_WRITE, e.2)

/-- The total data length `sendCommand` computes: blocks with a null pointer are skipped. -/
def totalDataLen : List DataBlock_t → Nat
  | [] => 0
  | b :: bs => ((if b.data.isSome then b.dataLen else 0) + totalDataLen bs) % 2 ^ 32

/-- `ESP::sendCommand(op, checkVal, blockList, dataBlockCnt)`. -/
def sendCommand (esp : ESP) (op checkVal : Nat) (blockList : List DataBlock_t) : Int × ESP :=
  if op ≠ 0 then
    let dataLen := totalDataLen blockList
    let hdr := putData 0 1 ++ putData op 1 ++ putData dataLen 2 ++ putData checkVal 4
    let esp1 := esp.FlushComm
    let w := writePacket esp1.m_serial hdr 8 blockList
    (w.1, { esp1 with m_serial := w.2 })
  else (0, esp)

/-! ### The response reader -/

def PKT_BEGIN : Nat := 0
def PKT_HEADER : Nat := 1
def PKT_BODY : Nat := 2
def PKT_END : Nat := 3
def PKT_DONE : Nat := 4
def HDR_LEN : Nat := 8

/-- The local variables of `readPacket`.  `hdr` and `body` hold the bytes stored so far
(`hdrIdx` and `bodyIdx` are their lengths); `bodyCap` is the size of the buffer `body`
points to, `none` while `body` is null; `dbuf` says that the buffer was allocated with
`new`; `value` is what was stored through `valp`.  A store behind the end of the buffer
is carried out like any other. -/
structure PktVars where
  state : Nat
  needBytes : Nat
  hdr : List Nat
  bodyLen : Nat
  body : List Nat
  bodyCap : Option Nat
  dbuf : Bool
  value : Option Nat
deriving DecidableEq, Repr

/-- What `readPacket` hands back: the `int` returned, the value stored through `valp`, the
buffer stored through `bufpp`. -/
structure PktResult where
  stat : Int
  value : Option Nat
  buf : Option (List Nat)
deriving DecidableEq, Repr

/-- The `PKT_HEADER` / `PKT_BODY` case of the loop after a byte `c` was decoded: store it;
when the header is full check it and prepare the body, when the body is full go on to the
frame end.  `error` is the `return(ESP_ERROR_RESP_HDR)`. -/
def storeByte (op : Nat) (wantVal wantBuf : Bool) (v : PktVars) (c : Nat) :
    Except PktResult PktVars :=
  if v.state = PKT_HEADER then
    let hdr := v.hdr ++ [c]
    if hdr.length ≥ HDR_LEN then
      let resp := getData 1 hdr 0 % 256
      let opRet := getData 1 hdr 1 % 256
      if resp ≠ 0x01 ∨ (op ≠ 0 ∧ opRet ≠ op) then .error ⟨ESP_ERROR_RESP_HDR, v.value, none⟩
      else
        let bodyLen := getData 2 hdr 2 % 2 ^ 16
        let useLocal := !wantBuf && decide (bodyLen ≤ 2)
        let value := if wantVal then some (getData 4 hdr 4) else v.value
        let v1 := { v with hdr := hdr, bodyLen := bodyLen, bodyCap := some (if useLocal then 2 else v.needBytes), dbuf := !useLocal, value := value }
        if bodyLen ≠ 0 then .ok { v1 with state := PKT_BODY }
        else .ok { v1 with state := PKT_END, needBytes := 1 }
    else .ok { v with hdr := hdr }
  else
    let body := v.body ++ [c]
    if body.length ≥ v.bodyLen then .ok { v with body := body, state := PKT_END, needBytes := 1 }
    else .ok { v with body := body }

/-- The end of `readPacket`, after the loop: the value returned with what goes out through
`valp` and `bufpp`. -/
def finishPacket (wantBuf : Bool) (v : PktVars) : PktResult :=
  if wantBuf then ⟨(v.bodyLen : Int), v.value, if v.dbuf then some v.body else none⟩
  else if v.bodyCap.isNone ∨ v.bodyLen ≠ 2 ∨ v.body.getD 0 0 ≠ 0 ∨ v.body.getD 1 0 ≠ 0 then
    ⟨0, v.value, none⟩
  else ⟨(v.bodyLen : Int), v.value, none⟩

/-- The `while (state < PKT_DONE)` loop of `readPacket`; `none` when `fuel` passes do not
end it. -/
def readPacketLoop (op : Nat) (wantVal wantBuf : Bool) (msTimeout tickEnd : Nat) :
    Nat → ESP → PktVars → Option (PktResult × ESP)
  | 0, _, _ => none
  | fuel + 1, esp, v =>
    if v.state < PKT_DONE then
      -- the timer is read only when a time limit applies
      let limited := msTimeout ≠ 0 ∧ esp.diagCode &&& DIAG_NO_TIME_LIMIT = 0
      let t := if limited then esp.getTickCount else (0, esp)
      if limited ∧ t.1 > tickEnd then some (⟨ESP_ERROR_TIMEOUT, v.value, none⟩, t.2)
      else
        let a := t.2.BytesAvailable
        if a.1 < v.needBytes then readPacketLoop op wantVal wantBuf msTimeout tickEnd fuel a.2 v
        else if v.state = PKT_BEGIN ∨ v.state = PKT_END then
          let r := a.2.m_serial.ReadByteRaw
          let esp2 := { a.2 with m_serial := r.2 }
          if r.1 ≠ 0xc0 then some (⟨ESP_ERROR_SLIP_FRAME, v.value, none⟩, esp2)
          else if v.state = PKT_BEGIN then
            readPacketLoop op wantVal wantBuf msTimeout tickEnd fuel esp2 { v with state := PKT_HEADER, needBytes := 2 }
          else readPacketLoop op wantVal wantBuf msTimeout tickEnd fuel esp2 { v with state := PKT_DONE }
        else if v.state = PKT_HEADER ∨ v.state = PKT_BODY then
          let r := a.2.m_serial.ReadByte true
          let esp2 := { a.2 with m_serial := r.2.2 }
          if r.1 ≠ 1 ∧ r.1 ≠ 2 then
            some (⟨if r.1 = 0 ∨ r.1 = -2 then ESP_ERROR_SLIP_DATA else ESP_ERROR_SLIP_FRAME, v.value, none⟩, esp2)
          else
            match storeByte op wantVal wantBuf v (r.2.1.getD 0) with
            | .error res => some (res, esp2)
            | .ok v' => readPacketLoop op wantVal wantBuf msTimeout tickEnd fuel esp2 v'
        else some (⟨ESP_ERROR_SLIP_STATE, v.value, none⟩, a.2)
    else some (finishPacket wantBuf v, esp)

/-- `ESP::readPacket(op, valp, bufpp, msTimeout)`; `wantVal` and `wantBuf` say that `valp`
and `bufpp` are not null. -/
def readPacket (esp : ESP) (fuel : Nat) (op : Nat) (wantVal wantBuf : Bool) (msTimeout : Nat) :
    Option (PktResult × ESP) :=
  let t := esp.getTickCount
  let tickEnd := (t.1 + msTimeout) % 2 ^ 32
  readPacketLoop op wantVal wantBuf msTimeout tickEnd fuel t.2
    { state := PKT_BEGIN, needBytes := 1, hdr := [], bodyLen := 0, body := [], bodyCap := none,
      dbuf := false, value := none }

/-- The device sends its next answer: the bytes arrive at the driver of the port. -/
def deviceAnswers (esp : ESP) : ESP :=
  { esp with m_serial := { esp.m_serial with port := esp.m_serial.port.answer } }

/-- `ESP::doCommand(op, blockList, blockCnt, checkVal, valp, msTimeout)`: the status, the
value stored through `valp`, the object afterwards.  Between the request and the reading
of the reply the device answers. -/
def doCommand (esp : ESP) (fuel : Nat) (op : Nat) (blockList : List DataBlock_t)
    (checkVal : Nat := 0) (wantVal : Bool := false) (msTimeout : Nat := DEF_TIMEOUT) :
    Option (Int × Option Nat × ESP) :=
  let s := esp.sendCommand op checkVal blockList
  if s.1 = 0 then
    match s.2.deviceAnswers.readPacket fuel op wantVal false msTimeout with
    | none => none
    | some (r, esp2) => some (if r.stat = 2 then ESP_SUCCESS else ESP_ERROR_REPLY, r.value, esp2)
  else some (s.1, none, s.2)

/-- `ESP::doCommand(op, data, dataLen, checkVal, valp, msTimeout)`: one data block. -/
def doCommandData (esp : ESP) (fuel : Nat) (op : Nat) (data : List Nat) (dataLen : Nat)
    (checkVal : Nat := 0) (wantVal : Bool := false) (msTimeout : Nat := DEF_TIMEOUT) :
    Option (Int × Option Nat × ESP) :=
  esp.doCommand fuel op [⟨dataLen, some data⟩] checkVal wantVal msTimeout

/-- `ESP::flashBegin(addr, size)`. -/
def flashBegin (esp : ESP) (fuel : Nat) (addr size : Nat) : Option (Int × ESP) :=
  let blkCnt := ((size + ESP_FLASH_BLK_SIZE - 1) % 2 ^ 32) / ESP_FLASH_BLK_SIZE
  let addr := addr &&& 0xfffffc00
  let buf := putData size 4 ++ putData blkCnt 4 ++ putData ESP_FLASH_BLK_SIZE 4 ++ putData addr 4
  let timeout := if size ≠ 0 then 10000 else DEF_TIMEOUT
  (esp.doCommandData fuel ESP_FLASH_BEGIN buf 16 0 false timeout).map fun r => (r.1, r.2.2)

/-- The three attempts at sending one `FLASH_DATA` block: `n` attempts are left, `stat`
is the status so far. -/
def sendBlockRetry (fuel : Nat) (blkBuf : List Nat) (blkBufSize cksum : Nat) :
    Nat → ESP → Int → Option (Int × ESP)
  | 0, esp, stat => some (stat, esp)
  | n + 1, esp, _ =>
    match esp.doCommandData fuel ESP_FLASH_DATA blkBuf blkBufSize cksum with
    | none => none
    | some r => if r.1 = 0 then some (0, r.2.2) else sendBlockRetry fuel blkBuf blkBufSize cksum n r.2.2 r.1

/-- The data part of a block after the flash parameter patch of `flashWrite`. -/
def patchFlashParm (blkIdx addr : Nat) (data : List Nat) (flashParmVal flashParmMask : Nat) :
    List Nat :=
  if blkIdx = 0 ∧ addr = 0 ∧ data.getD 0 0 = ESP_IMAGE_MAGIC ∧ flashParmMask ≠ 0 then
    let flashParm := getData 2 (data.drop 2) 0 &&& (0xffffffff ^^^ flashParmMask)
    writeAt data 2 (putData (flashParm ||| flashParmVal) 2)
  else data

/-- The body of the block loop of `flashWrite` for block `blkIdx`: prepare the header, read
the data, fill a partial last block, patch the flash parameters, compute the checksum and
send the block with up to three attempts.  The status, the file and the object afterwards. -/
def flashBlock (fuel : Nat) (addr flashParmVal flashParmMask blkIdx : Nat) (vf : VFile)
    (esp : ESP) : Option (Int × VFile × ESP) :=
  let blkSize := ESP_FLASH_BLK_SIZE
  let hdr := putData blkSize 4 ++ putData blkIdx 4 ++ putData 0 4 ++ putData 0 4
  let r := vf.Read 1 blkSize
  if r.1 ≠ (ESP_FLASH_BLK_SIZE : Int) ∧ !r.2.2.EndOfFile then some (ESP_ERROR_FILE_READ, r.2.2, esp)
  else
    let data := r.2.1 ++ List.replicate (blkSize - r.2.1.length) 0xff
    let data := patchFlashParm blkIdx addr data flashParmVal flashParmMask
    let cksum := checksum data blkSize % 2 ^ 16
    (sendBlockRetry fuel (hdr ++ data) (16 + blkSize) cksum 3 esp 0).map fun s => (s.1, r.2.2, s.2)

/-- The block loop of `flashWrite`: `n` blocks are left, the next one is `blkIdx`; a block
that fails ends the loop (`goto done`). -/
def flashWriteLoop (fuel : Nat) (addr flashParmVal flashParmMask : Nat) :
    Nat → Nat → VFile → ESP → Option (Int × VFile × ESP)
  | 0, _, vf, esp => some (0, vf, esp)
  | n + 1, blkIdx, vf, esp =>
    match flashBlock fuel addr flashParmVal flashParmMask blkIdx vf esp with
    | none => none
    | some s =>
      if s.1 ≠ 0 then some s
      else flashWriteLoop fuel addr flashParmVal flashParmMask n ((blkIdx + 1) % 2 ^ 32) s.2.1 s.2.2

/-- `ESP::flashWrite(vf, ofst, size, addr, flashParmVal, flashParmMask)`. -/
def flashWrite (esp : ESP) (fuel : Nat) (vf : VFile) (ofst size addr flashParmVal flashParmMask : Nat) :
    Option (Int × VFile × ESP) :=
  let blkSize := ESP_FLASH_BLK_SIZE
  let blkCnt := ((size + blkSize - 1) % 2 ^ 32) / blkSize
  let s := vf.SetPosition ofst
  if s.1 < 0 then some (ESP_ERROR_FILE_SEEK, s.2, esp)
  else
    match esp.flashBegin fuel addr ((blkCnt * blkSize) % 2 ^ 32) with
    | none => none
    | some b =>
      if b.1 = 0 then flashWriteLoop fuel addr flashParmVal flashParmMask blkCnt 0 s.2 b.2
      else some (b.1, s.2, b.2)

end ESP

/-- A well-formed answer to command `op`: frame start, header `{1, op, len 2, value}`, body
`00 00`, frame end. -/
def okReply (op : Nat) : List Nat := [0xc0, 1, op, 2, 0, 0x78, 0x56, 0x34, 0x12, 0, 0, 0xc0]

/-- A loader object with an idle port, a clock that stands still, and the device answers
`script` to come. -/
def demoEsp (script : List (List Nat)) : ESP :=
  { m_serial := { port := ⟨[], [], script⟩, m_queue := SerialQueue.init },
    ticks := fun _ => 0, tickCalls := 0, diagCode := 0 }

/-- SLIP encoding of one byte, in the words of the format. -/
def slipEnc (b : Nat) : List Nat :=
  if b = 0xc0 then [0xdb, 0xdc] else if b = 0xdb then [0xdb, 0xdd] else [b]

/-- SLIP encoding of a byte sequence. -/
def slipEncode (s : List Nat) : List Nat := s.flatMap slipEnc

/-- The channel after `bytes` more have been written. -/
def SerialChannel.sent (ch : SerialChannel) (bytes : List Nat) : SerialChannel :=
  { ch with port := { ch.port with tx := ch.port.tx ++ bytes } }

/-- A data block as the callers build it: a non-null pointer to `dataLen ≥ 1` bytes. -/
def GoodBlock (b : DataBlock_t) : Prop :=
  ∃ d, b.data = some d ∧ b.dataLen = d.length ∧ d ≠ []

instance (b : DataBlock_t) : Decidable (GoodBlock b) :=
  match h : b.data with
  | none => isFalse (by rintro ⟨d, hd, _⟩; rw [h] at hd; cases hd)
  | some d =>
    if h1 : b.dataLen = d.length ∧ d ≠ [] then isTrue ⟨d, h, h1.1, h1.2⟩
    else isFalse (by
      rintro ⟨d', hd, h2, h3⟩
      rw [h] at hd
      cases hd
      exact h1 ⟨h2, h3⟩)

/-- The payload of a block list: the bytes of all blocks, in order. -/
def payloadOf (blocks : List DataBlock_t) : List Nat :=
  blocks.flatMap fun b => (b.data.getD []).take b.dataLen

/-- Read `n` bytes one after the other with `ReadByte(data, true)`, as the block loop of
`FlashRead` does, stopping at the first status that is neither 1 nor 2. -/
def readBytes : Nat → SerialChannel → List Nat × SerialChannel
  | 0, ch => ([], ch)
  | n + 1, ch =>
    let r := ch.ReadByte true
    if r.1 = 1 ∨ r.1 = 2 then
      let t := readBytes n r.2.2
      (r.2.1.getD 0 :: t.1, t.2)
    else ([], r.2.2)

instance (ch : SerialChannel) (S tx : List Nat) (sc : List (List Nat)) :
    Decidable (Chan ch S tx sc) := by
  unfold Chan QInv; infer_instance

/-- The request frame of a command: start, encoded header `{0, op, length u16, check u32}`,
encoded payload, end. -/
def commandFrame (op checkVal : Nat) (payload : List Nat) : List Nat :=
  [0xc0] ++ slipEncode ([0x00, op] ++ le16 payload.length ++ le32 checkVal) ++
    slipEncode payload ++ [0xc0]

/-! ## The response reader on the undelivered bytes

`pktStep` and `pktRun` are the loop of `readPacket` with the channel replaced by the list
of bytes it still has to deliver and the timer left out; `readPacketLoop_fwd` and
`readPacketLoop_bwd` below relate them to `ESP.readPacketLoop`. -/

open ESP

/-- One pass of the reader loop on the undelivered bytes `S` when no timeout fires: the
new variables or the result returned, with the bytes that remain. -/
def pktStep (op : Nat) (wantVal wantBuf : Bool) (S : List Nat) (v : PktVars) :
    Except (PktResult × List Nat) (PktVars × List Nat) :=
  if S.length < v.needBytes then .ok (v, S)
  else if v.state = PKT_BEGIN ∨ v.state = PKT_END then
    if S.headD 0 ≠ 0xc0 then .error (⟨ESP_ERROR_SLIP_FRAME, v.value, none⟩, S.drop 1)
    else if v.state = PKT_BEGIN then .ok ({ v with state := PKT_HEADER, needBytes := 2 }, S.drop 1)
    else .ok ({ v with state := PKT_DONE }, S.drop 1)
  else if v.state = PKT_HEADER ∨ v.state = PKT_BODY then
    if (slipStep S).1 ≠ 1 ∧ (slipStep S).1 ≠ 2 then
      .error (⟨if (slipStep S).1 = 0 ∨ (slipStep S).1 = -2 then ESP_ERROR_SLIP_DATA else ESP_ERROR_SLIP_FRAME, v.value, none⟩, (slipStep S).2.2)
    else
      match ESP.storeByte op wantVal wantBuf v ((slipStep S).2.1.getD 0) with
      | .error res => .error (res, (slipStep S).2.2)
      | .ok v' => .ok (v', (slipStep S).2.2)
  else .error (⟨ESP_ERROR_SLIP_STATE, v.value, none⟩, S)

/-- The bytes that remain after a pass. -/
def pktStepRest (x : Except (PktResult × List Nat) (PktVars × List Nat)) : List Nat :=
  match x with
  | .error r => r.2
  | .ok r => r.2

/-- The reader loop on the undelivered bytes when no timeout fires. -/
def pktRun (op : Nat) (wantVal wantBuf : Bool) : Nat → List Nat → PktVars → Option (PktResult × List Nat)
  | 0, _, _ => none
  | fuel + 1, S, v =>
    if v.state < PKT_DONE then
      match pktStep op wantVal wantBuf S v with
      | .error r => some r
      | .ok r => pktRun op wantVal wantBuf fuel r.2 r.1
    else some (ESP.finishPacket wantBuf v, S)

/-- A time limit applies to the reader. -/
def ESP.limited (esp : ESP) (msTimeout : Nat) : Prop :=
  msTimeout ≠ 0 ∧ esp.diagCode &&& DIAG_NO_TIME_LIMIT = 0

instance (esp : ESP) (ms : Nat) : Decidable (esp.limited ms) := by
  unfold ESP.limited; infer_instance

/-- The clock of the object never passes `tickEnd` while a time limit applies. -/
def ESP.quiet (esp : ESP) (msTimeout tickEnd : Nat) : Prop :=
  esp.limited msTimeout → ∀ k, esp.ticks k % 2 ^ 32 ≤ tickEnd

/-- The variables of `readPacket` when its loop is entered. -/
def pktInit : PktVars :=
  { state := PKT_BEGIN, needBytes := 1, hdr := [], bodyLen := 0, body := [], bodyCap := none,
    dbuf := false, value := none }

/-- The header the reader stored is complete and passed the checks of `readPacket`. -/
def HdrOk (op : Nat) (v : PktVars) : Prop :=
  v.hdr.length = 8 ∧ getData 1 v.hdr 0 % 256 = 1 ∧ (op = 0 ∨ getData 1 v.hdr 1 % 256 = op) ∧
    v.bodyLen = getData 2 v.hdr 2 % 2 ^ 16 ∧ v.bodyCap.isSome

/-- What the reader has consumed of `reply` when `S` is still undelivered: the frame start,
the encoded header and body bytes it stored, and the frame end once it is done. -/
def PktInv (op : Nat) (reply S : List Nat) (v : PktVars) : Prop :=
  (v.state = PKT_BEGIN ∧ S = reply ∧ v.hdr = [] ∧ v.body = []) ∨
  (v.state = PKT_HEADER ∧ reply = 0xc0 :: (slipEncode v.hdr ++ S) ∧ v.hdr.length < 8 ∧
    v.body = []) ∨
  (v.state = PKT_BODY ∧ HdrOk op v ∧
    reply = 0xc0 :: (slipEncode v.hdr ++ (slipEncode v.body ++ S)) ∧ v.body.length < v.bodyLen) ∨
  (v.state = PKT_END ∧ HdrOk op v ∧
    reply = 0xc0 :: (slipEncode v.hdr ++ (slipEncode v.body ++ S)) ∧ v.body.length = v.bodyLen) ∨
  (v.state = PKT_DONE ∧ HdrOk op v ∧
    reply = 0xc0 :: (slipEncode v.hdr ++ (slipEncode v.body ++ 0xc0 :: S)) ∧
    v.body.length = v.bodyLen)

/-- No deadline set `msTimeout` after a reading of the clock is ever passed: the clock
stands still, or no time limit applies. -/
def ESP.inTime (esp : ESP) (msTimeout : Nat) : Prop :=
  esp.limited msTimeout → ∀ j k, esp.ticks k % 2 ^ 32 ≤ (esp.ticks j % 2 ^ 32 + msTimeout) % 2 ^ 32

/-- The response frame the loader accepts for command `op`: frame start, the encoded header
`{1, op, length 2, value}`, the body `00 00`, frame end. -/
def replyFrame (op a b c d : Nat) : List Nat :=
  [0xc0] ++ slipEncode [1, op, 2, 0, a, b, c, d] ++ [0, 0, 0xc0]

/-- A clock that runs: reading `k` returns `4000 * k` milliseconds. -/
def runningEsp (script : List (List Nat)) : ESP :=
  { demoEsp script with ticks := fun k => 4000 * k }

/-- The device's answer `reply` is one the loader accepts for command `op`: the response
frame for `op`, followed by anything. -/
def Accepts (op : Nat) (reply : List Nat) : Prop :=
  ∃ a b c d tail, reply = replyFrame op a b c d ++ tail

/-- The `FLASH_DATA` request frames for the data blocks `blocks`, numbered from `i`: block
`i` has the payload `{1024, i, 0, 0}` as u32 LE words followed by its data, and the check
value 0xEF xor its data bytes. -/
def dataFrames : Nat → List (List Nat) → List Nat
  | _, [] => []
  | i, d :: ds =>
    commandFrame ESP_FLASH_DATA (xorFold ESP_CHECKSUM_MAGIC d)
      (le32 ESP_FLASH_BLK_SIZE ++ le32 i ++ le32 0 ++ le32 0 ++ d) ++ dataFrames (i + 1) ds

/-- The `FLASH_BEGIN` request frame for `n` blocks at `addr`: erase size, block count, block
size and block-aligned address as u32 LE words, check value 0. -/
def beginFrame (n addr : Nat) : List Nat :=
  commandFrame ESP_FLASH_BEGIN 0
    (le32 (n * ESP_FLASH_BLK_SIZE) ++ le32 n ++ le32 ESP_FLASH_BLK_SIZE ++ le32 (addr &&& 0xfffffc00))

/-- A download file of five bytes, open, as a virtual file. -/
def demoFile : VFile :=
  { VFile.OpenVirt with data := [0xe9, 0x01, 0x02, 0x40, 0x07] }

/-- The block of data the file offers at its position: the next 1024 bytes, filled with 0xFF
where the file ends. -/
def blockBytes (vf : VFile) : List Nat :=
  (vf.data.drop vf.m_pos).take 1024 ++
    List.replicate (1024 - ((vf.data.drop vf.m_pos).take 1024).length) 0xff

/-- A download file whose flash parameter bytes, at offsets 2 and 3, are zero. -/
def plainImageFile : VFile :=
  { VFile.OpenVirt with data := [0xe9, 0x01, 0x00, 0x00, 0x07, 0x08, 0x09, 0x0a] }

/-- Byte `i` of the region of the file that starts at `ofst`, as a block shows it: the
file's byte, or 0xFF behind the end of the file. -/
def regionByte (vf : VFile) (ofst i : Nat) : Nat :=
  if ofst + i < vf.m_size then vf.data.getD (ofst + i) 0 else 0xff

/-! ## `ReadReg`, `WriteReg`, `ReadMAC` (esp.cpp) -/

def ESP_WRITE_REG : Nat := 0x09
def ESP_READ_REG : Nat := 0x0a
def ESP_OTP_MAC0 : Nat := 0x3ff00050
def ESP_OTP_MAC1 : Nat := 0x3ff00054
def ESP_OTP_MAC2 : Nat := 0x3ff00058
def ESP_OTP_MAC3 : Nat := 0x3ff0005c
def ESP_ERROR_UNKNOWN_OUI : Int := -23
def ESP_ERROR_DEVICE : Int := -25

namespace ESP

/-- `ESP::ReadReg(addr, val)`: the status, the value stored in `val` (`none` when nothing was
stored), the object afterwards. -/
def ReadReg (esp : ESP) (fuel : Nat) (addr : Nat) : Option (Int × Option Nat × ESP) :=
  esp.doCommandData fuel ESP_READ_REG (putData addr 4) 4 0 true

/-- `ESP::WriteReg(addr, value, mask, delay)`. -/
def WriteReg (esp : ESP) (fuel : Nat) (addr value : Nat) (mask : Nat := 0xffffffff)
    (delay : Nat := 0) : Option (Int × ESP) :=
  let addr := addr &&& 0xfffffffc
  let buf := putData addr 4 ++ putData value 4 ++ putData mask 4 ++ putData delay 4
  (esp.doCommandData fuel ESP_WRITE_REG buf 16).map fun r => (r.1, r.2.2)

/-- The part of `ReadMAC` after the four registers were read: the status and the buffer
`mac` afterwards.  `mac3` is read and not used. -/
def fillMAC (mac : List Nat) (apAlso : Bool) (mac0 mac1 mac2 : Nat) : Int × List Nat :=
  if mac2 &&& 0x00008000 = 0 then (ESP_ERROR_DEVICE, mac)
  else
    let id := (mac1 >>> 16) % 256
    if id = 0 then
      let mac := writeAt mac 0 [0x18, 0xfe, 0x34]
      let mac := if apAlso then writeAt mac 6 [0x1a, 0xfe, 0x34] else mac
      let mac := writeAt mac 3 [(mac1 >>> 8) % 256, mac1 % 256, (mac0 >>> 24) % 256]
      (0, if apAlso then writeAt mac 9 ((mac.drop 3).take 3) else mac)
    else if id = 1 then
      let mac := writeAt mac 0 [0xac, 0xd0, 0x74]
      let mac := if apAlso then writeAt mac 6 [0xac, 0xd0, 0x74] else mac
      let mac := writeAt mac 3 [(mac1 >>> 8) % 256, mac1 % 256, (mac0 >>> 24) % 256]
      (0, if apAlso then writeAt mac 9 ((mac.drop 3).take 3) else mac)
    else (ESP_ERROR_UNKNOWN_OUI, writeAt mac 0 [id])

/-- `ESP::ReadMAC(mac, len)`: the status, the buffer `mac` afterwards, the object.  `mac` is
`none` for a null pointer. -/
def ReadMAC (esp : ESP) (fuel : Nat) (mac : Option (List Nat)) (len : Int) :
    Option (Int × List Nat × ESP) :=
  match mac with
  | none => some (ESP_ERROR_PARAM, [], esp)
  | some mac =>
    if len < 6 then some (ESP_ERROR_PARAM, mac, esp)
    else
      let apAlso := decide (len ≥ 12)
      match esp.ReadReg fuel ESP_OTP_MAC0 with
      | none => none
      | some r0 =>
        if r0.1 ≠ 0 then some (r0.1, mac, r0.2.2)
        else
          match r0.2.2.ReadReg fuel ESP_OTP_MAC1 with
          | none => none
          | some r1 =>
            if r1.1 ≠ 0 then some (r1.1, mac, r1.2.2)
            else
              match r1.2.2.ReadReg fuel ESP_OTP_MAC2 with
              | none => none
              | some r2 =>
                if r2.1 ≠ 0 then some (r2.1, mac, r2.2.2)
                else
                  match r2.2.2.ReadReg fuel ESP_OTP_MAC3 with
                  | none => none
                  | some r3 =>
                    if r3.1 ≠ 0 then some (r3.1, mac, r3.2.2)
                    else
                      let f := fillMAC mac apAlso (r0.2.1.getD 0) (r1.2.1.getD 0) (r2.2.1.getD 0)
                      some (f.1, f.2, r3.2.2)

end ESP

/-- The response to `READ_REG` that carries the register value `v`, followed by `tail`. -/
def regReply (v : Nat) (tail : List Nat) : List Nat :=
  replyFrame ESP_READ_REG (v % 256) (v / 256 % 256) (v / 65536 % 256) (v / 16777216 % 256) ++ tail

/-! ## `ESP::AddImage` (esp.cpp)

`m_imageSize`, the running image size, is a member of the object; the function takes it and
returns it. -/

def ESP_ERROR_IMAGE_SIZE : Int := -24

/-- `VFile::Peek(buf, count)` on a virtual file: the value returned and the bytes delivered;
the position stays. -/
def VFile.Peek (vf : VFile) (count : Nat) : Int × List Nat :=
  if count = 0 then (0, [])
  else if !vf.isOpen then (-1, [])
  else
    let count := if vf.m_pos + count > vf.m_size then vf.m_size - vf.m_pos else count
    ((count : Int), (vf.data.drop vf.m_pos).take count)

/-- `VFile::Fill(c, count)` on a virtual file.  The `memset(m_buf + m_pos, c, count)` stays
inside the buffer when `m_pos + count ≤ m_bufSize`. -/
def VFile.Fill (vf : VFile) (c count : Nat) : Int × VFile :=
  if count > 0 then
    let vf := vf.NeedSpace count
    (0, { vf with data := writeAt vf.data vf.m_pos (List.replicate count c),
                  m_pos := vf.m_pos + count,
                  overrun := vf.overrun || decide (vf.m_pos + count > vf.m_bufSize) })
  else (0, vf)

namespace ESP

/-- The end of the sparse branch of `AddImage`: write the four header bytes `buf` at the
position of the file, move to `pos`, append the 8-byte record of the new image. -/
def writeImageHeader (vfOut : VFile) (buf : List Nat) (pos sizeIn addr : Nat) : Int × VFile :=
  let w := vfOut.Write buf 1 4
  if w.1 ≠ 4 then (ESP_ERROR_FILE_WRITE, w.2)
  else
    let s := w.2.SetPosition pos
    if s.1 < 0 then (ESP_ERROR_FILE_WRITE, s.2)
    else
      let hdrBuf := putData addr 4 ++ putData ((sizeIn + 3) &&& 0xfffffffc) 4
      let h := s.2.Write hdrBuf 1 8
      if h.1 ≠ 8 then (ESP_ERROR_FILE_WRITE, h.2) else (0, h.2)

/-- The sparse branch of `AddImage`: create the "combined image" header in an empty file or
count the new image in the header of a file that has one, then append the record. -/
def sparsePrepare (vfOut : VFile) (sizeIn addr : Nat) : Int × VFile :=
  let sizeOut := vfOut.m_size
  if sizeOut = 0 then writeImageHeader vfOut (COMPOSITE_SIG ++ [1]) 4 sizeIn addr
  else if sizeOut &&& 0x03 ≠ 0 then (ESP_ERROR_FILE_READ, vfOut)
  else
    let s := vfOut.SetPosition 0
    if s.1 < 0 then (ESP_ERROR_FILE_READ, s.2)
    else
      let pk := s.2.Peek 4
      if pk.1 ≠ 4 then (ESP_ERROR_FILE_READ, s.2)
      else if pk.2.take 3 ≠ COMPOSITE_SIG then (ESP_ERROR_PARAM, s.2)
      else writeImageHeader s.2 (pk.2.take 3 ++ [(pk.2.getD 3 0 + 1) % 256]) sizeOut sizeIn addr

/-- The copy loop of `AddImage`: parts of at most 1024 bytes are read from the image and
written to the output until `sizeIn` bytes are added.  Every pass adds at least one byte, so
`sizeIn` passes are enough.  The status, `bytesAdded`, the two files. -/
def copyImage (sizeIn : Nat) : Nat → Nat → VFile → VFile → Int × Nat × VFile × VFile
  | 0, bytesAdded, vfOut, vfImage => (0, bytesAdded, vfOut, vfImage)
  | fuel + 1, bytesAdded, vfOut, vfImage =>
    if bytesAdded < sizeIn then
      let part := if sizeIn - bytesAdded > 1024 then 1024 else sizeIn - bytesAdded
      let r := vfImage.Read 1 part
      if r.1 ≠ (part : Int) then (ESP_ERROR_FILE_READ, bytesAdded, vfOut, r.2.2)
      else
        let w := vfOut.Write r.2.1 1 part
        if w.1 ≠ (part : Int) then (ESP_ERROR_FILE_WRITE, bytesAdded, w.2, r.2.2)
        else copyImage sizeIn fuel (bytesAdded + part) w.2 r.2.2
    else (0, bytesAdded, vfOut, vfImage)

/-- `ESP::AddImage(vfOut, vfImage, addr, padded)`: the status, the member `m_imageSize`
afterwards, the two files afterwards.  A file size is not wrapped at 32 bits. -/
def AddImage (m_imageSize : Nat) (vfOut vfImage : VFile) (addr : Nat) (padded : Bool) :
    Int × Nat × VFile × VFile :=
  if !vfOut.IsOpen || !vfImage.IsOpen then (ESP_ERROR_PARAM, m_imageSize, vfOut, vfImage)
  else
    let sizeOut := vfOut.m_size
    let m_imageSize := if sizeOut = 0 then 0 else m_imageSize
    let sizeIn := vfImage.m_size
    if sizeIn = 0 then (ESP_ERROR_IMAGE_SIZE, m_imageSize, vfOut, vfImage)
    else if addr < m_imageSize then (ESP_ERROR_FILE_READ, m_imageSize, vfOut, vfImage)
    else
      -- the output file and `imageSize` when the image is about to be appended
      let p : Int × VFile × Nat :=
        if padded then
          if m_imageSize < addr then (0, (vfOut.Fill 0xff (addr - m_imageSize)).2, addr)
          else (0, vfOut, m_imageSize)
        else
          let s := sparsePrepare vfOut sizeIn addr
          (s.1, s.2, m_imageSize)
      if p.1 ≠ 0 then (p.1, m_imageSize, p.2.1, vfImage)
      else
        let c := copyImage sizeIn sizeIn 0 (p.2.1.NeedSpace sizeIn) vfImage
        if c.1 ≠ 0 then (c.1, m_imageSize, c.2.2.1, c.2.2.2)
        else
          let bytesAdded := c.2.1
          if padded then (0, (p.2.2 + bytesAdded) % 2 ^ 32, c.2.2.1, c.2.2.2)
          else
            let cnt := bytesAdded &&& 0x03
            if cnt ≠ 0 then
              let f := c.2.2.1.Fill 0 (4 - cnt)
              if f.1 ≠ 0 then (ESP_ERROR_FILE_WRITE, m_imageSize, f.2, c.2.2.2)
              else (0, (addr + (bytesAdded + cnt)) % 2 ^ 32, f.2, c.2.2.2)
            else (0, (addr + bytesAdded) % 2 ^ 32, c.2.2.1, c.2.2.2)

/-- `AddImage` called for the images of a list in order, as the loop of `AutoExtract` does:
the first call that fails ends it.  The last status, `m_imageSize` and the output file. -/
def addImages (padded : Bool) : List (Nat × VFile) → Nat → VFile → Int × Nat × VFile
  | [], m_imageSize, vfOut => (0, m_imageSize, vfOut)
  | (addr, vfImage) :: rest, m_imageSize, vfOut =>
    let r := AddImage m_imageSize vfOut vfImage addr padded
    if r.1 ≠ 0 then (r.1, r.2.1, r.2.2.1) else addImages padded rest r.2.1 r.2.2.1

end ESP

/-- The running image size `AddImage` works with: the member `m_imageSize`, which it sets to
0 first when the output file is empty (`if (sizeOut == 0) m_imageSize = 0;`). -/
def runningImageSize (m_imageSize : Nat) (vfOut : VFile) : Nat :=
  if vfOut.m_size = 0 then 0 else m_imageSize

/-- An image file as `AddImage` gets it: open, positioned at its start, holding `bytes`. -/
def imageFile (bytes : List Nat) : VFile := { VFile.OpenVirt with data := bytes }

/-- The record of one image in a sparse combined file, in the words of the format: the load
address and the padded length as u32 LE, the image bytes, zero bytes up to the padded
length. -/
def sparseRecord (addr : Nat) (bytes : List Nat) : List Nat :=
  le32 addr ++ le32 (roundUp4 bytes.length) ++ bytes ++
    List.replicate (roundUp4 bytes.length - bytes.length) 0

/-- A sparse combined file, in the words of the format: 'e', 's', 'p', the number of images,
then the record of each image. -/
def sparseContainer (imgs : List (Nat × VFile)) : List Nat :=
  [0x65, 0x73, 0x70, imgs.length] ++ imgs.flatMap fun p => sparseRecord p.1 p.2.data

/-- An output file that `AddImage` can extend in sparse mode: empty and at its start (`c` is
0 and `body` is empty then), or holding the header with count `c` and the records `body`. -/
def SparseOut (vfOut : VFile) (c : Nat) (body : List Nat) : Prop :=
  (vfOut.data = [] ∧ vfOut.m_pos = 0 ∧ c = 0 ∧ body = []) ∨
    (vfOut.data = 0x65 :: 0x73 :: 0x70 :: c :: body ∧ body.length % 4 = 0)

/-- An image file as the callers hand it over: positioned at its start, and short enough for
the padded length to fit in 32 bits. -/
def GoodImage (vfImage : VFile) : Prop :=
  vfImage.m_pos = 0 ∧ vfImage.m_size < 2 ^ 32 - 3

/-! ## The entry loop of `ESP::FlashWrite` (esp.cpp) -/

/-- The entry loop of `FlashWrite` over a combined file, on the side of the file, when every
`flashWrite(vf, pos, len, addr, ...)` returns 0: the status and the regions
`(pos, len, addr)` handed to `flashWrite`, in order. -/
def flashWriteRegions : Nat → VFile → Int → List (Nat × Nat × Nat) → Int × List (Nat × Nat × Nat)
  | 0, _, stat, acc => (stat, acc)
  | n + 1, vf, _, acc =>
    let h := vf.Read 1 8
    if h.1 ≠ 8 then (ESP_ERROR_FILE_READ, acc)
    else
      let addr := getData 4 h.2.1 0
      let len := getData 4 h.2.1 4
      let pos := h.2.2.m_pos % 2 ^ 32
      let s := h.2.2.SetPosition ((pos + len) % 2 ^ 32)
      if s.1 < 0 then (ESP_ERROR_FILE_SEEK, acc ++ [(pos, len, addr)])
      else flashWriteRegions n s.2 0 (acc ++ [(pos, len, addr)])

/-- `ESP::FlashWrite(vf, addr, ...)` on the side of the file, when every `flashWrite` call
returns 0: the status and the regions `(ofst, size, addr)` handed to `flashWrite`.
`FlashWrite_regions` shows that `ESP.FlashWrite` makes exactly these calls, in this order,
and returns this status unless a call fails. -/
def FlashWriteRegions (vf : VFile) (addr : Nat) : Int × List (Nat × Nat × Nat) :=
  if !vf.IsOpen then (ESP_ERROR_PARAM, [])
  else
    let fileSize := vf.m_size
    if fileSize = 0 then (ESP_ERROR_FILE_SEEK, [])
    else
      let s := vf.SetPosition 0
      let r := s.2.Read 1 4
      if s.1 ≠ 0 ∨ r.1 ≠ 4 then (ESP_ERROR_FILE_READ, [])
      else if r.2.1.take 3 ≠ COMPOSITE_SIG then (0, [(0, fileSize % 2 ^ 32, addr)])
      else flashWriteRegions (r.2.1.getD 3 0) r.2.2 (-1) []

/-- What a region `(pos, len, addr)` of a file stands for: the address, the length and the
`len` bytes of the file at `pos`. -/
def regionView (data : List Nat) (r : Nat × Nat × Nat) : Nat × Nat × List Nat :=
  (r.2.2, r.2.1, (data.drop r.1).take r.2.1)

/-- The bytes of an image zero-padded to a multiple of 4. -/
def imagePadded (vfImage : VFile) : List Nat :=
  vfImage.data ++ List.replicate (roundUp4 vfImage.m_size - vfImage.m_size) 0

/-- What a sparse combined file keeps of an image: the address, the padded size and the
bytes zero-padded to that size. -/
def imageView (p : Nat × VFile) : Nat × Nat × List Nat :=
  (p.1, roundUp4 p.2.m_size, imagePadded p.2)

/-- The addresses of a padded combination are in order: every image begins at or beyond
`prevEnd`, the end of the image before it (0 for the first), and at a 32-bit address. -/
def PaddedChain : Nat → List (Nat × VFile) → Prop
  | _, [] => True
  | prevEnd, (addr, vfImage) :: rest =>
    prevEnd ≤ addr ∧ addr < 2 ^ 32 ∧ PaddedChain (addr + vfImage.m_size) rest

/-- A padded combined file, in the words of the format: each image is put at its address,
after 0xFF bytes from the end of what is there. -/
def paddedLayout : List Nat → List (Nat × VFile) → List Nat
  | acc, [] => acc
  | acc, (addr, vfImage) :: rest =>
    paddedLayout (acc ++ List.replicate (addr - acc.length) 0xff ++ vfImage.data) rest

/-! ## `ESP::FlashRead` (esp.cpp) -/

def ESP_MEM_BEGIN : Nat := 0x05
def ESP_MEM_END : Nat := 0x06
def ESP_MEM_DATA : Nat := 0x07
def SEND_PACKET_ADDR : Nat := 0x40003c80
def SPI_READ_ADDR : Nat := 0x40004b1c
def USER_DATA_RAM_ADDR : Nat := 0x3ffe8000
def IRAM_ADDR : Nat := 0x40100000
def FLASH_READ_STUB_BEGIN : Nat := IRAM_ADDR + 0x18
def ESP_ERROR_SLIP_START : Int := -18
def ESP_ERROR_SLIP_END : Int := -22

/-- The macro `LE_BYTES(v)`. -/
def LE_BYTES (v : Nat) : List Nat :=
  [(v >>> 0) &&& 0xff, (v >>> 8) &&& 0xff, (v >>> 16) &&& 0xff, (v >>> 24) &&& 0xff]

/-- The array `flashReadStub` as it is initialised: twelve bytes of parameters, twelve bytes
of constant data, the code, three bytes of filler. -/
def flashReadStub : List Nat :=
  LE_BYTES 0 ++ LE_BYTES 0 ++ LE_BYTES 0 ++
  LE_BYTES SEND_PACKET_ADDR ++ LE_BYTES SPI_READ_ADDR ++ LE_BYTES USER_DATA_RAM_ADDR ++
  [0xc1, 0xfc, 0xff, 0xd1, 0xf9, 0xff, 0x2d, 0x0d, 0x31, 0xfd, 0xff, 0x41, 0xf8, 0xff,
   0x4a, 0xdd, 0x51, 0xfa, 0xff, 0xc0, 0x05, 0x00, 0x21, 0xf9, 0xff, 0x31, 0xf4, 0xff,
   0x41, 0xf6, 0xff, 0xc0, 0x04, 0x00, 0x0b, 0xcc, 0x56, 0xec, 0xfd, 0x06, 0xff, 0xff,
   0x00, 0x00, 0x00]

namespace ESP

/-- `ESP::ramBegin(addr, size, blkSize, blkCnt)`. -/
def ramBegin (esp : ESP) (fuel : Nat) (addr size blkSize : Nat) (blkCnt : Nat := 1) :
    Option (Int × ESP) :=
  let buf := putData size 4 ++ putData blkCnt 4 ++ putData blkSize 4 ++ putData addr 4
  (esp.doCommandData fuel ESP_MEM_BEGIN buf 16).map fun r => (r.1, r.2.2)

/-- `ESP::ramData(data, dataLen, seq)`: a 16-byte header and the data as two blocks. -/
def ramData (esp : ESP) (fuel : Nat) (data : List Nat) (dataLen : Nat) (seq : Nat := 0) :
    Option (Int × ESP) :=
  let buf := putData dataLen 4 ++ putData seq 4 ++ putData 0 4 ++ putData 0 4
  let blockList : List DataBlock_t := [⟨16, some buf⟩, ⟨dataLen, some data⟩]
  let cksum := checksum data dataLen
  (esp.doCommand fuel ESP_MEM_DATA blockList cksum).map fun r => (r.1, r.2.2)

/-- `ESP::ramFinish(entryPoint)`. -/
def ramFinish (esp : ESP) (fuel : Nat) (entryPoint : Nat := 0) : Option (Int × ESP) :=
  let buf := putData (if entryPoint = 0 then 1 else 0) 4 ++ putData entryPoint 4
  (esp.doCommandData fuel ESP_MEM_END buf 8).map fun r => (r.1, r.2.2)

/-- The `while (1)` loop of `readByte`; `tick` is the deadline.  A pass that finds too few
bytes and no timeout repeats, so the loop is given `fuel` passes: `none` when they do not
end it.  The status, the value left in `data` (`none` when it was not assigned), the
object. -/
def readByteLoop (slipDecode : Bool) (msTimeout tick : Nat) :
    Nat → ESP → Option (Int × Option Nat × ESP)
  | 0, _ => none
  | fuel + 1, esp =>
    let needBytes := if slipDecode then 2 else 1
    let a := esp.BytesAvailable
    if a.1 ≥ needBytes then
      let r := a.2.m_serial.ReadByte slipDecode
      let stat := if r.1 = 1 ∨ r.1 = 2 then ESP_SUCCESS
                  else if r.1 = 0 ∨ r.1 = -2 then ESP_ERROR_SLIP_DATA else ESP_ERROR_SLIP_FRAME
      some (stat, r.2.1, { a.2 with m_serial := r.2.2 })
    else
      -- the timer is read only when a time limit applies
      let limited := msTimeout ≠ 0 ∧ a.2.diagCode &&& DIAG_NO_TIME_LIMIT = 0
      let t := if limited then a.2.getTickCount else (0, a.2)
      if limited ∧ t.1 > tick then some (ESP_ERROR_TIMEOUT, none, t.2)
      else readByteLoop slipDecode msTimeout tick fuel t.2

/-- `ESP::readByte(data, slipDecode, msTimeout)`. -/
def readByte (esp : ESP) (fuel : Nat) (slipDecode : Bool := false) (msTimeout : Nat := 0) :
    Option (Int × Option Nat × ESP) :=
  let t := esp.getTickCount
  readByteLoop slipDecode msTimeout ((t.1 + msTimeout) % 2 ^ 32) fuel t.2

/-- The loop `for (j = 0; j < blkSize; j++)` of `FlashRead` with `n` passes left: a byte is
read with SLIP decoding and put in the file while `dataLen` is below `length`.  The status,
`dataLen`, the file, the object; a status other than 0 is returned by `FlashRead` at
once. -/
def flashReadBlock (fuel length : Nat) : Nat → Nat → VFile → ESP → Option (Int × Nat × VFile × ESP)
  | 0, dataLen, vf, esp => some (0, dataLen, vf, esp)
  | n + 1, dataLen, vf, esp =>
    match esp.readByte fuel true DEF_TIMEOUT with
    | none => none
    | some (stat, data, e) =>
      if stat ≠ 0 then some (stat, dataLen, vf, e)
      else
        let vf1 := if dataLen < length then (vf.Write [data.getD 0] 1 1).2 else vf
        flashReadBlock fuel length n ((dataLen + 1) % 2 ^ 32) vf1 e

/-- The loop `for (i = 0; i < blkCnt; i++)` of `FlashRead` with `n` passes left: the start
marker, a block of `blkSize` bytes, the end marker. -/
def flashReadFrames (fuel length blkSize : Nat) : Nat → Nat → VFile → ESP → Option (Int × VFile × ESP)
  | 0, _, vf, esp => some (0, vf, esp)
  | n + 1, dataLen, vf, esp =>
    match esp.readByte fuel false DEF_TIMEOUT with
    | none => none
    | some (stat, data, e) =>
      if stat ≠ 0 then some (stat, vf, e)
      else if data.getD 0 ≠ 0xc0 then some (ESP_ERROR_SLIP_START, vf, e)
      else
        match flashReadBlock fuel length blkSize dataLen vf e with
        | none => none
        | some (stat1, dataLen1, vf1, e1) =>
          if stat1 ≠ 0 then some (stat1, vf1, e1)
          else
            match e1.readByte fuel false DEF_TIMEOUT with
            | none => none
            | some (stat2, data2, e2) =>
              if stat2 ≠ 0 then some (stat2, vf1, e2)
              else if data2.getD 0 ≠ 0xc0 then some (ESP_ERROR_SLIP_END, vf1, e2)
              else flashReadFrames fuel length blkSize n dataLen1 vf1 e2

/-- The array `flashReadStub` after `FlashRead` has set its three parameters. -/
def patchedStub (address blkSize blkCnt : Nat) : List Nat :=
  writeAt (writeAt (writeAt flashReadStub 0 (putData address 4)) 4 (putData blkSize 4)) 8
    (putData blkCnt 4)

/-- The download of the stub in `FlashRead`: `flashBegin(0, 0)`, `ramBegin`, `ramData`,
`ramFinish`, each only when the one before returned 0. -/
def flashReadDownload (esp : ESP) (fuel : Nat) (stub : List Nat) (stubLen : Nat) :
    Option (Int × ESP) :=
  match esp.flashBegin fuel 0 0 with
  | none => none
  | some (s1, e1) =>
    if s1 ≠ 0 then some (s1, e1)
    else
      match e1.ramBegin fuel IRAM_ADDR stubLen stubLen with
      | none => none
      | some (s2, e2) =>
        if s2 ≠ 0 then some (s2, e2)
        else
          match e2.ramData fuel stub stubLen with
          | none => none
          | some (s3, e3) =>
            if s3 ≠ 0 then some (s3, e3) else e3.ramFinish fuel FLASH_READ_STUB_BEGIN

/-- `ESP::FlashRead(vf, address, length)`: the status, the file, the object.  The array
`flashReadStub` keeps its parameters from one call to the next; every call sets all three,
so each call is modelled on the array as initialised. -/
def FlashRead (esp : ESP) (fuel : Nat) (vf : VFile) (address length : Nat) :
    Option (Int × VFile × ESP) :=
  if !vf.IsOpen || length = 0 then some (ESP_ERROR_PARAM, vf, esp)
  else
    let stubLen := flashReadStub.length &&& 0xfffffffc
    let blkSize := if length ≤ ESP_FLASH_BLK_SIZE then length else ESP_FLASH_BLK_SIZE
    let blkCnt := if length ≤ ESP_FLASH_BLK_SIZE then 1
                  else ((length + blkSize - 1) % 2 ^ 32) / blkSize
    match esp.flashReadDownload fuel (patchedStub address blkSize blkCnt) stubLen with
    | none => none
    | some (stat, e) =>
      if stat ≠ 0 then some (stat, vf, e)
      else flashReadFrames fuel length blkSize blkCnt 0 vf e

end ESP

/-- The block size of a read of `length` bytes, in the words of the specification. -/
def readBlkSize (length : Nat) : Nat := if length ≤ 1024 then length else 1024

/-- The block count of a read of `length` bytes, in the words of the specification: one
block, or the length divided by 1024 and rounded up. -/
def readBlkCnt (length : Nat) : Nat := if length ≤ 1024 then 1 else (length + 1023) / 1024

/-- The SLIP frames the stub sends for the blocks `blocks`: each is a start marker, the
encoded bytes of the block, an end marker. -/
def blockFrames (blocks : List (List Nat)) : List Nat :=
  blocks.flatMap fun blk => [0xc0] ++ slipEncode blk ++ [0xc0]

/-- The four request frames that download the stub with the parameters `address`,
`blkSize` and `blkCnt`. -/
def stubFrames (address blkSize blkCnt : Nat) : List Nat :=
  commandFrame ESP_FLASH_BEGIN 0 (le32 0 ++ le32 0 ++ le32 1024 ++ le32 0) ++
  commandFrame ESP_MEM_BEGIN 0 (le32 68 ++ le32 1 ++ le32 68 ++ le32 IRAM_ADDR) ++
  commandFrame ESP_MEM_DATA
    (xorFold ESP_CHECKSUM_MAGIC
      (le32 address ++ le32 blkSize ++ le32 blkCnt ++ (flashReadStub.drop 12).take 56))
    (le32 68 ++ le32 0 ++ le32 0 ++ le32 0 ++
      (le32 address ++ le32 blkSize ++ le32 blkCnt ++ (flashReadStub.drop 12).take 56)) ++
  commandFrame ESP_MEM_END 0 (le32 0 ++ le32 FLASH_READ_STUB_BEGIN)

/-! ## Inputs for `ReadByte` and the response reader -/

/-- A channel that holds the undelivered bytes `S` in the driver of its port. -/
def demoChannel (S : List Nat) : SerialChannel :=
  { port := ⟨S, [], []⟩, m_queue := SerialQueue.init }

/-- Bytes arrive at the driver of the port of a channel. -/
def SerialChannel.arrive (ch : SerialChannel) (bytes : List Nat) : SerialChannel :=
  { ch with port := { ch.port with rx := ch.port.rx ++ bytes } }

/-- The variables of `readPacket` when seven header bytes are stored. -/
def hdrVars (hdr : List Nat) : ESP.PktVars :=
  { state := ESP.PKT_HEADER, needBytes := 2, hdr := hdr, bodyLen := 0, body := [], bodyCap := none,
    dbuf := false, value := none }

/-- An object whose clock runs and whose channel holds the single undelivered byte DB. -/
def escapeEsp : ESP := { runningEsp [] with m_serial := demoChannel [0xdb] }

/-! ## `ESP::FlashErase` (esp.cpp) -/

/-- The arguments `FlashErase(addr, size)` passes to `flashBegin` when `size` is not 0: the
address with its low ten bits cleared, and `blkCnt * blkSize` in 32 bits. -/
def flashEraseRegion (addr size : Nat) : Nat × Nat :=
  let blkSize := ESP_FLASH_BLK_SIZE
  let blkCnt := ((size + blkSize - 1) % 2 ^ 32) / blkSize
  (addr &&& 0xfffffc00, (blkCnt * blkSize) % 2 ^ 32)

/-- `ESP::FlashErase(addr, size)`. -/
def ESP.FlashErase (esp : ESP) (fuel : Nat) (addr size : Nat) : Option (Int × ESP) :=
  if size ≠ 0 then
    esp.flashBegin fuel (flashEraseRegion addr size).1 (flashEraseRegion addr size).2
  else some (ESP_ERROR_PARAM, esp)

/-! ## Sequences of writes to a virtual file -/

/-- A call that writes to a virtual file: `Write(buf, size, count)` or `Fill(c, count)`. -/
inductive VOp where
  | write (buf : List Nat) (size count : Nat)
  | fill (c count : Nat)
deriving DecidableEq, Repr

/-- The file after the call. -/
def VOp.run (vf : VFile) : VOp → VFile
  | .write buf size count => (vf.Write buf size count).2
  | .fill c count => (vf.Fill c count).2

/-- The bytes the call is to write. -/
def VOp.bytes : VOp → List Nat
  | .write buf size count => buf.take (size * count)
  | .fill c count => List.replicate count c

/-- The buffer handed to `Write` holds the `size * count` bytes that are to be written. -/
def VOp.Fits : VOp → Prop
  | .write buf size count => size * count ≤ buf.length
  | .fill _ _ => True

/-- The file after a sequence of calls, in order. -/
def runOps (ops : List VOp) (vf : VFile) : VFile := ops.foldl VOp.run vf

/-- The bytes a sequence of calls is to write, in order. -/
def written (ops : List VOp) : List Nat := ops.flatMap VOp.bytes

/-! ## Runs of a `SerialQueue` in unbounded mode -/

/-- `SerialQueue(handle, 0, initialSize)`: a queue in unbounded mode with an initial buffer
of `initialSize` bytes. -/
def SerialQueue.unbounded (initialSize : Nat) : SerialQueue :=
  { m_maxSize := 0, m_curSize := initialSize, m_count := 0, m_head := 0,
    m_data := List.replicate initialSize 0, overlap := false }

/-- What happens to a queue and its port: a call of `Refresh`, a call of `GetData(buf, count)`
with a buffer, or the arrival of bytes at the driver of the port. -/
inductive QOp where
  | refresh
  | getData (count : Nat)
  | arrive (bytes : List Nat)
deriving DecidableEq, Repr

/-- A queue and its port, with the bytes `GetData` has delivered so far and the bytes the
port has been supplied with so far. -/
structure QRun where
  q : SerialQueue
  p : Port
  delivered : List Nat
  supplied : List Nat
deriving DecidableEq, Repr

/-- The events of a list, in order.  A `GetData` call that does not return ends the run. -/
def qRun : List QOp → QRun → QRun
  | [], s => s
  | .refresh :: ops, s =>
    let r := s.q.Refresh s.p
    qRun ops { s with q := r.2.1, p := r.2.2 }
  | .getData count :: ops, s =>
    let g := s.q.GetData s.p count
    let s1 := { s with q := g.2.2.1, p := g.2.2.2, delivered := s.delivered ++ g.2.1 }
    if g.1 then qRun ops s1 else s1
  | .arrive bytes :: ops, s =>
    qRun ops { s with p := { s.p with rx := s.p.rx ++ bytes }, supplied := s.supplied ++ bytes }

/-! ## `ESP::FlashWrite` (esp.cpp) -/

/-- The entry loop of `FlashWrite` over a combined file: `n` entries are left, `stat` is the
status so far.  The status, the file and the object afterwards. -/
def ESP.flashWriteEntries (fuel flashParmVal flashParmMask : Nat) :
    Nat → Int → VFile → ESP → Option (Int × VFile × ESP)
  | 0, stat, vf, esp => some (stat, vf, esp)
  | n + 1, _, vf, esp =>
    let h := vf.Read 1 8
    if h.1 ≠ 8 then some (ESP_ERROR_FILE_READ, h.2.2, esp)
    else
      let addr := getData 4 h.2.1 0
      let len := getData 4 h.2.1 4
      let pos := h.2.2.m_pos % 2 ^ 32
      match esp.flashWrite fuel h.2.2 pos len addr flashParmVal flashParmMask with
      | none => none
      | some w =>
        if w.1 ≠ 0 then some w
        else
          let s := w.2.1.SetPosition ((pos + len) % 2 ^ 32)
          if s.1 < 0 then some (ESP_ERROR_FILE_SEEK, s.2, w.2.2)
          else flashWriteEntries fuel flashParmVal flashParmMask n 0 s.2 w.2.2

/-- `ESP::FlashWrite(vf, addr, flashParmVal, flashParmMask)`: the status, the file and the
object afterwards. -/
def ESP.FlashWrite (esp : ESP) (fuel : Nat) (vf : VFile) (addr flashParmVal flashParmMask : Nat) :
    Option (Int × VFile × ESP) :=
  if !vf.IsOpen then some (ESP_ERROR_PARAM, vf, esp)
  else
    let fileSize := vf.m_size
    if fileSize = 0 then some (ESP_ERROR_FILE_SEEK, vf, esp)
    else
      let s := vf.SetPosition 0
      if s.1 ≠ 0 then some (ESP_ERROR_FILE_READ, s.2, esp)
      else
        let r := s.2.Read 1 4
        if r.1 ≠ 4 then some (ESP_ERROR_FILE_READ, r.2.2, esp)
        else if r.2.1.take 3 ≠ COMPOSITE_SIG then
          esp.flashWrite fuel r.2.2 0 (fileSize % 2 ^ 32) addr flashParmVal flashParmMask
        else esp.flashWriteEntries fuel flashParmVal flashParmMask (r.2.1.getD 3 0) (-1) r.2.2

/-- A sparse combined file of two images: the bytes 1, 2, 3, 4 for address 0 and the bytes
5, 6, 7, 8 for address 0x1000. -/
def twoImageFile : VFile :=
  { VFile.OpenVirt with
    data := [0x65, 0x73, 0x70, 2,
             0, 0, 0, 0, 4, 0, 0, 0, 1, 2, 3, 4,
             0, 0x10, 0, 0, 4, 0, 0, 0, 5, 6, 7, 8] }

/-! ## `ESP::AutoExtract` (esp.cpp) -/

def FLASH_ADDR : Nat := 0x40200000
def MAX_FILENAME : Nat := 1024
def ESP_ERROR_FILE_OPEN : Int := -10
def ESP_ERROR_FILENAME_LENGTH : Int := -26

/-- `FileData_t`: the name, the load address and the file of one image.  The name is held
in `char name[MAX_FILENAME]`: with its final NUL it has at most `MAX_FILENAME` bytes. -/
structure FileData_t where
  name : List Char
  addr : Nat
  vfile : VFile
deriving DecidableEq, Repr

/-- The files outside the program as `AutoExtract` meets them: whether `fopen(name, "wb")`
succeeds, and the bytes `fopen(name, "rb")` gives access to (`none` when it fails). -/
structure FileSystem where
  creatable : List Char → Bool
  content : List Char → Option (List Nat)

/-- The text `sprintf(.., "_0x%05x.bin", v)` writes. -/
def imageSuffix (v : Nat) : List Char :=
  "_0x".toList ++ List.replicate (5 - (Nat.toDigits 16 v).length) '0' ++ Nat.toDigits 16 v ++
    ".bin".toList

/-- The length `baseLen` of the ELF file name without its extension: the index of the last
`'.'` (`strrchr`), or the length of the name when it has none. -/
def baseLen (fname : List Char) : Nat :=
  if '.' ∈ fname then fname.length - 1 - fname.reverse.indexOf '.' else fname.length

/-- `imageData[i].vfile.Open(file, fmode)` on a fresh object: in virtual mode the file is
open when the name is not empty; a physical file is open when `fopen` succeeds, and is held
here like a virtual one, empty, every write to it succeeding. -/
def openImage (fs : FileSystem) (virt : Bool) (name : List Char) : VFile :=
  if name = [] then VFile.init
  else if virt then VFile.OpenVirt
  else if fs.creatable name then VFile.OpenVirt else VFile.init

/-- `vf.Open(file, "rb")` on a fresh object; the bytes of the physical file are held like
those of a virtual one. -/
def openRead (fs : FileSystem) (name : List Char) : VFile :=
  if name = [] then VFile.init
  else
    match fs.content name with
    | some bytes => { VFile.OpenVirt with data := bytes }
    | none => VFile.init

/-- The parameter `imageFile` after the first statement of `AutoExtract`: `NULL` when the
combined file is not open or the name is empty. -/
def effectiveImage (vfCombine : VFile) (imageFile : Option (List Char)) : Option (List Char) :=
  if !vfCombine.IsOpen || imageFile = some [] then none else imageFile

/-- What `AutoExtract` leaves: the status, the images `imageData[0 .. imageCnt)`, the member
`m_imageSize` and the combined file.  The images are given as they are when the loop that
combines them begins. -/
structure Extracted where
  stat : Int
  images : List FileData_t
  m_imageSize : Nat
  vfCombine : VFile
deriving DecidableEq, Repr

namespace ESP

/-- The loop of `AutoExtract` that adds the images to the combined file; `stat` is the
status so far. -/
def combineImages (fs : FileSystem) (padded : Bool) :
    List FileData_t → Int → Nat → VFile → Int × Nat × VFile
  | [], stat, m_imageSize, vfCombine => (stat, m_imageSize, vfCombine)
  | d :: rest, _, m_imageSize, vfCombine =>
    let vf := if !d.vfile.IsOpen then openRead fs d.name else d.vfile
    if !vf.IsOpen then (ESP_ERROR_FILE_OPEN, m_imageSize, vfCombine)
    else
      let s := vf.SetPosition 0
      if s.1 ≠ 0 then (ESP_ERROR_FILE_SEEK, m_imageSize, vfCombine)
      else
        let r := AddImage m_imageSize vfCombine s.2 d.addr padded
        if r.1 ≠ 0 then (r.1, r.2.1, r.2.2.1)
        else combineImages fs padded rest r.1 r.2.1 r.2.2.1

/-- `ESP::AutoExtract(vfCombine, flashParm, padded, imageFile, imageAddr)` for the ELF file
`elf` with the name `fname` (`m_elf.Filename()`, which is never `NULL`).  The result is
`none` when `sprintf` writes the name of the image of `.irom0.text` past the end of
`name[MAX_FILENAME]`, that is when the name and its final NUL need more than `MAX_FILENAME`
bytes, which C leaves undefined. -/
def AutoExtract (elf : ELF) (fname : List Char) (fs : FileSystem) (m_imageSize : Nat)
    (vfCombine : VFile) (flashParm : Nat) (padded : Bool) (imageFile : Option (List Char))
    (imageAddr : Nat) : Option Extracted :=
  let imageFile := effectiveImage vfCombine imageFile
  if (imageFile.any fun f => decide (f.length + 1 > MAX_FILENAME)) then
    some ⟨ESP_ERROR_FILENAME_LENGTH, [], m_imageSize, vfCombine⟩
  else if baseLen fname + 13 > MAX_FILENAME then
    some ⟨ESP_ERROR_FILENAME_LENGTH, [], m_imageSize, vfCombine⟩
  else
    -- the boot image, sections .text, .data and .rodata
    let file0 := fname.take (baseLen fname) ++ imageSuffix 0
    let vf0 := openImage fs vfCombine.IsOpen file0
    if !vf0.IsOpen then some ⟨-1, [⟨file0, 0, vf0⟩], m_imageSize, vfCombine⟩
    else
      let w := WriteSections elf vf0 ".text,.data,.rodata".toList flashParm
      if w.1 ≠ 0 then some ⟨w.1, [⟨file0, 0, w.2⟩], m_imageSize, vfCombine⟩
      else
        -- the image for .irom0.text
        let sectNum := elf.GetSectionNum ".irom0.text".toList
        if sectNum = 0 then some ⟨-1, [⟨file0, 0, w.2⟩], m_imageSize, vfCombine⟩
        else
          let sectIdx := sectNum - 1
          let sectAddr := elf.GetSectionAddress sectIdx
          if sectAddr ≤ FLASH_ADDR then some ⟨-1, [⟨file0, 0, w.2⟩], m_imageSize, vfCombine⟩
          else
            let sectAddr := sectAddr - FLASH_ADDR
            let before : List FileData_t :=
              match imageFile with
              | some f => if imageAddr < sectAddr then [⟨f, imageAddr, VFile.init⟩] else []
              | none => []
            let file := fname.take (baseLen fname) ++ imageSuffix sectAddr
            if file.length + 1 > MAX_FILENAME then none
            else
              let vf := openImage fs vfCombine.IsOpen file
              if !vf.IsOpen then
                some ⟨-1, [⟨file0, 0, w.2⟩] ++ before ++ [⟨file, sectAddr, vf⟩], m_imageSize,
                  vfCombine⟩
              else
                let r := elf.WriteSection sectIdx vf 0 0
                let images : List FileData_t :=
                  [⟨file0, 0, w.2⟩] ++ before ++ [⟨file, sectAddr, r.2.1⟩]
                if r.1 < 0 then some ⟨-1, images, m_imageSize, vfCombine⟩
                else if vfCombine.IsOpen then
                  let images : List FileData_t :=
                    match imageFile with
                    | some f =>
                      if images.length < 3 then images ++ [⟨f, imageAddr, VFile.init⟩] else images
                    | none => images
                  let c := combineImages fs padded images r.1 m_imageSize vfCombine
                  some ⟨c.1, images, c.2.1, c.2.2⟩
                else some ⟨0, images, m_imageSize, vfCombine⟩

end ESP

/-- The load address of `.irom0.text` as `AutoExtract` looks it up. -/
def iromAddress (elf : ELF) : Nat :=
  elf.GetSectionAddress (elf.GetSectionNum ".irom0.text".toList - 1)

/-- The name `AutoExtract` gives the image file for flash offset `ofs`: the name of the ELF
file without its extension, then `_0x`, the offset in hexadecimal with five digits or more,
then `.bin`. -/
def imageName (fname : List Char) (ofs : Nat) : List Char :=
  fname.take (baseLen fname) ++ imageSuffix ofs

/-- The run of `AutoExtract` gets as far as the section `.irom0.text`: the names fit, the
file of the boot image is created, and `WriteSections` returns 0 for it. -/
def ReachesIrom (elf : ELF) (fname : List Char) (fs : FileSystem) (vfCombine : VFile)
    (flashParm : Nat) (imageFile : Option (List Char)) : Prop :=
  (∀ f, effectiveImage vfCombine imageFile = some f → f.length + 1 ≤ MAX_FILENAME) ∧
  baseLen fname + 13 ≤ MAX_FILENAME ∧
  (vfCombine.isOpen = true ∨ fs.creatable (imageName fname 0) = true) ∧
  (WriteSections elf VFile.OpenVirt ".text,.data,.rodata".toList flashParm).1 = 0

/-- An ELF with `.text`, `.data`, `.rodata` and a section `.irom0.text` of two bytes that is
loaded at `addr`. -/
def iromElf (addr : Nat) : ELF :=
  { e_entry := 0x40100004,
    m_sections := [⟨".text".toList, 4, 0x40100000, 5⟩, ⟨".data".toList, 9, 0x3ffe8000, 2⟩,
                   ⟨".rodata".toList, 0, 0x3ffe8100, 0⟩, ⟨".irom0.text".toList, 11, addr, 2⟩],
    file := [0x7f, 0x45, 0x4c, 0x46, 1, 2, 3, 4, 5, 0xaa, 0xbb, 0xcc, 0xdd] }

/-- No file can be created or read. -/
def noFiles : FileSystem := { creatable := fun _ => false, content := fun _ => none }

/-- Every file can be created, and the file `x.bin` holds four bytes. -/
def demoFiles : FileSystem :=
  { creatable := fun _ => true,
    content := fun n => if n = "x.bin".toList then some [9, 9, 9, 9] else none }

/-- The data bytes of `n` consecutive segment records `addr | size | bytes[size]` of a byte
string, in order: for each record the `size` bytes behind its two words. -/
def segmentBytes : Nat → List Nat → List Nat
  | 0, _ => []
  | n + 1, bytes =>
    (bytes.drop 8).take (getData 4 bytes 4) ++ segmentBytes n (bytes.drop (8 + getData 4 bytes 4))

/-- A name of 1011 letters without a dot. -/
def longName : List Char := List.replicate 1011 'a'

/-- The file is open and positioned at its end, no copy has left its buffer, the buffer
holds the file, and the increment is the 100 that `init` sets. -/
def Intact (vf : VFile) : Prop :=
  AtEnd vf ∧ vf.overrun = false ∧ vf.m_size ≤ vf.m_bufSize ∧ vf.m_increment = 100

/-- The block of data that the bytes `data` of a file offer at offset `p`: the next 1024
bytes, filled with 0xFF where the file ends. -/
def blockAt (data : List Nat) (p : Nat) : List Nat :=
  (data.drop p).take 1024 ++ List.replicate (1024 - ((data.drop p).take 1024).length) 0xff

/-- The data of `n` consecutive `FLASH_DATA` blocks, numbered from `k`, for a region that
begins at offset `p` of a file with the bytes `data` and is flashed at `addr`: each block is
what the file offers at its offset, whatever the length of the region, with the flash
parameters patched into block 0. -/
def regionBlocks (data : List Nat) (addr fv fm : Nat) : Nat → Nat → Nat → List (List Nat)
  | 0, _, _ => []
  | n + 1, k, p =>
    ESP.patchFlashParm k addr (blockAt data p) fv fm :: regionBlocks data addr fv fm n (k + 1) (p + 1024)

/-- What `FlashWrite` sends for the sparse combined file of the images `imgs` when every
command is accepted: for each image in order the `FLASH_BEGIN` frame for its address and the
blocks of its padded size, then the `FLASH_DATA` frames, whose data are the bytes of the
image zero-padded, followed by what follows them in the file. -/
def sparseFrames (fv fm : Nat) : List (Nat × VFile) → List Nat
  | [] => []
  | (a, img) :: rest =>
    beginFrame ((roundUp4 img.m_size + 1023) / 1024) a ++
      dataFrames 0 (regionBlocks (imagePadded img ++ rest.flatMap fun p => sparseRecord p.1 p.2.data)
        a fv fm ((roundUp4 img.m_size + 1023) / 1024) 0 0) ++
      sparseFrames fv fm rest

/-- The answers of a device that accepts every command `FlashWrite` sends for the sparse
combined file of the images `imgs`. -/
def acceptAll (imgs : List (Nat × VFile)) : List (List Nat) :=
  imgs.flatMap fun p =>
    okReply ESP_FLASH_BEGIN ::
      List.replicate ((roundUp4 p.2.m_size + 1023) / 1024) (okReply ESP_FLASH_DATA)

/-- The calls `flashWrite(vf, ofst, size, addr, ...)` for the regions `(ofst, size, addr)`
in order, up to the first that does not return 0; `stat` is the status when every call
returns 0.  The status and the object afterwards. -/
def flashWriteCalls (fuel fv fm : Nat) (vf : VFile) :
    List (Nat × Nat × Nat) → Int → ESP → Option (Int × ESP)
  | [], stat, esp => some (stat, esp)
  | r :: rs, stat, esp =>
    match esp.flashWrite fuel vf r.1 r.2.1 r.2.2 fv fm with
    | none => none
    | some w => if w.1 ≠ 0 then some (w.1, w.2.2) else flashWriteCalls fuel fv fm vf rs stat w.2.2

/-! ## Lemmas: words and bytes -/

theorem and_mask32 (x k : Nat) (hx : x < 2 ^ 32) (hk : k ≤ 32) :
    x &&& (2 ^ k * (2 ^ (32 - k) - 1)) = x / 2 ^ k * 2 ^ k := by
  apply Nat.eq_of_testBit_eq
  intro i
  rw [Nat.testBit_and, Nat.testBit_mul_pow_two, Nat.testBit_two_pow_sub_one, Nat.mul_comm,
    Nat.testBit_mul_pow_two, ← Nat.shiftRight_eq_div_pow, Nat.testBit_shiftRight]
  by_cases h1 : i ≥ k
  · have e : k + (i - k) = i := by omega
    rw [e]
    by_cases h2 : i < 32
    · have : i - k < 32 - k := by omega
      simp [h1, this]
    · have hlt : x < 2 ^ i := lt_of_lt_of_le hx (Nat.pow_le_pow_right (by decide) (by omega))
      simp [Nat.testBit_lt_two_pow hlt]
  · simp [h1]

theorem and_fffffffc (x : Nat) (hx : x < 2 ^ 32) : x &&& 0xfffffffc = x / 4 * 4 := by
  have := and_mask32 x 2 hx (by decide)
  norm_num at this
  exact this

theorem and_fffffff0 (x : Nat) (hx : x < 2 ^ 32) : x &&& 0xfffffff0 = x / 16 * 16 := by
  have := and_mask32 x 4 hx (by decide)
  norm_num at this
  exact this

theorem and_ff (x : Nat) : x &&& 0xff = x % 256 := by
  have := Nat.and_pow_two_sub_one_eq_mod x 8
  norm_num at this
  exact this

theorem shr8 (x : Nat) : x >>> 8 = x / 256 := by
  rw [Nat.shiftRight_eq_div_pow]

theorem putData_4 (v : Nat) : putData v 4 = le32 v := by
  simp only [putData, putDataLoop, and_ff, shr8, le32]
  norm_num
  omega

theorem putData_2 (v : Nat) : putData v 2 = le16 v := by
  simp only [putData, putDataLoop, and_ff, shr8, le16]
  norm_num
  omega

theorem toInt32_of_lt {v : Nat} (h : v < 2 ^ 31) : toInt32 v = (v : Int) := by
  unfold toInt32
  have : v % 2 ^ 32 = v := Nat.mod_eq_of_lt (by omega)
  rw [this, if_pos h]

theorem toInt32_neg {v : Nat} (h1 : 2 ^ 31 ≤ v) (h2 : v < 2 ^ 32) : toInt32 v < 0 := by
  unfold toInt32
  have : v % 2 ^ 32 = v := Nat.mod_eq_of_lt h2
  rw [this, if_neg (by omega)]
  have : (v : Int) < 2 ^ 32 := by exact_mod_cast h2
  omega

theorem pad_take (c : Nat) (k : Nat) (h1 : 1 ≤ k) (h2 : k ≤ 16) :
    ((List.replicate 16 0).set (k - 1) c).take (1 * k) = List.replicate (k - 1) 0 ++ [c] := by
  interval_cases k <;> rfl

/-! ## Lemmas: appending to a virtual file -/

theorem writeAt_end (d s : List Nat) : writeAt d d.length s = d ++ s := by
  simp [writeAt]

@[simp] theorem NeedSpace_data (vf : VFile) (n : Nat) : (vf.NeedSpace n).data = vf.data := by
  simp only [VFile.NeedSpace]; split_ifs <;> rfl

@[simp] theorem NeedSpace_pos (vf : VFile) (n : Nat) : (vf.NeedSpace n).m_pos = vf.m_pos := by
  simp only [VFile.NeedSpace]; split_ifs <;> rfl

@[simp] theorem NeedSpace_isOpen (vf : VFile) (n : Nat) (h : vf.isOpen = true) :
    (vf.NeedSpace n).isOpen = true := by
  simp only [VFile.NeedSpace]; split_ifs <;> first | exact h | rfl

theorem NeedSpace_atEnd {vf : VFile} (n : Nat) (h : AtEnd vf) : AtEnd (vf.NeedSpace n) :=
  ⟨NeedSpace_isOpen vf n h.1, by rw [NeedSpace_pos, NeedSpace_data]; exact h.2⟩

theorem Write_atEnd {vf : VFile} (h : AtEnd vf) (buf : List Nat) (size count : Nat)
    (h0 : size * count ≠ 0) (hb : size * count ≤ buf.length) :
    (vf.Write buf size count).1 = (count : Int) ∧
    (vf.Write buf size count).2.data = vf.data ++ buf.take (size * count) ∧
    AtEnd (vf.Write buf size count).2 := by
  obtain ⟨ho, hp⟩ := h
  simp [VFile.Write, h0, ho, hp, writeAt_end, AtEnd, List.length_take, Nat.min_eq_left hb]

theorem Write_one {vf : VFile} (h : AtEnd vf) (b : Nat) :
    (vf.Write [b] 1 1).1 = 1 ∧ (vf.Write [b] 1 1).2.data = vf.data ++ [b] ∧
    AtEnd (vf.Write [b] 1 1).2 := by
  have := Write_atEnd h [b] 1 1 (by decide) (by simp)
  simpa using this

theorem drop_of_get? : ∀ {l : List Nat} {i b : Nat}, l.get? i = some b →
    l.drop i = b :: l.drop (i + 1)
  | [], i, b, h => by simp at h
  | a :: l, 0, b, h => by simp at h; simp [h]
  | a :: l, i + 1, b, h => by
    have h' : l.get? i = some b := by simpa using h
    simpa using drop_of_get? h'

theorem drop_of_get?_none {l : List Nat} {i : Nat} (h : l.get? i = none) : l.drop i = [] := by
  rw [List.get?_eq_none] at h
  exact List.drop_eq_nil_of_le h

theorem copyLoop_some (elf : ELF) : ∀ (n fpos : Nat) (vf : VFile) (ck : Nat), AtEnd vf →
    ((elf.file.drop fpos).take n).length = n →
    ∃ vf', ELF.copyLoop elf n fpos vf ck = (true, vf', xorFold ck ((elf.file.drop fpos).take n)) ∧
      vf'.data = vf.data ++ (elf.file.drop fpos).take n ∧ AtEnd vf'
  | 0, fpos, vf, ck, h, _ => ⟨vf, by simp [ELF.copyLoop, xorFold], by simp, h⟩
  | n + 1, fpos, vf, ck, h, hl => by
    cases hb : elf.file.get? fpos with
    | none => rw [drop_of_get?_none hb] at hl; simp at hl
    | some b =>
      have hd := drop_of_get? hb
      obtain ⟨w1, w2, w3⟩ := Write_one h b
      have hl' : ((elf.file.drop (fpos + 1)).take n).length = n := by
        rw [hd] at hl; simpa using hl
      obtain ⟨vf', e1, e2, e3⟩ := copyLoop_some elf n (fpos + 1) _ (ck ^^^ b) w3 hl'
      refine ⟨vf', ?_, ?_, e3⟩
      · simp only [ELF.copyLoop, hb]
        rw [if_neg (by simp [w1]), e1, hd]
        simp [xorFold]
      · rw [e2, w2, hd]; simp

theorem copyLoop_none (elf : ELF) : ∀ (n fpos : Nat) (vf : VFile) (ck : Nat), AtEnd vf →
    ((elf.file.drop fpos).take n).length ≠ n → (ELF.copyLoop elf n fpos vf ck).1 = false
  | 0, fpos, vf, ck, _, hl => by simp at hl
  | n + 1, fpos, vf, ck, h, hl => by
    cases hb : elf.file.get? fpos with
    | none => simp only [ELF.copyLoop, hb]
    | some b =>
      have hd := drop_of_get? hb
      obtain ⟨w1, w2, w3⟩ := Write_one h b
      have hl' : ((elf.file.drop (fpos + 1)).take n).length ≠ n := by
        rw [hd] at hl; simpa using hl
      simp only [ELF.copyLoop, hb]
      rw [if_neg (by simp [w1])]
      exact copyLoop_none elf n (fpos + 1) _ _ w3 hl'

theorem padLoop_spec : ∀ (n : Nat) (vf : VFile), AtEnd vf →
    ∃ vf', ELF.padLoop n vf = (true, vf') ∧ vf'.data = vf.data ++ List.replicate n 0 ∧ AtEnd vf'
  | 0, vf, h => ⟨vf, rfl, by simp, h⟩
  | n + 1, vf, h => by
    obtain ⟨w1, w2, w3⟩ := Write_one h 0
    obtain ⟨vf', e1, e2, e3⟩ := padLoop_spec n _ w3
    refine ⟨vf', ?_, ?_, e3⟩
    · simp only [ELF.padLoop]
      rw [if_neg (by simp [w1])]
      exact e1
    · rw [e2, w2]; simp [List.replicate_succ]

theorem getSectionNumLoop_bound (nm : List Char) : ∀ (ss : List ELF_section) (cnt : Nat),
    ELF.getSectionNumLoop nm ss cnt = 0 ∨
    (cnt ≤ ELF.getSectionNumLoop nm ss cnt ∧ ELF.getSectionNumLoop nm ss cnt < cnt + ss.length)
  | [], cnt => Or.inl rfl
  | s :: ss, cnt => by
    simp only [ELF.getSectionNumLoop]
    split_ifs
    · right; simp
    · rcases getSectionNumLoop_bound nm ss (cnt + 1) with h | h
      · exact Or.inl h
      · right; simp only [List.length_cons]; omega

theorem GetSectionNum_le {elf : ELF} {nm : List Char} (h : elf.GetSectionNum nm ≠ 0) :
    elf.GetSectionNum nm - 1 < elf.m_sections.length := by
  unfold ELF.GetSectionNum at h ⊢
  split_ifs at h ⊢ with h0
  · exact absurd rfl h
  · rcases getSectionNumLoop_bound nm elf.m_sections 1 with h1 | h1
    · exact absurd h1 h
    · omega

theorem GetSectionSize_named {elf : ELF} {nm : List Char} (h : elf.GetSectionNum nm ≠ 0) :
    elf.GetSectionSize (elf.GetSectionNum nm - 1) = (elf.namedSection nm).size := by
  have := GetSectionNum_le h
  simp only [ELF.GetSectionSize, ELF.e_shnum, ELF.namedSection]
  rw [if_pos (by omega)]

theorem GetSectionAddress_named {elf : ELF} {nm : List Char} (h : elf.GetSectionNum nm ≠ 0) :
    elf.GetSectionAddress (elf.GetSectionNum nm - 1) = (elf.namedSection nm).address := by
  have := GetSectionNum_le h
  simp only [ELF.GetSectionAddress, ELF.e_shnum, ELF.namedSection]
  rw [if_pos (by omega)]

theorem paddedSize_eq {n : Nat} (h : roundUp4 n < 2 ^ 31) :
    ((n + 3) % 2 ^ 32) &&& 0xfffffffc = roundUp4 n := by
  unfold roundUp4 at h ⊢
  have h1 : n + 3 < 2 ^ 32 := by omega
  rw [Nat.mod_eq_of_lt h1, and_fffffffc _ h1]

theorem WriteSection_ok' (elf : ELF) (idx : Nat) (sec : ELF_section)
    (hsec : elf.m_sections.getD idx ⟨[], 0, 0, 0⟩ = sec)
    (hr : (elf.sectionBytes sec).length = sec.size) (hs : roundUp4 sec.size < 2 ^ 31)
    {vf : VFile} (h : AtEnd vf) (ck : Nat) :
    ∃ vf', elf.WriteSection idx vf ck (roundUp4 sec.size) =
        (((roundUp4 sec.size : Nat) : Int), vf', xorFold ck (elf.sectionBytes sec)) ∧
      vf'.data = vf.data ++ elf.sectionBytes sec ++
        List.replicate (roundUp4 sec.size - sec.size) 0 ∧
      AtEnd vf' := by
  have hopen : vf.IsOpen = true := h.1
  unfold ELF.WriteSection
  rw [hsec]
  simp only [hopen, Bool.not_true, Bool.false_eq_true, if_false]
  by_cases hz : sec.size = 0
  · rw [if_neg (by simpa using hz)]
    refine ⟨vf, ?_, ?_, h⟩
    · simp [hz, roundUp4, toInt32, xorFold, ELF.sectionBytes]
    · simp [hz, roundUp4, ELF.sectionBytes]
  · rw [if_pos hz]
    have hle : sec.size ≤ roundUp4 sec.size := by
      unfold roundUp4; omega
    have hmax : (if sec.size < roundUp4 sec.size then roundUp4 sec.size else sec.size)
        = roundUp4 sec.size := by
      split_ifs <;> omega
    rw [hmax]
    obtain ⟨vf1, c1, c2, c3⟩ := copyLoop_some elf sec.size sec.offset _ ck
      (NeedSpace_atEnd (roundUp4 sec.size) h) hr
    obtain ⟨vf2, p1, p2, p3⟩ := padLoop_spec (roundUp4 sec.size - sec.size) vf1 c3
    refine ⟨vf2, ?_, ?_, p3⟩
    · simp only [c1, p1, Bool.not_true, Bool.false_eq_true, if_false]
      rw [toInt32_of_lt hs]
      rfl
    · rw [p2, c2]; simp [ELF.sectionBytes]

theorem WriteSection_nonneg (elf : ELF) (idx : Nat) (sec : ELF_section)
    (hsec : elf.m_sections.getD idx ⟨[], 0, 0, 0⟩ = sec) (hz : sec.size ≠ 0)
    {vf : VFile} (h : AtEnd vf) (ck P : Nat)
    (hok : 0 ≤ (elf.WriteSection idx vf ck P).1) :
    (elf.sectionBytes sec).length = sec.size ∧
      0 ≤ toInt32 (if sec.size < P then P else sec.size) := by
  have hopen : vf.IsOpen = true := h.1
  unfold ELF.WriteSection at hok
  rw [hsec] at hok
  simp only [hopen, Bool.not_true, Bool.false_eq_true, if_false] at hok
  rw [if_pos hz] at hok
  by_cases hr : (elf.sectionBytes sec).length = sec.size
  · refine ⟨hr, ?_⟩
    obtain ⟨vf1, c1, c2, c3⟩ := copyLoop_some elf sec.size sec.offset _ ck
      (NeedSpace_atEnd (if sec.size < P then P else sec.size) h) hr
    obtain ⟨vf2, p1, p2, p3⟩ := padLoop_spec (P - sec.size) vf1 c3
    simpa only [c1, p1, Bool.not_true, Bool.false_eq_true, if_false] using hok
  · have := copyLoop_none elf sec.size sec.offset
      (vf.NeedSpace (if sec.size < P then P else sec.size)) ck (NeedSpace_atEnd _ h) hr
    rw [this] at hok
    simp at hok

theorem roundUp4_small {n : Nat} (hlt : n < 2 ^ 32)
    (h : 0 ≤ toInt32 (if n < ((n + 3) % 2 ^ 32) &&& 0xfffffffc
      then ((n + 3) % 2 ^ 32) &&& 0xfffffffc else n)) : roundUp4 n < 2 ^ 31 := by
  rw [and_fffffffc _ (Nat.mod_lt _ (by decide))] at h
  by_contra hbig
  have hneg : toInt32 (if n < (n + 3) % 2 ^ 32 / 4 * 4 then (n + 3) % 2 ^ 32 / 4 * 4 else n) < 0 := by
    apply toInt32_neg
    · unfold roundUp4 at hbig; split_ifs <;> omega
    · split_ifs <;> omega
  omega

theorem WriteSection_fail (elf : ELF) (idx : Nat) (sec : ELF_section)
    (hsec : elf.m_sections.getD idx ⟨[], 0, 0, 0⟩ = sec) (hlt : sec.size < 2 ^ 32)
    {vf : VFile} (h : AtEnd vf) (ck : Nat)
    (hok : 0 ≤ (elf.WriteSection idx vf ck (((sec.size + 3) % 2 ^ 32) &&& 0xfffffffc)).1) :
    (elf.sectionBytes sec).length = sec.size ∧ roundUp4 sec.size < 2 ^ 31 := by
  by_cases hz : sec.size = 0
  · simp [hz, roundUp4, ELF.sectionBytes]
  · obtain ⟨h1, h2⟩ := WriteSection_nonneg elf idx sec hsec hz h ck _ hok
    exact ⟨h1, roundUp4_small hlt h2⟩

theorem le32_length (v : Nat) : (le32 v).length = 4 := rfl

theorem specSegment_length (elf : ELF) (nm : List Char) (h : Emittable elf nm) :
    (specSegment elf nm).length = 8 + roundUp4 (elf.namedSection nm).size := by
  have hle : (elf.namedSection nm).size ≤ roundUp4 (elf.namedSection nm).size := by
    unfold roundUp4; omega
  simp only [specSegment, List.length_append, le32_length, h.2.1, List.length_replicate]
  omega

theorem finalPad_size {isz : Nat} (h : isz < 2 ^ 32) :
    ((((isz + 16) % 2 ^ 32) &&& 0xfffffff0) + 2 ^ 32 - isz) % 2 ^ 32 = 16 - isz % 16 := by
  rw [and_fffffff0 _ (Nat.mod_lt _ (by decide))]
  omega

theorem writeSegments_ok (elf : ELF) : ∀ (names : List (List Char)) (vf : VFile) (ck isz : Nat),
    names ≠ [] → (∀ nm ∈ names, Emittable elf nm) → AtEnd vf → isz = vf.data.length % 2 ^ 32 →
    ∃ vf', writeSegments elf names vf ck isz = (0, vf') ∧
      vf'.data = vf.data ++ names.flatMap (specSegment elf) ++
        List.replicate (15 - (vf.data.length + (names.flatMap (specSegment elf)).length) % 16) 0 ++
        [xorFold ck (names.flatMap fun nm => elf.sectionBytes (elf.namedSection nm))]
  | [], _, _, _, h, _, _, _ => absurd rfl h
  | p :: rest, vf, ck, isz, _, hall, hend, hisz => by
    have hp : Emittable elf p := hall p (List.mem_cons_self _ _)
    obtain ⟨hf, hr, hs⟩ := hp
    have hw := Write_atEnd hend
      (le32 (elf.namedSection p).address ++ le32 (roundUp4 (elf.namedSection p).size)) 1 8
      (by decide) (by simp [le32_length])
    obtain ⟨w1, w2, w3⟩ := hw
    have ht : List.take (1 * 8)
        (le32 (elf.namedSection p).address ++ le32 (roundUp4 (elf.namedSection p).size))
        = le32 (elf.namedSection p).address ++ le32 (roundUp4 (elf.namedSection p).size) := rfl
    rw [ht] at w2
    obtain ⟨vf2, s1, s2, s3⟩ := WriteSection_ok' elf (elf.GetSectionNum p - 1) (elf.namedSection p)
      rfl hr hs w3 ck
    rw [writeSegments]
    simp only [if_neg hf, GetSectionSize_named hf, GetSectionAddress_named hf, paddedSize_eq hs,
      putData_4, w1, s1]
    simp only [Nat.cast_ofNat, ne_eq, not_true_eq_false, if_false]
    rw [if_neg (by omega)]
    have hseg : vf2.data = vf.data ++ specSegment elf p := by
      rw [s2, w2]; simp [specSegment]
    have hlen2 : vf2.data.length = vf.data.length + (specSegment elf p).length := by
      rw [hseg]; simp
    have hisz2 : ((isz + 8) % 2 ^ 32 + roundUp4 (elf.namedSection p).size) % 2 ^ 32
        = vf2.data.length % 2 ^ 32 := by
      rw [hlen2, specSegment_length elf p ⟨hf, hr, hs⟩, hisz]; omega
    cases rest with
    | nil =>
      simp only [List.isEmpty_nil, if_true]
      rw [hisz2, finalPad_size (Nat.mod_lt _ (by decide))]
      have hk1 : 1 ≤ 16 - vf2.data.length % 2 ^ 32 % 16 := by omega
      have hk2 : 16 - vf2.data.length % 2 ^ 32 % 16 ≤ 16 := by omega
      obtain ⟨q1, q2, q3⟩ := Write_atEnd s3
        ((List.replicate 16 0).set (16 - vf2.data.length % 2 ^ 32 % 16 - 1)
          (xorFold ck (elf.sectionBytes (elf.namedSection p)))) 1
        (16 - vf2.data.length % 2 ^ 32 % 16) (by omega) (by simp)
      rw [if_neg (not_not.mpr q1)]
      refine ⟨_, by rw [writeSegments], ?_⟩
      have e : 16 - vf2.data.length % 2 ^ 32 % 16 - 1
          = 15 - (vf.data.length + (specSegment elf p).length) % 16 := by
        rw [hlen2]; omega
      rw [q2, pad_take _ _ hk1 hk2, e, hseg]
      simp
    | cons q rest' =>
      simp only [List.isEmpty_cons, Bool.false_eq_true, if_false]
      obtain ⟨vf', r1, r2⟩ := writeSegments_ok elf (q :: rest') vf2
        (xorFold ck (elf.sectionBytes (elf.namedSection p))) _ (by simp)
        (fun nm hnm => hall nm (List.mem_cons_of_mem _ hnm)) s3 hisz2
      refine ⟨vf', r1, ?_⟩
      rw [r2, hseg]
      simp [xorFold, Nat.add_assoc]

theorem namedSection_mem {elf : ELF} {nm : List Char} (h : elf.GetSectionNum nm ≠ 0) :
    elf.namedSection nm ∈ elf.m_sections := by
  have hlt := GetSectionNum_le h
  unfold ELF.namedSection
  rw [List.getD_eq_getElem _ _ hlt]
  exact List.getElem_mem _

theorem writeSegments_step (elf : ELF) {p : List Char} (hp : Emittable elf p)
    (q : List Char) (rest : List (List Char)) {vf : VFile} (hend : AtEnd vf) (ck isz : Nat) :
    ∃ vf2, AtEnd vf2 ∧ vf2.data = vf.data ++ specSegment elf p ∧
      writeSegments elf (p :: q :: rest) vf ck isz =
        writeSegments elf (q :: rest) vf2 (xorFold ck (elf.sectionBytes (elf.namedSection p)))
          (((isz + 8) % 2 ^ 32 + roundUp4 (elf.namedSection p).size) % 2 ^ 32) := by
  obtain ⟨hf, hr, hs⟩ := hp
  have hw := Write_atEnd hend
    (le32 (elf.namedSection p).address ++ le32 (roundUp4 (elf.namedSection p).size)) 1 8
    (by decide) (by simp [le32_length])
  obtain ⟨w1, w2, w3⟩ := hw
  have ht : List.take (1 * 8)
      (le32 (elf.namedSection p).address ++ le32 (roundUp4 (elf.namedSection p).size))
      = le32 (elf.namedSection p).address ++ le32 (roundUp4 (elf.namedSection p).size) := rfl
  rw [ht] at w2
  obtain ⟨vf2, s1, s2, s3⟩ := WriteSection_ok' elf (elf.GetSectionNum p - 1) (elf.namedSection p)
    rfl hr hs w3 ck
  refine ⟨vf2, s3, ?_, ?_⟩
  · rw [s2, w2]; simp [specSegment]
  · rw [writeSegments]
    simp only [if_neg hf, GetSectionSize_named hf, GetSectionAddress_named hf, paddedSize_eq hs,
      putData_4, w1, s1]
    simp only [Nat.cast_ofNat, ne_eq, not_true_eq_false, if_false]
    rw [if_neg (by omega)]
    simp only [List.isEmpty_cons, Bool.false_eq_true, if_false]

theorem writeSegments_emittable (elf : ELF) (hty : ∀ s ∈ elf.m_sections, s.size < 2 ^ 32) :
    ∀ (names : List (List Char)) (vf : VFile) (ck isz : Nat), AtEnd vf →
    (writeSegments elf names vf ck isz).1 = 0 → ∀ nm ∈ names, Emittable elf nm
  | [], _, _, _, _, _ => by simp
  | p :: rest, vf, ck, isz, hend, hok0 => by
    have hp : Emittable elf p := by
      have hok := hok0
      by_cases hf : elf.GetSectionNum p = 0
      · rw [writeSegments] at hok
        simp [hf, ESP_ERROR_PARAM] at hok
      · have hw := Write_atEnd hend
          (le32 (elf.namedSection p).address ++
            le32 ((((elf.namedSection p).size + 3) % 2 ^ 32) &&& 0xfffffffc))
          1 8 (by decide) (by simp [le32_length])
        obtain ⟨w1, w2, w3⟩ := hw
        rw [writeSegments] at hok
        simp only [if_neg hf, GetSectionSize_named hf, GetSectionAddress_named hf, putData_4,
          w1] at hok
        simp only [Nat.cast_ofNat, ne_eq, not_true_eq_false, if_false] at hok
        have hnn : 0 ≤ (elf.WriteSection (elf.GetSectionNum p - 1)
            (vf.Write (le32 (elf.namedSection p).address ++
              le32 ((((elf.namedSection p).size + 3) % 2 ^ 32) &&& 0xfffffffc)) 1 8).2 ck
            ((((elf.namedSection p).size + 3) % 2 ^ 32) &&& 0xfffffffc)).1 := by
          by_contra hneg
          rw [if_pos (by omega)] at hok
          simp only at hok
          omega
        obtain ⟨hr, hs⟩ := WriteSection_fail elf (elf.GetSectionNum p - 1) (elf.namedSection p)
          rfl (hty _ (namedSection_mem hf)) w3 ck hnn
        exact ⟨hf, hr, hs⟩
    intro nm hnm
    rcases List.mem_cons.mp hnm with rfl | hmem
    · exact hp
    · cases rest with
      | nil => simp at hmem
      | cons q rest' =>
        obtain ⟨vf2, h1, _, h3⟩ := writeSegments_step elf hp q rest' hend ck isz
        rw [h3] at hok0
        exact writeSegments_emittable elf hty (q :: rest') vf2 _ _ h1 hok0 nm hmem

theorem or_shiftLeft_of_lt {a s : Nat} (b : Nat) (h : a < 2 ^ s) : a ||| (b <<< s) = a + b * 2 ^ s := by
  rw [Nat.shiftLeft_eq, Nat.lor_comm, Nat.mul_comm, ← Nat.mul_add_lt_is_or h, Nat.add_comm]

theorem getD_mid (pre mid post : List Nat) (i : Nat) (h : i < mid.length) :
    (pre ++ mid ++ post).getD (pre.length + i) 0 = mid.getD i 0 := by
  rw [List.append_assoc, List.getD_eq_getElem?_getD, List.getD_eq_getElem?_getD,
    List.getElem?_append_right (by omega)]
  simp [List.getElem?_append_left h]

theorem getData4_bytes (pre post : List Nat) (b0 b1 b2 b3 : Nat)
    (h0 : b0 < 256) (h1 : b1 < 256) (h2 : b2 < 256) (h3 : b3 < 256) :
    getData 4 (pre ++ [b0, b1, b2, b3] ++ post) pre.length
      = b0 + b1 * 256 + b2 * 65536 + b3 * 16777216 := by
  have g0 := getD_mid pre [b0, b1, b2, b3] post 0 (by simp)
  have g1 := getD_mid pre [b0, b1, b2, b3] post 1 (by simp)
  have g2 := getD_mid pre [b0, b1, b2, b3] post 2 (by simp)
  have g3 := getD_mid pre [b0, b1, b2, b3] post 3 (by simp)
  simp only [Nat.add_zero] at g0
  simp only [getData, getDataLoop, Nat.add_assoc, g0, g1, g2, g3]
  simp only [List.getD_cons_zero, List.getD_cons_succ, Nat.shiftLeft_zero, Nat.zero_or,
    Nat.reduceAdd, Nat.lt_irrefl, if_false]
  have e0 : b0 % 2 ^ 32 = b0 := Nat.mod_eq_of_lt (by omega)
  have e1 : (b1 <<< 8) % 2 ^ 32 = b1 <<< 8 := by
    rw [Nat.shiftLeft_eq]; exact Nat.mod_eq_of_lt (by omega)
  have e2 : (b2 <<< 16) % 2 ^ 32 = b2 <<< 16 := by
    rw [Nat.shiftLeft_eq]; exact Nat.mod_eq_of_lt (by omega)
  have e3 : (b3 <<< 24) % 2 ^ 32 = b3 <<< 24 := by
    rw [Nat.shiftLeft_eq]; exact Nat.mod_eq_of_lt (by omega)
  rw [e0, e1, e2, e3, or_shiftLeft_of_lt b1 (by omega : b0 < 2 ^ 8),
    or_shiftLeft_of_lt b2 (by omega : b0 + b1 * 2 ^ 8 < 2 ^ 16),
    or_shiftLeft_of_lt b3 (by omega : b0 + b1 * 2 ^ 8 + b2 * 2 ^ 16 < 2 ^ 24)]
  omega

theorem getData4_le32 (pre post : List Nat) (v : Nat) (hv : v < 2 ^ 32) :
    getData 4 (pre ++ le32 v ++ post) pre.length = v := by
  unfold le32
  rw [getData4_bytes pre post _ _ _ _ (Nat.mod_lt _ (by decide)) (Nat.mod_lt _ (by decide))
    (Nat.mod_lt _ (by decide)) (Nat.mod_lt _ (by decide))]
  omega

theorem splitComma_ne_nil : ∀ l : List Char, splitComma l ≠ []
  | [] => by simp [splitComma]
  | c :: cs => by
    simp only [splitComma]
    split_ifs
    · simp
    · split <;> simp

theorem splitComma_length_le : ∀ l : List Char, (splitComma l).length ≤ l.length + 1
  | [] => by simp [splitComma]
  | c :: cs => by
    have ih := splitComma_length_le cs
    simp only [splitComma]
    split_ifs
    · simp; omega
    · split
      · simp
      · rename_i h t heq
        rw [heq] at ih
        simp at ih ⊢; omega

theorem sectionNames_length_lt (sectName : List Char) : (sectionNames sectName).length < 256 := by
  unfold sectionNames
  have := splitComma_length_le
    (sectName.take (if sectName.length ≥ 200 then 199 else sectName.length))
  have h2 : (sectName.take (if sectName.length ≥ 200 then 199 else sectName.length)).length ≤ 199 := by
    rw [List.length_take]; split_ifs <;> omega
  omega

theorem WriteSections_image_eq (elf : ELF) (vf : VFile) (sectName : List Char) (flashParm : Nat)
    (hc : sectName.contains ',' = true) :
    WriteSections elf vf sectName flashParm =
      if (vf.Write ([ESP_IMAGE_MAGIC, (sectionNames sectName).length % 256] ++
          putData flashParm 2 ++ putData elf.GetEntry 4) 1 8).1 ≠ 8 then
        (ESP_ERROR_FILE_WRITE, (vf.Write ([ESP_IMAGE_MAGIC, (sectionNames sectName).length % 256] ++
          putData flashParm 2 ++ putData elf.GetEntry 4) 1 8).2)
      else writeSegments elf (sectionNames sectName)
        (vf.Write ([ESP_IMAGE_MAGIC, (sectionNames sectName).length % 256] ++
          putData flashParm 2 ++ putData elf.GetEntry 4) 1 8).2 ESP_CHECKSUM_MAGIC 8 := by
  unfold WriteSections sectionNames
  simp only [hc, if_true]

theorem WriteSections_image (elf : ELF) (sectName : List Char) (flashParm : Nat)
    (hc : sectName.contains ',' = true) (hall : ∀ nm ∈ sectionNames sectName, Emittable elf nm) :
    (WriteSections elf VFile.OpenVirt sectName flashParm).1 = 0 ∧
    (WriteSections elf VFile.OpenVirt sectName flashParm).2.data =
      specImage elf (sectionNames sectName) flashParm := by
  have hend : AtEnd VFile.OpenVirt := ⟨rfl, rfl⟩
  have hw := Write_atEnd hend
    ([ESP_IMAGE_MAGIC, (sectionNames sectName).length % 256] ++ le16 flashParm ++ le32 elf.GetEntry)
    1 8 (by decide) (by simp [le32, le16])
  obtain ⟨w1, w2, w3⟩ := hw
  have ht : List.take (1 * 8)
      ([ESP_IMAGE_MAGIC, (sectionNames sectName).length % 256] ++ le16 flashParm ++ le32 elf.GetEntry)
      = [ESP_IMAGE_MAGIC, (sectionNames sectName).length % 256] ++ le16 flashParm ++ le32 elf.GetEntry :=
    rfl
  rw [ht] at w2
  obtain ⟨vf', r1, r2⟩ := writeSegments_ok elf (sectionNames sectName) _ ESP_CHECKSUM_MAGIC 8
    (splitComma_ne_nil _) hall w3 (by rw [w2]; rfl)
  have hmain : WriteSections elf VFile.OpenVirt sectName flashParm = (0, vf') := by
    unfold WriteSections
    simp only [hc, if_true, putData_2, putData_4]
    change (if (VFile.OpenVirt.Write
      ([ESP_IMAGE_MAGIC, (sectionNames sectName).length % 256] ++ le16 flashParm ++ le32 elf.GetEntry)
      1 8).1 ≠ 8 then _ else _) = _
    rw [if_neg (not_not.mpr (by rw [w1]; rfl))]
    exact r1
  rw [hmain]
  refine ⟨rfl, ?_⟩
  rw [r2, w2]
  have hn := Nat.mod_eq_of_lt (sectionNames_length_lt sectName)
  simp only [specImage, hn, ESP_IMAGE_MAGIC, ESP_CHECKSUM_MAGIC, ELF.GetEntry]
  have hd : VFile.OpenVirt.data = [] := rfl
  simp [le16, le32, hd]
  omega

theorem splitComma_no_comma : ∀ l : List Char, l.contains ',' = false → splitComma l = [l]
  | [], _ => rfl
  | c :: cs, h => by
    have hc : c ≠ ',' := by
      intro e; subst e; simp at h
    have hcs : cs.contains ',' = false := by
      simp only [List.contains_cons, Bool.or_eq_false_iff] at h
      exact h.2
    simp only [splitComma, if_neg hc, splitComma_no_comma cs hcs]

theorem contains_of_two_names {l : List Char} (h : 2 ≤ (splitComma l).length) :
    l.contains ',' = true := by
  by_contra hc
  rw [splitComma_no_comma l (by simpa using hc)] at h
  simp at h

theorem sectionNames_short {l : List Char} (h : l.length < 200) : sectionNames l = splitComma l := by
  unfold sectionNames
  rw [if_neg (by omega), List.take_length]

theorem xorFold_append (c : Nat) (l1 l2 : List Nat) :
    xorFold c (l1 ++ l2) = xorFold (xorFold c l1) l2 := by
  simp [xorFold]

theorem xorFold_zeros (c : Nat) : ∀ k : Nat, xorFold c (List.replicate k 0) = c
  | 0 => rfl
  | k + 1 => by
    have := xorFold_zeros c k
    simp only [xorFold, List.replicate_succ, List.foldl_cons, Nat.xor_zero] at this ⊢
    exact this

theorem xorFold_eq_xor (c : Nat) : ∀ l : List Nat, xorFold c l = c ^^^ xorFold 0 l
  | [] => by simp [xorFold]
  | b :: l => by
    have h1 := xorFold_eq_xor (c ^^^ b) l
    have h2 := xorFold_eq_xor (0 ^^^ b) l
    simp only [xorFold, List.foldl_cons] at h1 h2 ⊢
    rw [h1, h2, Nat.zero_xor, Nat.xor_assoc]

theorem xorFold_segmentData (elf : ELF) (c : Nat) : ∀ names : List (List Char),
    xorFold c (segmentData elf names) =
      xorFold c (names.flatMap fun nm => elf.sectionBytes (elf.namedSection nm))
  | [] => rfl
  | nm :: names => by
    have ih := xorFold_segmentData elf (xorFold c (elf.sectionBytes (elf.namedSection nm))) names
    simp only [segmentData, List.flatMap_cons, xorFold_append, xorFold_zeros] at ih ⊢
    exact ih

theorem roundUp4_mod (n : Nat) : roundUp4 n % 4 = 0 := by
  unfold roundUp4; omega

theorem segmentSizes_spec (elf : ELF) : ∀ (names : List (List Char)) (rest : List Nat),
    (∀ nm ∈ names, Emittable elf nm) →
    segmentSizes names.length (names.flatMap (specSegment elf) ++ rest) =
      names.map fun nm => roundUp4 (elf.namedSection nm).size
  | [], _, _ => rfl
  | nm :: names, rest, hall => by
    have hnm := hall nm (List.mem_cons_self _ _)
    have hsz : roundUp4 (elf.namedSection nm).size < 2 ^ 32 := by
      have := hnm.2.2; omega
    have hg : getData 4 ((nm :: names).flatMap (specSegment elf) ++ rest) 4
        = roundUp4 (elf.namedSection nm).size := by
      have := getData4_le32 (le32 (elf.namedSection nm).address)
        (elf.sectionBytes (elf.namedSection nm) ++
          List.replicate (roundUp4 (elf.namedSection nm).size - (elf.namedSection nm).size) 0 ++
          (names.flatMap (specSegment elf) ++ rest)) _ hsz
      rw [le32_length] at this
      rw [← this]
      simp [specSegment, List.append_assoc]
    have hd : ((nm :: names).flatMap (specSegment elf) ++ rest).drop
        (8 + roundUp4 (elf.namedSection nm).size) = names.flatMap (specSegment elf) ++ rest := by
      rw [← specSegment_length elf nm hnm, List.flatMap_cons, List.append_assoc,
        List.drop_left]
    simp only [List.length_cons, segmentSizes, hg, hd, List.map_cons]
    rw [segmentSizes_spec elf names rest (fun x hx => hall x (List.mem_cons_of_mem _ hx))]

theorem specImage_length_mod (elf : ELF) (names : List (List Char)) (flashParm : Nat) :
    (specImage elf names flashParm).length % 16 = 0 := by
  simp only [specImage, List.length_append, List.length_replicate, List.length_singleton]
  omega

/-- C4 (code bug): the image `WriteSections` emits for three empty sections has 32 bytes
before the padding; `stdImageInfo` then reads no pad byte at all, calls the checksum
incorrect, shows a checksum byte that was never read, and reports the 16 pad bytes as
additional flash data. -/
theorem C4_info_on_aligned_image :
    ImageInfo (WriteSections emptyElf VFile.OpenVirt ".text,.data,.rodata".toList 0).2 =
      (0, some (ImageReport.standard
        { flashParm := 0,
          segments := [(0x40100000, 0), (0x3ffe8000, 0), (0x3ffe8100, 0)],
          checksumOk := false,
          lastByte := none,
          additional := some (32, 16) })) := by
  decide

theorem live_length {q : SerialQueue} (h : QInv q) : q.live.length = q.m_count := by
  obtain ⟨_, h2, _⟩ := h
  simp [SerialQueue.live, List.length_take, List.length_drop]
  omega

theorem writeAt_zero_live (buf l : List Nat) :
    writeAt buf 0 l = l ++ buf.drop l.length := by
  simp [writeAt]

theorem live_of_prefix (a b c : Nat) (l rest : List Nat) (o : Bool) (hc : c = l.length) :
    SerialQueue.live ⟨a, b, c, 0, l ++ rest, o⟩ = l := by
  subst hc
  simp [SerialQueue.live]

theorem refreshRoom_spec (q : SerialQueue) (count : Nat) (h : QInv q) :
    (q.refreshRoom count).1 = count ∧ QInv (q.refreshRoom count).2 ∧
    (q.refreshRoom count).2.live = q.live ∧ (q.refreshRoom count).2.m_count = q.m_count ∧
    q.m_count + count ≤ (q.refreshRoom count).2.m_data.length := by
  have hl := live_length h
  obtain ⟨h1, h2, h3⟩ := h
  by_cases hg : count > q.m_curSize - q.m_count
  · have hq : q.refreshRoom count = (count,
        { q with m_data := q.live ++ List.replicate count 0, m_curSize := count + q.m_count, m_head := 0 }) := by
      unfold SerialQueue.refreshRoom
      rw [if_pos h1, if_pos hg]
      simp only [writeAt_zero_live]
      change (count,
        { q with m_data := q.live ++ List.drop q.live.length (List.replicate (count + q.m_count) 0), m_curSize := count + q.m_count, m_head := 0 }) = _
      rw [hl]
      simp
    rw [hq]
    refine ⟨rfl, ⟨h1, ?_, ?_⟩, ?_, rfl, ?_⟩
    · simp only [List.length_append, List.length_replicate, hl]; omega
    · simp only [List.length_append, List.length_replicate, hl]; omega
    · exact live_of_prefix _ _ _ _ _ _ hl.symm
    · simp only [List.length_append, List.length_replicate, hl]; omega
  · have hq : q.refreshRoom count = (count, q) := by
      unfold SerialQueue.refreshRoom
      rw [if_pos h1, if_neg hg]
    rw [hq]
    exact ⟨rfl, ⟨h1, h2, h3⟩, rfl, rfl, by simp only; omega⟩

theorem refreshCompact_spec (q : SerialQueue) (h : QInv q) :
    QInv q.refreshCompact ∧ q.refreshCompact.live = q.live ∧
    q.refreshCompact.m_count = q.m_count ∧ q.refreshCompact.m_head = 0 ∧
    q.refreshCompact.m_data.length = q.m_data.length := by
  have hl := live_length h
  obtain ⟨h1, h2, h3⟩ := h
  by_cases hc : q.m_count ≠ 0 ∧ q.m_head ≠ 0
  · have hq : q.refreshCompact =
        { q with m_data := q.live ++ q.m_data.drop q.m_count, m_head := 0,
                 overlap := q.overlap || decide (q.m_head < q.m_count) } := by
      unfold SerialQueue.refreshCompact
      rw [if_pos hc]
      simp only [writeAt_zero_live]
      change { q with m_data := q.live ++ List.drop q.live.length q.m_data, m_head := 0,
                      overlap := q.overlap || decide (q.m_head < q.m_count) } = _
      rw [hl]
    rw [hq]
    have hlen : (q.live ++ q.m_data.drop q.m_count).length = q.m_data.length := by
      simp only [List.length_append, List.length_drop, hl]; omega
    refine ⟨⟨h1, ?_, ?_⟩, ?_, rfl, rfl, hlen⟩
    · simp only [hlen]; omega
    · simp only [hlen]; exact h3
    · exact live_of_prefix _ _ _ _ _ _ hl.symm
  · have hq : q.refreshCompact = { q with m_head := 0 } := by
      unfold SerialQueue.refreshCompact
      rw [if_neg hc]
    rw [hq]
    have hcase : q.m_count = 0 ∨ q.m_head = 0 := by
      by_contra hn; push_neg at hn; exact hc ⟨hn.1, hn.2⟩
    refine ⟨⟨h1, by simp only; omega, h3⟩, ?_, rfl, rfl, rfl⟩
    rcases hcase with h0 | h0
    · simp [SerialQueue.live, h0]
    · simp [SerialQueue.live, h0]

theorem refreshFill_spec (q : SerialQueue) (p : Port) (h : QInv q) (hh : q.m_head = 0)
    (hroom : q.m_count + p.rx.length ≤ q.m_data.length) :
    QInv (q.refreshFill p p.rx.length).1 ∧
    (q.refreshFill p p.rx.length).1.live = q.live ++ p.rx ∧
    (q.refreshFill p p.rx.length).2 = { p with rx := [] } := by
  have hl := live_length h
  obtain ⟨h1, h2, h3⟩ := h
  by_cases hz : p.rx.length = 0
  · have hq : q.refreshFill p p.rx.length = (q, p) := by
      unfold SerialQueue.refreshFill
      rw [if_neg (by simpa using hz)]
    rw [hq]
    have : p.rx = [] := List.length_eq_zero.mp hz
    refine ⟨⟨h1, h2, h3⟩, by simp [this], ?_⟩
    cases p; simp_all
  · have htake : q.m_data.take q.m_count = q.live := by
      simp [SerialQueue.live, hh]
    have hq : q.refreshFill p p.rx.length =
        ({ q with m_data := q.live ++ p.rx ++ q.m_data.drop (q.m_count + p.rx.length), m_count := q.m_count + p.rx.length },
          { p with rx := [] }) := by
      unfold SerialQueue.refreshFill
      rw [if_pos hz]
      simp only [Port.SerialRead, List.take_length, List.drop_length, writeAt, htake]
    rw [hq]
    have hlen : (q.live ++ p.rx ++ q.m_data.drop (q.m_count + p.rx.length)).length
        = q.m_data.length := by
      simp only [List.length_append, List.length_drop, hl]; omega
    refine ⟨⟨h1, ?_, ?_⟩, ?_, rfl⟩
    · simp only [hlen, hh]; omega
    · simp only [hlen]; exact h3
    · have hcnt : q.m_count + p.rx.length = (q.live ++ p.rx).length := by
        simp [hl]
      have := live_of_prefix q.m_maxSize q.m_curSize (q.m_count + p.rx.length) (q.live ++ p.rx)
        (q.m_data.drop (q.m_count + p.rx.length)) q.overlap hcnt
      simp only [hh]
      exact this

theorem Refresh_spec (q : SerialQueue) (p : Port) (h : QInv q) :
    QInv (q.Refresh p).2.1 ∧ (q.Refresh p).2.1.live = q.live ++ p.rx ∧
    (q.Refresh p).2.2 = { p with rx := [] } ∧
    (q.Refresh p).1 = (q.live ++ p.rx).length ∧
    (q.Refresh p).2.1.m_count = (q.live ++ p.rx).length := by
  have hl := live_length h
  by_cases hrx : p.rx = []
  · have hc : p.SerialAvailable = 0 := by simp [Port.SerialAvailable, hrx]
    simp only [SerialQueue.Refresh, hc, ne_eq, not_true_eq_false, if_false]
    refine ⟨h, by simp [hrx], ?_, by simp [hrx, hl], by simp [hrx, hl]⟩
    cases p; simp_all
  · have hc : p.SerialAvailable ≠ 0 := by
      simp [Port.SerialAvailable]; exact hrx
    have hcnt : p.SerialAvailable = p.rx.length := rfl
    obtain ⟨g1, g2, g3, g4, g5⟩ := refreshRoom_spec q p.rx.length h
    obtain ⟨c1, c2, c3, c4, c5⟩ := refreshCompact_spec _ g2
    obtain ⟨f1, f2, f3⟩ := refreshFill_spec _ p c1 c4 (by rw [c3, c5, g4]; exact g5)
    have hq : q.Refresh p =
        (((q.refreshRoom p.rx.length).2.refreshCompact.refreshFill p p.rx.length).1.m_count,
         ((q.refreshRoom p.rx.length).2.refreshCompact.refreshFill p p.rx.length).1,
         ((q.refreshRoom p.rx.length).2.refreshCompact.refreshFill p p.rx.length).2) := by
      unfold SerialQueue.Refresh
      simp only [hcnt, g1, gt_iff_lt, lt_self_iff_false, if_false]
      rw [if_pos (by rw [← hcnt]; exact hc)]
    rw [hq]
    have hlive : ((q.refreshRoom p.rx.length).2.refreshCompact.refreshFill p p.rx.length).1.live
        = q.live ++ p.rx := by rw [f2, c2, g3]
    have hcount := live_length f1
    rw [hlive] at hcount
    exact ⟨f1, hlive, f3, hcount.symm, hcount.symm⟩

theorem Refresh_idle (q : SerialQueue) (p : Port) (h : p.rx = []) :
    q.Refresh p = (q.m_count, q, p) := by
  have hc : p.SerialAvailable = 0 := by simp [Port.SerialAvailable, h]
  simp only [SerialQueue.Refresh, hc, ne_eq, not_true_eq_false, if_false]

theorem GetData_ready (q : SerialQueue) (p : Port) (count : Nat) (h : QInv q) (hrx : p.rx = [])
    (h0 : 0 < count) (hle : count ≤ q.m_count) :
    (q.GetData p count).2.1 = q.live.take count ∧ QInv (q.GetData p count).2.2.1 ∧
    (q.GetData p count).2.2.1.live = q.live.drop count ∧ (q.GetData p count).2.2.2 = p := by
  obtain ⟨h1, h2, h3⟩ := h
  obtain ⟨k, rfl⟩ : ∃ k, count = k + 1 := ⟨count - 1, by omega⟩
  have hg : q.GetData p (k + 1) = (true, (q.m_data.drop q.m_head).take (k + 1),
      { q with m_head := q.m_head + (k + 1), m_count := q.m_count - (k + 1) }, p) := by
    unfold SerialQueue.GetData
    rw [if_pos (by omega)]
    have hpart : (if k + 1 > q.m_count then q.m_count else k + 1) = k + 1 := if_neg (by omega)
    simp only [SerialQueue.getDataLoop, Refresh_idle q p hrx, hpart]
    simp
  rw [hg]
  refine ⟨?_, ⟨h1, ?_, h3⟩, ?_, rfl⟩
  · simp only [SerialQueue.live, List.take_take, Nat.min_eq_left hle]
  · simp only; omega
  · simp only [SerialQueue.live]
    rw [List.drop_take, List.drop_drop, Nat.add_comm]

theorem Available_spec {ch : SerialChannel} {S tx : List Nat} {sc : List (List Nat)}
    (h : Chan ch S tx sc) :
    ch.Available.1 = S.length ∧ Chan ch.Available.2 S tx sc ∧ ch.Available.2.port.rx = [] := by
  obtain ⟨hq, hp, ht, hs⟩ := h
  obtain ⟨r1, r2, r3, r4, r5⟩ := Refresh_spec ch.m_queue ch.port hq
  have hp' : ch.m_queue.live ++ ch.port.rx = S := hp
  simp only [SerialChannel.Available, SerialQueue.Available, Port.SerialAvailable, r3, r5, hp',
    List.length_nil, Nat.add_zero]
  refine ⟨trivial, ⟨r1, ?_, ht, hs⟩, trivial⟩
  simp only [SerialChannel.pend, r2, hp', List.append_nil]

theorem Read_one_spec {ch : SerialChannel} {S tx : List Nat} {sc : List (List Nat)}
    (h : Chan ch S tx sc) :
    (ch.Read 1).1 = S.take 1 ∧ Chan (ch.Read 1).2 (S.drop 1) tx sc := by
  obtain ⟨hq, hp, ht, hs⟩ := h
  obtain ⟨r1, r2, r3, r4, r5⟩ := Refresh_spec ch.m_queue ch.port hq
  have hp' : ch.m_queue.live ++ ch.port.rx = S := hp
  rw [hp'] at r2 r4 r5
  unfold SerialChannel.Read
  rcases hR : ch.m_queue.Refresh ch.port with ⟨n, q1, p1⟩
  rw [hR] at r1 r2 r3 r4 r5
  simp only at r1 r2 r3 r4 r5 ⊢
  subst r3 r4
  cases S with
  | nil =>
    simp only [List.length_nil, gt_iff_lt, Nat.lt_one_iff, Nat.zero_lt_one, if_true,
      SerialQueue.GetData, ne_eq, not_true_eq_false, if_false, List.take_nil, List.drop_nil]
    exact ⟨trivial, r1, by simp [SerialChannel.pend, r2], ht, hs⟩
  | cons b S' =>
    have hcnt : 1 ≤ q1.m_count := by rw [r5]; simp
    obtain ⟨g1, g2, g3, g4⟩ := GetData_ready q1 { ch.port with rx := [] } 1 r1 rfl
      (by decide) hcnt
    rw [if_neg (by simp)]
    refine ⟨?_, g2, ?_, ?_, ?_⟩
    · rw [g1, r2]
    · simp only [SerialChannel.pend, g3, g4, r2]; simp
    · rw [g4]; exact ht
    · rw [g4]; exact hs

theorem ReadByteRaw_spec {ch : SerialChannel} {S tx : List Nat} {sc : List (List Nat)}
    (h : Chan ch S tx sc) :
    ch.ReadByteRaw.1 = S.headD 0 ∧ Chan ch.ReadByteRaw.2 (S.drop 1) tx sc := by
  obtain ⟨r1, r2⟩ := Read_one_spec h
  simp only [SerialChannel.ReadByteRaw, r1]
  refine ⟨?_, r2⟩
  cases S <;> simp

theorem ReadByte_slip {ch : SerialChannel} {S tx : List Nat} {sc : List (List Nat)}
    (h : Chan ch S tx sc) :
    (ch.ReadByte true).1 = (slipStep S).1 ∧ (ch.ReadByte true).2.1 = (slipStep S).2.1 ∧
    Chan (ch.ReadByte true).2.2 (slipStep S).2.2 tx sc := by
  obtain ⟨a1, a2, _⟩ := Available_spec h
  obtain ⟨b1, b2⟩ := ReadByteRaw_spec a2
  obtain ⟨c1, c2, _⟩ := Available_spec b2
  obtain ⟨d1, d2⟩ := ReadByteRaw_spec c2
  unfold SerialChannel.ReadByte
  simp only [a1, b1, c1, d1, Bool.not_true, Bool.false_eq_true, if_false]
  cases S with
  | nil => simp [slipStep]; exact a2
  | cons b S' =>
    simp only [List.length_cons, Nat.add_one_ne_zero, if_false, List.headD_cons, slipStep]
    by_cases hb0 : b = 0xc0
    · simp only [hb0, if_true]; exact ⟨trivial, trivial, by simpa using b2⟩
    · simp only [hb0, if_false]
      by_cases hb1 : b = 0xdb
      · simp only [hb1, ne_eq, not_true_eq_false, if_false]
        cases S' with
        | nil => simp; simpa using c2
        | cons c S'' =>
          simp only [List.drop_succ_cons, List.drop_zero, List.length_cons, Nat.add_one_ne_zero,
            if_false, List.headD_cons]
          by_cases hc0 : c = 0xdc
          · simp only [hc0, if_true]; exact ⟨trivial, trivial, by simpa using d2⟩
          · simp only [hc0, if_false]
            by_cases hc1 : c = 0xdd
            · simp only [hc1, if_true]; exact ⟨trivial, trivial, by simpa using d2⟩
            · simp only [hc1, if_false]; exact ⟨trivial, trivial, by simpa using d2⟩
      · simp only [ne_eq, hb1, not_false_eq_true, if_true]
        exact ⟨trivial, trivial, by simpa using b2⟩

theorem sent_sent (ch : SerialChannel) (a b : List Nat) : (ch.sent a).sent b = ch.sent (a ++ b) := by
  simp [SerialChannel.sent, List.append_assoc]

theorem sent_nil (ch : SerialChannel) : ch.sent [] = ch := by
  cases ch with
  | mk port q => cases port; simp [SerialChannel.sent]

theorem WriteByte_slip (ch : SerialChannel) (b : Nat) :
    ch.WriteByte b true = ((slipEnc b).length, ch.sent (slipEnc b)) := by
  unfold SerialChannel.WriteByte slipEnc
  by_cases h0 : b = 0xc0
  · simp [h0, SerialChannel.Write, Port.SerialWrite, SerialChannel.sent]
  · by_cases h1 : b = 0xdb
    · simp [h1, SerialChannel.Write, Port.SerialWrite, SerialChannel.sent]
    · simp [h0, h1, SerialChannel.Write, Port.SerialWrite, SerialChannel.sent]

theorem WriteByte_raw (ch : SerialChannel) (b : Nat) :
    ch.WriteByte b false = (1, ch.sent [b]) := by
  simp [SerialChannel.WriteByte, SerialChannel.Write, Port.SerialWrite, SerialChannel.sent]

theorem slipEnc_length (b : Nat) : (slipEnc b).length = 1 ∨ (slipEnc b).length = 2 := by
  unfold slipEnc; split_ifs <;> simp

theorem writePacketLoop_spec (data : List Nat) : ∀ (len i : Nat) (ch : SerialChannel),
    i + len ≤ data.length →
    ESP.writePacketLoop data len i ch = (0, ch.sent (slipEncode ((data.drop i).take len)))
  | 0, i, ch, _ => by simp [ESP.writePacketLoop, slipEncode, sent_nil]
  | len + 1, i, ch, h => by
    have hi : i < data.length := by omega
    have hd : data.drop i = data[i] :: data.drop (i + 1) := List.drop_eq_getElem_cons hi
    have hg : data.getD i 0 = data[i] := by
      rw [List.getD_eq_getElem _ _ hi]
    rw [ESP.writePacketLoop]
    simp only [hg, WriteByte_slip]
    rw [if_neg (by rcases slipEnc_length data[i] with h1 | h1 <;> simp [h1])]
    rw [writePacketLoop_spec data len (i + 1) _ (by omega), sent_sent, hd, List.take_succ_cons]
    simp only [slipEncode, List.flatMap_cons]

theorem writePacketData_spec (ch : SerialChannel) (d : List Nat) (h : d ≠ []) :
    ESP.writePacketData ch (some d) d.length = (0, ch.sent (slipEncode d)) := by
  have hl : d.length ≠ 0 := by simpa using h
  simp only [ESP.writePacketData, if_neg hl]
  rw [writePacketLoop_spec d d.length 0 ch (by omega)]
  simp

theorem writeBlocks_spec : ∀ (blocks : List DataBlock_t) (ch : SerialChannel),
    (∀ b ∈ blocks, GoodBlock b) →
    ESP.writeBlocks blocks ch = (0, ch.sent (slipEncode (payloadOf blocks)))
  | [], ch, _ => by simp [ESP.writeBlocks, payloadOf, slipEncode, sent_nil]
  | b :: bs, ch, h => by
    obtain ⟨d, hd, hl, hne⟩ := h b (List.mem_cons_self _ _)
    rw [ESP.writeBlocks, hd, hl, writePacketData_spec ch d hne]
    simp only [ne_eq, not_true_eq_false, if_false]
    rw [writeBlocks_spec bs _ (fun x hx => h x (List.mem_cons_of_mem _ hx)), sent_sent]
    simp [payloadOf, slipEncode, hd, hl]

theorem writePacket_spec (ch : SerialChannel) (hdr : List Nat) (hh : hdr ≠ [])
    (blocks : List DataBlock_t) (h : ∀ b ∈ blocks, GoodBlock b) :
    ESP.writePacket ch hdr hdr.length blocks =
      (0, ch.sent ([0xc0] ++ slipEncode hdr ++ slipEncode (payloadOf blocks) ++ [0xc0])) := by
  have hl : hdr.length ≠ 0 := by simpa using hh
  unfold ESP.writePacket
  simp only [if_neg hl, WriteByte_raw, writePacketData_spec _ hdr hh, writeBlocks_spec blocks _ h,
    sent_sent]
  simp

theorem Flush_spec (ch : SerialChannel) (h : QInv ch.m_queue) :
    Chan ch.Flush [] ch.port.tx ch.port.script := by
  obtain ⟨h1, h2, h3⟩ := h
  refine ⟨⟨h1, ?_, h3⟩, ?_, rfl, rfl⟩
  · simp [SerialChannel.Flush, SerialQueue.Flush]
  · simp [SerialChannel.Flush, SerialQueue.Flush, SerialChannel.pend, SerialQueue.live,
      Port.SerialFlush]

theorem Chan_sent {ch : SerialChannel} {S tx : List Nat} {sc : List (List Nat)}
    (h : Chan ch S tx sc) (b : List Nat) : Chan (ch.sent b) S (tx ++ b) sc := by
  obtain ⟨h1, h2, h3, h4⟩ := h
  exact ⟨h1, h2, by simp [SerialChannel.sent, h3], h4⟩

theorem totalDataLen_good : ∀ (blocks : List DataBlock_t), (∀ b ∈ blocks, GoodBlock b) →
    ESP.totalDataLen blocks = (payloadOf blocks).length % 2 ^ 32
  | [], _ => rfl
  | b :: bs, h => by
    obtain ⟨d, hd, hl, _⟩ := h b (List.mem_cons_self _ _)
    have ih := totalDataLen_good bs (fun x hx => h x (List.mem_cons_of_mem _ hx))
    simp only [ESP.totalDataLen, hd, Option.isSome_some, if_true, ih, payloadOf,
      List.flatMap_cons, Option.getD_some, hl, List.take_length, List.length_append]
    simp only [payloadOf] at ih
    omega

theorem putData_1 (v : Nat) (h : v < 256) : putData v 1 = [v] := by
  simp only [putData, putDataLoop, and_ff]
  norm_num
  omega

theorem le16_mod (x : Nat) : le16 (x % 2 ^ 32) = le16 x := by
  simp only [le16]
  norm_num
  omega

theorem sendCommand_spec (esp : ESP) (op checkVal : Nat) (blocks : List DataBlock_t)
    (hop : op ≠ 0) (hop2 : op < 256) (hb : ∀ b ∈ blocks, GoodBlock b) :
    esp.sendCommand op checkVal blocks =
      (0, { esp with m_serial := esp.m_serial.Flush.sent (commandFrame op checkVal (payloadOf blocks)) }) := by
  have hhdr : putData 0 1 ++ putData op 1 ++ putData (ESP.totalDataLen blocks) 2 ++
      putData checkVal 4 = [0x00, op] ++ le16 (payloadOf blocks).length ++ le32 checkVal := by
    rw [putData_1 0 (by decide), putData_1 op hop2, putData_2, putData_4,
      totalDataLen_good blocks hb, le16_mod]
    rfl
  have hl : ([0x00, op] ++ le16 (payloadOf blocks).length ++ le32 checkVal).length = 8 := by
    simp [le16, le32]
  unfold ESP.sendCommand
  rw [if_pos hop]
  simp only [hhdr]
  rw [← hl, writePacket_spec _ _ (by simp) blocks hb]
  rfl

theorem slipStep_enc (b : Nat) (rest : List Nat) :
    slipStep (slipEnc b ++ rest) = (if b = 0xc0 ∨ b = 0xdb then 2 else 1, some b, rest) := by
  unfold slipEnc
  by_cases h0 : b = 0xc0
  · subst h0; simp [slipStep]
  · by_cases h1 : b = 0xdb
    · subst h1; simp [slipStep]
    · simp [h0, h1, slipStep]

theorem readBytes_encode : ∀ (s : List Nat) (r : SerialChannel) (rest tx : List Nat)
    (sc : List (List Nat)), Chan r (slipEncode s ++ rest) tx sc →
    (readBytes s.length r).1 = s ∧ Chan (readBytes s.length r).2 rest tx sc
  | [], r, rest, tx, sc, h => ⟨rfl, by simpa [slipEncode, readBytes] using h⟩
  | b :: s, r, rest, tx, sc, h => by
    have h' : Chan r (slipEnc b ++ (slipEncode s ++ rest)) tx sc := by
      simpa [slipEncode, List.append_assoc] using h
    obtain ⟨r1, r2, r3⟩ := ReadByte_slip h'
    rw [slipStep_enc] at r1 r2 r3
    simp only at r1 r2 r3
    obtain ⟨t1, t2⟩ := readBytes_encode s _ rest tx sc r3
    have hst : (r.ReadByte true).1 = 1 ∨ (r.ReadByte true).1 = 2 := by
      rw [r1]; split_ifs <;> simp
    simp only [List.length_cons, readBytes, if_pos hst, r2, Option.getD_some, t1]
    exact ⟨trivial, t2⟩

theorem emitted_byte (w : SerialChannel) (b : Nat) :
    (w.WriteByte b true).2.port.tx.drop w.port.tx.length = slipEnc b := by
  rw [WriteByte_slip]; simp [SerialChannel.sent]

theorem emitted_bytes (w : SerialChannel) (s : List Nat) :
    (ESP.writePacketLoop s s.length 0 w).2.port.tx.drop w.port.tx.length = slipEncode s := by
  rw [writePacketLoop_spec s s.length 0 w (by omega)]; simp [SerialChannel.sent]

/-- C5: the 1 or 2 bytes `WriteByte(b, true)` emits, fed to `ReadByte(data, true)`, deliver
`data = b`, are consumed exactly, and give status 1 when `b` is neither 0xC0 nor 0xDB and
2 otherwise; and decoding byte by byte what `WriteByte(·, true)` emits over a sequence `s`
yields `s`. -/
theorem C5_slip_roundtrip :
    (∀ (b : Nat) (w r : SerialChannel) (rest tx : List Nat) (sc : List (List Nat)),
      Chan r ((w.WriteByte b true).2.port.tx.drop w.port.tx.length ++ rest) tx sc →
      ((w.WriteByte b true).1 = 1 ∨ (w.WriteByte b true).1 = 2) ∧
      (w.WriteByte b true).1 = ((w.WriteByte b true).2.port.tx.drop w.port.tx.length).length ∧
      (r.ReadByte true).1 = (if b = 0xc0 ∨ b = 0xdb then 2 else 1) ∧
      (r.ReadByte true).2.1 = some b ∧
      (r.ReadByte true).2.2.pend = rest) ∧
    (∀ (s : List Nat) (w r : SerialChannel) (tx : List Nat) (sc : List (List Nat)),
      Chan r ((ESP.writePacketLoop s s.length 0 w).2.port.tx.drop w.port.tx.length) tx sc →
      (readBytes s.length r).1 = s ∧ (readBytes s.length r).2.pend = []) := by
  constructor
  · intro b w r rest tx sc h
    rw [emitted_byte] at h ⊢
    obtain ⟨r1, r2, r3⟩ := ReadByte_slip h
    rw [slipStep_enc] at r1 r2 r3
    rw [WriteByte_slip]
    exact ⟨slipEnc_length b, rfl, r1, r2, r3.2.1⟩
  · intro s w r tx sc h
    rw [emitted_bytes] at h
    have h' : Chan r (slipEncode s ++ []) tx sc := by simpa using h
    obtain ⟨t1, t2⟩ := readBytes_encode s r [] tx sc h'
    exact ⟨t1, t2.2.1⟩

theorem C5_slip_roundtrip_witness :
    Chan ⟨⟨[0xdb, 0xdc, 0x55], [], []⟩, SerialQueue.init⟩
      (((⟨⟨[], [], []⟩, SerialQueue.init⟩ : SerialChannel).WriteByte 0xc0 true).2.port.tx.drop 0
        ++ [0x55]) [] [] ∧
    ((⟨⟨[0xdb, 0xdc, 0x55], [], []⟩, SerialQueue.init⟩ : SerialChannel).ReadByte true).1 = 2 ∧
    ((⟨⟨[0xdb, 0xdc, 0x55], [], []⟩, SerialQueue.init⟩ : SerialChannel).ReadByte true).2.1
      = some 0xc0 :=
  ⟨by decide,
    (C5_slip_roundtrip.1 0xc0 ⟨⟨[], [], []⟩, SerialQueue.init⟩
      ⟨⟨[0xdb, 0xdc, 0x55], [], []⟩, SerialQueue.init⟩ [0x55] [] [] (by decide)).2.2.1,
    (C5_slip_roundtrip.1 0xc0 ⟨⟨[], [], []⟩, SerialQueue.init⟩
      ⟨⟨[0xdb, 0xdc, 0x55], [], []⟩, SerialQueue.init⟩ [0x55] [] [] (by decide)).2.2.2.1⟩

theorem slipEncode_cons (b : Nat) (s : List Nat) : slipEncode (b :: s) = slipEnc b ++ slipEncode s := by
  simp [slipEncode]

theorem slipEncode_no_c0 (s : List Nat) : 0xc0 ∉ slipEncode s := by
  intro h
  obtain ⟨b, _, hb⟩ := List.mem_flatMap.mp h
  unfold slipEnc at hb
  split_ifs at hb with h0 h1
  · simp at hb
  · simp at hb
  · simp at hb; exact h0 hb.symm

theorem slipEncode_escaped : ∀ (s : List Nat) (i : Nat), (slipEncode s)[i]? = some 0xdb →
    (slipEncode s)[i + 1]? = some 0xdc ∨ (slipEncode s)[i + 1]? = some 0xdd
  | [], i, h => by simp [slipEncode] at h
  | b :: s, i, h => by
    rw [slipEncode_cons] at h ⊢
    unfold slipEnc at h ⊢
    split_ifs at h ⊢ with h0 h1
    · match i with
      | 0 => left; simp
      | 1 => simp at h
      | j + 2 =>
        have h' : (slipEncode s)[j]? = some 0xdb := by simpa using h
        simpa using slipEncode_escaped s j h'
    · match i with
      | 0 => right; simp
      | 1 => simp at h
      | j + 2 =>
        have h' : (slipEncode s)[j]? = some 0xdb := by simpa using h
        simpa using slipEncode_escaped s j h'
    · match i with
      | 0 => simp at h; exact absurd h h1
      | j + 1 =>
        have h' : (slipEncode s)[j]? = some 0xdb := by simpa using h
        simpa using slipEncode_escaped s j h'

/-- C6: what `WriteByte(·, true)` emits over a byte sequence `s` is the concatenation of the
per-byte encodings (0xC0 gives DB DC, 0xDB gives DB DD, any other byte itself); it holds
no byte 0xC0, and every 0xDB in it is immediately followed by 0xDC or 0xDD. -/
theorem C6_slip_encoding_shape (s : List Nat) (w : SerialChannel) :
    (ESP.writePacketLoop s s.length 0 w).2.port.tx = w.port.tx ++ slipEncode s ∧
    slipEncode s = s.flatMap (fun b =>
      if b = 0xc0 then [0xdb, 0xdc] else if b = 0xdb then [0xdb, 0xdd] else [b]) ∧
    0xc0 ∉ slipEncode s ∧
    ∀ i, (slipEncode s)[i]? = some 0xdb →
      (slipEncode s)[i + 1]? = some 0xdc ∨ (slipEncode s)[i + 1]? = some 0xdd := by
  refine ⟨?_, rfl, slipEncode_no_c0 s, slipEncode_escaped s⟩
  rw [writePacketLoop_spec s s.length 0 w (by omega)]
  simp [SerialChannel.sent]

/-- C7, as stated, fails: a payload of one byte handed over as an empty block followed by a
one-byte block is not empty, yet `sendCommand` returns the parameter error and leaves the
frame open after the header. -/
theorem C7_empty_block_counterexample :
    ((demoEsp []).sendCommand 0x07 0 [⟨0, some []⟩, ⟨1, some [0x2a]⟩]).1 = ESP_ERROR_PARAM ∧
    ((demoEsp []).sendCommand 0x07 0 [⟨0, some []⟩, ⟨1, some [0x2a]⟩]).2.m_serial.port.tx =
      [0xc0, 0x00, 0x07, 0x01, 0x00, 0x00, 0x00, 0x00, 0x00] ∧
    payloadOf [⟨0, some []⟩, ⟨1, some [0x2a]⟩] = [0x2a] := by
  decide

/-- C7 (amended): for every `op ≠ 0`, check value and payload handed over as data blocks
that are each non-null and non-empty, `sendCommand` succeeds and writes to the port exactly
0xC0, the SLIP encoding of the header `{0x00, op, payload length u16 LE, check u32 LE}`,
the SLIP encoding of the payload (all blocks in order), 0xC0. -/
theorem C7_command_frame (esp : ESP) (op checkVal : Nat) (blocks : List DataBlock_t)
    (hop : op ≠ 0) (hop2 : op < 256) (hb : ∀ b ∈ blocks, GoodBlock b) :
    (esp.sendCommand op checkVal blocks).1 = 0 ∧
    (esp.sendCommand op checkVal blocks).2.m_serial.port.tx =
      esp.m_serial.port.tx ++ [0xc0] ++
        slipEncode ([0x00, op] ++ le16 (payloadOf blocks).length ++ le32 checkVal) ++
        slipEncode (payloadOf blocks) ++ [0xc0] := by
  rw [sendCommand_spec esp op checkVal blocks hop hop2 hb]
  refine ⟨rfl, ?_⟩
  simp [SerialChannel.sent, SerialChannel.Flush, SerialQueue.Flush, Port.SerialFlush,
    commandFrame, List.append_assoc]

theorem C7_command_frame_witness :
    ((0x0a : Nat) ≠ 0 ∧ (0x0a : Nat) < 256 ∧
      ∀ b ∈ [(⟨2, some [0xc0, 0x01]⟩ : DataBlock_t), ⟨1, some [0xdb]⟩], GoodBlock b) ∧
    ((demoEsp []).sendCommand 0x0a 0x11223344
        [⟨2, some [0xc0, 0x01]⟩, ⟨1, some [0xdb]⟩]).2.m_serial.port.tx =
      (demoEsp []).m_serial.port.tx ++ [0xc0] ++
        slipEncode ([0x00, 0x0a] ++ le16 (payloadOf
          [(⟨2, some [0xc0, 0x01]⟩ : DataBlock_t), ⟨1, some [0xdb]⟩]).length ++ le32 0x11223344) ++
        slipEncode (payloadOf [(⟨2, some [0xc0, 0x01]⟩ : DataBlock_t), ⟨1, some [0xdb]⟩]) ++
        [0xc0] :=
  ⟨⟨by decide, by decide, by decide⟩,
    (C7_command_frame (demoEsp []) 0x0a 0x11223344 [⟨2, some [0xc0, 0x01]⟩, ⟨1, some [0xdb]⟩]
      (by decide) (by decide) (by decide)).2⟩

/-! ## Lemmas: the response reader follows `pktRun` -/

theorem readPacketLoop_timeout (op : Nat) (wantVal wantBuf : Bool) (ms tickEnd fuel : Nat)
    (esp : ESP) (v : PktVars) (hv : v.state < PKT_DONE)
    (ht : esp.limited ms ∧ esp.ticks esp.tickCalls % 2 ^ 32 > tickEnd) :
    ∃ esp1, ESP.readPacketLoop op wantVal wantBuf ms tickEnd (fuel + 1) esp v =
      some (⟨ESP_ERROR_TIMEOUT, v.value, none⟩, esp1) := by
  have hl : ms ≠ 0 ∧ esp.diagCode &&& DIAG_NO_TIME_LIMIT = 0 := ht.1
  have e : (ms ≠ 0 ∧ esp.diagCode &&& DIAG_NO_TIME_LIMIT = 0) = True := eq_true hl
  have ht2 : esp.getTickCount.1 > tickEnd := ht.2
  refine ⟨esp.getTickCount.2, ?_⟩
  rw [ESP.readPacketLoop]
  simp only [hv, if_true, e, true_and]
  rw [if_pos ht2]

theorem readPacketLoop_step (op : Nat) (wantVal wantBuf : Bool) (ms tickEnd fuel : Nat)
    (esp : ESP) (v : PktVars) (S tx : List Nat) (sc : List (List Nat))
    (hC : Chan esp.m_serial S tx sc) (hv : v.state < PKT_DONE)
    (ht : ¬ (esp.limited ms ∧ esp.ticks esp.tickCalls % 2 ^ 32 > tickEnd)) :
    ∃ esp1, Chan esp1.m_serial (pktStepRest (pktStep op wantVal wantBuf S v)) tx sc ∧
      esp1.ticks = esp.ticks ∧ esp1.diagCode = esp.diagCode ∧
      esp1.tickCalls = esp.tickCalls + (if esp.limited ms then 1 else 0) ∧
      ESP.readPacketLoop op wantVal wantBuf ms tickEnd (fuel + 1) esp v =
        match pktStep op wantVal wantBuf S v with
        | .error r => some (r.1, esp1)
        | .ok r => ESP.readPacketLoop op wantVal wantBuf ms tickEnd fuel esp1 r.1 := by
  -- the state after the timer was consulted
  obtain ⟨espT, hT1, hT2, hT3, hT4, hT5⟩ : ∃ espT : ESP, espT.m_serial = esp.m_serial ∧
      espT.ticks = esp.ticks ∧ espT.diagCode = esp.diagCode ∧
      espT.tickCalls = esp.tickCalls + (if esp.limited ms then 1 else 0) ∧
      ESP.readPacketLoop op wantVal wantBuf ms tickEnd (fuel + 1) esp v =
        (let a := espT.BytesAvailable
         if a.1 < v.needBytes then readPacketLoop op wantVal wantBuf ms tickEnd fuel a.2 v
         else if v.state = PKT_BEGIN ∨ v.state = PKT_END then
           let r := a.2.m_serial.ReadByteRaw
           let esp2 := { a.2 with m_serial := r.2 }
           if r.1 ≠ 0xc0 then some (⟨ESP_ERROR_SLIP_FRAME, v.value, none⟩, esp2)
           else if v.state = PKT_BEGIN then
             readPacketLoop op wantVal wantBuf ms tickEnd fuel esp2 { v with state := PKT_HEADER, needBytes := 2 }
           else readPacketLoop op wantVal wantBuf ms tickEnd fuel esp2 { v with state := PKT_DONE }
         else if v.state = PKT_HEADER ∨ v.state = PKT_BODY then
           let r := a.2.m_serial.ReadByte true
           let esp2 := { a.2 with m_serial := r.2.2 }
           if r.1 ≠ 1 ∧ r.1 ≠ 2 then
             some (⟨if r.1 = 0 ∨ r.1 = -2 then ESP_ERROR_SLIP_DATA else ESP_ERROR_SLIP_FRAME, v.value, none⟩, esp2)
           else
             match storeByte op wantVal wantBuf v (r.2.1.getD 0) with
             | .error res => some (res, esp2)
             | .ok v' => readPacketLoop op wantVal wantBuf ms tickEnd fuel esp2 v'
         else some (⟨ESP_ERROR_SLIP_STATE, v.value, none⟩, a.2)) := by
    by_cases hl : esp.limited ms
    · have hl' : ms ≠ 0 ∧ esp.diagCode &&& DIAG_NO_TIME_LIMIT = 0 := hl
      have e : (ms ≠ 0 ∧ esp.diagCode &&& DIAG_NO_TIME_LIMIT = 0) = True := eq_true hl'
      have hnt : ¬ (esp.getTickCount.1 > tickEnd) := fun h => ht ⟨hl, h⟩
      refine ⟨esp.getTickCount.2, rfl, rfl, rfl, by simp [ESP.getTickCount, hl], ?_⟩
      rw [ESP.readPacketLoop]
      simp only [hv, if_true, e, true_and]
      rw [if_neg hnt]
      try rfl
    · have hl' : ¬ (ms ≠ 0 ∧ esp.diagCode &&& DIAG_NO_TIME_LIMIT = 0) := hl
      have e : (ms ≠ 0 ∧ esp.diagCode &&& DIAG_NO_TIME_LIMIT = 0) = False := eq_false hl'
      refine ⟨esp, rfl, rfl, rfl, by simp [hl], ?_⟩
      rw [ESP.readPacketLoop]
      simp only [hv, if_true, e, if_false, false_and]
      try rfl
  rw [hT5]
  have hC' : Chan espT.m_serial S tx sc := by rw [hT1]; exact hC
  obtain ⟨a1, a2, _⟩ := Available_spec hC'
  have hA1 : espT.BytesAvailable.1 = S.length := a1
  have hA2 : Chan espT.BytesAvailable.2.m_serial S tx sc := a2
  have hA3 : espT.BytesAvailable.2.ticks = esp.ticks := hT2
  have hA4 : espT.BytesAvailable.2.diagCode = esp.diagCode := hT3
  have hA5 : espT.BytesAvailable.2.tickCalls = esp.tickCalls + (if esp.limited ms then 1 else 0) := hT4
  generalize espT.BytesAvailable = a at hA1 hA2 hA3 hA4 hA5
  simp only []
  by_cases h1 : S.length < v.needBytes
  · refine ⟨a.2, ?_, hA3, hA4, hA5, ?_⟩
    · simp only [pktStep, if_pos h1, pktStepRest]; exact hA2
    · rw [hA1]; simp only [pktStep, if_pos h1]
  by_cases h2 : v.state = PKT_BEGIN ∨ v.state = PKT_END
  · obtain ⟨r1, r2⟩ := ReadByteRaw_spec hA2
    refine ⟨{ a.2 with m_serial := a.2.m_serial.ReadByteRaw.2 }, ?_, hA3, hA4, hA5, ?_⟩
    · simp only [pktStep, if_neg h1, if_pos h2]
      split_ifs <;> exact r2
    · rw [hA1, r1]; simp only [pktStep, if_neg h1, if_pos h2]
      split_ifs <;> rfl
  by_cases h3 : v.state = PKT_HEADER ∨ v.state = PKT_BODY
  · obtain ⟨r1, r2, r3⟩ := ReadByte_slip hA2
    refine ⟨{ a.2 with m_serial := (a.2.m_serial.ReadByte true).2.2 }, ?_, hA3, hA4, hA5, ?_⟩
    · have : pktStepRest (pktStep op wantVal wantBuf S v) = (slipStep S).2.2 := by
        simp only [pktStep, if_neg h1, if_neg h2, if_pos h3]
        split_ifs <;> first
          | rfl
          | (generalize ESP.storeByte op wantVal wantBuf v ((slipStep S).2.1.getD 0) = x
             cases x <;> rfl)
      rw [this]; exact r3
    · rw [hA1, r1, r2]; simp only [pktStep, if_neg h1, if_neg h2, if_pos h3]
      split_ifs <;> first
        | rfl
        | (generalize ESP.storeByte op wantVal wantBuf v ((slipStep S).2.1.getD 0) = x
           cases x <;> rfl)
  · refine ⟨a.2, ?_, hA3, hA4, hA5, ?_⟩
    · simp only [pktStep, if_neg h1, if_neg h2, if_neg h3, pktStepRest]; exact hA2
    · rw [hA1]; simp only [pktStep, if_neg h1, if_neg h2, if_neg h3]

theorem limited_congr {e1 e2 : ESP} (ms : Nat) (h : e1.diagCode = e2.diagCode) :
    e1.limited ms ↔ e2.limited ms := by
  unfold ESP.limited; rw [h]

theorem readPacketLoop_fwd (op : Nat) (wantVal wantBuf : Bool) (ms tickEnd : Nat) (tx : List Nat)
    (sc : List (List Nat)) : ∀ (fuel : Nat) (esp : ESP) (v : PktVars) (S : List Nat)
    (r : PktResult) (S' : List Nat), Chan esp.m_serial S tx sc → esp.quiet ms tickEnd →
    pktRun op wantVal wantBuf fuel S v = some (r, S') →
    ∃ esp1, ESP.readPacketLoop op wantVal wantBuf ms tickEnd fuel esp v = some (r, esp1) ∧
      Chan esp1.m_serial S' tx sc ∧ esp1.ticks = esp.ticks ∧ esp1.diagCode = esp.diagCode
  | 0, _, _, _, _, _, _, _, h => by simp [pktRun] at h
  | fuel + 1, esp, v, S, r, S', hC, hq, h => by
    by_cases hv : v.state < PKT_DONE
    · have ht : ¬ (esp.limited ms ∧ esp.ticks esp.tickCalls % 2 ^ 32 > tickEnd) := by
        rintro ⟨h1, h2⟩
        have := hq h1 esp.tickCalls
        omega
      obtain ⟨esp1, c1, c2, c3, _, c5⟩ :=
        readPacketLoop_step op wantVal wantBuf ms tickEnd fuel esp v S tx sc hC hv ht
      rw [c5]
      simp only [pktRun, if_pos hv] at h
      cases hp : pktStep op wantVal wantBuf S v with
      | error x =>
        rw [hp] at h c1
        simp only [Option.some.injEq] at h
        subst h
        exact ⟨esp1, rfl, c1, c2, c3⟩
      | ok x =>
        rw [hp] at h c1
        have hq1 : esp1.quiet ms tickEnd := by
          intro hl k
          rw [c2]
          exact hq ((limited_congr ms c3).1 hl) k
        obtain ⟨esp2, d1, d2, d3, d4⟩ :=
          readPacketLoop_fwd op wantVal wantBuf ms tickEnd tx sc fuel esp1 x.1 x.2 r S' c1 hq1 h
        exact ⟨esp2, d1, d2, d3.trans c2, d4.trans c3⟩
    · simp only [pktRun, if_neg hv, Option.some.injEq, Prod.mk.injEq] at h
      obtain ⟨h1, h2⟩ := h
      subst h1 h2
      refine ⟨esp, ?_, hC, rfl, rfl⟩
      rw [ESP.readPacketLoop, if_neg hv]

theorem readPacketLoop_bwd (op : Nat) (wantVal wantBuf : Bool) (ms tickEnd : Nat) (tx : List Nat)
    (sc : List (List Nat)) : ∀ (fuel : Nat) (esp : ESP) (v : PktVars) (S : List Nat)
    (r : PktResult) (esp' : ESP), Chan esp.m_serial S tx sc →
    ESP.readPacketLoop op wantVal wantBuf ms tickEnd fuel esp v = some (r, esp') →
    r.stat = ESP_ERROR_TIMEOUT ∨
      ∃ S', pktRun op wantVal wantBuf fuel S v = some (r, S') ∧ Chan esp'.m_serial S' tx sc
  | 0, _, _, _, _, _, _, h => by simp [ESP.readPacketLoop] at h
  | fuel + 1, esp, v, S, r, esp', hC, h => by
    by_cases hv : v.state < PKT_DONE
    · by_cases ht : esp.limited ms ∧ esp.ticks esp.tickCalls % 2 ^ 32 > tickEnd
      · obtain ⟨e1, he⟩ := readPacketLoop_timeout op wantVal wantBuf ms tickEnd fuel esp v hv ht
        rw [he] at h
        simp only [Option.some.injEq, Prod.mk.injEq] at h
        left
        rw [← h.1]
      · obtain ⟨esp1, c1, _, _, _, c5⟩ :=
          readPacketLoop_step op wantVal wantBuf ms tickEnd fuel esp v S tx sc hC hv ht
        rw [c5] at h
        simp only [pktRun, if_pos hv]
        cases hp : pktStep op wantVal wantBuf S v with
        | error x =>
          rw [hp] at h c1
          simp only [Option.some.injEq, Prod.mk.injEq] at h
          obtain ⟨h1, h2⟩ := h
          subst h1 h2
          exact Or.inr ⟨x.2, rfl, c1⟩
        | ok x =>
          rw [hp] at h c1
          exact readPacketLoop_bwd op wantVal wantBuf ms tickEnd tx sc fuel esp1 x.1 x.2 r esp' c1 h
    · rw [ESP.readPacketLoop, if_neg hv] at h
      simp only [Option.some.injEq, Prod.mk.injEq] at h
      obtain ⟨h1, h2⟩ := h
      subst h1 h2
      right
      exact ⟨S, by simp only [pktRun, if_neg hv], hC⟩

/-! ## Lemmas: `pktRun` on a response frame, and what a success says about the bytes -/

theorem slipEnc_ne_nil (b : Nat) : slipEnc b ≠ [] := by
  unfold slipEnc; split_ifs <;> simp

theorem slipEnc_length_pos (b : Nat) : 1 ≤ (slipEnc b).length := by
  unfold slipEnc; split_ifs <;> simp

theorem pktRun_begin (op : Nat) (wantVal wantBuf : Bool) (n : Nat) (rest : List Nat) (v : PktVars)
    (hs : v.state = PKT_BEGIN) (hn : v.needBytes = 1) :
    pktRun op wantVal wantBuf (n + 1) (0xc0 :: rest) v =
      pktRun op wantVal wantBuf n rest { v with state := PKT_HEADER, needBytes := 2 } := by
  simp [pktRun, pktStep, hs, hn, PKT_BEGIN, PKT_DONE]

theorem pktRun_end (op : Nat) (wantVal wantBuf : Bool) (n : Nat) (rest : List Nat) (v : PktVars)
    (hs : v.state = PKT_END) (hn : v.needBytes = 1) :
    pktRun op wantVal wantBuf (n + 2) (0xc0 :: rest) v =
      some (finishPacket wantBuf { v with state := PKT_DONE }, rest) := by
  simp [pktRun, pktStep, hs, hn, PKT_BEGIN, PKT_END, PKT_DONE]

theorem pktRun_byte (op : Nat) (wantVal wantBuf : Bool) (n b : Nat) (rest : List Nat) (v : PktVars)
    (hs : v.state = PKT_HEADER ∨ v.state = PKT_BODY) (hn : v.needBytes = 2) (hr : rest ≠ []) :
    pktRun op wantVal wantBuf (n + 1) (slipEnc b ++ rest) v =
      match storeByte op wantVal wantBuf v b with
      | .error res => some (res, rest)
      | .ok v' => pktRun op wantVal wantBuf n rest v' := by
  have hlen : ¬ (slipEnc b ++ rest).length < 2 := by
    have := slipEnc_length_pos b
    have : 1 ≤ rest.length := by
      cases rest with
      | nil => exact absurd rfl hr
      | cons a l => simp
    rw [List.length_append]; omega
  have hlt : v.state < PKT_DONE := by
    rcases hs with h | h <;> rw [h] <;> decide
  have hne : ¬ (v.state = PKT_BEGIN ∨ v.state = PKT_END) := by
    rcases hs with h | h <;> rw [h] <;> decide
  rw [pktRun, if_pos hlt]
  simp only [pktStep, hn, if_neg hlen, if_neg hne, if_pos hs, slipStep_enc]
  have h12 : ¬ ((if b = 0xc0 ∨ b = 0xdb then (2 : Int) else 1) ≠ 1 ∧
      (if b = 0xc0 ∨ b = 0xdb then (2 : Int) else 1) ≠ 2) := by
    split_ifs <;> simp
  rw [if_neg h12]
  simp only [Option.getD_some]
  generalize storeByte op wantVal wantBuf v b = x
  cases x <;> rfl

theorem append_ne_nil_right (l : List Nat) (a : Nat) (r : List Nat) : l ++ a :: r ≠ [] := by
  simp

theorem getData_1 (l : List Nat) (i : Nat) : getData 1 l i = l.getD i 0 % 2 ^ 32 := by
  simp [getData, getDataLoop]

theorem getData_2 (l : List Nat) (i : Nat) :
    getData 2 l i = (l.getD i 0 % 2 ^ 32) ||| ((l.getD (i + 1) 0 <<< 8) % 2 ^ 32) := by
  simp [getData, getDataLoop]

theorem pktRun_frame (op : Nat) (wantVal : Bool) (a b c d : Nat) (tail : List Nat) (k : Nat)
    (hop : op < 256) :
    pktRun op wantVal false (k + 13)
        (0xc0 :: (slipEncode [1, op, 2, 0, a, b, c, d] ++ (0 :: 0 :: 0xc0 :: tail))) pktInit =
      some (⟨2, if wantVal then some (getData 4 [1, op, 2, 0, a, b, c, d] 4) else none, none⟩,
        tail) := by
  rw [pktRun_begin _ _ _ _ _ _ rfl rfl]
  simp only [slipEncode, List.flatMap_cons, List.flatMap_nil, List.append_assoc, List.nil_append]
  have e0 : (0 : Nat) :: 0 :: 0xc0 :: tail = slipEnc 0 ++ (slipEnc 0 ++ 0xc0 :: tail) := by
    simp [slipEnc]
  rw [e0]
  have h1 : getData 1 [1, op, 2, 0, a, b, c, d] 0 % 256 = 1 := by
    rw [getData_1]; rfl
  have h2 : getData 1 [1, op, 2, 0, a, b, c, d] 1 % 256 = op := by
    rw [getData_1]; simp only [List.getD_cons_succ, List.getD_cons_zero]; omega
  have h3 : getData 2 [1, op, 2, 0, a, b, c, d] 2 % 65536 = 2 := by
    rw [getData_2]; simp only [List.getD_cons_succ, List.getD_cons_zero]; decide
  simp [pktRun_byte, slipEnc_ne_nil, storeByte, pktInit, HDR_LEN, PKT_HEADER, PKT_BODY, PKT_END,
    PKT_BEGIN, h1, h2, h3, pktRun_end, finishPacket]

theorem slipStep_inv (S : List Nat) (h : (slipStep S).1 = 1 ∨ (slipStep S).1 = 2) :
    ∃ c, (slipStep S).2.1 = some c ∧ S = slipEnc c ++ (slipStep S).2.2 := by
  cases S with
  | nil => simp [slipStep] at h
  | cons b S =>
    by_cases h0 : b = 0xc0
    · simp [slipStep, h0] at h
    · by_cases h1 : b = 0xdb
      · subst h1
        cases S with
        | nil => simp [slipStep] at h
        | cons c S =>
          by_cases h2 : c = 0xdc
          · subst h2; exact ⟨0xc0, by simp [slipStep], by simp [slipStep, slipEnc]⟩
          · by_cases h3 : c = 0xdd
            · subst h3; exact ⟨0xdb, by simp [slipStep], by simp [slipStep, slipEnc]⟩
            · simp [slipStep, h2, h3] at h
      · exact ⟨b, by simp [slipStep, h0, h1], by simp [slipStep, slipEnc, h0, h1]⟩

theorem slipEncode_append (a b : List Nat) : slipEncode (a ++ b) = slipEncode a ++ slipEncode b := by
  simp [slipEncode]

theorem slipEncode_single (c : Nat) : slipEncode [c] = slipEnc c := by
  simp [slipEncode]

theorem pktStep_inv (op : Nat) (wantVal wantBuf : Bool) (reply S : List Nat) (v : PktVars)
    (hI : PktInv op reply S v) (hv : v.state < PKT_DONE) :
    match pktStep op wantVal wantBuf S v with
    | .error r => r.1.stat < 0
    | .ok r => PktInv op reply r.2 r.1 := by
  unfold pktStep
  by_cases h1 : S.length < v.needBytes
  · rw [if_pos h1]; exact hI
  rw [if_neg h1]
  rcases hI with ⟨hs, i1, i2, i3⟩ | ⟨hs, i1, i2, i3⟩ | ⟨hs, i0, i1, i2⟩ | ⟨hs, i0, i1, i2⟩ |
    ⟨hs, _⟩
  · -- PKT_BEGIN
    rw [if_pos (Or.inl hs)]
    by_cases hc : S.headD 0 ≠ 0xc0
    · rw [if_pos hc]; show (ESP_ERROR_SLIP_FRAME : Int) < 0; decide
    · rw [if_neg hc, if_pos hs]
      right; left
      refine ⟨rfl, ?_, by simp [i2], i3⟩
      cases S with
      | nil => simp at hc
      | cons b S' =>
        simp only [List.headD_cons, ne_eq, not_not] at hc
        simp [i2, slipEncode, ← i1, hc]
  · -- PKT_HEADER
    have hne : ¬ (v.state = PKT_BEGIN ∨ v.state = PKT_END) := by rw [hs]; decide
    rw [if_neg hne, if_pos (Or.inl hs)]
    by_cases hc : (slipStep S).1 ≠ 1 ∧ (slipStep S).1 ≠ 2
    · rw [if_pos hc]
      show (if _ then ESP_ERROR_SLIP_DATA else ESP_ERROR_SLIP_FRAME : Int) < 0
      split_ifs <;> decide
    · rw [if_neg hc]
      obtain ⟨c, hc1, hc2⟩ := slipStep_inv S (by
        by_cases h : (slipStep S).1 = 1
        · exact Or.inl h
        · exact Or.inr (not_not.mp fun h2 => hc ⟨h, h2⟩))
      have hrep : reply = 0xc0 :: (slipEncode (v.hdr ++ [c]) ++ (slipStep S).2.2) := by
        rw [i1, slipEncode_append, slipEncode_single, List.append_assoc, ← hc2]
      rw [hc1]
      simp only [Option.getD_some, storeByte, if_pos hs]
      by_cases hl : (v.hdr ++ [c]).length ≥ HDR_LEN
      · rw [if_pos hl]
        have hl8 : (v.hdr ++ [c]).length = 8 := by
          have : (v.hdr ++ [c]).length = v.hdr.length + 1 := by simp
          unfold HDR_LEN at hl
          omega
        by_cases hr : getData 1 (v.hdr ++ [c]) 0 % 256 ≠ 0x01 ∨
            (op ≠ 0 ∧ getData 1 (v.hdr ++ [c]) 1 % 256 ≠ op)
        · rw [if_pos hr]; show (ESP_ERROR_RESP_HDR : Int) < 0; decide
        · rw [if_neg hr]
          have hr1 : getData 1 (v.hdr ++ [c]) 0 % 256 = 1 := by
            by_contra h; exact hr (Or.inl h)
          have hr2 : op = 0 ∨ getData 1 (v.hdr ++ [c]) 1 % 256 = op := by
            by_cases h0 : op = 0
            · exact Or.inl h0
            · right; by_contra h; exact hr (Or.inr ⟨h0, h⟩)
          by_cases hb : getData 2 (v.hdr ++ [c]) 2 % 2 ^ 16 ≠ 0
          · rw [if_pos hb]
            right; right; left
            refine ⟨rfl, ⟨hl8, hr1, hr2, rfl, rfl⟩, ?_, ?_⟩
            · simpa [i3, slipEncode] using hrep
            · simp only [i3, List.length_nil]; omega
          · rw [if_neg hb]
            right; right; right; left
            refine ⟨rfl, ⟨hl8, hr1, hr2, rfl, rfl⟩, ?_, ?_⟩
            · simpa [i3, slipEncode] using hrep
            · simp only [i3, List.length_nil]; omega
      · rw [if_neg hl]
        right; left
        refine ⟨hs, hrep, ?_, i3⟩
        show (v.hdr ++ [c]).length < 8
        unfold HDR_LEN at hl
        omega
  · -- PKT_BODY
    have hne : ¬ (v.state = PKT_BEGIN ∨ v.state = PKT_END) := by rw [hs]; decide
    have hnh : ¬ v.state = PKT_HEADER := by rw [hs]; decide
    rw [if_neg hne, if_pos (Or.inr hs)]
    by_cases hc : (slipStep S).1 ≠ 1 ∧ (slipStep S).1 ≠ 2
    · rw [if_pos hc]
      show (if _ then ESP_ERROR_SLIP_DATA else ESP_ERROR_SLIP_FRAME : Int) < 0
      split_ifs <;> decide
    · rw [if_neg hc]
      obtain ⟨c, hc1, hc2⟩ := slipStep_inv S (by
        by_cases h : (slipStep S).1 = 1
        · exact Or.inl h
        · exact Or.inr (not_not.mp fun h2 => hc ⟨h, h2⟩))
      have hrep : reply = 0xc0 :: (slipEncode v.hdr ++ (slipEncode (v.body ++ [c]) ++
          (slipStep S).2.2)) := by
        rw [i1, slipEncode_append, slipEncode_single, List.append_assoc, ← hc2]
      rw [hc1]
      simp only [Option.getD_some, storeByte, if_neg hnh]
      have hlen : (v.body ++ [c]).length = v.body.length + 1 := by simp
      by_cases hl : (v.body ++ [c]).length ≥ v.bodyLen
      · rw [if_pos hl]
        right; right; right; left
        exact ⟨rfl, i0, hrep, by show (v.body ++ [c]).length = v.bodyLen; omega⟩
      · rw [if_neg hl]
        right; right; left
        exact ⟨hs, i0, hrep, by show (v.body ++ [c]).length < v.bodyLen; omega⟩
  · -- PKT_END
    have hnb : ¬ v.state = PKT_BEGIN := by rw [hs]; decide
    rw [if_pos (Or.inr hs)]
    by_cases hc : S.headD 0 ≠ 0xc0
    · rw [if_pos hc]; show (ESP_ERROR_SLIP_FRAME : Int) < 0; decide
    · rw [if_neg hc, if_neg hnb]
      right; right; right; right
      refine ⟨rfl, i0, ?_, i2⟩
      cases S with
      | nil => simp at hc
      | cons b S' =>
        simp only [List.headD_cons, ne_eq, not_not] at hc
        rw [i1, hc]; rfl
  · rw [hs] at hv; exact absurd hv (by decide)

theorem pktRun_inv (op : Nat) (wantVal : Bool) (reply : List Nat) : ∀ (n : Nat) (S : List Nat)
    (v : PktVars) (r : PktResult) (S' : List Nat), PktInv op reply S v →
    pktRun op wantVal false n S v = some (r, S') → r.stat = 2 →
    ∃ hdr, hdr.length = 8 ∧ getData 1 hdr 0 % 256 = 1 ∧ (op = 0 ∨ getData 1 hdr 1 % 256 = op) ∧
      getData 2 hdr 2 % 2 ^ 16 = 2 ∧ reply = 0xc0 :: (slipEncode hdr ++ (0 :: 0 :: 0xc0 :: S'))
  | 0, _, _, _, _, _, h, _ => by simp [pktRun] at h
  | n + 1, S, v, r, S', hI, h, hr => by
    by_cases hv : v.state < PKT_DONE
    · have hstep := pktStep_inv op wantVal false reply S v hI hv
      simp only [pktRun, if_pos hv] at h
      cases hp : pktStep op wantVal false S v with
      | error x =>
        rw [hp] at h hstep
        simp only [Option.some.injEq] at h
        subst h
        have : r.stat < 0 := hstep
        omega
      | ok x =>
        rw [hp] at h hstep
        exact pktRun_inv op wantVal reply n x.2 x.1 r S' hstep h hr
    · simp only [pktRun, if_neg hv, Option.some.injEq, Prod.mk.injEq] at h
      obtain ⟨h1, h2⟩ := h
      subst h1 h2
      rcases hI with ⟨hs, _⟩ | ⟨hs, _⟩ | ⟨hs, _⟩ | ⟨hs, _⟩ | ⟨hs, ⟨k1, k2, k3, k4, k5⟩, i1, i2⟩
      · rw [hs] at hv; exact absurd (by decide) hv
      · rw [hs] at hv; exact absurd (by decide) hv
      · rw [hs] at hv; exact absurd (by decide) hv
      · rw [hs] at hv; exact absurd (by decide) hv
      · simp only [finishPacket, Bool.false_eq_true, if_false] at hr
        split_ifs at hr with hc
        · simp at hr
        · simp only [not_or, not_not] at hc
          obtain ⟨_, c2, c3, c4⟩ := hc
          have hb : v.body = [0, 0] := by
            rw [c2] at i2
            match hbd : v.body, i2 with
            | [x, y], _ =>
              rw [hbd] at c3 c4
              simp only [List.getD_cons_zero, List.getD_cons_succ] at c3 c4
              rw [c3, c4]
          refine ⟨v.hdr, k1, k2, k3, by rw [← k4, c2], ?_⟩
          rw [i1, hb]
          rfl

theorem mem_slipEncode_lt (l : List Nat) (h : ∀ x ∈ slipEncode l, x < 256) : ∀ c ∈ l, c < 256 := by
  intro c hc
  by_cases h0 : c = 0xc0
  · rw [h0]; decide
  · by_cases h1 : c = 0xdb
    · rw [h1]; decide
    · apply h
      simp only [slipEncode, List.mem_flatMap]
      exact ⟨c, hc, by simp [slipEnc, h0, h1]⟩

theorem hdr_bytes (op : Nat) (hdr : List Nat) (hl : hdr.length = 8) (hb : ∀ c ∈ hdr, c < 256)
    (h1 : getData 1 hdr 0 % 256 = 1) (h2 : getData 1 hdr 1 % 256 = op)
    (h3 : getData 2 hdr 2 % 2 ^ 16 = 2) : ∃ a b c d, hdr = [1, op, 2, 0, a, b, c, d] := by
  match hdr, hl with
  | [x0, x1, x2, x3, a, b, c, d], _ =>
    have b0 : x0 < 256 := hb x0 (by simp)
    have b1 : x1 < 256 := hb x1 (by simp)
    have b2 : x2 < 256 := hb x2 (by simp)
    have b3 : x3 < 256 := hb x3 (by simp)
    rw [getData_1] at h1 h2
    rw [getData_2] at h3
    simp only [List.getD_cons_zero, List.getD_cons_succ] at h1 h2 h3
    have e3 : (x3 <<< 8) % 2 ^ 32 = x3 <<< 8 := by
      rw [Nat.shiftLeft_eq]; omega
    have e2 : x2 % 2 ^ 32 = x2 := by omega
    rw [e3, e2, or_shiftLeft_of_lt x3 (by omega : x2 < 2 ^ 8)] at h3
    refine ⟨a, b, c, d, ?_⟩
    have f0 : x0 = 1 := by omega
    have f1 : x1 = op := by omega
    have f2 : x2 = 2 := by omega
    have f3 : x3 = 0 := by omega
    rw [f0, f1, f2, f3]

/-! ## Lemmas: `doCommand` -/

theorem Chan_answer {ch : SerialChannel} {S tx r : List Nat} {sc : List (List Nat)}
    (h : Chan ch S tx (r :: sc)) :
    Chan { ch with port := ch.port.answer } (S ++ r) tx sc := by
  obtain ⟨h1, h2, h3, h4⟩ := h
  refine ⟨h1, ?_, ?_, ?_⟩
  · simp only [SerialChannel.pend, Port.answer, h4] at h2 ⊢
    rw [← h2, List.append_assoc]
  · simp only [Port.answer, h4]; exact h3
  · simp only [Port.answer, h4]

theorem doCommand_sent (esp : ESP) (fuel op : Nat) (blocks : List DataBlock_t)
    (checkVal : Nat) (wantVal : Bool) (ms : Nat) (reply : List Nat) (rest : List (List Nat))
    (hop : op ≠ 0) (hop2 : op < 256) (hb : ∀ b ∈ blocks, GoodBlock b)
    (hq : QInv esp.m_serial.m_queue) (hs : esp.m_serial.port.script = reply :: rest) :
    ∃ espR : ESP, Chan espR.m_serial reply
        (esp.m_serial.port.tx ++ commandFrame op checkVal (payloadOf blocks)) rest ∧
      espR.ticks = esp.ticks ∧ espR.diagCode = esp.diagCode ∧
      esp.doCommand fuel op blocks checkVal wantVal ms =
        match ESP.readPacketLoop op wantVal false ms
            ((esp.ticks esp.tickCalls % 2 ^ 32 + ms) % 2 ^ 32) fuel espR pktInit with
        | none => none
        | some x => some (if x.1.stat = 2 then ESP_SUCCESS else ESP_ERROR_REPLY, x.1.value, x.2) := by
  have hC := Chan_answer (Chan_sent (hs ▸ Flush_spec esp.m_serial hq)
    (commandFrame op checkVal (payloadOf blocks)))
  let es : ESP := { esp with m_serial := esp.m_serial.Flush.sent (commandFrame op checkVal (payloadOf blocks)) }
  refine ⟨es.deviceAnswers.getTickCount.2, by simpa using hC, rfl, rfl, ?_⟩
  unfold ESP.doCommand
  rw [sendCommand_spec esp op checkVal blocks hop hop2 hb]
  simp only [if_true]
  unfold ESP.readPacket
  show (match ESP.readPacketLoop op wantVal false ms ((esp.ticks esp.tickCalls % 2 ^ 32 + ms) % 2 ^ 32)
      fuel es.deviceAnswers.getTickCount.2 pktInit with
    | none => none
    | some (r, esp2) => some (if r.stat = 2 then ESP_SUCCESS else ESP_ERROR_REPLY, r.value, esp2)) = _
  generalize ESP.readPacketLoop op wantVal false ms ((esp.ticks esp.tickCalls % 2 ^ 32 + ms) % 2 ^ 32)
      fuel es.deviceAnswers.getTickCount.2 pktInit = y
  cases y with
  | none => rfl
  | some x => rfl

theorem replyFrame_append (op a b c d : Nat) (tail : List Nat) :
    replyFrame op a b c d ++ tail =
      0xc0 :: (slipEncode [1, op, 2, 0, a, b, c, d] ++ (0 :: 0 :: 0xc0 :: tail)) := by
  simp [replyFrame]

theorem doCommand_ok (esp : ESP) (fuel op : Nat) (blocks : List DataBlock_t)
    (checkVal : Nat) (wantVal : Bool) (ms a b c d : Nat) (tail : List Nat)
    (rest : List (List Nat))
    (hop : op ≠ 0) (hop2 : op < 256) (hb : ∀ b ∈ blocks, GoodBlock b)
    (hq : QInv esp.m_serial.m_queue)
    (hs : esp.m_serial.port.script = (replyFrame op a b c d ++ tail) :: rest)
    (ht : esp.inTime ms) (hf : 13 ≤ fuel) :
    ∃ val e, esp.doCommand fuel op blocks checkVal wantVal ms = some (ESP_SUCCESS, val, e) ∧
      Chan e.m_serial tail (esp.m_serial.port.tx ++ commandFrame op checkVal (payloadOf blocks))
        rest ∧ e.ticks = esp.ticks ∧ e.diagCode = esp.diagCode ∧
      e.m_serial.port.tx = esp.m_serial.port.tx ++ commandFrame op checkVal (payloadOf blocks) := by
  obtain ⟨espR, hC, e1, e2, hd⟩ :=
    doCommand_sent esp fuel op blocks checkVal wantVal ms _ rest hop hop2 hb hq hs
  have hquiet : espR.quiet ms ((esp.ticks esp.tickCalls % 2 ^ 32 + ms) % 2 ^ 32) := by
    intro hl k
    rw [e1]
    exact ht ((limited_congr ms e2).1 hl) esp.tickCalls k
  obtain ⟨k, rfl⟩ : ∃ k, fuel = k + 13 := ⟨fuel - 13, by omega⟩
  have hrun := pktRun_frame op wantVal a b c d tail k hop2
  rw [← replyFrame_append] at hrun
  obtain ⟨e, r1, r2, r3, r4⟩ := readPacketLoop_fwd op wantVal false ms _ _ rest (k + 13) espR
    pktInit _ _ tail hC hquiet hrun
  refine ⟨if wantVal then some (getData 4 [1, op, 2, 0, a, b, c, d] 4) else none, e, ?_, r2,
    r3.trans e1, r4.trans e2, r2.2.2.1⟩
  rw [hd, r1]
  rfl

/-- C8, as stated, fails: command op 0 is answered by a frame whose header carries op 5, and
`doCommand` returns success. -/
theorem C8_any_op_counterexample :
    ((demoEsp [okReply 5]).doCommand 20 0 [] 0 true).map (fun r => r.1) = some ESP_SUCCESS ∧
    okReply 5 = [0xc0] ++ slipEncode [1, 5, 2, 0, 0x78, 0x56, 0x34, 0x12] ++ [0, 0, 0xc0] := by
  decide

/-- C8 (amended): for a command op other than 0 whose request goes out, when the device
answers at once with the bytes `reply` and no deadline is passed, `doCommand` returns
success if and only if `reply` begins with 0xC0, the SLIP encoding of the 8-byte header
`{0x01, op, length 2, four value bytes}`, the body bytes 0x00 0x00 and a closing 0xC0;
bytes that follow the closing 0xC0 do not matter. -/
theorem C8_success_iff_frame (esp : ESP) (fuel op : Nat) (blocks : List DataBlock_t)
    (checkVal : Nat) (wantVal : Bool) (ms : Nat) (reply : List Nat) (rest : List (List Nat))
    (hop : op ≠ 0) (hop2 : op < 256) (hb : ∀ b ∈ blocks, GoodBlock b)
    (hq : QInv esp.m_serial.m_queue) (hs : esp.m_serial.port.script = reply :: rest)
    (hbytes : ∀ x ∈ reply, x < 256) (ht : esp.inTime ms) (hf : 13 ≤ fuel) :
    (esp.doCommand fuel op blocks checkVal wantVal ms).map (fun r => r.1) = some ESP_SUCCESS ↔
      ∃ a b c d tail, reply =
        [0xc0] ++ slipEncode [1, op, 2, 0, a, b, c, d] ++ [0, 0, 0xc0] ++ tail := by
  constructor
  · intro h
    obtain ⟨espR, hC, _, _, hd⟩ :=
      doCommand_sent esp fuel op blocks checkVal wantVal ms reply rest hop hop2 hb hq hs
    rw [hd] at h
    cases hr : ESP.readPacketLoop op wantVal false ms
        ((esp.ticks esp.tickCalls % 2 ^ 32 + ms) % 2 ^ 32) fuel espR pktInit with
    | none => rw [hr] at h; simp at h
    | some x =>
      rw [hr] at h
      have hstat : x.1.stat = 2 := by
        by_contra hne
        simp only [Option.map_some', if_neg hne, Option.some.injEq] at h
        exact absurd h (by decide)
      rcases readPacketLoop_bwd op wantVal false ms _ _ rest fuel espR pktInit reply x.1 x.2 hC
        hr with hto | ⟨S', hrun, _⟩
      · rw [hstat] at hto; exact absurd hto (by decide)
      · obtain ⟨hdr, g1, g2, g3, g4, g5⟩ := pktRun_inv op wantVal reply fuel reply pktInit x.1 S'
          (Or.inl ⟨rfl, rfl, rfl, rfl⟩) hrun hstat
        have hlt : ∀ y ∈ hdr, y < 256 := by
          apply mem_slipEncode_lt
          intro y hy
          apply hbytes
          rw [g5]
          simp [hy]
        obtain ⟨a, b, c, d, hh⟩ := hdr_bytes op hdr g1 hlt g2 (g3.resolve_left hop) g4
        refine ⟨a, b, c, d, S', ?_⟩
        rw [g5, hh]
        simp
  · rintro ⟨a, b, c, d, tail, rfl⟩
    obtain ⟨val, e, h1, _⟩ := doCommand_ok esp fuel op blocks checkVal wantVal ms a b c d tail
      rest hop hop2 hb hq (by rw [hs]; simp [replyFrame]) ht hf
    rw [h1]
    rfl

theorem C8_success_iff_frame_witness :
    ((0x0a : Nat) ≠ 0 ∧ (0x0a : Nat) < 256 ∧ (∀ x ∈ okReply 0x0a ++ [0x55], x < 256) ∧
      (demoEsp [okReply 0x0a ++ [0x55], [0x55]]).m_serial.port.script =
        (okReply 0x0a ++ [0x55]) :: [[0x55]]) ∧
    ((demoEsp [okReply 0x0a ++ [0x55], [0x55]]).doCommand 13 0x0a [⟨1, some [0x2a]⟩] 7 true
        1000).map (fun r => r.1) = some ESP_SUCCESS :=
  ⟨⟨by decide, by decide, by decide, rfl⟩,
    (C8_success_iff_frame (demoEsp [okReply 0x0a ++ [0x55], [0x55]]) 13 0x0a [⟨1, some [0x2a]⟩] 7
      true 1000 (okReply 0x0a ++ [0x55]) [[0x55]] (by decide) (by decide) (by decide)
      ⟨rfl, by decide, rfl⟩ rfl (by decide) (fun _ _ _ => Nat.zero_le _) (by decide)).2
      ⟨0x78, 0x56, 0x34, 0x12, [0x55], by decide⟩⟩

/-- C9, as stated, fails: the reader ends with the SLIP framing error on a reply that does
not begin with 0xC0, with the header error on a reply whose direction byte is 0, and with
the timeout when no reply comes while the clock runs; `doCommand` returns the reply error
each time. -/
theorem C9_reader_failure_counterexample :
    ((((demoEsp [[0x55]]).sendCommand 0x0a 0 [⟨1, some [0x2a]⟩]).2.deviceAnswers.readPacket 20
        0x0a false false 1000).map (fun x => x.1.stat) = some ESP_ERROR_SLIP_FRAME ∧
      ((demoEsp [[0x55]]).doCommand 20 0x0a [⟨1, some [0x2a]⟩] 0 false 1000).map (fun r => r.1)
        = some ESP_ERROR_REPLY) ∧
    ((((demoEsp [[0xc0, 0, 0x0a, 2, 0, 0, 0, 0, 0, 0, 0, 0xc0]]).sendCommand 0x0a 0
        [⟨1, some [0x2a]⟩]).2.deviceAnswers.readPacket 20 0x0a false false 1000).map
        (fun x => x.1.stat) = some ESP_ERROR_RESP_HDR ∧
      ((demoEsp [[0xc0, 0, 0x0a, 2, 0, 0, 0, 0, 0, 0, 0, 0xc0]]).doCommand 20 0x0a
        [⟨1, some [0x2a]⟩] 0 false 1000).map (fun r => r.1) = some ESP_ERROR_REPLY) ∧
    ((((runningEsp [[]]).sendCommand 0x0a 0 [⟨1, some [0x2a]⟩]).2.deviceAnswers.readPacket 20
        0x0a false false 1000).map (fun x => x.1.stat) = some ESP_ERROR_TIMEOUT ∧
      ((runningEsp [[]]).doCommand 20 0x0a [⟨1, some [0x2a]⟩] 0 false 1000).map (fun r => r.1)
        = some ESP_ERROR_REPLY) := by
  decide

/-- C9 (amended): a failure of the send is returned unchanged and nothing is read; once the
command is sent, `doCommand` returns success when the reader returns 2 and the reply error
for every other outcome of the reader: the timeout, the header error, a SLIP error, and a
well-formed response whose body is not exactly two zero bytes alike. -/
theorem C9_failure_reporting (esp : ESP) (fuel op : Nat) (blocks : List DataBlock_t)
    (checkVal : Nat) (wantVal : Bool) (ms : Nat) :
    ((esp.sendCommand op checkVal blocks).1 ≠ 0 →
      esp.doCommand fuel op blocks checkVal wantVal ms =
        some ((esp.sendCommand op checkVal blocks).1, none,
          (esp.sendCommand op checkVal blocks).2)) ∧
    (∀ (r : PktResult) (e : ESP), (esp.sendCommand op checkVal blocks).1 = 0 →
      (esp.sendCommand op checkVal blocks).2.deviceAnswers.readPacket fuel op wantVal false ms =
        some (r, e) →
      esp.doCommand fuel op blocks checkVal wantVal ms =
          some (if r.stat = 2 then ESP_SUCCESS else ESP_ERROR_REPLY, r.value, e) ∧
        (r.stat ≠ 2 → (esp.doCommand fuel op blocks checkVal wantVal ms).map (fun x => x.1) =
          some ESP_ERROR_REPLY)) := by
  constructor
  · intro h
    unfold ESP.doCommand
    simp only [if_neg h]
  · intro r e h hr
    have hd : esp.doCommand fuel op blocks checkVal wantVal ms =
        some (if r.stat = 2 then ESP_SUCCESS else ESP_ERROR_REPLY, r.value, e) := by
      unfold ESP.doCommand
      simp only [h, if_true, hr]
    refine ⟨hd, fun hne => ?_⟩
    rw [hd, if_neg hne]
    rfl

theorem C9_failure_reporting_witness :
    (((demoEsp []).sendCommand 0x07 0 [⟨0, some []⟩, ⟨1, some [0x2a]⟩]).1 ≠ 0 ∧
      (demoEsp []).doCommand 20 0x07 [⟨0, some []⟩, ⟨1, some [0x2a]⟩] 0 false 1000 =
        some (((demoEsp []).sendCommand 0x07 0 [⟨0, some []⟩, ⟨1, some [0x2a]⟩]).1, none,
          ((demoEsp []).sendCommand 0x07 0 [⟨0, some []⟩, ⟨1, some [0x2a]⟩]).2)) ∧
    (((demoEsp [[0x55]]).sendCommand 0x0a 0 [⟨1, some [0x2a]⟩]).1 = 0 ∧
      ((demoEsp [[0x55]]).doCommand 20 0x0a [⟨1, some [0x2a]⟩] 0 false 1000).map (fun x => x.1) =
        some ESP_ERROR_REPLY) := by
  refine ⟨⟨by decide, (C9_failure_reporting (demoEsp []) 20 0x07
    [⟨0, some []⟩, ⟨1, some [0x2a]⟩] 0 false 1000).1 (by decide)⟩, by decide, ?_⟩
  have hs : (((demoEsp [[0x55]]).sendCommand 0x0a 0 [⟨1, some [0x2a]⟩]).2.deviceAnswers.readPacket
      20 0x0a false false 1000).map (fun x => x.1.stat) = some ESP_ERROR_SLIP_FRAME := by decide
  cases h : ((demoEsp [[0x55]]).sendCommand 0x0a 0 [⟨1, some [0x2a]⟩]).2.deviceAnswers.readPacket
      20 0x0a false false 1000 with
  | none => rw [h] at hs; exact absurd hs (by simp)
  | some x =>
    rw [h] at hs
    have hx : x.1.stat = ESP_ERROR_SLIP_FRAME := by simpa using hs
    exact ((C9_failure_reporting (demoEsp [[0x55]]) 20 0x0a [⟨1, some [0x2a]⟩] 0 false 1000).2
      x.1 x.2 (by decide) h).2 (by rw [hx]; decide)

/-! ## Lemmas: `flashWrite` -/

theorem Read_block (vf : VFile) (ho : vf.isOpen = true) (hp : vf.m_pos ≤ vf.m_size) :
    ¬ ((vf.Read 1 ESP_FLASH_BLK_SIZE).1 ≠ (ESP_FLASH_BLK_SIZE : Int) ∧
        (!(vf.Read 1 ESP_FLASH_BLK_SIZE).2.2.EndOfFile) = true) ∧
      (vf.Read 1 ESP_FLASH_BLK_SIZE).2.1.length ≤ 1024 ∧
      (∀ b ∈ (vf.Read 1 ESP_FLASH_BLK_SIZE).2.1, b ∈ vf.data) ∧
      (vf.Read 1 ESP_FLASH_BLK_SIZE).2.2.isOpen = true ∧
      (vf.Read 1 ESP_FLASH_BLK_SIZE).2.2.data = vf.data ∧
      (vf.Read 1 ESP_FLASH_BLK_SIZE).2.2.m_pos ≤ (vf.Read 1 ESP_FLASH_BLK_SIZE).2.2.m_size := by
  have hmem : ∀ (k : Nat) (b : Nat), b ∈ (vf.data.drop vf.m_pos).take k → b ∈ vf.data :=
    fun k b hb => List.mem_of_mem_drop (List.mem_of_mem_take hb)
  unfold VFile.Read
  simp only [ESP_FLASH_BLK_SIZE, Nat.one_mul, ho, Bool.not_true, Nat.div_one, Nat.mul_one]
  norm_num
  by_cases h1 : vf.m_size ≤ vf.m_pos + 1024
  · rw [if_pos h1]
    by_cases h2 : vf.m_size - vf.m_pos = 0
    · rw [if_pos h2]
      refine ⟨?_, by simp, by simp, ho, rfl, hp⟩
      intro _
      simp only [VFile.EndOfFile, decide_eq_true_eq]
      unfold VFile.m_size at *
      omega
    · rw [if_neg h2]
      refine ⟨?_, ?_, hmem _, rfl, rfl, ?_⟩
      · intro _
        simp only [VFile.EndOfFile, decide_eq_true_eq]
        unfold VFile.m_size at *
        simp only
        omega
      · simp only [List.length_take, List.length_drop]
        unfold VFile.m_size at *
        omega
      · unfold VFile.m_size at *
        simp only
        omega
  · rw [if_neg h1]
    refine ⟨by simp, ?_, hmem _, rfl, rfl, ?_⟩
    · simp only [List.length_take]; omega
    · unfold VFile.m_size at *
      simp only
      omega

theorem patchFlashParm_length (blkIdx addr : Nat) (data : List Nat) (fv fm : Nat)
    (h : 4 ≤ data.length) : (patchFlashParm blkIdx addr data fv fm).length = data.length := by
  unfold ESP.patchFlashParm
  split_ifs
  · simp only [writeAt, putData_2, le16, List.length_append, List.length_take, List.length_drop,
      List.length_cons, List.length_nil]
    omega
  · rfl

theorem patchFlashParm_bytes (blkIdx addr : Nat) (data : List Nat) (fv fm : Nat)
    (h : ∀ b ∈ data, b < 256) : ∀ b ∈ patchFlashParm blkIdx addr data fv fm, b < 256 := by
  unfold ESP.patchFlashParm
  split_ifs
  · intro b hb
    simp only [writeAt, putData_2, le16, List.mem_append, List.mem_cons, List.mem_singleton,
      List.not_mem_nil, or_false] at hb
    rcases hb with (hb | hb | hb) | hb
    · exact h b (List.mem_of_mem_take hb)
    · rw [hb]; exact Nat.mod_lt _ (by decide)
    · rw [hb]; exact Nat.mod_lt _ (by decide)
    · exact h b (List.mem_of_mem_drop hb)
  · exact h

theorem xorFold_lt (l : List Nat) : ∀ (c : Nat), c < 256 → (∀ b ∈ l, b < 256) →
    xorFold c l < 256 := by
  induction l with
  | nil => intro c hc _; simpa [xorFold] using hc
  | cons b l ih =>
    intro c hc h
    have hb : b < 256 := h b (List.mem_cons_self _ _)
    have : c ^^^ b < 2 ^ 8 := Nat.xor_lt_two_pow (by simpa using hc) (by simpa using hb)
    simpa [xorFold] using ih (c ^^^ b) (by simpa using this)
      (fun x hx => h x (List.mem_cons_of_mem _ hx))

theorem checksum_block (data : List Nat) (hl : data.length = 1024) (hb : ∀ b ∈ data, b < 256) :
    ESP.checksum data ESP_FLASH_BLK_SIZE % 2 ^ 16 = xorFold ESP_CHECKSUM_MAGIC data := by
  have h1 : ESP.checksum data ESP_FLASH_BLK_SIZE = xorFold ESP_CHECKSUM_MAGIC data := by
    unfold ESP.checksum xorFold
    rw [show ESP_FLASH_BLK_SIZE = data.length from hl.symm, List.take_length]
  rw [h1]
  have := xorFold_lt data ESP_CHECKSUM_MAGIC (by decide) hb
  omega

theorem doCommandData_ok (esp : ESP) (fuel op : Nat) (data : List Nat)
    (checkVal : Nat) (wantVal : Bool) (ms : Nat) (reply : List Nat) (rest : List (List Nat))
    (hop : op ≠ 0) (hop2 : op < 256) (hd : data ≠ [])
    (hq : QInv esp.m_serial.m_queue) (hs : esp.m_serial.port.script = reply :: rest)
    (ha : Accepts op reply) (ht : esp.inTime ms) (hf : 13 ≤ fuel) :
    ∃ val e, esp.doCommandData fuel op data data.length checkVal wantVal ms =
        some (ESP_SUCCESS, val, e) ∧
      QInv e.m_serial.m_queue ∧ e.m_serial.port.script = rest ∧
      e.ticks = esp.ticks ∧ e.diagCode = esp.diagCode ∧
      e.m_serial.port.tx = esp.m_serial.port.tx ++ commandFrame op checkVal data := by
  obtain ⟨a, b, c, d, tail, rfl⟩ := ha
  have hb : ∀ x ∈ [(⟨data.length, some data⟩ : DataBlock_t)], GoodBlock x := by
    intro x hx
    rw [List.mem_singleton] at hx
    subst hx
    exact ⟨data, rfl, rfl, hd⟩
  have hp : payloadOf [(⟨data.length, some data⟩ : DataBlock_t)] = data := by
    simp [payloadOf]
  obtain ⟨val, e, h1, h2, h3, h4, h5⟩ := doCommand_ok esp fuel op [⟨data.length, some data⟩]
    checkVal wantVal ms a b c d tail rest hop hop2 hb hq hs ht hf
  rw [hp] at h5
  exact ⟨val, e, h1, h2.1, h2.2.2.2, h3, h4, h5⟩

theorem inTime_congr {e1 e2 : ESP} (ms : Nat) (h1 : e1.ticks = e2.ticks)
    (h2 : e1.diagCode = e2.diagCode) (h : e2.inTime ms) : e1.inTime ms := by
  intro hl j k
  rw [h1]
  exact h ((limited_congr ms h2).1 hl) j k

theorem flashBlock_ok (fuel addr fv fm blkIdx : Nat) (hf : 13 ≤ fuel) (vf : VFile) (esp : ESP)
    (r0 : List Nat) (rest : List (List Nat))
    (ho : vf.isOpen = true) (hp : vf.m_pos ≤ vf.m_size) (hby : ∀ b ∈ vf.data, b < 256)
    (hq : QInv esp.m_serial.m_queue) (hs : esp.m_serial.port.script = r0 :: rest)
    (ha : Accepts ESP_FLASH_DATA r0) (ht : esp.inTime DEF_TIMEOUT) :
    ∃ data vf1 e, ESP.flashBlock fuel addr fv fm blkIdx vf esp = some (0, vf1, e) ∧
      data.length = 1024 ∧
      vf1.isOpen = true ∧ vf1.m_pos ≤ vf1.m_size ∧ vf1.data = vf.data ∧
      QInv e.m_serial.m_queue ∧ e.m_serial.port.script = rest ∧
      e.ticks = esp.ticks ∧ e.diagCode = esp.diagCode ∧
      e.m_serial.port.tx = esp.m_serial.port.tx ++
        commandFrame ESP_FLASH_DATA (xorFold ESP_CHECKSUM_MAGIC data)
          (le32 ESP_FLASH_BLK_SIZE ++ le32 blkIdx ++ le32 0 ++ le32 0 ++ data) := by
  obtain ⟨k1, k2, k3, k4, k5, k6⟩ := Read_block vf ho hp
  have e1024 : ESP_FLASH_BLK_SIZE = 1024 := rfl
  -- the data of the block
  have hdl : ((vf.Read 1 ESP_FLASH_BLK_SIZE).2.1 ++
      List.replicate (ESP_FLASH_BLK_SIZE - (vf.Read 1 ESP_FLASH_BLK_SIZE).2.1.length) 0xff).length
      = 1024 := by
    simp only [List.length_append, List.length_replicate]
    omega
  have hdb : ∀ b ∈ (vf.Read 1 ESP_FLASH_BLK_SIZE).2.1 ++
      List.replicate (ESP_FLASH_BLK_SIZE - (vf.Read 1 ESP_FLASH_BLK_SIZE).2.1.length) 0xff,
      b < 256 := by
    intro b hb
    rcases List.mem_append.1 hb with h | h
    · exact hby b (k3 b h)
    · rw [(List.mem_replicate.1 h).2]; decide
  have hpl : (patchFlashParm blkIdx addr ((vf.Read 1 ESP_FLASH_BLK_SIZE).2.1 ++
      List.replicate (ESP_FLASH_BLK_SIZE - (vf.Read 1 ESP_FLASH_BLK_SIZE).2.1.length) 0xff)
      fv fm).length = 1024 := by
    rw [patchFlashParm_length _ _ _ _ _ (by omega), hdl]
  have hpb := patchFlashParm_bytes blkIdx addr _ fv fm hdb
  have hck := checksum_block _ hpl hpb
  have hhdr : putData ESP_FLASH_BLK_SIZE 4 ++ putData blkIdx 4 ++ putData 0 4 ++ putData 0 4 =
      le32 ESP_FLASH_BLK_SIZE ++ le32 blkIdx ++ le32 0 ++ le32 0 := by
    simp only [putData_4]
  unfold ESP.flashBlock
  simp only [if_neg k1, hck, hhdr]
  generalize patchFlashParm blkIdx addr ((vf.Read 1 ESP_FLASH_BLK_SIZE).2.1 ++
      List.replicate (ESP_FLASH_BLK_SIZE - (vf.Read 1 ESP_FLASH_BLK_SIZE).2.1.length) 0xff)
      fv fm = data at hpl hpb hck ⊢
  have hlen : (le32 ESP_FLASH_BLK_SIZE ++ le32 blkIdx ++ le32 0 ++ le32 0 ++ data).length =
      16 + ESP_FLASH_BLK_SIZE := by
    simp only [List.length_append, le32_length, hpl, e1024]
  obtain ⟨val, e, c1, c2, c3, c4, c5, c6⟩ := doCommandData_ok esp fuel ESP_FLASH_DATA
    (le32 ESP_FLASH_BLK_SIZE ++ le32 blkIdx ++ le32 0 ++ le32 0 ++ data)
    (xorFold ESP_CHECKSUM_MAGIC data) false DEF_TIMEOUT r0 rest (by decide) (by decide)
    (by simp [le32]) hq hs ha ht hf
  rw [hlen] at c1
  refine ⟨data, (vf.Read 1 ESP_FLASH_BLK_SIZE).2.2, e, ?_, hpl, k4, k6, k5, c2, c3, c4, c5, c6⟩
  rw [ESP.sendBlockRetry, c1]
  simp only []
  rw [if_pos (show ESP_SUCCESS = 0 from rfl)]
  rfl

theorem flashWriteLoop_ok (fuel addr fv fm : Nat) (hf : 13 ≤ fuel) : ∀ (n blkIdx : Nat)
    (vf : VFile) (esp : ESP) (rs rest : List (List Nat)),
    vf.isOpen = true → vf.m_pos ≤ vf.m_size → (∀ b ∈ vf.data, b < 256) →
    QInv esp.m_serial.m_queue → esp.m_serial.port.script = rs ++ rest → rs.length = n →
    (∀ r ∈ rs, Accepts ESP_FLASH_DATA r) → esp.inTime DEF_TIMEOUT → blkIdx + n < 2 ^ 32 →
    ∃ blocks vf1 esp1,
      ESP.flashWriteLoop fuel addr fv fm n blkIdx vf esp = some (0, vf1, esp1) ∧
      blocks.length = n ∧ (∀ d ∈ blocks, d.length = 1024) ∧
      esp1.m_serial.port.tx = esp.m_serial.port.tx ++ dataFrames blkIdx blocks
  | 0, blkIdx, vf, esp, rs, rest, _, _, _, _, _, _, _, _, _ =>
    ⟨[], vf, esp, rfl, rfl, by simp, by simp [dataFrames]⟩
  | n + 1, blkIdx, vf, esp, rs, rest, ho, hp, hby, hq, hs, hl, ha, ht, hi => by
    obtain ⟨r0, rs1, rfl⟩ : ∃ r0 rs1, rs = r0 :: rs1 := by
      cases rs with
      | nil => simp at hl
      | cons a l => exact ⟨a, l, rfl⟩
    obtain ⟨data, vfa, e, c1, c2, c3, c4, c5, c6, c7, c8, c9, c10⟩ := flashBlock_ok fuel addr fv fm
      blkIdx hf vf esp r0 (rs1 ++ rest) ho hp hby hq (by simpa using hs)
      (ha r0 (List.mem_cons_self _ _)) ht
    have hsucc : (blkIdx + 1) % 2 ^ 32 = blkIdx + 1 := Nat.mod_eq_of_lt (by omega)
    obtain ⟨blocks, vf1, esp1, d1, d2, d3, d4⟩ := flashWriteLoop_ok fuel addr fv fm hf n
      (blkIdx + 1) vfa e rs1 rest c3 c4 (by rw [c5]; exact hby)
      c6 c7 (by simpa using hl) (fun r hr => ha r (List.mem_cons_of_mem _ hr))
      (inTime_congr DEF_TIMEOUT c8 c9 ht) (by omega)
    refine ⟨data :: blocks, vf1, esp1, ?_, by simp [d2], ?_, ?_⟩
    · rw [ESP.flashWriteLoop, c1]
      simp only [ne_eq, not_true_eq_false, if_false, hsucc]
      exact d1
    · intro d hd
      rcases List.mem_cons.1 hd with h | h
      · rw [h]; exact c2
      · exact d3 d h
    · rw [d4, c10, dataFrames, List.append_assoc]

theorem flashBegin_ok (esp : ESP) (fuel addr n : Nat) (reply : List Nat)
    (rest : List (List Nat)) (hn : 0 < n) (hn2 : n * 1024 + 1023 < 2 ^ 32)
    (hq : QInv esp.m_serial.m_queue) (hs : esp.m_serial.port.script = reply :: rest)
    (ha : Accepts ESP_FLASH_BEGIN reply) (ht : esp.inTime 10000) (hf : 13 ≤ fuel) :
    ∃ e, esp.flashBegin fuel addr (n * ESP_FLASH_BLK_SIZE) = some (0, e) ∧
      QInv e.m_serial.m_queue ∧ e.m_serial.port.script = rest ∧
      e.ticks = esp.ticks ∧ e.diagCode = esp.diagCode ∧
      e.m_serial.port.tx = esp.m_serial.port.tx ++ beginFrame n addr := by
  have h1 : (n * ESP_FLASH_BLK_SIZE + ESP_FLASH_BLK_SIZE - 1) % 2 ^ 32 / ESP_FLASH_BLK_SIZE = n := by
    unfold ESP_FLASH_BLK_SIZE
    omega
  have h2 : n * ESP_FLASH_BLK_SIZE ≠ 0 := by
    unfold ESP_FLASH_BLK_SIZE
    omega
  obtain ⟨val, e, c1, c2, c3, c4, c5, c6⟩ := doCommandData_ok esp fuel ESP_FLASH_BEGIN
    (le32 (n * ESP_FLASH_BLK_SIZE) ++ le32 n ++ le32 ESP_FLASH_BLK_SIZE ++ le32 (addr &&& 0xfffffc00))
    0 false 10000 reply rest (by decide) (by decide) (by simp [le32]) hq hs ha ht hf
  refine ⟨e, ?_, c2, c3, c4, c5, c6⟩
  unfold ESP.flashBegin
  simp only [h1, putData_4, if_pos h2]
  have hl : (le32 (n * ESP_FLASH_BLK_SIZE) ++ le32 n ++ le32 ESP_FLASH_BLK_SIZE ++
      le32 (addr &&& 0xfffffc00)).length = 16 := by
    simp [le32]
  rw [hl] at c1
  rw [c1]
  rfl

/-- C10, as stated, fails: for a region of 0xFFFFFFFF bytes the block count
`(size + 1023) / 1024` is computed in 32 bits and comes out as 0; `flashWrite` sends the
`FLASH_BEGIN` command for 0 blocks and no `FLASH_DATA` command at all, and returns success,
where ceil(L/1024) is 4194304. -/
theorem C10_size_wrap_counterexample :
    ((demoEsp [okReply ESP_FLASH_BEGIN]).flashWrite 13 demoFile 0 0xffffffff 0 0 0).map
        (fun r => (r.1, r.2.2.m_serial.port.tx)) = some (0, beginFrame 0 0) ∧
    (0xffffffff + 1023) / 1024 = 4194304 := by
  decide

/-- C10 (amended): for a region of `0 < L ≤ 2^32 - 1024` bytes of an open file of bytes,
when the device accepts every command at its first attempt, `flashWrite` returns success
and sends, after the `FLASH_BEGIN` command, exactly ceil(L/1024) `FLASH_DATA` commands;
command `i` (0-based) carries the 16+1024 payload bytes made of the u32 LE words
`{1024, i, 0, 0}` and 1024 data bytes, and its check value is 0xEF xor those data bytes. -/
theorem C10_flash_write_blocks (esp : ESP) (fuel : Nat) (vf : VFile)
    (ofst size addr fv fm : Nat) (r0 : List Nat) (rs rest : List (List Nat))
    (hL : 0 < size) (hL2 : size ≤ 2 ^ 32 - 1024)
    (ho : vf.isOpen = true) (hofs : ofst ≤ vf.m_size) (hby : ∀ b ∈ vf.data, b < 256)
    (hq : QInv esp.m_serial.m_queue) (hs : esp.m_serial.port.script = r0 :: (rs ++ rest))
    (ha0 : Accepts ESP_FLASH_BEGIN r0) (hn : rs.length = (size + 1023) / 1024)
    (ha : ∀ r ∈ rs, Accepts ESP_FLASH_DATA r)
    (ht1 : esp.inTime 10000) (ht2 : esp.inTime DEF_TIMEOUT) (hf : 13 ≤ fuel) :
    ∃ blocks vf1 esp1,
      esp.flashWrite fuel vf ofst size addr fv fm = some (0, vf1, esp1) ∧
      blocks.length = (size + 1023) / 1024 ∧ (∀ d ∈ blocks, d.length = 1024) ∧
      esp1.m_serial.port.tx =
        esp.m_serial.port.tx ++ beginFrame ((size + 1023) / 1024) addr ++ dataFrames 0 blocks := by
  have hcnt : (size + ESP_FLASH_BLK_SIZE - 1) % 2 ^ 32 / ESP_FLASH_BLK_SIZE =
      (size + 1023) / 1024 := by
    unfold ESP_FLASH_BLK_SIZE
    omega
  have hmul : ((size + 1023) / 1024 * ESP_FLASH_BLK_SIZE) % 2 ^ 32 =
      (size + 1023) / 1024 * ESP_FLASH_BLK_SIZE := by
    unfold ESP_FLASH_BLK_SIZE
    omega
  obtain ⟨e, b1, b2, b3, b4, b5, b6⟩ := flashBegin_ok esp fuel addr ((size + 1023) / 1024) r0
    (rs ++ rest) (by omega) (by omega) hq hs ha0 ht1 hf
  have hpos : (vf.SetPosition ofst) = (0, { vf with m_pos := ofst }) := by
    unfold VFile.SetPosition
    rw [if_pos ho, if_neg (by omega)]
  obtain ⟨blocks, vf1, esp1, d1, d2, d3, d4⟩ := flashWriteLoop_ok fuel addr fv fm hf
    ((size + 1023) / 1024) 0 { vf with m_pos := ofst } e rs rest ho hofs hby b2 b3 hn ha
    (inTime_congr DEF_TIMEOUT b4 b5 ht2) (by omega)
  refine ⟨blocks, vf1, esp1, ?_, d2, d3, by rw [d4, b6]⟩
  unfold ESP.flashWrite
  simp only [hcnt, hmul, hpos, b1]
  simpa using d1

theorem C10_flash_write_blocks_witness :
    ((0 : Nat) < 1030 ∧ 1030 ≤ 2 ^ 32 - 1024 ∧ demoFile.isOpen = true ∧ 0 ≤ demoFile.m_size ∧
      [okReply ESP_FLASH_DATA, okReply ESP_FLASH_DATA].length = (1030 + 1023) / 1024) ∧
    ∃ blocks vf1 esp1,
      (demoEsp [okReply ESP_FLASH_BEGIN, okReply ESP_FLASH_DATA, okReply ESP_FLASH_DATA]).flashWrite
          13 demoFile 0 1030 0 0 0 = some (0, vf1, esp1) ∧
      blocks.length = (1030 + 1023) / 1024 ∧ (∀ d ∈ blocks, d.length = 1024) ∧
      esp1.m_serial.port.tx =
        (demoEsp [okReply ESP_FLASH_BEGIN, okReply ESP_FLASH_DATA,
          okReply ESP_FLASH_DATA]).m_serial.port.tx ++
          beginFrame ((1030 + 1023) / 1024) 0 ++ dataFrames 0 blocks :=
  ⟨⟨by decide, by decide, rfl, by decide, by decide⟩,
    C10_flash_write_blocks
      (demoEsp [okReply ESP_FLASH_BEGIN, okReply ESP_FLASH_DATA, okReply ESP_FLASH_DATA]) 13
      demoFile 0 1030 0 0 0 (okReply ESP_FLASH_BEGIN)
      [okReply ESP_FLASH_DATA, okReply ESP_FLASH_DATA] [] (by decide) (by decide) rfl (by decide)
      (by decide) ⟨rfl, by decide, rfl⟩ rfl ⟨0x78, 0x56, 0x34, 0x12, [], by decide⟩ (by decide)
      (fun r hr => ⟨0x78, 0x56, 0x34, 0x12, [], by
        simp only [List.mem_cons, List.mem_singleton, List.not_mem_nil, or_false, or_self] at hr
        rw [hr]; decide⟩)
      (fun _ _ _ => Nat.zero_le _) (fun _ _ _ => Nat.zero_le _) (by decide)⟩

/-! ## Lemmas: what `flashWrite` sends -/

theorem Read_bytes (vf : VFile) (ho : vf.isOpen = true) (hp : vf.m_pos ≤ vf.m_size) :
    (vf.Read 1 ESP_FLASH_BLK_SIZE).2.1 = (vf.data.drop vf.m_pos).take 1024 := by
  unfold VFile.Read
  simp only [ESP_FLASH_BLK_SIZE, Nat.one_mul, ho, Bool.not_true, Nat.div_one, Nat.mul_one]
  norm_num
  unfold VFile.m_size at *
  by_cases h1 : vf.data.length ≤ vf.m_pos + 1024
  · rw [if_pos h1]
    have hl : (vf.data.drop vf.m_pos).length ≤ 1024 := by
      rw [List.length_drop]; omega
    by_cases h2 : vf.data.length - vf.m_pos = 0
    · rw [if_pos h2]
      have : vf.data.drop vf.m_pos = [] := by
        apply List.eq_nil_of_length_eq_zero
        rw [List.length_drop]; exact h2
      simp [this]
    · rw [if_neg h2]
      show List.take (vf.data.length - vf.m_pos) (List.drop vf.m_pos vf.data) = _
      rw [List.take_of_length_le (by rw [List.length_drop]),
        List.take_of_length_le hl]
  · rw [if_neg h1]

theorem flashBlock_sent (fuel addr fv fm blkIdx : Nat) (hf : 13 ≤ fuel) (vf : VFile) (esp : ESP)
    (r0 : List Nat) (rest : List (List Nat))
    (ho : vf.isOpen = true) (hp : vf.m_pos ≤ vf.m_size) (hby : ∀ b ∈ vf.data, b < 256)
    (hq : QInv esp.m_serial.m_queue) (hs : esp.m_serial.port.script = r0 :: rest)
    (ha : Accepts ESP_FLASH_DATA r0) (ht : esp.inTime DEF_TIMEOUT) :
    ∃ vf1 e, ESP.flashBlock fuel addr fv fm blkIdx vf esp = some (0, vf1, e) ∧
      (patchFlashParm blkIdx addr (blockBytes vf) fv fm).length = 1024 ∧
      vf1.isOpen = true ∧ vf1.m_pos ≤ vf1.m_size ∧ vf1.data = vf.data ∧
      QInv e.m_serial.m_queue ∧ e.m_serial.port.script = rest ∧
      e.ticks = esp.ticks ∧ e.diagCode = esp.diagCode ∧
      e.m_serial.port.tx = esp.m_serial.port.tx ++
        commandFrame ESP_FLASH_DATA
          (xorFold ESP_CHECKSUM_MAGIC (patchFlashParm blkIdx addr (blockBytes vf) fv fm))
          (le32 ESP_FLASH_BLK_SIZE ++ le32 blkIdx ++ le32 0 ++ le32 0 ++
            patchFlashParm blkIdx addr (blockBytes vf) fv fm) := by
  obtain ⟨k1, k2, k3, k4, k5, k6⟩ := Read_block vf ho hp
  have e1024 : ESP_FLASH_BLK_SIZE = 1024 := rfl
  have hraw : (vf.Read 1 ESP_FLASH_BLK_SIZE).2.1 ++
      List.replicate (ESP_FLASH_BLK_SIZE - (vf.Read 1 ESP_FLASH_BLK_SIZE).2.1.length) 0xff =
      blockBytes vf := by
    rw [Read_bytes vf ho hp]; rfl
  have hdl : (blockBytes vf).length = 1024 := by
    rw [← hraw]
    simp only [List.length_append, List.length_replicate]
    omega
  have hdb : ∀ b ∈ blockBytes vf, b < 256 := by
    intro b hb
    rw [← hraw] at hb
    rcases List.mem_append.1 hb with h | h
    · exact hby b (k3 b h)
    · rw [(List.mem_replicate.1 h).2]; decide
  have hpl : (patchFlashParm blkIdx addr (blockBytes vf) fv fm).length = 1024 := by
    rw [patchFlashParm_length _ _ _ _ _ (by omega), hdl]
  have hpb := patchFlashParm_bytes blkIdx addr _ fv fm hdb
  have hck := checksum_block _ hpl hpb
  have hhdr : putData ESP_FLASH_BLK_SIZE 4 ++ putData blkIdx 4 ++ putData 0 4 ++ putData 0 4 =
      le32 ESP_FLASH_BLK_SIZE ++ le32 blkIdx ++ le32 0 ++ le32 0 := by
    simp only [putData_4]
  unfold ESP.flashBlock
  simp only [if_neg k1, hraw, hck, hhdr]
  generalize patchFlashParm blkIdx addr (blockBytes vf) fv fm = data at hpl hpb hck ⊢
  have hlen : (le32 ESP_FLASH_BLK_SIZE ++ le32 blkIdx ++ le32 0 ++ le32 0 ++ data).length =
      16 + ESP_FLASH_BLK_SIZE := by
    simp only [List.length_append, le32_length, hpl, e1024]
  obtain ⟨val, e, c1, c2, c3, c4, c5, c6⟩ := doCommandData_ok esp fuel ESP_FLASH_DATA
    (le32 ESP_FLASH_BLK_SIZE ++ le32 blkIdx ++ le32 0 ++ le32 0 ++ data)
    (xorFold ESP_CHECKSUM_MAGIC data) false DEF_TIMEOUT r0 rest (by decide) (by decide)
    (by simp [le32]) hq hs ha ht hf
  rw [hlen] at c1
  refine ⟨(vf.Read 1 ESP_FLASH_BLK_SIZE).2.2, e, ?_, hpl, k4, k6, k5, c2, c3, c4, c5, c6⟩
  rw [ESP.sendBlockRetry, c1]
  simp only []
  rw [if_pos (show ESP_SUCCESS = 0 from rfl)]
  rfl

/-- What `flashWrite` puts on the wire when every command is accepted: the `FLASH_BEGIN`
frame, the frame of block 0 with its data spelled out, the frames of the other blocks. -/
theorem flashWrite_sent (esp : ESP) (fuel : Nat) (vf : VFile)
    (ofst size addr fv fm : Nat) (r0 : List Nat) (rs rest : List (List Nat))
    (hL : 0 < size) (hL2 : size ≤ 2 ^ 32 - 1024)
    (ho : vf.isOpen = true) (hofs : ofst ≤ vf.m_size) (hby : ∀ b ∈ vf.data, b < 256)
    (hq : QInv esp.m_serial.m_queue) (hs : esp.m_serial.port.script = r0 :: (rs ++ rest))
    (ha0 : Accepts ESP_FLASH_BEGIN r0) (hn : rs.length = (size + 1023) / 1024)
    (ha : ∀ r ∈ rs, Accepts ESP_FLASH_DATA r)
    (ht1 : esp.inTime 10000) (ht2 : esp.inTime DEF_TIMEOUT) (hf : 13 ≤ fuel) :
    ∃ blocks vf1 esp1,
      esp.flashWrite fuel vf ofst size addr fv fm = some (0, vf1, esp1) ∧
      blocks.length + 1 = (size + 1023) / 1024 ∧
      esp1.m_serial.port.tx =
        esp.m_serial.port.tx ++ beginFrame ((size + 1023) / 1024) addr ++
          (commandFrame ESP_FLASH_DATA
            (xorFold ESP_CHECKSUM_MAGIC
              (patchFlashParm 0 addr (blockBytes { vf with m_pos := ofst }) fv fm))
            (le32 ESP_FLASH_BLK_SIZE ++ le32 0 ++ le32 0 ++ le32 0 ++
              patchFlashParm 0 addr (blockBytes { vf with m_pos := ofst }) fv fm) ++
          dataFrames 1 blocks) := by
  have hcnt : (size + ESP_FLASH_BLK_SIZE - 1) % 2 ^ 32 / ESP_FLASH_BLK_SIZE =
      (size + 1023) / 1024 := by
    unfold ESP_FLASH_BLK_SIZE
    omega
  have hmul : ((size + 1023) / 1024 * ESP_FLASH_BLK_SIZE) % 2 ^ 32 =
      (size + 1023) / 1024 * ESP_FLASH_BLK_SIZE := by
    unfold ESP_FLASH_BLK_SIZE
    omega
  obtain ⟨e, b1, b2, b3, b4, b5, b6⟩ := flashBegin_ok esp fuel addr ((size + 1023) / 1024) r0
    (rs ++ rest) (by omega) (by omega) hq hs ha0 ht1 hf
  have hpos : (vf.SetPosition ofst) = (0, { vf with m_pos := ofst }) := by
    unfold VFile.SetPosition
    rw [if_pos ho, if_neg (by omega)]
  obtain ⟨n, hn1⟩ : ∃ n, (size + 1023) / 1024 = n + 1 := ⟨(size + 1023) / 1024 - 1, by omega⟩
  obtain ⟨ra, rs1, rfl⟩ : ∃ ra rs1, rs = ra :: rs1 := by
    cases rs with
    | nil => rw [hn1] at hn; simp at hn
    | cons a l => exact ⟨a, l, rfl⟩
  obtain ⟨vfa, ea, c1, _, c3, c4, c5, c6, c7, c8, c9, c10⟩ := flashBlock_sent fuel addr fv fm 0 hf
    { vf with m_pos := ofst } e ra (rs1 ++ rest) ho hofs hby b2 (by simpa using b3)
    (ha ra (List.mem_cons_self _ _)) (inTime_congr DEF_TIMEOUT b4 b5 ht2)
  obtain ⟨blocks, vf1, esp1, d1, d2, _, d4⟩ := flashWriteLoop_ok fuel addr fv fm hf n 1 vfa ea
    rs1 rest c3 c4 (by rw [c5]; exact hby) c6 c7 (by rw [hn1] at hn; simpa using hn)
    (fun r hr => ha r (List.mem_cons_of_mem _ hr))
    (inTime_congr DEF_TIMEOUT (c8.trans b4) (c9.trans b5) ht2) (by omega)
  refine ⟨blocks, vf1, esp1, ?_, by rw [d2, hn1], ?_⟩
  · unfold ESP.flashWrite
    simp only [hcnt, hmul, hpos, b1]
    rw [hn1]
    show ESP.flashWriteLoop fuel addr fv fm (n + 1) 0 { vf with m_pos := ofst } e = _
    rw [ESP.flashWriteLoop, c1]
    exact d1
  · rw [d4, c10, b6]
    simp only [List.append_assoc]

theorem and_fffffc00 (x : Nat) (hx : x < 2 ^ 32) : x &&& 0xfffffc00 = x / 1024 * 1024 := by
  have := and_mask32 x 10 hx (by decide)
  norm_num at this
  exact this

/-- C11, as stated, fails: for a region of 5 bytes at address 0x1234 the `FLASH_BEGIN`
payload `flashWrite` sends carries the words {1024, 1, 1024, 0x1000}; its first word is the
size of the whole blocks, not the size 5 of the region. -/
theorem C11_size_word_counterexample :
    ((demoEsp [[0x55]]).flashWrite 13 demoFile 0 5 0x1234 0 0).map
        (fun r => r.2.2.m_serial.port.tx) =
      some (commandFrame ESP_FLASH_BEGIN 0 (le32 1024 ++ le32 1 ++ le32 1024 ++ le32 0x1000)) ∧
    le32 1024 ≠ le32 5 := by
  decide

/-- C11 (amended): for a region of `0 < size ≤ 2^32 - 1024` bytes flashed at `addr`,
`flashWrite` sends first a `FLASH_BEGIN` command with check value 0 whose payload is the
four u32 LE words {blk_count * 1024, blk_count, 1024, addr rounded down to a multiple of
1024}, where blk_count = ceil(size / 1024). -/
theorem C11_flash_begin_payload (esp : ESP) (fuel : Nat) (vf : VFile)
    (ofst size addr fv fm : Nat) (r0 : List Nat) (rs rest : List (List Nat))
    (hL : 0 < size) (hL2 : size ≤ 2 ^ 32 - 1024) (haddr : addr < 2 ^ 32)
    (ho : vf.isOpen = true) (hofs : ofst ≤ vf.m_size) (hby : ∀ b ∈ vf.data, b < 256)
    (hq : QInv esp.m_serial.m_queue) (hs : esp.m_serial.port.script = r0 :: (rs ++ rest))
    (ha0 : Accepts ESP_FLASH_BEGIN r0) (hn : rs.length = (size + 1023) / 1024)
    (ha : ∀ r ∈ rs, Accepts ESP_FLASH_DATA r)
    (ht1 : esp.inTime 10000) (ht2 : esp.inTime DEF_TIMEOUT) (hf : 13 ≤ fuel) :
    ∃ vf1 esp1 more,
      esp.flashWrite fuel vf ofst size addr fv fm = some (0, vf1, esp1) ∧
      esp1.m_serial.port.tx = esp.m_serial.port.tx ++
        commandFrame ESP_FLASH_BEGIN 0
          (le32 ((size + 1023) / 1024 * 1024) ++ le32 ((size + 1023) / 1024) ++ le32 1024 ++
            le32 (addr / 1024 * 1024)) ++ more := by
  obtain ⟨blocks, vf1, esp1, h1, _, h3⟩ := flashWrite_sent esp fuel vf ofst size addr fv fm r0 rs
    rest hL hL2 ho hofs hby hq hs ha0 hn ha ht1 ht2 hf
  have key : ∀ (A X : List Nat), A ++ X = A ++ (A ++ X).drop A.length := by
    intro A X; simp
  refine ⟨vf1, esp1, esp1.m_serial.port.tx.drop (esp.m_serial.port.tx ++
    beginFrame ((size + 1023) / 1024) addr).length, h1, ?_⟩
  rw [h3]
  have hb : beginFrame ((size + 1023) / 1024) addr = commandFrame ESP_FLASH_BEGIN 0
      (le32 ((size + 1023) / 1024 * 1024) ++ le32 ((size + 1023) / 1024) ++ le32 1024 ++
        le32 (addr / 1024 * 1024)) := by
    rw [beginFrame, and_fffffc00 addr haddr]; rfl
  rw [← hb]
  exact key _ _

theorem C11_flash_begin_payload_witness :
    ((0 : Nat) < 5 ∧ 5 ≤ 2 ^ 32 - 1024 ∧ 0x1234 < 2 ^ 32 ∧ demoFile.isOpen = true ∧
      [okReply ESP_FLASH_DATA].length = (5 + 1023) / 1024) ∧
    ∃ vf1 esp1 more,
      (demoEsp [okReply ESP_FLASH_BEGIN, okReply ESP_FLASH_DATA]).flashWrite 13 demoFile 0 5
          0x1234 0 0 = some (0, vf1, esp1) ∧
      esp1.m_serial.port.tx =
        (demoEsp [okReply ESP_FLASH_BEGIN, okReply ESP_FLASH_DATA]).m_serial.port.tx ++
        commandFrame ESP_FLASH_BEGIN 0
          (le32 ((5 + 1023) / 1024 * 1024) ++ le32 ((5 + 1023) / 1024) ++ le32 1024 ++
            le32 (0x1234 / 1024 * 1024)) ++ more :=
  ⟨⟨by decide, by decide, by decide, rfl, by decide⟩,
    C11_flash_begin_payload (demoEsp [okReply ESP_FLASH_BEGIN, okReply ESP_FLASH_DATA]) 13
      demoFile 0 5 0x1234 0 0 (okReply ESP_FLASH_BEGIN) [okReply ESP_FLASH_DATA] []
      (by decide) (by decide) (by decide) rfl (by decide) (by decide) ⟨rfl, by decide, rfl⟩ rfl
      ⟨0x78, 0x56, 0x34, 0x12, [], by decide⟩ (by decide)
      (fun r hr => ⟨0x78, 0x56, 0x34, 0x12, [], by
        simp only [List.mem_singleton] at hr
        rw [hr]; decide⟩)
      (fun _ _ _ => Nat.zero_le _) (fun _ _ _ => Nat.zero_le _) (by decide)⟩

theorem blockBytes_getD (vf : VFile) (i : Nat) (hi : i < 1024) :
    (blockBytes vf).getD i 0 = regionByte vf vf.m_pos i := by
  unfold blockBytes regionByte VFile.m_size
  rw [List.getD_eq_getElem?_getD, List.getD_eq_getElem?_getD]
  by_cases h : vf.m_pos + i < vf.data.length
  · rw [if_pos h, List.getElem?_append_left (by
      rw [List.length_take, List.length_drop]; omega),
      List.getElem?_take_of_lt hi, List.getElem?_drop]
  · rw [if_neg h, List.getElem?_append_right (by
      rw [List.length_take, List.length_drop]; omega)]
    rw [List.getElem?_replicate, if_pos (by
      rw [List.length_take, List.length_drop]; omega)]
    rfl

theorem blockBytes_length (vf : VFile) : (blockBytes vf).length = 1024 := by
  unfold blockBytes
  simp only [List.length_append, List.length_replicate, List.length_take]
  omega

theorem blockBytes_lt (vf : VFile) (hby : ∀ b ∈ vf.data, b < 256) : ∀ b ∈ blockBytes vf, b < 256 := by
  intro b hb
  unfold blockBytes at hb
  rcases List.mem_append.1 hb with h | h
  · exact hby b (List.mem_of_mem_drop (List.mem_of_mem_take h))
  · rw [(List.mem_replicate.1 h).2]; decide

theorem compl16 (o m v : Nat) (ho : o < 2 ^ 16) :
    (o &&& (0xffffffff ^^^ m)) ||| v = (o &&& (0xffff ^^^ m)) ||| v := by
  congr 1
  apply Nat.eq_of_testBit_eq
  intro i
  simp only [Nat.testBit_and, Nat.testBit_xor]
  by_cases hi : i < 16
  · have h1 : Nat.testBit 0xffffffff i = true := by
      have := Nat.testBit_two_pow_sub_one 32 i
      norm_num at this
      rw [this]; simp; omega
    have h2 : Nat.testBit 0xffff i = true := by
      have := Nat.testBit_two_pow_sub_one 16 i
      norm_num at this
      rw [this]; simp; omega
    rw [h1, h2]
  · have : o.testBit i = false := by
      apply Nat.testBit_lt_two_pow
      calc o < 2 ^ 16 := ho
        _ ≤ 2 ^ i := Nat.pow_le_pow_right (by decide) (by omega)
    rw [this]; simp

theorem patchFlashParm_first (data : List Nat) (fv fm : Nat) (hl : data.length = 1024)
    (hb : ∀ b ∈ data, b < 256) (hm : data.getD 0 0 = ESP_IMAGE_MAGIC) (hfm : fm ≠ 0) :
    patchFlashParm 0 0 data fv fm = data.take 2 ++
      le16 (((data.getD 2 0 + 256 * data.getD 3 0) &&& (0xffff ^^^ fm)) ||| fv) ++ data.drop 4 := by
  have b2 : data.getD 2 0 < 256 := by
    rw [List.getD_eq_getElem?_getD, List.getElem?_eq_getElem (by omega)]
    exact hb _ (List.getElem_mem _)
  have b3 : data.getD 3 0 < 256 := by
    rw [List.getD_eq_getElem?_getD, List.getElem?_eq_getElem (by omega)]
    exact hb _ (List.getElem_mem _)
  have hg : getData 2 (data.drop 2) 0 = data.getD 2 0 + 256 * data.getD 3 0 := by
    rw [getData_2]
    have e0 : (data.drop 2).getD 0 0 = data.getD 2 0 := by
      simp [List.getD_eq_getElem?_getD, List.getElem?_drop]
    have e1 : (data.drop 2).getD (0 + 1) 0 = data.getD 3 0 := by
      simp [List.getD_eq_getElem?_getD, List.getElem?_drop]
    rw [e0, e1]
    have e3 : (data.getD 3 0 <<< 8) % 2 ^ 32 = data.getD 3 0 <<< 8 := by
      rw [Nat.shiftLeft_eq]; omega
    have e2 : data.getD 2 0 % 2 ^ 32 = data.getD 2 0 := by omega
    rw [e3, e2, or_shiftLeft_of_lt _ (by omega : data.getD 2 0 < 2 ^ 8)]
    omega
  unfold ESP.patchFlashParm
  rw [if_pos ⟨rfl, rfl, hm, hfm⟩]
  simp only [hg, putData_2]
  rw [compl16 _ fm fv (by omega)]
  rfl

/-- C12, as stated, fails: with parm_mask = 0 `flashWrite` does not patch at all.  The
image of `plainImageFile`, whose flash parameter bytes are {0x00, 0x00}, flashed at address
0 with parm_val = 0x0240 goes out unchanged, where (orig & ~0) | 0x0240 is 0x0240. -/
theorem C12_zero_mask_counterexample :
    (∃ vf1 esp1 more,
      (demoEsp [okReply ESP_FLASH_BEGIN, okReply ESP_FLASH_DATA]).flashWrite 13 plainImageFile 0 8
          0 0x0240 0 = some (0, vf1, esp1) ∧
      esp1.m_serial.port.tx = beginFrame 1 0 ++
        commandFrame ESP_FLASH_DATA
          (xorFold ESP_CHECKSUM_MAGIC
            ([0xe9, 0x01, 0x00, 0x00, 0x07, 0x08, 0x09, 0x0a] ++ List.replicate 1016 0xff))
          (le32 1024 ++ le32 0 ++ le32 0 ++ le32 0 ++
            ([0xe9, 0x01, 0x00, 0x00, 0x07, 0x08, 0x09, 0x0a] ++ List.replicate 1016 0xff)) ++
        more) ∧
    le16 ((0 &&& (0xffff ^^^ 0)) ||| 0x0240) = [0x40, 0x02] := by
  refine ⟨?_, by decide⟩
  obtain ⟨blocks, vf1, esp1, h1, _, h3⟩ := flashWrite_sent
    (demoEsp [okReply ESP_FLASH_BEGIN, okReply ESP_FLASH_DATA]) 13 plainImageFile 0 8 0 0x0240 0
    (okReply ESP_FLASH_BEGIN) [okReply ESP_FLASH_DATA] [] (by decide) (by decide) rfl (by decide)
    (by decide) ⟨rfl, by decide, rfl⟩ rfl ⟨0x78, 0x56, 0x34, 0x12, [], by decide⟩ (by decide)
    (fun r hr => ⟨0x78, 0x56, 0x34, 0x12, [], by
      simp only [List.mem_singleton] at hr
      rw [hr]; decide⟩)
    (fun _ _ _ => Nat.zero_le _) (fun _ _ _ => Nat.zero_le _) (by decide)
  have hd : patchFlashParm 0 0 (blockBytes { plainImageFile with m_pos := 0 }) 0x0240 0 =
      [0xe9, 0x01, 0x00, 0x00, 0x07, 0x08, 0x09, 0x0a] ++ List.replicate 1016 0xff := by
    unfold ESP.patchFlashParm
    rw [if_neg (fun h => h.2.2.2 rfl)]
    rfl
  rw [hd] at h3
  have e0 : (demoEsp [okReply ESP_FLASH_BEGIN, okReply ESP_FLASH_DATA]).m_serial.port.tx = [] := rfl
  refine ⟨vf1, esp1, dataFrames 1 blocks, h1, ?_⟩
  rw [h3, e0, List.nil_append, List.append_assoc]
  rfl

/-- C12 (amended): for every 16-bit parm_val and every parm_mask other than 0, when a region
that begins with 0xE9 is flashed at addr = 0 and every command is accepted, the data of the
first `FLASH_DATA` block on the wire has at offset 2 the u16 LE value
(orig & ~parm_mask) | parm_val, where orig is the u16 LE the region holds there, and every
other byte of it equals the byte of the region (0xFF behind the end of the file). -/
theorem C12_flash_parm_patch (esp : ESP) (fuel : Nat) (vf : VFile)
    (ofst size fv fm : Nat) (r0 : List Nat) (rs rest : List (List Nat))
    (hL : 0 < size) (hL2 : size ≤ 2 ^ 32 - 1024)
    (ho : vf.isOpen = true) (hofs : ofst ≤ vf.m_size) (hby : ∀ b ∈ vf.data, b < 256)
    (hmagic : regionByte vf ofst 0 = ESP_IMAGE_MAGIC)
    (hfm : fm ≠ 0) (hfv : fv < 2 ^ 16)
    (hq : QInv esp.m_serial.m_queue) (hs : esp.m_serial.port.script = r0 :: (rs ++ rest))
    (ha0 : Accepts ESP_FLASH_BEGIN r0) (hn : rs.length = (size + 1023) / 1024)
    (ha : ∀ r ∈ rs, Accepts ESP_FLASH_DATA r)
    (ht1 : esp.inTime 10000) (ht2 : esp.inTime DEF_TIMEOUT) (hf : 13 ≤ fuel) :
    ∃ data0 vf1 esp1 more,
      esp.flashWrite fuel vf ofst size 0 fv fm = some (0, vf1, esp1) ∧
      esp1.m_serial.port.tx = esp.m_serial.port.tx ++ beginFrame ((size + 1023) / 1024) 0 ++
        commandFrame ESP_FLASH_DATA (xorFold ESP_CHECKSUM_MAGIC data0)
          (le32 1024 ++ le32 0 ++ le32 0 ++ le32 0 ++ data0) ++ more ∧
      data0.length = 1024 ∧
      data0.getD 2 0 + 256 * data0.getD 3 0 =
        ((regionByte vf ofst 2 + 256 * regionByte vf ofst 3) &&& (0xffff ^^^ fm)) ||| fv ∧
      ∀ i, i < 1024 → i ≠ 2 → i ≠ 3 → data0.getD i 0 = regionByte vf ofst i := by
  obtain ⟨blocks, vf1, esp1, h1, _, h3⟩ := flashWrite_sent esp fuel vf ofst size 0 fv fm r0 rs
    rest hL hL2 ho hofs hby hq hs ha0 hn ha ht1 ht2 hf
  have hlen := blockBytes_length { vf with m_pos := ofst }
  have hlt := blockBytes_lt { vf with m_pos := ofst } hby
  have hget : ∀ i, i < 1024 → (blockBytes { vf with m_pos := ofst }).getD i 0 =
      regionByte vf ofst i := fun i hi => blockBytes_getD { vf with m_pos := ofst } i hi
  have hp := patchFlashParm_first (blockBytes { vf with m_pos := ofst }) fv fm hlen hlt
    (by rw [hget 0 (by decide)]; exact hmagic) hfm
  rw [hget 2 (by decide), hget 3 (by decide)] at hp
  rw [hp] at h3
  generalize hraw : blockBytes { vf with m_pos := ofst } = raw at hlen hlt hget hp h3
  have r2 : regionByte vf ofst 2 < 256 := by
    rw [← hget 2 (by decide), List.getD_eq_getElem?_getD, List.getElem?_eq_getElem (by omega)]
    exact hlt _ (List.getElem_mem _)
  have r3 : regionByte vf ofst 3 < 256 := by
    rw [← hget 3 (by decide), List.getD_eq_getElem?_getD, List.getElem?_eq_getElem (by omega)]
    exact hlt _ (List.getElem_mem _)
  generalize hx : ((regionByte vf ofst 2 + 256 * regionByte vf ofst 3) &&& (0xffff ^^^ fm)) ||| fv
    = x at h3 hp ⊢
  have hx16 : x < 2 ^ 16 := by
    rw [← hx]
    apply Nat.or_lt_two_pow _ hfv
    exact lt_of_le_of_lt Nat.and_le_left (by omega)
  have htk : (raw.take 2).length = 2 := by
    rw [List.length_take]; omega
  refine ⟨raw.take 2 ++ le16 x ++ raw.drop 4, vf1, esp1, dataFrames 1 blocks, h1, ?_, ?_, ?_, ?_⟩
  · rw [h3]; simp only [List.append_assoc]; rfl
  · simp only [List.length_append, htk, le16, List.length_drop, List.length_cons,
      List.length_nil]
    omega
  · have e2 : (raw.take 2 ++ le16 x ++ raw.drop 4).getD 2 0 = x % 256 := by
      rw [List.append_assoc, List.getD_eq_getElem?_getD,
        List.getElem?_append_right (by omega), htk]
      rfl
    have e3 : (raw.take 2 ++ le16 x ++ raw.drop 4).getD 3 0 = x / 256 % 256 := by
      rw [List.append_assoc, List.getD_eq_getElem?_getD,
        List.getElem?_append_right (by omega), htk]
      simp [le16]
    rw [e2, e3]
    omega
  · intro i hi i2 i3
    rw [← hget i hi]
    rw [List.getD_eq_getElem?_getD, List.getD_eq_getElem?_getD]
    by_cases h : i < 2
    · rw [List.append_assoc, List.getElem?_append_left (by omega),
        List.getElem?_take_of_lt h]
    · have h4 : 4 ≤ i := by omega
      rw [List.getElem?_append_right (by
        simp only [List.length_append, htk, le16, List.length_cons, List.length_nil]; omega)]
      simp only [List.length_append, htk, le16, List.length_cons, List.length_nil]
      rw [List.getElem?_drop]
      congr 2
      omega

theorem C12_flash_parm_patch_witness :
    (regionByte plainImageFile 0 0 = ESP_IMAGE_MAGIC ∧ (0xff0f : Nat) ≠ 0 ∧
      (0x0240 : Nat) < 2 ^ 16 ∧
      ((regionByte plainImageFile 0 2 + 256 * regionByte plainImageFile 0 3) &&&
        (0xffff ^^^ 0xff0f)) ||| 0x0240 = 0x40 + 256 * 0x02) ∧
    ∃ data0 vf1 esp1 more,
      (demoEsp [okReply ESP_FLASH_BEGIN, okReply ESP_FLASH_DATA]).flashWrite 13 plainImageFile 0 8
          0 0x0240 0xff0f = some (0, vf1, esp1) ∧
      esp1.m_serial.port.tx =
        (demoEsp [okReply ESP_FLASH_BEGIN, okReply ESP_FLASH_DATA]).m_serial.port.tx ++
        beginFrame ((8 + 1023) / 1024) 0 ++
        commandFrame ESP_FLASH_DATA (xorFold ESP_CHECKSUM_MAGIC data0)
          (le32 1024 ++ le32 0 ++ le32 0 ++ le32 0 ++ data0) ++ more ∧
      data0.length = 1024 ∧
      data0.getD 2 0 + 256 * data0.getD 3 0 =
        ((regionByte plainImageFile 0 2 + 256 * regionByte plainImageFile 0 3) &&&
          (0xffff ^^^ 0xff0f)) ||| 0x0240 ∧
      ∀ i, i < 1024 → i ≠ 2 → i ≠ 3 → data0.getD i 0 = regionByte plainImageFile 0 i :=
  ⟨⟨by decide, by decide, by decide, by decide⟩,
    C12_flash_parm_patch (demoEsp [okReply ESP_FLASH_BEGIN, okReply ESP_FLASH_DATA]) 13
      plainImageFile 0 8 0x0240 0xff0f (okReply ESP_FLASH_BEGIN) [okReply ESP_FLASH_DATA] []
      (by decide) (by decide) rfl (by decide) (by decide) (by decide) (by decide) (by decide)
      ⟨rfl, by decide, rfl⟩ rfl ⟨0x78, 0x56, 0x34, 0x12, [], by decide⟩ (by decide)
      (fun r hr => ⟨0x78, 0x56, 0x34, 0x12, [], by
        simp only [List.mem_singleton] at hr
        rw [hr]; decide⟩)
      (fun _ _ _ => Nat.zero_le _) (fun _ _ _ => Nat.zero_le _) (by decide)⟩

/-! ## Lemmas: registers and the MAC address -/

theorem doCommand_val (esp : ESP) (fuel op : Nat) (blocks : List DataBlock_t)
    (checkVal : Nat) (wantVal : Bool) (ms a b c d : Nat) (tail : List Nat)
    (rest : List (List Nat))
    (hop : op ≠ 0) (hop2 : op < 256) (hb : ∀ b ∈ blocks, GoodBlock b)
    (hq : QInv esp.m_serial.m_queue)
    (hs : esp.m_serial.port.script = (replyFrame op a b c d ++ tail) :: rest)
    (ht : esp.inTime ms) (hf : 13 ≤ fuel) :
    ∃ e, esp.doCommand fuel op blocks checkVal wantVal ms =
        some (ESP_SUCCESS, if wantVal then some (getData 4 [1, op, 2, 0, a, b, c, d] 4) else none,
          e) ∧
      Chan e.m_serial tail (esp.m_serial.port.tx ++ commandFrame op checkVal (payloadOf blocks))
        rest ∧ e.ticks = esp.ticks ∧ e.diagCode = esp.diagCode := by
  obtain ⟨espR, hC, e1, e2, hd⟩ :=
    doCommand_sent esp fuel op blocks checkVal wantVal ms _ rest hop hop2 hb hq hs
  have hquiet : espR.quiet ms ((esp.ticks esp.tickCalls % 2 ^ 32 + ms) % 2 ^ 32) := by
    intro hl k
    rw [e1]
    exact ht ((limited_congr ms e2).1 hl) esp.tickCalls k
  obtain ⟨k, rfl⟩ : ∃ k, fuel = k + 13 := ⟨fuel - 13, by omega⟩
  have hrun := pktRun_frame op wantVal a b c d tail k hop2
  rw [← replyFrame_append] at hrun
  obtain ⟨e, r1, r2, r3, r4⟩ := readPacketLoop_fwd op wantVal false ms _ _ rest (k + 13) espR
    pktInit _ _ tail hC hquiet hrun
  refine ⟨e, ?_, r2, r3.trans e1, r4.trans e2⟩
  rw [hd, r1]
  rfl

theorem ReadReg_ok (esp : ESP) (fuel addr a b c d : Nat) (tail : List Nat)
    (rest : List (List Nat)) (ha : a < 256) (hb : b < 256) (hc : c < 256) (hd : d < 256)
    (hq : QInv esp.m_serial.m_queue)
    (hs : esp.m_serial.port.script = (replyFrame ESP_READ_REG a b c d ++ tail) :: rest)
    (ht : esp.inTime DEF_TIMEOUT) (hf : 13 ≤ fuel) :
    ∃ e, esp.ReadReg fuel addr =
        some (ESP_SUCCESS, some (a + b * 256 + c * 65536 + d * 16777216), e) ∧
      Chan e.m_serial tail (esp.m_serial.port.tx ++ commandFrame ESP_READ_REG 0 (le32 addr)) rest ∧
      e.ticks = esp.ticks ∧ e.diagCode = esp.diagCode := by
  have hg : ∀ x ∈ [(⟨4, some (le32 addr)⟩ : DataBlock_t)], GoodBlock x := by
    intro x hx
    rw [List.mem_singleton] at hx
    subst hx
    exact ⟨le32 addr, rfl, rfl, by simp [le32]⟩
  obtain ⟨e, h1, h2, h3, h4⟩ := doCommand_val esp fuel ESP_READ_REG [⟨4, some (le32 addr)⟩] 0 true
    DEF_TIMEOUT a b c d tail rest (by decide) (by decide) hg hq hs ht hf
  have hv : getData 4 [1, ESP_READ_REG, 2, 0, a, b, c, d] 4 =
      a + b * 256 + c * 65536 + d * 16777216 :=
    getData4_bytes [1, ESP_READ_REG, 2, 0] [] a b c d ha hb hc hd
  rw [if_pos rfl, hv] at h1
  have hp : payloadOf [(⟨4, some (le32 addr)⟩ : DataBlock_t)] = le32 addr := by
    simp [payloadOf, le32]
  rw [hp] at h2
  refine ⟨e, ?_, h2, h3, h4⟩
  unfold ESP.ReadReg ESP.doCommandData
  rw [putData_4]
  exact h1

theorem regReply_val (v : Nat) (hv : v < 2 ^ 32) :
    v % 256 + v / 256 % 256 * 256 + v / 65536 % 256 * 65536 + v / 16777216 % 256 * 16777216 = v := by
  omega

/-- C18: on a successful `READ_REG` exchange, that is, when the device answers with the
response frame for `READ_REG` whose header carries the value bytes `a b c d` at offsets
4..7 (by C8 every successful exchange is of this form), `ReadReg` returns success and
stores the u32 those bytes give in little-endian order. -/
theorem C18_read_reg_value (esp : ESP) (fuel addr a b c d : Nat) (tail : List Nat)
    (rest : List (List Nat)) (ha : a < 256) (hb : b < 256) (hc : c < 256) (hd : d < 256)
    (hq : QInv esp.m_serial.m_queue)
    (hs : esp.m_serial.port.script =
      ([0xc0] ++ slipEncode [1, ESP_READ_REG, 2, 0, a, b, c, d] ++ [0, 0, 0xc0] ++ tail) :: rest)
    (ht : esp.inTime DEF_TIMEOUT) (hf : 13 ≤ fuel) :
    (esp.ReadReg fuel addr).map (fun r => (r.1, r.2.1)) =
      some (ESP_SUCCESS, some (a + 256 * b + 65536 * c + 16777216 * d)) := by
  obtain ⟨e, h1, _⟩ := ReadReg_ok esp fuel addr a b c d tail rest ha hb hc hd hq hs ht hf
  rw [h1]
  simp only [Option.map_some', Option.some.injEq, Prod.mk.injEq, true_and]
  omega

theorem C18_read_reg_value_witness :
    ((0x78 : Nat) < 256 ∧ (0x56 : Nat) < 256 ∧ (0x34 : Nat) < 256 ∧ (0x12 : Nat) < 256 ∧
      (demoEsp [okReply ESP_READ_REG]).m_serial.port.script =
        ([0xc0] ++ slipEncode [1, ESP_READ_REG, 2, 0, 0x78, 0x56, 0x34, 0x12] ++ [0, 0, 0xc0] ++ [])
          :: []) ∧
    ((demoEsp [okReply ESP_READ_REG]).ReadReg 13 ESP_OTP_MAC0).map (fun r => (r.1, r.2.1)) =
      some (ESP_SUCCESS, some (0x78 + 256 * 0x56 + 65536 * 0x34 + 16777216 * 0x12)) :=
  ⟨⟨by decide, by decide, by decide, by decide, by decide⟩,
    C18_read_reg_value (demoEsp [okReply ESP_READ_REG]) 13 ESP_OTP_MAC0 0x78 0x56 0x34 0x12 [] []
      (by decide) (by decide) (by decide) (by decide) ⟨rfl, by decide, rfl⟩ (by decide)
      (fun _ _ _ => Nat.zero_le _) (by decide)⟩

theorem WriteReg_ok (esp : ESP) (fuel addr value mask delay a b c d : Nat) (tail : List Nat)
    (rest : List (List Nat)) (haddr : addr < 2 ^ 32)
    (hq : QInv esp.m_serial.m_queue)
    (hs : esp.m_serial.port.script = (replyFrame ESP_WRITE_REG a b c d ++ tail) :: rest)
    (ht : esp.inTime DEF_TIMEOUT) (hf : 13 ≤ fuel) :
    ∃ e, esp.WriteReg fuel addr value mask delay = some (ESP_SUCCESS, e) ∧
      Chan e.m_serial tail (esp.m_serial.port.tx ++ commandFrame ESP_WRITE_REG 0
        (le32 (addr / 4 * 4) ++ le32 value ++ le32 mask ++ le32 delay)) rest ∧
      e.ticks = esp.ticks ∧ e.diagCode = esp.diagCode := by
  have hg : ∀ x ∈ [(⟨16, some (le32 (addr / 4 * 4) ++ le32 value ++ le32 mask ++ le32 delay)⟩ :
      DataBlock_t)], GoodBlock x := by
    intro x hx
    rw [List.mem_singleton] at hx
    subst hx
    exact ⟨_, rfl, rfl, by simp [le32]⟩
  obtain ⟨e, h1, h2, h3, h4⟩ := doCommand_val esp fuel ESP_WRITE_REG
    [⟨16, some (le32 (addr / 4 * 4) ++ le32 value ++ le32 mask ++ le32 delay)⟩] 0 false
    DEF_TIMEOUT a b c d tail rest (by decide) (by decide) hg hq hs ht hf
  have hp : payloadOf [(⟨16, some (le32 (addr / 4 * 4) ++ le32 value ++ le32 mask ++ le32 delay)⟩ :
      DataBlock_t)] = le32 (addr / 4 * 4) ++ le32 value ++ le32 mask ++ le32 delay := by
    simp [payloadOf, le32]
  rw [hp] at h2
  refine ⟨e, ?_, h2, h3, h4⟩
  unfold ESP.WriteReg ESP.doCommandData
  simp only [putData_4, and_fffffffc addr haddr]
  rw [h1]
  rfl

/-- C19, as stated, fails: `ReadReg` sends the address as it is given.  For the address
0x3FF00051 the `READ_REG` payload carries 0x3FF00051, not 0x3FF00050. -/
theorem C19_read_reg_unmasked_counterexample :
    ((demoEsp [okReply ESP_READ_REG]).ReadReg 13 0x3ff00051).map
        (fun r => (r.1, r.2.2.m_serial.port.tx)) =
      some (ESP_SUCCESS, commandFrame ESP_READ_REG 0 (le32 0x3ff00051)) ∧
    0x3ff00051 &&& 0xfffffffc = 0x3ff00050 ∧ le32 0x3ff00051 ≠ le32 0x3ff00050 := by
  decide

/-- C19 (amended): `WriteReg` masks the register address to 4-byte alignment, `ReadReg`
does not.  For every addr, the payload of the `WRITE_REG` command sent is the u32 LE words
{addr & 0xFFFFFFFC, value, mask, delay}, and the payload of the `READ_REG` command sent is
the u32 LE word addr itself. -/
theorem C19_register_address_word (esp : ESP) (fuel addr value mask delay a b c d : Nat)
    (tail : List Nat) (rest : List (List Nat)) (haddr : addr < 2 ^ 32)
    (ha : a < 256) (hb : b < 256) (hc : c < 256) (hd : d < 256)
    (hq : QInv esp.m_serial.m_queue) (ht : esp.inTime DEF_TIMEOUT) (hf : 13 ≤ fuel) :
    (esp.m_serial.port.script = (replyFrame ESP_WRITE_REG a b c d ++ tail) :: rest →
      ∃ e, esp.WriteReg fuel addr value mask delay = some (ESP_SUCCESS, e) ∧
        e.m_serial.port.tx = esp.m_serial.port.tx ++ commandFrame ESP_WRITE_REG 0
          (le32 (addr &&& 0xfffffffc) ++ le32 value ++ le32 mask ++ le32 delay) ∧
        addr &&& 0xfffffffc = addr / 4 * 4) ∧
    (esp.m_serial.port.script = (replyFrame ESP_READ_REG a b c d ++ tail) :: rest →
      ∃ v e, esp.ReadReg fuel addr = some (ESP_SUCCESS, v, e) ∧
        e.m_serial.port.tx = esp.m_serial.port.tx ++ commandFrame ESP_READ_REG 0 (le32 addr)) := by
  constructor
  · intro hs
    obtain ⟨e, h1, h2, _⟩ := WriteReg_ok esp fuel addr value mask delay a b c d tail rest haddr
      hq hs ht hf
    exact ⟨e, h1, by rw [and_fffffffc addr haddr]; exact h2.2.2.1, and_fffffffc addr haddr⟩
  · intro hs
    obtain ⟨e, h1, h2, _⟩ := ReadReg_ok esp fuel addr a b c d tail rest ha hb hc hd hq hs ht hf
    exact ⟨_, e, h1, h2.2.2.1⟩

theorem C19_register_address_word_witness :
    ((0x60000243 : Nat) < 2 ^ 32 ∧
      (demoEsp [okReply ESP_WRITE_REG]).m_serial.port.script =
        (replyFrame ESP_WRITE_REG 0x78 0x56 0x34 0x12 ++ []) :: []) ∧
    ∃ e, (demoEsp [okReply ESP_WRITE_REG]).WriteReg 13 0x60000243 0x10000000 0xffffffff 0 =
        some (ESP_SUCCESS, e) ∧
      e.m_serial.port.tx = (demoEsp [okReply ESP_WRITE_REG]).m_serial.port.tx ++
        commandFrame ESP_WRITE_REG 0
          (le32 (0x60000243 &&& 0xfffffffc) ++ le32 0x10000000 ++ le32 0xffffffff ++ le32 0) ∧
      0x60000243 &&& 0xfffffffc = 0x60000243 / 4 * 4 :=
  ⟨⟨by decide, by decide⟩,
    (C19_register_address_word (demoEsp [okReply ESP_WRITE_REG]) 13 0x60000243 0x10000000
      0xffffffff 0 0x78 0x56 0x34 0x12 [] [] (by decide) (by decide) (by decide) (by decide)
      (by decide) ⟨rfl, by decide, rfl⟩ (fun _ _ _ => Nat.zero_le _) (by decide)).1 (by decide)⟩

theorem ReadReg_reg (esp : ESP) (fuel addr v : Nat) (tail : List Nat) (rest : List (List Nat))
    (hv : v < 2 ^ 32) (hq : QInv esp.m_serial.m_queue)
    (hs : esp.m_serial.port.script = regReply v tail :: rest)
    (ht : esp.inTime DEF_TIMEOUT) (hf : 13 ≤ fuel) :
    ∃ e, esp.ReadReg fuel addr = some (0, some v, e) ∧ QInv e.m_serial.m_queue ∧
      e.m_serial.port.script = rest ∧ e.inTime DEF_TIMEOUT := by
  obtain ⟨e, h1, h2, h3, h4⟩ := ReadReg_ok esp fuel addr (v % 256) (v / 256 % 256)
    (v / 65536 % 256) (v / 16777216 % 256) tail rest (Nat.mod_lt _ (by decide))
    (Nat.mod_lt _ (by decide)) (Nat.mod_lt _ (by decide)) (Nat.mod_lt _ (by decide)) hq hs ht hf
  rw [regReply_val v hv] at h1
  exact ⟨e, h1, h2.1, h2.2.2.2, inTime_congr DEF_TIMEOUT h3 h4 ht⟩

theorem ReadMAC_fill (esp : ESP) (fuel : Nat) (mac : List Nat) (len : Int)
    (m0 m1 m2 m3 : Nat) (t0 t1 t2 t3 : List Nat) (rest : List (List Nat))
    (h0 : m0 < 2 ^ 32) (h1 : m1 < 2 ^ 32) (h2 : m2 < 2 ^ 32) (h3 : m3 < 2 ^ 32)
    (hlen : 6 ≤ len) (hq : QInv esp.m_serial.m_queue)
    (hs : esp.m_serial.port.script =
      regReply m0 t0 :: regReply m1 t1 :: regReply m2 t2 :: regReply m3 t3 :: rest)
    (ht : esp.inTime DEF_TIMEOUT) (hf : 13 ≤ fuel) :
    (esp.ReadMAC fuel (some mac) len).map (fun r => (r.1, r.2.1)) =
      some (fillMAC mac (decide (len ≥ 12)) m0 m1 m2) := by
  obtain ⟨e0, a1, a2, a3, a4⟩ := ReadReg_reg esp fuel ESP_OTP_MAC0 m0 t0 _ h0 hq hs ht hf
  obtain ⟨e1, b1, b2, b3, b4⟩ := ReadReg_reg e0 fuel ESP_OTP_MAC1 m1 t1 _ h1 a2 a3 a4 hf
  obtain ⟨e2, c1, c2, c3, c4⟩ := ReadReg_reg e1 fuel ESP_OTP_MAC2 m2 t2 _ h2 b2 b3 b4 hf
  obtain ⟨e3, d1, _⟩ := ReadReg_reg e2 fuel ESP_OTP_MAC3 m3 t3 _ h3 c2 c3 c4 hf
  unfold ESP.ReadMAC
  simp only [if_neg (not_lt.mpr hlen), a1, b1, c1, d1, ne_eq, not_true_eq_false, if_false,
    Option.getD_some, Option.map_some']

/-- C20, as stated, fails: with m1 = 0x00AABBCC the OUI selector, bits 16..23 of m1, is
0xAA; `ReadMAC` returns the unknown-OUI error and leaves 0xAA in the first byte of the
buffer. -/
theorem C20_selector_counterexample :
    ((demoEsp [regReply 0x12345678 [], regReply 0x00aabbcc [], regReply 0x00008000 [],
        regReply 0 []]).ReadMAC 13 (some [0, 0, 0, 0, 0, 0]) 6).map (fun r => (r.1, r.2.1)) =
      some (ESP_ERROR_UNKNOWN_OUI, [0xaa, 0, 0, 0, 0, 0]) := by
  decide

/-- C20 (amended): for every value of the OTP words m0 and m3, every m1 whose bits 16..23
are 0 and every m2 with bit 15 set, `ReadMAC` succeeds and the first six bytes of the buffer
are 18:FE:34, bits 8..15 of m1, bits 0..7 of m1, the high byte of m0.  With m1 = 0x0000AABB
and m2 = 0x00008000 this is 18:FE:34:AA:BB:<high byte of m0>. -/
theorem C20_read_mac (esp : ESP) (fuel : Nat) (mac : List Nat) (len : Int)
    (m0 m1 m2 m3 : Nat) (t0 t1 t2 t3 : List Nat) (rest : List (List Nat))
    (h0 : m0 < 2 ^ 32) (h1 : m1 < 2 ^ 32) (h2 : m2 < 2 ^ 32) (h3 : m3 < 2 ^ 32)
    (hid : m1 / 65536 % 256 = 0) (hotp : m2 &&& 0x00008000 ≠ 0)
    (hlen : 6 ≤ len) (hmac : 6 ≤ mac.length) (hq : QInv esp.m_serial.m_queue)
    (hs : esp.m_serial.port.script =
      regReply m0 t0 :: regReply m1 t1 :: regReply m2 t2 :: regReply m3 t3 :: rest)
    (ht : esp.inTime DEF_TIMEOUT) (hf : 13 ≤ fuel) :
    (esp.ReadMAC fuel (some mac) len).map (fun r => (r.1, r.2.1.take 6)) =
      some (0, [0x18, 0xfe, 0x34, m1 / 256 % 256, m1 % 256, m0 / 16777216 % 256]) := by
  have hfill := ReadMAC_fill esp fuel mac len m0 m1 m2 m3 t0 t1 t2 t3 rest h0 h1 h2 h3 hlen hq hs
    ht hf
  cases hr : esp.ReadMAC fuel (some mac) len with
  | none => rw [hr] at hfill; simp at hfill
  | some r =>
    rw [hr] at hfill
    simp only [Option.map_some', Option.some.injEq] at hfill ⊢
    have hid2 : (m1 >>> 16) % 256 = 0 := by
      rw [Nat.shiftRight_eq_div_pow]; exact hid
    have e8 : (m1 >>> 8) % 256 = m1 / 256 % 256 := by
      rw [Nat.shiftRight_eq_div_pow]
    have e24 : (m0 >>> 24) % 256 = m0 / 16777216 % 256 := by
      rw [Nat.shiftRight_eq_div_pow]
    have hf2 : fillMAC mac (decide (len ≥ 12)) m0 m1 m2 = (r.1, r.2.1) := hfill.symm
    unfold ESP.fillMAC at hf2
    rw [if_neg hotp] at hf2
    simp only [hid2, if_true, e8, e24] at hf2
    obtain ⟨x0, x1, x2, x3, x4, x5, tl, rfl⟩ : ∃ x0 x1 x2 x3 x4 x5 tl,
        mac = x0 :: x1 :: x2 :: x3 :: x4 :: x5 :: tl := by
      match mac, hmac with
      | x0 :: x1 :: x2 :: x3 :: x4 :: x5 :: tl, _ => exact ⟨x0, x1, x2, x3, x4, x5, tl, rfl⟩
    have hr1 : r.1 = 0 := (congrArg Prod.fst hf2).symm
    have hr2 : r.2.1 = _ := (congrArg Prod.snd hf2).symm
    rw [hr1, hr2]
    by_cases hap : len ≥ 12
    · simp [hap, writeAt]
    · simp [hap, writeAt]

theorem C20_read_mac_witness :
    ((0x0000aabb : Nat) / 65536 % 256 = 0 ∧ (0x00008000 : Nat) &&& 0x00008000 ≠ 0 ∧
      (6 : Int) ≤ 6) ∧
    ((demoEsp [regReply 0x12345678 [], regReply 0x0000aabb [], regReply 0x00008000 [],
        regReply 0 []]).ReadMAC 13 (some [0, 0, 0, 0, 0, 0]) 6).map
        (fun r => (r.1, r.2.1.take 6)) =
      some (0, [0x18, 0xfe, 0x34, 0x0000aabb / 256 % 256, 0x0000aabb % 256,
        0x12345678 / 16777216 % 256]) :=
  ⟨⟨by decide, by decide, by decide⟩,
    C20_read_mac (demoEsp [regReply 0x12345678 [], regReply 0x0000aabb [], regReply 0x00008000 [],
      regReply 0 []]) 13 [0, 0, 0, 0, 0, 0] 6 0x12345678 0x0000aabb 0x00008000 0 [] [] [] [] []
      (by decide) (by decide) (by decide) (by decide) (by decide) (by decide) (by decide)
      (by decide) ⟨rfl, by decide, rfl⟩ rfl (fun _ _ _ => Nat.zero_le _) (by decide)⟩

/-! ## Lemmas: `AddImage` -/

/-- C15: `AddImage` called with an `addr` strictly less than the current running image size
(0 for an empty output file, else `m_imageSize`) returns an error, and neither the output
file nor the running image size is modified. -/
theorem C15_addr_below_running_size (m_imageSize : Nat) (vfOut vfImage : VFile)
    (addr : Nat) (padded : Bool) (h : addr < runningImageSize m_imageSize vfOut) :
    (AddImage m_imageSize vfOut vfImage addr padded).1 < 0 ∧
    (AddImage m_imageSize vfOut vfImage addr padded).2.1 = m_imageSize ∧
    (AddImage m_imageSize vfOut vfImage addr padded).2.2.1 = vfOut := by
  have hne : vfOut.m_size ≠ 0 := by
    intro h0
    rw [runningImageSize, if_pos h0] at h
    exact absurd h (Nat.not_lt_zero _)
  rw [runningImageSize, if_neg hne] at h
  unfold ESP.AddImage
  simp only [if_neg hne]
  split_ifs
  · exact ⟨show ESP_ERROR_PARAM < 0 by decide, rfl, rfl⟩
  · exact ⟨show ESP_ERROR_IMAGE_SIZE < 0 by decide, rfl, rfl⟩
  · exact ⟨show ESP_ERROR_FILE_READ < 0 by decide, rfl, rfl⟩

/-- One image of 4 bytes was added at 0x1000, the running image size is 0x1004: an image for
address 4 is refused with `ESP_ERROR_FILE_READ`. -/
theorem C15_addr_below_running_size_witness :
    (4 : Nat) < runningImageSize 0x1004
      (addImages false [(0x1000, imageFile [1, 2, 3, 4])] 0 VFile.OpenVirt).2.2 ∧
    (AddImage 0x1004 (addImages false [(0x1000, imageFile [1, 2, 3, 4])] 0 VFile.OpenVirt).2.2
      (imageFile [5, 6, 7, 8]) 4 false).1 = ESP_ERROR_FILE_READ ∧
    (AddImage 0x1004 (addImages false [(0x1000, imageFile [1, 2, 3, 4])] 0 VFile.OpenVirt).2.2
      (imageFile [5, 6, 7, 8]) 4 false).1 < 0 :=
  ⟨by decide, by decide,
    (C15_addr_below_running_size 0x1004
      (addImages false [(0x1000, imageFile [1, 2, 3, 4])] 0 VFile.OpenVirt).2.2
      (imageFile [5, 6, 7, 8]) 4 false (by decide)).1⟩

theorem Read_part (img : VFile) (part : Nat) (ho : img.isOpen = true) (h0 : part ≠ 0)
    (hp : img.m_pos + part ≤ img.m_size) :
    img.Read 1 part = ((part : Int), (img.data.drop img.m_pos).take part,
      { img with m_pos := img.m_pos + part }) := by
  unfold VFile.Read
  simp only [Nat.one_mul, h0, if_false, ho, Bool.not_true, Bool.false_eq_true, Nat.div_one,
    Nat.mul_one]
  by_cases h1 : img.m_pos + part ≥ img.m_size
  · have e : img.m_size - img.m_pos = part := by omega
    rw [if_pos h1]
    simp only [e, h0, if_false]
  · rw [if_neg h1]

theorem copyImage_ok (sizeIn : Nat) : ∀ (fuel b : Nat) (out img : VFile),
    img.isOpen = true → img.m_pos = b → img.m_size = sizeIn → b ≤ sizeIn → AtEnd out →
    sizeIn - b ≤ fuel →
    (ESP.copyImage sizeIn fuel b out img).1 = 0 ∧ (ESP.copyImage sizeIn fuel b out img).2.1 = sizeIn ∧
    (ESP.copyImage sizeIn fuel b out img).2.2.1.data = out.data ++ img.data.drop b ∧
    AtEnd (ESP.copyImage sizeIn fuel b out img).2.2.1
  | 0, b, out, img, _, hb, hs, hle, hA, hf => by
    have e : b = sizeIn := by omega
    have hd : img.data.drop b = [] := by
      apply List.drop_of_length_le
      rw [e, ← hs]; exact le_refl _
    rw [ESP.copyImage]
    exact ⟨rfl, e, by rw [hd, List.append_nil], hA⟩
  | fuel + 1, b, out, img, ho, hb, hs, hle, hA, hf => by
    by_cases hlt : b < sizeIn
    · rw [ESP.copyImage, if_pos hlt]
      generalize hpart : (if sizeIn - b > 1024 then 1024 else sizeIn - b) = part
      have hp0 : part ≠ 0 := by rw [← hpart]; split_ifs <;> omega
      have hp1 : b + part ≤ sizeIn := by rw [← hpart]; split_ifs <;> omega
      have hp2 : sizeIn - (b + part) ≤ fuel := by omega
      have hr := Read_part img part ho hp0 (by rw [hb, hs]; exact hp1)
      have hlen : ((img.data.drop img.m_pos).take part).length = part := by
        rw [List.length_take, List.length_drop]
        have : img.data.length = sizeIn := hs
        omega
      obtain ⟨w1, w2, w3⟩ := Write_atEnd hA ((img.data.drop img.m_pos).take part) 1 part
        (by omega) (by rw [hlen]; omega)
      simp only [hr, ne_eq, not_true_eq_false, if_false, w1]
      obtain ⟨i1, i2, i3, i4⟩ := copyImage_ok sizeIn fuel (b + part)
        (out.Write ((img.data.drop img.m_pos).take part) 1 part).2
        { img with m_pos := img.m_pos + part } ho (by rw [hb]) hs hp1 w3 hp2
      refine ⟨i1, i2, ?_, i4⟩
      rw [i3, w2, Nat.one_mul, List.take_take, Nat.min_self, List.append_assoc, hb]
      congr 1
      show List.take part (List.drop b img.data) ++ List.drop (b + part) img.data = _
      rw [← List.drop_drop, List.take_append_drop]
    · have e : b = sizeIn := by omega
      have hd : img.data.drop b = [] := by
        apply List.drop_of_length_le
        rw [e, ← hs]; exact le_refl _
      rw [ESP.copyImage, if_neg hlt]
      exact ⟨rfl, e, by rw [hd, List.append_nil], hA⟩

theorem Fill_atEnd {vf : VFile} (h : AtEnd vf) (c count : Nat) :
    (vf.Fill c count).1 = 0 ∧ (vf.Fill c count).2.data = vf.data ++ List.replicate count c ∧
    AtEnd (vf.Fill c count).2 := by
  obtain ⟨ho, hp⟩ := h
  unfold VFile.Fill
  by_cases h0 : count > 0
  · rw [if_pos h0]
    refine ⟨rfl, ?_, ?_⟩
    · simp [hp, writeAt_end]
    · simp [AtEnd, ho, hp, writeAt_end]
  · have e : count = 0 := by omega
    rw [if_neg h0, e]
    exact ⟨rfl, by simp, ho, hp⟩

theorem and_3 (x : Nat) : x &&& 0x03 = x % 4 := by
  have := Nat.and_pow_two_sub_one_eq_mod x 2
  norm_num at this
  exact this

theorem writeImageHeader_ok (vf : VFile) (buf : List Nat) (pos sizeIn addr : Nat)
    (ho : vf.isOpen = true) (hp : vf.m_pos = 0) (hb : buf.length = 4)
    (hpos : pos = (buf ++ vf.data.drop 4).length) :
    (ESP.writeImageHeader vf buf pos sizeIn addr).1 = 0 ∧
    (ESP.writeImageHeader vf buf pos sizeIn addr).2.data =
      buf ++ vf.data.drop 4 ++ (le32 addr ++ le32 ((sizeIn + 3) &&& 0xfffffffc)) ∧
    AtEnd (ESP.writeImageHeader vf buf pos sizeIn addr).2 := by
  have hw1 : (vf.Write buf 1 4).1 = 4 := by
    unfold VFile.Write
    simp only [Nat.one_mul, ho, Bool.not_true, Bool.false_eq_true, if_false]
    rfl
  have hwo : (vf.Write buf 1 4).2.isOpen = true := by
    unfold VFile.Write
    simp only [Nat.one_mul, ho, Bool.not_true, Bool.false_eq_true, if_false]
    exact NeedSpace_isOpen vf 4 ho
  have hwd : (vf.Write buf 1 4).2.data = buf ++ vf.data.drop 4 := by
    unfold VFile.Write
    simp only [Nat.one_mul, ho, Bool.not_true, Bool.false_eq_true, if_false, NeedSpace_data,
      NeedSpace_pos, hp, writeAt, List.take_zero, List.nil_append, Nat.zero_add]
    rw [List.take_of_length_le (by omega), hb, if_neg (by decide)]
  have hwp : (vf.Write buf 1 4).2.m_pos = 4 := by
    unfold VFile.Write
    simp only [Nat.one_mul, ho, Bool.not_true, Bool.false_eq_true, if_false, NeedSpace_pos, hp]
    rfl
  unfold ESP.writeImageHeader
  simp only [hw1, ne_eq, not_true_eq_false, if_false]
  generalize (vf.Write buf 1 4).2 = w at hwo hwd hwp ⊢
  have hA : AtEnd ({ w with m_pos := pos } : VFile) := by
    refine ⟨hwo, ?_⟩
    show pos = w.data.length
    rw [hwd]; exact hpos
  obtain ⟨w1, w2, w3⟩ := Write_atEnd hA (le32 addr ++ le32 ((sizeIn + 3) &&& 0xfffffffc)) 1 8
    (by decide) (by simp [le32])
  have hs : w.SetPosition pos = (0, { w with m_pos := pos }) := by
    unfold VFile.SetPosition
    simp only [hwo, if_true]
    rw [if_neg (by simp only [VFile.m_size, hwd]; omega)]
  have e8 : (le32 addr ++ le32 ((sizeIn + 3) &&& 0xfffffffc)).take (1 * 8) =
      le32 addr ++ le32 ((sizeIn + 3) &&& 0xfffffffc) := by
    simp [le32]
  rw [e8] at w2
  simp only [hs, lt_self_iff_false, if_false, putData_4, w1, ne_eq, not_true_eq_false]
  refine ⟨rfl, ?_, w3⟩
  refine w2.trans ?_
  show w.data ++ _ = _
  rw [hwd]

theorem sparsePrepare_ok (out : VFile) (c : Nat) (body : List Nat) (sizeIn addr : Nat)
    (ho : out.isOpen = true) (h : SparseOut out c body) :
    (ESP.sparsePrepare out sizeIn addr).1 = 0 ∧
    (ESP.sparsePrepare out sizeIn addr).2.data = 0x65 :: 0x73 :: 0x70 :: ((c + 1) % 256) :: body ++
      (le32 addr ++ le32 ((sizeIn + 3) &&& 0xfffffffc)) ∧
    AtEnd (ESP.sparsePrepare out sizeIn addr).2 := by
  obtain ⟨hd, hp, hc, hb⟩ | ⟨hd, hb⟩ := h
  · have hs : out.m_size = 0 := by simp [VFile.m_size, hd]
    unfold ESP.sparsePrepare
    simp only [hs, if_true]
    obtain ⟨t1, t2, t3⟩ := writeImageHeader_ok out (COMPOSITE_SIG ++ [1]) 4 sizeIn addr ho hp
      (by simp [COMPOSITE_SIG]) (by simp [hd, COMPOSITE_SIG])
    refine ⟨t1, ?_, t3⟩
    rw [t2, hd, hc, hb]
    rfl
  · have hs : out.m_size = 4 + body.length := by simp [VFile.m_size, hd]; omega
    have hs0 : out.m_size ≠ 0 := by omega
    have hs3 : ¬ (out.m_size &&& 0x03 ≠ 0) := by rw [and_3]; omega
    have hset : out.SetPosition 0 = (0, { out with m_pos := 0 }) := by
      unfold VFile.SetPosition
      rw [if_pos ho, if_neg (by omega)]
    have hpk : ({ out with m_pos := 0 } : VFile).Peek 4 = (4, [0x65, 0x73, 0x70, c]) := by
      unfold VFile.Peek
      have hsz : ({ out with m_pos := 0 } : VFile).m_size = 4 + body.length := hs
      simp only [hsz, ho, hd]
      simp [VFile.m_size]
      rw [if_neg (by omega)]
      rfl
    unfold ESP.sparsePrepare
    simp only [if_neg hs0, if_neg hs3, hset, lt_self_iff_false, if_false, hpk, ne_eq,
      not_true_eq_false]
    have ht : ([0x65, 0x73, 0x70, c] : List Nat).take 3 = COMPOSITE_SIG := rfl
    rw [ht]
    simp only [not_true_eq_false, if_false]
    obtain ⟨t1, t2, t3⟩ := writeImageHeader_ok { out with m_pos := 0 }
      (COMPOSITE_SIG ++ [([0x65, 0x73, 0x70, c].getD 3 0 + 1) % 256]) out.m_size sizeIn addr ho rfl
      (by simp [COMPOSITE_SIG]) (by simp [hd, COMPOSITE_SIG, VFile.m_size])
    refine ⟨t1, ?_, t3⟩
    rw [t2]
    show _ ++ List.drop 4 out.data ++ _ = _
    rw [hd]
    rfl

theorem roundUp4_sub (n : Nat) : roundUp4 n - n = if n % 4 ≠ 0 then 4 - n % 4 else 0 := by
  unfold roundUp4; split_ifs <;> omega

theorem sparseRecord_length (addr : Nat) (bytes : List Nat) :
    (sparseRecord addr bytes).length % 4 = 0 := by
  have h1 : bytes.length ≤ roundUp4 bytes.length := by unfold roundUp4; omega
  have h2 := roundUp4_mod bytes.length
  simp only [sparseRecord, List.length_append, le32_length, List.length_replicate]
  omega

theorem AddImage_ok_open {m : Nat} {out img : VFile} {addr : Nat} {padded : Bool}
    (hok : (ESP.AddImage m out img addr padded).1 = 0) :
    out.isOpen = true ∧ img.isOpen = true ∧ img.m_size ≠ 0 := by
  unfold ESP.AddImage at hok
  by_cases ho : out.isOpen = true
  · by_cases io : img.isOpen = true
    · refine ⟨ho, io, fun h0 => ?_⟩
      simp only [VFile.IsOpen, ho, io, Bool.not_true, Bool.or_self, Bool.false_eq_true, if_false,
        h0, if_true] at hok
      exact absurd hok (show ¬ (ESP_ERROR_IMAGE_SIZE : Int) = 0 by decide)
    · simp only [VFile.IsOpen, io, Bool.not_false, Bool.or_true, if_true] at hok
      exact absurd hok (show ¬ (ESP_ERROR_PARAM : Int) = 0 by decide)
  · simp only [VFile.IsOpen, ho, Bool.not_false, Bool.true_or, if_true] at hok
    exact absurd hok (show ¬ (ESP_ERROR_PARAM : Int) = 0 by decide)

theorem AddImage_sparse (m : Nat) (out img : VFile) (addr c : Nat) (body : List Nat)
    (h : SparseOut out c body) (hi : GoodImage img)
    (hok : (ESP.AddImage m out img addr false).1 = 0) :
    SparseOut (ESP.AddImage m out img addr false).2.2.1 ((c + 1) % 256)
      (body ++ sparseRecord addr img.data) ∧
    (ESP.AddImage m out img addr false).2.2.1.data =
      0x65 :: 0x73 :: 0x70 :: ((c + 1) % 256) :: (body ++ sparseRecord addr img.data) ∧
    (ESP.AddImage m out img addr false).2.2.1.isOpen = true := by
  obtain ⟨ip, isz⟩ := hi
  obtain ⟨ho, io, hsz⟩ := AddImage_ok_open hok
  obtain ⟨p1, p2, p3⟩ := sparsePrepare_ok out c body img.m_size addr ho h
  obtain ⟨c1, c2, c3, c4⟩ := copyImage_ok img.m_size img.m_size 0
    ((ESP.sparsePrepare out img.m_size addr).2.NeedSpace img.m_size) img io ip rfl (Nat.zero_le _)
    (NeedSpace_atEnd _ p3) (by omega)
  rw [NeedSpace_data, p2, List.drop_zero] at c3
  have hr4 : (img.m_size + 3) &&& 0xfffffffc = roundUp4 img.data.length := by
    rw [and_fffffffc _ (by omega)]; rfl
  unfold ESP.AddImage at hok ⊢
  simp only [VFile.IsOpen, ho, io, Bool.not_true, Bool.or_self, Bool.false_eq_true, if_false,
    hsz] at hok ⊢
  by_cases hlt : addr < (if out.m_size = 0 then 0 else m)
  · rw [if_pos hlt] at hok
    exact absurd hok (show ¬ (ESP_ERROR_FILE_READ : Int) = 0 by decide)
  · rw [if_neg hlt] at hok ⊢
    simp only [Bool.false_eq_true, if_false, p1, ne_eq, not_true_eq_false, c1, c2, and_3] at hok ⊢
    by_cases hc : img.m_size % 4 ≠ 0
    · obtain ⟨f1, f2, f3⟩ := Fill_atEnd c4 0 (4 - img.m_size % 4)
      rw [if_pos hc] at hok ⊢
      simp only [f1, ne_eq, not_true_eq_false, if_false]
      have hd : ((ESP.copyImage img.m_size img.m_size 0
          ((ESP.sparsePrepare out img.m_size addr).2.NeedSpace img.m_size) img).2.2.1.Fill 0
          (4 - img.m_size % 4)).2.data =
          0x65 :: 0x73 :: 0x70 :: ((c + 1) % 256) :: (body ++ sparseRecord addr img.data) := by
        rw [f2, c3, hr4, sparseRecord, roundUp4_sub, if_pos (show img.data.length % 4 ≠ 0 from hc)]
        simp [List.append_assoc, VFile.m_size]
      refine ⟨Or.inr ⟨hd, ?_⟩, hd, f3.1⟩
      rw [List.length_append, Nat.add_mod, h.elim (fun x => by rw [x.2.2.2]; rfl) (fun x => x.2),
        sparseRecord_length]
    · rw [if_neg hc] at hok ⊢
      have hd : (ESP.copyImage img.m_size img.m_size 0
          ((ESP.sparsePrepare out img.m_size addr).2.NeedSpace img.m_size) img).2.2.1.data =
          0x65 :: 0x73 :: 0x70 :: ((c + 1) % 256) :: (body ++ sparseRecord addr img.data) := by
        rw [c3, hr4, sparseRecord, roundUp4_sub, if_neg (show ¬ img.data.length % 4 ≠ 0 from hc)]
        simp [List.append_assoc]
      refine ⟨Or.inr ⟨hd, ?_⟩, hd, c4.1⟩
      rw [List.length_append, Nat.add_mod, h.elim (fun x => by rw [x.2.2.2]; rfl) (fun x => x.2),
        sparseRecord_length]

theorem addImages_sparse : ∀ (imgs : List (Nat × VFile)) (m : Nat) (out : VFile) (c : Nat)
    (body : List Nat), out.isOpen = true → out.data = 0x65 :: 0x73 :: 0x70 :: c :: body →
    body.length % 4 = 0 → (∀ p ∈ imgs, GoodImage p.2) → c + imgs.length ≤ 255 →
    (ESP.addImages false imgs m out).1 = 0 →
    (ESP.addImages false imgs m out).2.2.data =
      0x65 :: 0x73 :: 0x70 :: (c + imgs.length) ::
        (body ++ imgs.flatMap fun p => sparseRecord p.1 p.2.data) ∧
    (ESP.addImages false imgs m out).2.2.isOpen = true
  | [], m, out, c, body, ho, hd, _, _, _, _ => by
    simp [ESP.addImages, hd, ho]
  | (addr, img) :: rest, m, out, c, body, _, hd, hb, hg, hc, hok => by
    rw [ESP.addImages] at hok ⊢
    by_cases h1 : (ESP.AddImage m out img addr false).1 = 0
    · rw [if_neg (not_not.mpr h1)] at hok ⊢
      obtain ⟨s1, s2, s3⟩ := AddImage_sparse m out img addr c body (Or.inr ⟨hd, hb⟩)
        (hg _ (List.mem_cons_self _ _)) h1
      have hb1 : (body ++ sparseRecord addr img.data).length % 4 = 0 := by
        rw [List.length_append, Nat.add_mod, hb, sparseRecord_length]
      simp only [List.length_cons] at hc
      have hc1 : (c + 1) % 256 = c + 1 := Nat.mod_eq_of_lt (by omega)
      rw [hc1] at s2
      obtain ⟨i1, i2⟩ := addImages_sparse rest _ _ (c + 1) _ s3 s2 hb1
        (fun p hp => hg p (List.mem_cons_of_mem _ hp)) (by omega) hok
      refine ⟨?_, i2⟩
      rw [i1]
      simp [List.flatMap_cons, Nat.add_assoc, Nat.add_comm 1]
    · rw [if_pos h1] at hok
      exact absurd hok h1

theorem addImages_container (imgs : List (Nat × VFile)) (m : Nat) (out : VFile)
    (hout : out.data = [] ∧ out.m_pos = 0)
    (hk : 1 ≤ imgs.length ∧ imgs.length ≤ 255)
    (himg : ∀ p ∈ imgs, GoodImage p.2)
    (hok : (ESP.addImages false imgs m out).1 = 0) :
    (ESP.addImages false imgs m out).2.2.data = sparseContainer imgs ∧
    (ESP.addImages false imgs m out).2.2.isOpen = true := by
  match imgs, hk, himg, hok with
  | [], hk, _, _ => exact absurd hk.1 (by decide)
  | (addr, img) :: rest, hk, himg, hok =>
    rw [ESP.addImages] at hok ⊢
    by_cases h1 : (ESP.AddImage m out img addr false).1 = 0
    · rw [if_neg (not_not.mpr h1)] at hok ⊢
      obtain ⟨s1, s2, s3⟩ := AddImage_sparse m out img addr 0 []
        (Or.inl ⟨hout.1, hout.2, rfl, rfl⟩) (himg _ (List.mem_cons_self _ _)) h1
      have hb1 : (([] : List Nat) ++ sparseRecord addr img.data).length % 4 = 0 := by
        rw [List.nil_append, sparseRecord_length]
      simp only [List.length_cons] at hk
      obtain ⟨i1, i2⟩ := addImages_sparse rest _ _ 1 _ s3 s2 hb1
        (fun p hp => himg p (List.mem_cons_of_mem _ hp)) (by omega) hok
      refine ⟨?_, i2⟩
      rw [i1]
      simp [sparseContainer, List.flatMap_cons, Nat.add_comm 1]
    · rw [if_pos h1] at hok
      exact absurd hok h1

theorem flatRecords_length : ∀ l : List (Nat × VFile),
    (l.flatMap fun p => sparseRecord p.1 p.2.data).length % 4 = 0
  | [] => rfl
  | a :: l => by
    rw [List.flatMap_cons, List.length_append, Nat.add_mod, flatRecords_length l,
      sparseRecord_length]

theorem AddImage_padded (m : Nat) (out img : VFile) (addr : Nat) (hA : AtEnd out)
    (hm : (if out.m_size = 0 then 0 else m) = out.data.length)
    (io : img.isOpen = true) (ip : img.m_pos = 0) (id : img.data ≠ [])
    (ha : out.data.length ≤ addr) :
    (ESP.AddImage m out img addr true).1 = 0 ∧
    (ESP.AddImage m out img addr true).2.1 = (addr + img.m_size) % 2 ^ 32 ∧
    (ESP.AddImage m out img addr true).2.2.1.data =
      out.data ++ List.replicate (addr - out.data.length) 0xff ++ img.data ∧
    AtEnd (ESP.AddImage m out img addr true).2.2.1 := by
  have hsz : img.m_size ≠ 0 := by
    simp only [VFile.m_size]
    intro h0
    exact id (List.eq_nil_of_length_eq_zero h0)
  have hlt : ¬ addr < out.data.length := by omega
  unfold ESP.AddImage
  simp only [VFile.IsOpen, hA.1, io, Bool.not_true, Bool.or_self, Bool.false_eq_true, if_false,
    hsz, if_true, hm, if_neg hlt]
  by_cases h1 : out.data.length < addr
  · obtain ⟨f1, f2, f3⟩ := Fill_atEnd hA 0xff (addr - out.data.length)
    obtain ⟨c1, c2, c3, c4⟩ := copyImage_ok img.m_size img.m_size 0
      ((out.Fill 0xff (addr - out.data.length)).2.NeedSpace img.m_size) img io ip rfl
      (Nat.zero_le _) (NeedSpace_atEnd _ f3) (by omega)
    rw [NeedSpace_data, f2, List.drop_zero] at c3
    simp only [if_pos h1, ne_eq, not_true_eq_false, if_false, c1, c2]
    exact ⟨trivial, trivial, c3, c4⟩
  · obtain ⟨c1, c2, c3, c4⟩ := copyImage_ok img.m_size img.m_size 0
      (out.NeedSpace img.m_size) img io ip rfl (Nat.zero_le _) (NeedSpace_atEnd _ hA) (by omega)
    rw [NeedSpace_data, List.drop_zero] at c3
    have e : addr = out.data.length := by omega
    simp only [if_neg h1, ne_eq, not_true_eq_false, if_false, c1, c2]
    refine ⟨trivial, by rw [e], ?_, c4⟩
    rw [c3, e, Nat.sub_self]
    simp

theorem addImages_padded : ∀ (imgs : List (Nat × VFile)) (m : Nat) (out : VFile), AtEnd out →
    (imgs ≠ [] → (if out.m_size = 0 then 0 else m) = out.data.length) →
    (∀ p ∈ imgs, p.2.isOpen = true ∧ p.2.m_pos = 0 ∧ p.2.data ≠ []) →
    PaddedChain out.data.length imgs →
    (ESP.addImages true imgs m out).1 = 0 ∧
    (ESP.addImages true imgs m out).2.2.data = paddedLayout out.data imgs
  | [], m, out, _, _, _, _ => ⟨rfl, rfl⟩
  | (addr, img) :: rest, m, out, hA, hm, hg, hch => by
    obtain ⟨g1, g2, g3⟩ := hg _ (List.mem_cons_self _ _)
    obtain ⟨a1, a2, a3, a4⟩ := AddImage_padded m out img addr hA (hm (List.cons_ne_nil _ _))
      g1 g2 g3 hch.1
    have hlen : (ESP.AddImage m out img addr true).2.2.1.data.length = addr + img.m_size := by
      rw [a3]
      simp only [List.length_append, List.length_replicate, VFile.m_size]
      have := hch.1
      omega
    have hpos : 0 < img.data.length := List.length_pos.mpr g3
    have ih := addImages_padded rest (ESP.AddImage m out img addr true).2.1
      (ESP.AddImage m out img addr true).2.2.1 a4 (fun hne => by
        have hch2 := hch.2.2
        rw [a2, hlen, if_neg (by rw [VFile.m_size, hlen, VFile.m_size]; omega)]
        apply Nat.mod_eq_of_lt
        match rest, hne, hch2 with
        | (a, i) :: _, _, hch2 =>
          have h1 := hch2.1
          have h2 := hch2.2.1
          omega)
      (fun p hp => hg p (List.mem_cons_of_mem _ hp)) (by rw [hlen]; exact hch.2.2)
    rw [ESP.addImages, if_neg (not_not.mpr a1)]
    refine ⟨ih.1, ?_⟩
    rw [ih.2, a3]
    rfl

theorem paddedLayout_prefix : ∀ (imgs : List (Nat × VFile)) (acc : List Nat),
    ∃ ext, paddedLayout acc imgs = acc ++ ext
  | [], acc => ⟨[], (List.append_nil _).symm⟩
  | (addr, img) :: rest, acc => by
    obtain ⟨ext, h⟩ := paddedLayout_prefix rest
      (acc ++ List.replicate (addr - acc.length) 0xff ++ img.data)
    refine ⟨List.replicate (addr - acc.length) 0xff ++ img.data ++ ext, ?_⟩
    rw [paddedLayout, h]
    simp only [List.append_assoc]

theorem paddedLayout_image : ∀ (imgs : List (Nat × VFile)) (acc : List Nat),
    PaddedChain acc.length imgs → ∀ p ∈ imgs,
      ((paddedLayout acc imgs).drop p.1).take p.2.m_size = p.2.data
  | [], _, _, p, hp => absurd hp (List.not_mem_nil _)
  | (addr, img) :: rest, acc, hch, p, hp => by
    have hl : (acc ++ List.replicate (addr - acc.length) 0xff ++ img.data).length =
        addr + img.m_size := by
      simp only [List.length_append, List.length_replicate, VFile.m_size]
      have := hch.1
      omega
    rcases List.mem_cons.mp hp with rfl | hp
    · obtain ⟨ext, h⟩ := paddedLayout_prefix rest
        (acc ++ List.replicate (addr - acc.length) 0xff ++ img.data)
      have hl2 : (acc ++ List.replicate (addr - acc.length) 0xff).length = addr := by
        simp only [List.length_append, List.length_replicate]
        have := hch.1
        omega
      rw [paddedLayout, h, List.append_assoc _ img.data ext]
      show List.take img.m_size (List.drop addr _) = img.data
      rw [List.drop_append_of_le_length (by omega), List.drop_of_length_le (by omega),
        List.nil_append, List.take_append_of_le_length (by rw [VFile.m_size]),
        List.take_of_length_le (by rw [VFile.m_size])]
    · rw [paddedLayout]
      exact paddedLayout_image rest _ (by rw [hl]; exact hch.2.2) p hp

theorem paddedLayout_gap : ∀ (imgs : List (Nat × VFile)) (acc : List Nat),
    PaddedChain acc.length imgs → ∀ j, acc.length ≤ j → j < (paddedLayout acc imgs).length →
      (∀ p ∈ imgs, j < p.1 ∨ p.1 + p.2.m_size ≤ j) → (paddedLayout acc imgs).getD j 0 = 0xff
  | [], acc, _, j, h1, h2, _ => by
    rw [paddedLayout] at h2
    omega
  | (addr, img) :: rest, acc, hch, j, h1, h2, hout => by
    have hl : (acc ++ List.replicate (addr - acc.length) 0xff ++ img.data).length =
        addr + img.m_size := by
      simp only [List.length_append, List.length_replicate, VFile.m_size]
      have := hch.1
      omega
    rw [paddedLayout] at h2 ⊢
    by_cases hj : addr + img.m_size ≤ j
    · exact paddedLayout_gap rest _ (by rw [hl]; exact hch.2.2) j (by rw [hl]; exact hj) h2
        (fun p hp => hout p (List.mem_cons_of_mem _ hp))
    · have hja : j < addr := by
        rcases hout _ (List.mem_cons_self _ _) with h | h
        · exact h
        · exact absurd h hj
      obtain ⟨ext, h⟩ := paddedLayout_prefix rest
        (acc ++ List.replicate (addr - acc.length) 0xff ++ img.data)
      rw [h, List.append_assoc, List.append_assoc, List.getD_eq_getElem?_getD,
        List.getElem?_append_right h1, List.getElem?_append_left (by
          rw [List.length_replicate]; omega), List.getElem?_replicate, if_pos (by omega)]
      rfl

theorem Read_at (vf : VFile) (pre mid post : List Nat) (ho : vf.isOpen = true)
    (hd : vf.data = pre ++ (mid ++ post)) (hp : vf.m_pos = pre.length) (h0 : mid ≠ []) :
    vf.Read 1 mid.length =
      ((mid.length : Int), mid, { vf with m_pos := pre.length + mid.length }) := by
  have hl : 0 < mid.length := List.length_pos.mpr h0
  rw [Read_part vf mid.length ho (by omega) (by rw [VFile.m_size, hd, hp]; simp), hp, hd]
  simp

theorem SetPosition_ok (vf : VFile) (pos : Nat) (ho : vf.isOpen = true)
    (h : pos ≤ vf.data.length) : vf.SetPosition pos = (0, { vf with m_pos := pos }) := by
  unfold VFile.SetPosition
  rw [if_pos ho, if_neg (by rw [VFile.m_size]; omega)]

theorem imagePadded_length (img : VFile) : (imagePadded img).length = roundUp4 img.m_size := by
  have h1 : img.m_size ≤ roundUp4 img.m_size := by unfold roundUp4; omega
  simp only [imagePadded, List.length_append, List.length_replicate]
  rw [VFile.m_size] at *
  omega

theorem sparseRecord_split (addr : Nat) (img : VFile) :
    sparseRecord addr img.data =
      (le32 addr ++ le32 (roundUp4 img.m_size)) ++ imagePadded img := by
  simp only [sparseRecord, imagePadded, VFile.m_size, List.append_assoc]

theorem record_words (a r : Nat) (ha : a < 2 ^ 32) (hr : r < 2 ^ 32) :
    getData 4 (le32 a ++ le32 r) 0 = a ∧ getData 4 (le32 a ++ le32 r) 4 = r := by
  have h1 := getData4_le32 [] (le32 r) a ha
  have h2 := getData4_le32 (le32 a) [] r hr
  rw [List.append_nil] at h2
  exact ⟨h1, h2⟩

theorem roundUp4_lt (n : Nat) (h : n < 2 ^ 32 - 3) : roundUp4 n < 2 ^ 32 := by
  unfold roundUp4; omega

theorem flashWriteRegions_walk : ∀ (rest : List (Nat × VFile)) (pre : List Nat) (vf : VFile)
    (stat : Int) (acc : List (Nat × Nat × Nat)), vf.isOpen = true →
    vf.data = pre ++ (rest.flatMap fun p => sparseRecord p.1 p.2.data) →
    vf.m_pos = pre.length → vf.data.length < 2 ^ 32 →
    (∀ p ∈ rest, p.1 < 2 ^ 32 ∧ p.2.m_size < 2 ^ 32 - 3) →
    (flashWriteRegions rest.length vf stat acc).1 = (if rest = [] then stat else 0) ∧
    (flashWriteRegions rest.length vf stat acc).2.map (regionView vf.data) =
      acc.map (regionView vf.data) ++ rest.map imageView
  | [], pre, vf, stat, acc, _, _, _, _, _ => by
    simp [flashWriteRegions]
  | (a, img) :: rest, pre, vf, stat, acc, ho, hd, hp, hlen, hg => by
    obtain ⟨ha, hs⟩ := hg _ (List.mem_cons_self _ _)
    have hr4 := roundUp4_lt _ hs
    rw [List.flatMap_cons, sparseRecord_split, List.append_assoc] at hd
    have hR := Read_at vf pre (le32 a ++ le32 (roundUp4 img.m_size)) _ ho hd hp (by simp [le32])
    have hl8 : (le32 a ++ le32 (roundUp4 img.m_size)).length = 8 := rfl
    rw [hl8] at hR
    obtain ⟨w1, w2⟩ := record_words a (roundUp4 img.m_size) ha hr4
    have hdl : vf.data.length = pre.length + 8 + roundUp4 img.m_size +
        (rest.flatMap fun p => sparseRecord p.1 p.2.data).length := by
      rw [hd]
      simp only [List.length_append, hl8, imagePadded_length]
      omega
    have hS := SetPosition_ok { vf with m_pos := pre.length + 8 }
      (pre.length + 8 + roundUp4 img.m_size) ho (by show _ ≤ vf.data.length; omega)
    have hd2 : vf.data = (pre ++ sparseRecord a img.data) ++
        (rest.flatMap fun p => sparseRecord p.1 p.2.data) := by
      rw [hd, sparseRecord_split]
      simp only [List.append_assoc]
    have ih := flashWriteRegions_walk rest (pre ++ sparseRecord a img.data)
      { vf with m_pos := pre.length + 8 + roundUp4 img.m_size } 0
      (acc ++ [(pre.length + 8, roundUp4 img.m_size, a)]) ho hd2 (by
        show pre.length + 8 + roundUp4 img.m_size = _
        rw [List.length_append, sparseRecord_split, List.length_append, hl8, imagePadded_length]
        omega) hlen (fun p hp => hg p (List.mem_cons_of_mem _ hp))
    have hview : regionView vf.data (pre.length + 8, roundUp4 img.m_size, a) =
        imageView (a, img) := by
      have e : vf.data = (pre ++ (le32 a ++ le32 (roundUp4 img.m_size))) ++ (imagePadded img ++
          (rest.flatMap fun p => sparseRecord p.1 p.2.data)) := by
        rw [hd]; simp only [List.append_assoc]
      have el : (pre ++ (le32 a ++ le32 (roundUp4 img.m_size))).length = pre.length + 8 := by
        rw [List.length_append, hl8]
      simp only [regionView, imageView]
      rw [e, ← el, List.drop_left, ← imagePadded_length, List.take_left]
    rw [List.length_cons, flashWriteRegions, hR]
    simp only [Nat.cast_ofNat, ne_eq, not_true_eq_false, if_false, w1, w2,
      Nat.mod_eq_of_lt (show pre.length + 8 < 2 ^ 32 by omega),
      Nat.mod_eq_of_lt (show pre.length + 8 + roundUp4 img.m_size < 2 ^ 32 by omega), hS,
      lt_self_iff_false, if_neg (List.cons_ne_nil _ _)]
    refine ⟨by rw [ih.1]; split_ifs <;> rfl, ?_⟩
    have ih2 := ih.2
    rw [List.map_append, List.map_singleton, List.append_assoc] at ih2
    rw [List.map_cons, ← hview]
    exact ih2

theorem infoEntries_walk : ∀ (rest : List (Nat × VFile)) (pre : List Nat) (vf : VFile)
    (acc : List CombinedEntryReport), vf.isOpen = true →
    vf.data = pre ++ (rest.flatMap fun p => sparseRecord p.1 p.2.data) →
    vf.m_pos = pre.length → vf.data.length < 2 ^ 32 →
    (∀ p ∈ rest, p.1 < 2 ^ 32 ∧ p.2.m_size < 2 ^ 32 - 3 ∧ p.2.m_size ≠ 0) →
    (infoEntries rest.length vf acc).1 = 0 →
    (infoEntries rest.length vf acc).2.map (fun e => (e.addr, e.len)) =
      acc.map (fun e => (e.addr, e.len)) ++ rest.map fun p => (p.1, roundUp4 p.2.m_size)
  | [], pre, vf, acc, _, _, _, _, _, _ => by
    simp [infoEntries]
  | (a, img) :: rest, pre, vf, acc, ho, hd, hp, hlen, hg, hok => by
    have ha : a < 2 ^ 32 := (hg _ (List.mem_cons_self _ _)).1
    have hs : img.m_size < 2 ^ 32 - 3 := (hg _ (List.mem_cons_self _ _)).2.1
    have hne : img.m_size ≠ 0 := (hg _ (List.mem_cons_self _ _)).2.2
    have hr4 := roundUp4_lt _ hs
    rw [List.flatMap_cons, sparseRecord_split, List.append_assoc] at hd
    have hR := Read_at vf pre (le32 a ++ le32 (roundUp4 img.m_size)) _ ho hd hp (by simp [le32])
    have hl8 : (le32 a ++ le32 (roundUp4 img.m_size)).length = 8 := rfl
    rw [hl8] at hR
    obtain ⟨w1, w2⟩ := record_words a (roundUp4 img.m_size) ha hr4
    have hdl : vf.data.length = pre.length + 8 + roundUp4 img.m_size +
        (rest.flatMap fun p => sparseRecord p.1 p.2.data).length := by
      rw [hd]
      simp only [List.length_append, hl8, imagePadded_length]
      omega
    have hge : 4 ≤ roundUp4 img.m_size := by unfold roundUp4; omega
    have hml : ((imagePadded img).take 4).length = 4 := by
      rw [List.length_take, imagePadded_length]; omega
    have hd3 : vf.data = (pre ++ (le32 a ++ le32 (roundUp4 img.m_size))) ++
        ((imagePadded img).take 4 ++ ((imagePadded img).drop 4 ++
          (rest.flatMap fun p => sparseRecord p.1 p.2.data))) := by
      rw [hd, ← List.append_assoc ((imagePadded img).take 4), List.take_append_drop]
      simp only [List.append_assoc]
    have hB := Read_at { vf with m_pos := pre.length + 8 }
      (pre ++ (le32 a ++ le32 (roundUp4 img.m_size))) ((imagePadded img).take 4) _ ho hd3
      (by rw [List.length_append, hl8]) (by
        intro h0
        rw [h0] at hml
        exact absurd hml (by decide))
    rw [hml, List.length_append, hl8] at hB
    have hS := SetPosition_ok { vf with m_pos := pre.length + 8 + 4 }
      (pre.length + 8 + roundUp4 img.m_size) ho (by show _ ≤ vf.data.length; omega)
    have hd2 : vf.data = (pre ++ sparseRecord a img.data) ++
        (rest.flatMap fun p => sparseRecord p.1 p.2.data) := by
      rw [hd, sparseRecord_split]
      simp only [List.append_assoc]
    have step : ∃ std : Int × Option StdImageReport,
        infoEntries (rest.length + 1) vf acc =
          if std.1 ≠ 0 then (std.1, acc)
          else infoEntries rest.length { vf with m_pos := pre.length + 8 + roundUp4 img.m_size }
            (acc ++ [⟨a, roundUp4 img.m_size, std.2⟩]) := by
      rw [infoEntries, hR]
      simp only [Nat.cast_ofNat, ne_eq, not_true_eq_false, if_false, w1, w2,
        Nat.mod_eq_of_lt (show pre.length + 8 < 2 ^ 32 by omega),
        Nat.mod_eq_of_lt (show pre.length + 8 + roundUp4 img.m_size < 2 ^ 32 by omega), hB, hS,
        lt_self_iff_false]
      exact ⟨_, rfl⟩
    obtain ⟨std, step⟩ := step
    rw [List.length_cons, step] at hok ⊢
    by_cases h0 : std.1 = 0
    · rw [if_neg (not_not.mpr h0)] at hok ⊢
      have ih := infoEntries_walk rest (pre ++ sparseRecord a img.data)
        { vf with m_pos := pre.length + 8 + roundUp4 img.m_size }
        (acc ++ [⟨a, roundUp4 img.m_size, std.2⟩]) ho hd2 (by
          show pre.length + 8 + roundUp4 img.m_size = _
          rw [List.length_append, sparseRecord_split, List.length_append, hl8,
            imagePadded_length]
          omega) hlen (fun p hp => hg p (List.mem_cons_of_mem _ hp)) hok
      rw [ih, List.map_append, List.map_singleton, List.append_assoc]
      rfl
    · rw [if_pos h0] at hok
      exact absurd hok h0

theorem addImages_nonempty (padded : Bool) : ∀ (imgs : List (Nat × VFile)) (m : Nat)
    (out : VFile), (ESP.addImages padded imgs m out).1 = 0 → ∀ p ∈ imgs, p.2.m_size ≠ 0
  | [], _, _, _, p, hp => absurd hp (List.not_mem_nil _)
  | (addr, img) :: rest, m, out, hok, p, hp => by
    rw [ESP.addImages] at hok
    by_cases h1 : (ESP.AddImage m out img addr padded).1 = 0
    · rw [if_neg (not_not.mpr h1)] at hok
      rcases List.mem_cons.mp hp with rfl | hp
      · exact (AddImage_ok_open h1).2.2
      · exact addImages_nonempty padded rest _ _ hok p hp
    · rw [if_pos h1] at hok
      exact absurd hok h1

theorem container_regions (c : VFile) (imgs : List (Nat × VFile)) (addr : Nat)
    (ho : c.isOpen = true) (hd : c.data = sparseContainer imgs) :
    FlashWriteRegions c addr = flashWriteRegions imgs.length { c with m_pos := 4 } (-1) [] := by
  have hd1 : c.data = [] ++ ([0x65, 0x73, 0x70, imgs.length] ++
      (imgs.flatMap fun p => sparseRecord p.1 p.2.data)) := hd
  have hS := SetPosition_ok c 0 ho (Nat.zero_le _)
  have hR : ({ c with m_pos := 0 } : VFile).Read 1 4 =
      (((4 : Nat) : Int), [0x65, 0x73, 0x70, imgs.length], { c with m_pos := 4 }) :=
    Read_at { c with m_pos := 0 } [] [0x65, 0x73, 0x70, imgs.length] _ ho hd1 rfl (by simp)
  have hsz : c.m_size ≠ 0 := by rw [VFile.m_size, hd]; simp [sparseContainer]
  have hopen : (!c.IsOpen) = false := by rw [VFile.IsOpen, ho]; rfl
  have ht : ([0x65, 0x73, 0x70, imgs.length] : List Nat).take 3 = COMPOSITE_SIG := rfl
  unfold FlashWriteRegions
  simp only [hopen, Bool.false_eq_true, if_false, hsz, hS, hR, ht, Nat.cast_ofNat, ne_eq,
    not_true_eq_false, or_self]
  rfl

theorem container_info (c : VFile) (imgs : List (Nat × VFile))
    (ho : c.isOpen = true) (hd : c.data = sparseContainer imgs) :
    ImageInfo c = ((infoEntries imgs.length { c with m_pos := 4 } []).1,
      if (infoEntries imgs.length { c with m_pos := 4 } []).1 = 0 then
        some (ImageReport.combined imgs.length
          (infoEntries imgs.length { c with m_pos := 4 } []).2) else none) := by
  have hd1 : c.data = [] ++ ([0x65, 0x73, 0x70, imgs.length] ++
      (imgs.flatMap fun p => sparseRecord p.1 p.2.data)) := hd
  have hS := SetPosition_ok c 0 ho (Nat.zero_le _)
  have hR : ({ c with m_pos := 0 } : VFile).Read 1 4 =
      (((4 : Nat) : Int), [0x65, 0x73, 0x70, imgs.length], { c with m_pos := 4 }) :=
    Read_at { c with m_pos := 0 } [] [0x65, 0x73, 0x70, imgs.length] _ ho hd1 rfl (by simp)
  have hopen : (!c.IsOpen) = false := by rw [VFile.IsOpen, ho]; rfl
  have ht : ([0x65, 0x73, 0x70, imgs.length] : List Nat).take 3 = COMPOSITE_SIG := rfl
  have hm : ¬ ([0x65, 0x73, 0x70, imgs.length] : List Nat).getD 0 0 = ESP_IMAGE_MAGIC :=
    show ¬ (0x65 : Nat) = ESP_IMAGE_MAGIC by decide
  unfold ImageInfo
  simp only [hopen, Bool.false_eq_true, if_false, hS, hR, ht, hm, Nat.cast_ofNat, ne_eq,
    not_true_eq_false, or_self]
  rfl

/-! ## Lemmas: `FlashRead` -/

theorem ReadByte_raw {ch : SerialChannel} {S tx : List Nat} {sc : List (List Nat)} (b : Nat)
    (h : Chan ch (b :: S) tx sc) :
    (ch.ReadByte false).1 = 1 ∧ (ch.ReadByte false).2.1 = some b ∧
    Chan (ch.ReadByte false).2.2 S tx sc := by
  obtain ⟨a1, a2, _⟩ := Available_spec h
  obtain ⟨b1, b2⟩ := ReadByteRaw_spec a2
  unfold SerialChannel.ReadByte
  simp only [a1, b1, List.length_cons, Nat.add_one_ne_zero, if_false, Bool.not_false, if_true,
    List.headD_cons]
  exact ⟨trivial, trivial, by simpa using b2⟩

theorem readByte_raw (esp : ESP) (fuel ms b : Nat) (S tx : List Nat) (sc : List (List Nat))
    (h : Chan esp.m_serial (b :: S) tx sc) :
    ∃ e, esp.readByte (fuel + 1) false ms = some (0, some b, e) ∧ Chan e.m_serial S tx sc ∧
      e.ticks = esp.ticks ∧ e.diagCode = esp.diagCode := by
  obtain ⟨a1, a2, _⟩ := Available_spec h
  obtain ⟨r1, r2, r3⟩ := ReadByte_raw b a2
  unfold ESP.readByte
  rw [ESP.readByteLoop]
  simp only [ESP.BytesAvailable, ESP.getTickCount, a1, List.length_cons, Bool.false_eq_true,
    if_false, ge_iff_le, Nat.le_add_left, if_true, r1, r2, true_or]
  exact ⟨_, rfl, r3, rfl, rfl⟩

theorem readByte_slip (esp : ESP) (fuel ms b c : Nat) (S tx : List Nat) (sc : List (List Nat))
    (h : Chan esp.m_serial (slipEnc b ++ c :: S) tx sc) :
    ∃ e, esp.readByte (fuel + 1) true ms = some (0, some b, e) ∧
      Chan e.m_serial (c :: S) tx sc ∧ e.ticks = esp.ticks ∧ e.diagCode = esp.diagCode := by
  obtain ⟨a1, a2, _⟩ := Available_spec h
  obtain ⟨r1, r2, r3⟩ := ReadByte_slip a2
  rw [slipStep_enc] at r1 r2 r3
  have hlen : 2 ≤ (slipEnc b ++ c :: S).length := by
    have := slipEnc_length_pos b
    simp only [List.length_append, List.length_cons]
    omega
  have hst : (esp.m_serial.Available.2.ReadByte true).1 = 1 ∨
      (esp.m_serial.Available.2.ReadByte true).1 = 2 := by
    rw [r1]; split_ifs <;> simp
  unfold ESP.readByte
  rw [ESP.readByteLoop]
  simp only [ESP.BytesAvailable, ESP.getTickCount, a1, if_true, ge_iff_le, hlen, hst, r2]
  exact ⟨_, rfl, r3, rfl, rfl⟩

theorem flashReadBlock_ok (fuel length : Nat) : ∀ (blk : List Nat) (dataLen : Nat) (vf : VFile)
    (esp : ESP) (c : Nat) (S tx : List Nat) (sc : List (List Nat)), AtEnd vf →
    Chan esp.m_serial (slipEncode blk ++ c :: S) tx sc → dataLen + blk.length < 2 ^ 32 →
    ∃ vf1 e, ESP.flashReadBlock (fuel + 1) length blk.length dataLen vf esp =
        some (0, dataLen + blk.length, vf1, e) ∧
      vf1.data = vf.data ++ blk.take (length - dataLen) ∧ AtEnd vf1 ∧
      Chan e.m_serial (c :: S) tx sc ∧ e.ticks = esp.ticks ∧ e.diagCode = esp.diagCode
  | [], dataLen, vf, esp, c, S, tx, sc, hA, hC, _ => by
    refine ⟨vf, esp, rfl, by simp, hA, ?_, rfl, rfl⟩
    simpa [slipEncode] using hC
  | b :: blk, dataLen, vf, esp, c, S, tx, sc, hA, hC, hl => by
    simp only [List.length_cons] at hl
    have hC1 : Chan esp.m_serial (slipEnc b ++ (slipEncode blk ++ c :: S).head
        (append_ne_nil_right _ _ _) :: (slipEncode blk ++ c :: S).tail) tx sc := by
      rw [List.head_cons_tail, ← List.append_assoc, ← slipEncode_cons]
      exact hC
    obtain ⟨e, r1, r2, r3, r4⟩ := readByte_slip esp fuel DEF_TIMEOUT b _ _ tx sc hC1
    rw [List.head_cons_tail] at r2
    have hm : (dataLen + 1) % 2 ^ 32 = dataLen + 1 := Nat.mod_eq_of_lt (by omega)
    by_cases hd : dataLen < length
    · obtain ⟨w1, w2, w3⟩ := Write_one hA b
      obtain ⟨vf1, e1, i1, i2, i3, i4, i5, i6⟩ := flashReadBlock_ok fuel length blk (dataLen + 1)
        (vf.Write [b] 1 1).2 e c S tx sc w3 r2 (by omega)
      refine ⟨vf1, e1, ?_, ?_, i3, i4, i5.trans r3, i6.trans r4⟩
      · rw [List.length_cons, ESP.flashReadBlock, r1]
        simp only [ne_eq, not_true_eq_false, if_false, Option.getD_some, if_pos hd, hm]
        rw [i1, Nat.add_assoc, Nat.add_comm 1]
      · rw [i2, w2, List.append_assoc]
        have e1 : length - dataLen = (length - (dataLen + 1)) + 1 := by omega
        rw [e1, List.take_succ_cons]
        rfl
    · obtain ⟨vf1, e1, i1, i2, i3, i4, i5, i6⟩ := flashReadBlock_ok fuel length blk (dataLen + 1)
        vf e c S tx sc hA r2 (by omega)
      refine ⟨vf1, e1, ?_, ?_, i3, i4, i5.trans r3, i6.trans r4⟩
      · rw [List.length_cons, ESP.flashReadBlock, r1]
        simp only [ne_eq, not_true_eq_false, if_false, if_neg hd, hm]
        rw [i1, Nat.add_assoc, Nat.add_comm 1]
      · rw [i2]
        have e1 : length - dataLen = 0 := by omega
        have e2 : length - (dataLen + 1) = 0 := by omega
        rw [e1, e2, List.take_zero, List.take_zero]

theorem flashReadFrames_ok (fuel length blkSize : Nat) : ∀ (blocks : List (List Nat))
    (dataLen : Nat) (vf : VFile) (esp : ESP) (tail tx : List Nat) (sc : List (List Nat)),
    AtEnd vf → Chan esp.m_serial (blockFrames blocks ++ tail) tx sc →
    (∀ blk ∈ blocks, blk.length = blkSize) → dataLen + blocks.length * blkSize < 2 ^ 32 →
    ∃ vf1 e, ESP.flashReadFrames (fuel + 1) length blkSize blocks.length dataLen vf esp =
        some (0, vf1, e) ∧
      vf1.data = vf.data ++ blocks.flatten.take (length - dataLen) ∧ AtEnd vf1 ∧
      Chan e.m_serial tail tx sc ∧ e.ticks = esp.ticks ∧ e.diagCode = esp.diagCode
  | [], dataLen, vf, esp, tail, tx, sc, hA, hC, _, _ => by
    refine ⟨vf, esp, rfl, by simp, hA, ?_, rfl, rfl⟩
    simpa [blockFrames] using hC
  | blk :: blocks, dataLen, vf, esp, tail, tx, sc, hA, hC, hb, hl => by
    have hbl : blk.length = blkSize := hb _ (List.mem_cons_self _ _)
    simp only [List.length_cons, Nat.add_mul, Nat.one_mul] at hl
    have hC1 : Chan esp.m_serial (0xc0 :: (slipEncode blk ++ 0xc0 :: (blockFrames blocks ++ tail)))
        tx sc := by
      have e : blockFrames (blk :: blocks) ++ tail =
          0xc0 :: (slipEncode blk ++ 0xc0 :: (blockFrames blocks ++ tail)) := by
        simp [blockFrames, List.flatMap_cons]
      rw [← e]
      exact hC
    obtain ⟨e1, r1, r2, r3, r4⟩ := readByte_raw esp fuel DEF_TIMEOUT _ _ tx sc hC1
    obtain ⟨vf1, e2, b1, b2, b3, b4, b5, b6⟩ := flashReadBlock_ok fuel length blk dataLen vf e1
      0xc0 _ tx sc hA r2 (by omega)
    obtain ⟨e3, s1, s2, s3, s4⟩ := readByte_raw e2 fuel DEF_TIMEOUT _ _ tx sc b4
    obtain ⟨vf2, e4, i1, i2, i3, i4, i5, i6⟩ := flashReadFrames_ok fuel length blkSize blocks
      (dataLen + blk.length) vf1 e3 tail tx sc b3 s2 (fun x hx => hb x (List.mem_cons_of_mem _ hx))
      (by omega)
    refine ⟨vf2, e4, ?_, ?_, i3, i4, ?_, ?_⟩
    · rw [hbl] at b1
      rw [List.length_cons, ESP.flashReadFrames, r1]
      simp only [ne_eq, not_true_eq_false, if_false, Option.getD_some, b1, s1]
      rw [hbl] at i1
      exact i1
    · rw [i2, b2, List.append_assoc, List.flatten_cons, List.take_append_eq_append_take,
        Nat.sub_sub]
    · rw [i5, s3, b5, r3]
    · rw [i6, s4, b6, r4]

theorem writePacketLoop_take (d : List Nat) : ∀ (len i : Nat) (ch : SerialChannel),
    ESP.writePacketLoop d len i ch = ESP.writePacketLoop (d.take (i + len)) len i ch
  | 0, _, _ => rfl
  | len + 1, i, ch => by
    have hg : (d.take (i + (len + 1))).getD i 0 = d.getD i 0 := by
      rw [List.getD_eq_getElem?_getD, List.getD_eq_getElem?_getD, List.getElem?_take_of_lt (by omega)]
    rw [ESP.writePacketLoop, ESP.writePacketLoop, hg, writePacketLoop_take d len (i + 1),
      writePacketLoop_take (d.take (i + (len + 1))) len (i + 1), List.take_take,
      Nat.min_eq_left (by omega)]

theorem doCommand_take (esp : ESP) (fuel op : Nat) (b1 : DataBlock_t) (n : Nat) (d : List Nat)
    (checkVal : Nat) (wantVal : Bool) (ms : Nat) :
    esp.doCommand fuel op [b1, ⟨n, some d⟩] checkVal wantVal ms =
      esp.doCommand fuel op [b1, ⟨n, some (d.take n)⟩] checkVal wantVal ms := by
  have hpd : ∀ ch : SerialChannel,
      ESP.writePacketData ch (some d) n = ESP.writePacketData ch (some (d.take n)) n := by
    intro ch
    simp only [ESP.writePacketData]
    rw [writePacketLoop_take d n 0 ch, Nat.zero_add]
  have hs : esp.sendCommand op checkVal [b1, ⟨n, some d⟩] =
      esp.sendCommand op checkVal [b1, ⟨n, some (d.take n)⟩] := by
    simp only [ESP.sendCommand, ESP.totalDataLen, ESP.writePacket, ESP.writeBlocks, hpd,
      Option.isSome_some]
  unfold ESP.doCommand
  rw [hs]

theorem flashReadDownload_ok (esp : ESP) (fuel : Nat) (stub r1 r2 r3 : List Nat)
    (a b c d : Nat) (T : List Nat) (rest : List (List Nat)) (hstub : 68 ≤ stub.length)
    (hq : QInv esp.m_serial.m_queue)
    (hs : esp.m_serial.port.script =
      r1 :: r2 :: r3 :: (replyFrame ESP_MEM_END a b c d ++ T) :: rest)
    (h1 : Accepts ESP_FLASH_BEGIN r1) (h2 : Accepts ESP_MEM_BEGIN r2)
    (h3 : Accepts ESP_MEM_DATA r3) (ht : esp.inTime DEF_TIMEOUT) (hf : 13 ≤ fuel) :
    ∃ e, esp.flashReadDownload fuel stub 68 = some (0, e) ∧
      Chan e.m_serial T (esp.m_serial.port.tx ++
        (commandFrame ESP_FLASH_BEGIN 0 (le32 0 ++ le32 0 ++ le32 1024 ++ le32 0) ++
         commandFrame ESP_MEM_BEGIN 0 (le32 68 ++ le32 1 ++ le32 68 ++ le32 IRAM_ADDR) ++
         commandFrame ESP_MEM_DATA (xorFold ESP_CHECKSUM_MAGIC (stub.take 68))
           (le32 68 ++ le32 0 ++ le32 0 ++ le32 0 ++ stub.take 68) ++
         commandFrame ESP_MEM_END 0 (le32 0 ++ le32 FLASH_READ_STUB_BEGIN))) rest ∧
      e.ticks = esp.ticks ∧ e.diagCode = esp.diagCode := by
  -- flashBegin(0, 0)
  obtain ⟨v1, e1, c1, q1, s1, t1, d1, x1⟩ := doCommandData_ok esp fuel ESP_FLASH_BEGIN
    (le32 0 ++ le32 0 ++ le32 1024 ++ le32 0) 0 false DEF_TIMEOUT r1 _ (by decide) (by decide)
    (by simp [le32]) hq hs h1 ht hf
  have hb1 : esp.flashBegin fuel 0 0 = some (0, e1) := by
    unfold ESP.flashBegin
    simp only [putData_4]
    exact congrArg (Option.map fun r => (r.1, r.2.2)) c1
  -- ramBegin(IRAM_ADDR, 68, 68)
  have ht1 : e1.inTime DEF_TIMEOUT := inTime_congr _ t1 d1 ht
  obtain ⟨v2, e2, c2, q2, s2, t2, d2, x2⟩ := doCommandData_ok e1 fuel ESP_MEM_BEGIN
    (le32 68 ++ le32 1 ++ le32 68 ++ le32 IRAM_ADDR) 0 false DEF_TIMEOUT r2 _ (by decide)
    (by decide) (by simp [le32]) q1 s1 h2 ht1 hf
  have hb2 : e1.ramBegin fuel IRAM_ADDR 68 68 = some (0, e2) := by
    unfold ESP.ramBegin
    simp only [putData_4]
    exact congrArg (Option.map fun r => (r.1, r.2.2)) c2
  -- ramData(stub, 68)
  have ht2 : e2.inTime DEF_TIMEOUT := inTime_congr _ t2 d2 ht1
  obtain ⟨ra, rb, rc, rd, rtail, rfl⟩ := h3
  have hgood : ∀ x ∈ [(⟨16, some (le32 68 ++ le32 0 ++ le32 0 ++ le32 0)⟩ : DataBlock_t),
      ⟨68, some (stub.take 68)⟩], GoodBlock x := by
    intro x hx
    simp only [List.mem_cons, List.mem_singleton, List.not_mem_nil, or_false] at hx
    rcases hx with rfl | rfl
    · exact ⟨_, rfl, rfl, by simp [le32]⟩
    · refine ⟨_, rfl, ?_, ?_⟩
      · simp only [List.length_take]; omega
      · intro h0
        have := congrArg List.length h0
        simp only [List.length_take, List.length_nil] at this
        omega
  obtain ⟨v3, e3, c3, C3, t3, d3, x3⟩ := doCommand_ok e2 fuel ESP_MEM_DATA
    [⟨16, some (le32 68 ++ le32 0 ++ le32 0 ++ le32 0)⟩, ⟨68, some (stub.take 68)⟩]
    (xorFold ESP_CHECKSUM_MAGIC (stub.take 68)) false DEF_TIMEOUT ra rb rc rd rtail _
    (by decide) (by decide) hgood q2 s2 ht2 hf
  have hp : payloadOf [(⟨16, some (le32 68 ++ le32 0 ++ le32 0 ++ le32 0)⟩ : DataBlock_t),
      ⟨68, some (stub.take 68)⟩] = le32 68 ++ le32 0 ++ le32 0 ++ le32 0 ++ stub.take 68 := by
    simp [payloadOf, le32]
  rw [hp] at x3
  have hb3 : e2.ramData fuel stub 68 = some (0, e3) := by
    unfold ESP.ramData
    simp only [putData_4]
    rw [doCommand_take]
    exact congrArg (Option.map fun r => (r.1, r.2.2)) c3
  -- ramFinish(FLASH_READ_STUB_BEGIN)
  have ht3 : e3.inTime DEF_TIMEOUT := inTime_congr _ t3 d3 ht2
  have hb8 : ∀ x ∈ [(⟨8, some (le32 0 ++ le32 FLASH_READ_STUB_BEGIN)⟩ : DataBlock_t)],
      GoodBlock x := by
    intro x hx
    rw [List.mem_singleton] at hx
    subst hx
    exact ⟨_, rfl, rfl, by simp [le32]⟩
  obtain ⟨v4, e4, c4, C4, t4, d4, x4⟩ := doCommand_ok e3 fuel ESP_MEM_END
    [⟨8, some (le32 0 ++ le32 FLASH_READ_STUB_BEGIN)⟩] 0 false DEF_TIMEOUT a b c d T rest
    (by decide) (by decide) hb8 C3.1 C3.2.2.2 ht3 hf
  have hp4 : payloadOf [(⟨8, some (le32 0 ++ le32 FLASH_READ_STUB_BEGIN)⟩ : DataBlock_t)] =
      le32 0 ++ le32 FLASH_READ_STUB_BEGIN := by
    simp [payloadOf, le32]
  rw [hp4] at C4
  have hb4 : e3.ramFinish fuel FLASH_READ_STUB_BEGIN = some (0, e4) := by
    unfold ESP.ramFinish
    simp only [putData_4]
    rw [if_neg (by decide)]
    exact congrArg (Option.map fun r => (r.1, r.2.2)) c4
  refine ⟨e4, ?_, ?_, t4.trans (t3.trans (t2.trans t1)), d4.trans (d3.trans (d2.trans d1))⟩
  · unfold ESP.flashReadDownload
    rw [hb1]
    simp only [ne_eq, not_true_eq_false, if_false]
    rw [hb2]
    simp only [ne_eq, not_true_eq_false, if_false]
    rw [hb3]
    simp only [ne_eq, not_true_eq_false, if_false]
    exact hb4
  · rw [x3, x2, x1] at C4
    simp only [List.append_assoc] at C4 ⊢
    exact C4

theorem patchedStub_take (address blkSize blkCnt : Nat) :
    (patchedStub address blkSize blkCnt).take 68 =
      le32 address ++ le32 blkSize ++ le32 blkCnt ++ (flashReadStub.drop 12).take 56 := by
  simp only [patchedStub, putData_4]
  rfl

theorem patchedStub_length (address blkSize blkCnt : Nat) :
    68 ≤ (patchedStub address blkSize blkCnt).length := by
  have h : (patchedStub address blkSize blkCnt).length = 69 := by
    simp only [patchedStub, putData_4]
    rfl
  omega

theorem readBlk_code (length : Nat) (h : length ≤ 2 ^ 32 - 1024) :
    (if length ≤ ESP_FLASH_BLK_SIZE then length else ESP_FLASH_BLK_SIZE) = readBlkSize length ∧
    (if length ≤ ESP_FLASH_BLK_SIZE then 1
      else ((length + readBlkSize length - 1) % 2 ^ 32) / readBlkSize length) =
      readBlkCnt length := by
  have e : ESP_FLASH_BLK_SIZE = 1024 := rfl
  rw [e]
  unfold readBlkSize readBlkCnt
  by_cases h1 : length ≤ 1024
  · simp only [if_pos h1, and_self]
  · simp only [if_neg h1, true_and]
    rw [Nat.mod_eq_of_lt (by omega)]
    rfl

set_option maxRecDepth 100000 in
/-- C17, as stated, fails: for a length of 0xFFFFFFFF bytes the block count
`(length + 1023) / 1024` is computed in 32 bits and comes out as 0, where
ceil(length / 1024) is 4194304; `FlashRead` downloads the stub with block count 0, reads no
frame, writes nothing to the file and returns success. -/
theorem C17_length_wrap_counterexample :
    ((demoEsp [okReply ESP_FLASH_BEGIN, okReply ESP_MEM_BEGIN, okReply ESP_MEM_DATA,
      okReply ESP_MEM_END]).FlashRead 13 VFile.OpenVirt 0 0xffffffff).map
        (fun r => (r.1, r.2.1, r.2.2.m_serial.port.tx)) =
      some (0, VFile.OpenVirt, stubFrames 0 1024 0) ∧
    readBlkCnt 0xffffffff = 4194304 := by
  decide

/-- C17 (amended): for `0 < length ≤ 2^32 - 1024` and a file that is open at its end, when the
device accepts the four commands that download the stub and then sends `block_count` SLIP
frames of `block_size` bytes each, `FlashRead` returns success; the stub it has sent
carries `block_size = length`, `block_count = 1` when `length ≤ 1024`, else 1024 and
ceil(length / 1024); it has read exactly these frames (what the device sent after them is
still pending) and has appended to the file exactly the first `length` bytes of the decoded
blocks, in order. -/
theorem C17_flash_read (esp : ESP) (fuel : Nat) (vf : VFile) (address length : Nat)
    (blocks : List (List Nat)) (r1 r2 r3 : List Nat) (a b c d : Nat) (tail : List Nat)
    (rest : List (List Nat))
    (hA : AtEnd vf) (hl : 0 < length ∧ length ≤ 2 ^ 32 - 1024)
    (hq : QInv esp.m_serial.m_queue)
    (hs : esp.m_serial.port.script =
      r1 :: r2 :: r3 :: (replyFrame ESP_MEM_END a b c d ++ (blockFrames blocks ++ tail)) :: rest)
    (h1 : Accepts ESP_FLASH_BEGIN r1) (h2 : Accepts ESP_MEM_BEGIN r2)
    (h3 : Accepts ESP_MEM_DATA r3)
    (hb : blocks.length = readBlkCnt length ∧ ∀ blk ∈ blocks, blk.length = readBlkSize length)
    (ht : esp.inTime DEF_TIMEOUT) (hf : 13 ≤ fuel) :
    ∃ vf1 e, esp.FlashRead fuel vf address length = some (0, vf1, e) ∧
      vf1.data = vf.data ++ blocks.flatten.take length ∧
      Chan e.m_serial tail
        (esp.m_serial.port.tx ++ stubFrames address (readBlkSize length) (readBlkCnt length))
        rest := by
  obtain ⟨k, rfl⟩ : ∃ k, fuel = k + 13 := ⟨fuel - 13, by omega⟩
  obtain ⟨e1, d1, d2, d3, d4⟩ := flashReadDownload_ok esp (k + 13)
    (patchedStub address (readBlkSize length) (readBlkCnt length)) r1 r2 r3 a b c d
    (blockFrames blocks ++ tail) rest (patchedStub_length _ _ _) hq hs h1 h2 h3 ht hf
  rw [patchedStub_take] at d2
  have hsz : readBlkCnt length * readBlkSize length < 2 ^ 32 := by
    unfold readBlkCnt readBlkSize
    split_ifs <;> omega
  obtain ⟨vf1, e2, f1, f2, f3, f4, f5, f6⟩ := flashReadFrames_ok (k + 12) length
    (readBlkSize length) blocks 0 vf e1 tail _ rest hA d2 hb.2 (by rw [hb.1]; omega)
  refine ⟨vf1, e2, ?_, by rw [f2, Nat.sub_zero], ?_⟩
  · obtain ⟨c1, c2⟩ := readBlk_code length hl.2
    have hsl : flashReadStub.length &&& 0xfffffffc = 68 := by decide
    have hopen : (!vf.IsOpen || decide (length = 0)) = false := by
      rw [VFile.IsOpen, hA.1, decide_eq_false (by omega)]
      rfl
    unfold ESP.FlashRead
    simp only [hopen, Bool.false_eq_true, if_false, hsl, c1, c2, d1, ne_eq, not_true_eq_false]
    rw [← hb.1]
    exact f1
  · exact f4

/-- A read of three bytes: one frame of three bytes arrives after the reply to `MEM_END`, the
second byte escaped; the file receives the three bytes. -/
theorem C17_flash_read_witness :
    (AtEnd VFile.OpenVirt ∧ (0 < 3 ∧ 3 ≤ 2 ^ 32 - 1024)) ∧
    ∃ vf1 e, (demoEsp [okReply ESP_FLASH_BEGIN, okReply ESP_MEM_BEGIN, okReply ESP_MEM_DATA,
        replyFrame ESP_MEM_END 0 0 0 0 ++ (blockFrames [[1, 0xc0, 3]] ++ [])]).FlashRead 13
          VFile.OpenVirt 0x1000 3 = some (0, vf1, e) ∧
      vf1.data = VFile.OpenVirt.data ++ [[1, 0xc0, 3]].flatten.take 3 ∧
      Chan e.m_serial []
        ((demoEsp [okReply ESP_FLASH_BEGIN, okReply ESP_MEM_BEGIN, okReply ESP_MEM_DATA,
          replyFrame ESP_MEM_END 0 0 0 0 ++ (blockFrames [[1, 0xc0, 3]] ++ [])]).m_serial.port.tx ++
          stubFrames 0x1000 (readBlkSize 3) (readBlkCnt 3)) [] :=
  ⟨⟨⟨rfl, rfl⟩, by decide⟩,
    C17_flash_read (demoEsp [okReply ESP_FLASH_BEGIN, okReply ESP_MEM_BEGIN, okReply ESP_MEM_DATA,
      replyFrame ESP_MEM_END 0 0 0 0 ++ (blockFrames [[1, 0xc0, 3]] ++ [])]) 13 VFile.OpenVirt
      0x1000 3 [[1, 0xc0, 3]] (okReply ESP_FLASH_BEGIN) (okReply ESP_MEM_BEGIN)
      (okReply ESP_MEM_DATA) 0 0 0 0 [] [] ⟨rfl, rfl⟩ (by decide) ⟨rfl, by decide, rfl⟩ rfl
      ⟨0x78, 0x56, 0x34, 0x12, [], rfl⟩ ⟨0x78, 0x56, 0x34, 0x12, [], rfl⟩
      ⟨0x78, 0x56, 0x34, 0x12, [], rfl⟩ (by decide) (fun _ _ _ => Nat.zero_le _)
      (Nat.le_refl _)⟩

/-! ## Lemmas: `ReadByte` and the header of a response -/

/-- C23: with SLIP decoding on, `ReadByte` on a channel whose undelivered bytes are `S`
returns 0 when `S` is empty; 1 and the first byte when that is neither C0 nor DB; 2 and C0
for the pair DB DC, 2 and DB for the pair DB DD; -1 for a first byte C0; -3 when DB is
followed by another byte; -2 when DB is the only byte. -/
theorem C23_read_byte_status {ch : SerialChannel} {S tx : List Nat} {sc : List (List Nat)}
    (h : Chan ch S tx sc) :
    (S = [] → (ch.ReadByte true).1 = 0) ∧
    (∀ b rest, S = b :: rest → b ≠ 0xc0 → b ≠ 0xdb →
      (ch.ReadByte true).1 = 1 ∧ (ch.ReadByte true).2.1 = some b ∧
        Chan (ch.ReadByte true).2.2 rest tx sc) ∧
    (∀ rest, S = 0xdb :: 0xdc :: rest →
      (ch.ReadByte true).1 = 2 ∧ (ch.ReadByte true).2.1 = some 0xc0 ∧
        Chan (ch.ReadByte true).2.2 rest tx sc) ∧
    (∀ rest, S = 0xdb :: 0xdd :: rest →
      (ch.ReadByte true).1 = 2 ∧ (ch.ReadByte true).2.1 = some 0xdb ∧
        Chan (ch.ReadByte true).2.2 rest tx sc) ∧
    (∀ rest, S = 0xc0 :: rest → (ch.ReadByte true).1 = -1) ∧
    (∀ c rest, S = 0xdb :: c :: rest → c ≠ 0xdc → c ≠ 0xdd → (ch.ReadByte true).1 = -3) ∧
    (S = [0xdb] → (ch.ReadByte true).1 = -2) := by
  obtain ⟨r1, r2, r3⟩ := ReadByte_slip h
  rw [r1, r2]
  refine ⟨?_, ?_, ?_, ?_, ?_, ?_, ?_⟩
  · rintro rfl; rfl
  · rintro b rest rfl h0 h1
    have e : slipStep (b :: rest) = (1, some b, rest) := by simp [slipStep, h0, h1]
    rw [e] at r3 ⊢
    exact ⟨rfl, rfl, r3⟩
  · rintro rest rfl
    have e : slipStep (0xdb :: 0xdc :: rest) = (2, some 0xc0, rest) := by simp [slipStep]
    rw [e] at r3 ⊢
    exact ⟨rfl, rfl, r3⟩
  · rintro rest rfl
    have e : slipStep (0xdb :: 0xdd :: rest) = (2, some 0xdb, rest) := by simp [slipStep]
    rw [e] at r3 ⊢
    exact ⟨rfl, rfl, r3⟩
  · rintro rest rfl
    simp [slipStep]
  · rintro c rest rfl h0 h1
    simp [slipStep, h0, h1]
  · rintro rfl
    simp [slipStep]

/-- The pair DB DC is pending on a channel: `ReadByte(data, true)` delivers C0 with status
2. -/
theorem C23_read_byte_status_witness :
    Chan (demoChannel [0xdb, 0xdc, 5]) [0xdb, 0xdc, 5] [] [] ∧
    ((demoChannel [0xdb, 0xdc, 5]).ReadByte true).1 = 2 ∧
    ((demoChannel [0xdb, 0xdc, 5]).ReadByte true).2.1 = some 0xc0 :=
  ⟨by decide,
    ((C23_read_byte_status (show Chan (demoChannel [0xdb, 0xdc, 5]) [0xdb, 0xdc, 5] [] [] by
      decide)).2.2.1 [5] rfl).1,
    ((C23_read_byte_status (show Chan (demoChannel [0xdb, 0xdc, 5]) [0xdb, 0xdc, 5] [] [] by
      decide)).2.2.1 [5] rfl).2.1⟩

theorem Chan_arrive {ch : SerialChannel} {S tx : List Nat} {sc : List (List Nat)}
    (h : Chan ch S tx sc) (bytes : List Nat) : Chan (ch.arrive bytes) (S ++ bytes) tx sc := by
  obtain ⟨h1, h2, h3, h4⟩ := h
  refine ⟨h1, ?_, h3, h4⟩
  simp only [SerialChannel.pend, SerialChannel.arrive] at h2 ⊢
  rw [← h2, List.append_assoc]

theorem readByteLoop_wait (ms tick : Nat) (tx : List Nat) (sc : List (List Nat)) :
    ∀ (fuel : Nat) (esp : ESP), Chan esp.m_serial [0xdb] tx sc →
    ∀ r, ESP.readByteLoop true ms tick fuel esp = some r →
      r.1 = ESP_ERROR_TIMEOUT ∧ r.2.1 = none ∧ Chan r.2.2.m_serial [0xdb] tx sc
  | 0, _, _, r, h => by simp [ESP.readByteLoop] at h
  | fuel + 1, esp, hC, r, h => by
    obtain ⟨a1, a2, _⟩ := Available_spec hC
    rw [ESP.readByteLoop] at h
    simp only [ESP.BytesAvailable, a1, List.length_singleton, if_true, ge_iff_le,
      Nat.not_ofNat_le_one, if_false] at h
    by_cases hl : ms ≠ 0 ∧ esp.diagCode &&& DIAG_NO_TIME_LIMIT = 0
    · simp only [hl, and_self, if_true, true_and, ne_eq, not_false_eq_true] at h
      by_cases ht : ({ esp with m_serial := esp.m_serial.Available.2 } : ESP).getTickCount.1 > tick
      · rw [if_pos ht] at h
        cases h
        exact ⟨rfl, rfl, a2⟩
      · rw [if_neg ht] at h
        exact readByteLoop_wait ms tick tx sc fuel _ a2 r h
    · have e : ¬ (ms ≠ 0 ∧ ({ esp with m_serial := esp.m_serial.Available.2 } : ESP).diagCode &&&
          DIAG_NO_TIME_LIMIT = 0) := hl
      simp only [e, if_false, false_and] at h
      exact readByteLoop_wait ms tick tx sc fuel _ a2 r h

theorem readByte_pair (esp : ESP) (fuel ms c : Nat) (S tx : List Nat) (sc : List (List Nat))
    (hc : c = 0xdc ∨ c = 0xdd) (h : Chan esp.m_serial (0xdb :: c :: S) tx sc) :
    ∃ e, esp.readByte (fuel + 1) true ms = some (0, some (if c = 0xdc then 0xc0 else 0xdb), e) ∧
      Chan e.m_serial S tx sc := by
  obtain ⟨a1, a2, _⟩ := Available_spec h
  obtain ⟨r1, r2, r3⟩ := ReadByte_slip a2
  have e : slipStep (0xdb :: c :: S) = (2, some (if c = 0xdc then 0xc0 else 0xdb), S) := by
    rcases hc with rfl | rfl <;> simp [slipStep]
  rw [e] at r1 r2 r3
  have hlen : 2 ≤ (0xdb :: c :: S).length := by
    simp only [List.length_cons]
    omega
  unfold ESP.readByte
  rw [ESP.readByteLoop]
  simp only [ESP.BytesAvailable, ESP.getTickCount, a1, if_true, ge_iff_le, hlen, r1, r2,
    or_true]
  exact ⟨_, rfl, r3⟩

/-- C24, as stated, fails: `ReadByte(data, true)` on the single byte DB returns -2 and has
taken the byte; called again when DC has arrived it delivers DC with status 1, not C0 with
status 2. -/
theorem C24_escape_lost_counterexample :
    ((demoChannel [0xdb]).ReadByte true).1 = -2 ∧
    ((((demoChannel [0xdb]).ReadByte true).2.2.arrive [0xdc]).ReadByte true).1 = 1 ∧
    ((((demoChannel [0xdb]).ReadByte true).2.2.arrive [0xdc]).ReadByte true).2.1 = some 0xdc := by
  decide

/-- C24 (amended): the loader reads SLIP bytes through `readByte`, which calls the decoder
only when two bytes are available.  While DB is the only undelivered byte, `readByte` takes
nothing: if it returns, it returns the timeout error and DB is still undelivered.  Once the
following byte DC (resp. DD) has arrived, `readByte` delivers C0 (resp. DB) with success.  -/
theorem C24_read_byte_waits (esp : ESP) (fuel ms c : Nat) (tx : List Nat)
    (sc : List (List Nat)) (hC : Chan esp.m_serial [0xdb] tx sc) (hc : c = 0xdc ∨ c = 0xdd) :
    (∀ r, esp.readByte fuel true ms = some r →
      r.1 = ESP_ERROR_TIMEOUT ∧ r.2.1 = none ∧ Chan r.2.2.m_serial [0xdb] tx sc) ∧
    ∃ e, ({ esp with m_serial := esp.m_serial.arrive [c] } : ESP).readByte (fuel + 1) true ms =
        some (0, some (if c = 0xdc then 0xc0 else 0xdb), e) ∧
      Chan e.m_serial [] tx sc := by
  refine ⟨fun r h => ?_, ?_⟩
  · exact readByteLoop_wait ms _ tx sc fuel esp.getTickCount.2 hC r h
  · exact readByte_pair _ fuel ms c [] tx sc hc (Chan_arrive hC [c])

/-- DB is pending and the clock runs: the first `readByte` returns the timeout error and
takes nothing; after DC has arrived the second delivers C0. -/
theorem C24_read_byte_waits_witness :
    (Chan escapeEsp.m_serial [0xdb] [] [] ∧ ((0xdc : Nat) = 0xdc ∨ (0xdc : Nat) = 0xdd)) ∧
    (escapeEsp.readByte 3 true 500).map (fun r => (r.1, r.2.1)) =
      some (ESP_ERROR_TIMEOUT, none) ∧
    ∃ e, ({ escapeEsp with m_serial := escapeEsp.m_serial.arrive [0xdc] } : ESP).readByte 4 true
        500 = some (0, some 0xc0, e) ∧ Chan e.m_serial [] [] [] :=
  ⟨⟨by decide, Or.inl rfl⟩, by decide,
    (C24_read_byte_waits escapeEsp 3 500 0xdc [] [] (by decide) (Or.inl rfl)).2⟩

theorem list_of_length_7 (l : List Nat) (h : l.length = 7) :
    ∃ x0 x1 x2 x3 x4 x5 x6, l = [x0, x1, x2, x3, x4, x5, x6] := by
  match l, h with
  | [x0, x1, x2, x3, x4, x5, x6], _ => exact ⟨x0, x1, x2, x3, x4, x5, x6, rfl⟩

theorem storeByte_header (op : Nat) (wantVal wantBuf : Bool) (v : PktVars) (c : Nat)
    (hst : v.state = PKT_HEADER) (hl : v.hdr.length = 7) (hb : ∀ b ∈ v.hdr ++ [c], b < 256) :
    (((v.hdr ++ [c]).getD 0 0 ≠ 1 ∨ (op ≠ 0 ∧ (v.hdr ++ [c]).getD 1 0 ≠ op)) →
      ESP.storeByte op wantVal wantBuf v c = .error ⟨ESP_ERROR_RESP_HDR, v.value, none⟩) ∧
    (¬ ((v.hdr ++ [c]).getD 0 0 ≠ 1 ∨ (op ≠ 0 ∧ (v.hdr ++ [c]).getD 1 0 ≠ op)) →
      ∃ v1, ESP.storeByte op wantVal wantBuf v c = .ok v1 ∧ v1.hdr = v.hdr ++ [c] ∧
        v1.bodyLen = (v.hdr ++ [c]).getD 2 0 + 256 * (v.hdr ++ [c]).getD 3 0 ∧
        v1.state = (if v1.bodyLen ≠ 0 then PKT_BODY else PKT_END) ∧ v1.body = v.body) := by
  obtain ⟨x0, x1, x2, x3, x4, x5, x6, hh⟩ := list_of_length_7 v.hdr hl
  rw [hh] at hb ⊢
  have b0 : x0 < 256 := hb x0 (by simp)
  have b1 : x1 < 256 := hb x1 (by simp)
  have b2 : x2 < 256 := hb x2 (by simp)
  have b3 : x3 < 256 := hb x3 (by simp)
  have e3 : (x3 <<< 8) % 2 ^ 32 = x3 <<< 8 := by
    rw [Nat.shiftLeft_eq]; omega
  have e2 : x2 % 2 ^ 32 = x2 := by omega
  have g0 : getData 1 [x0, x1, x2, x3, x4, x5, x6, c] 0 % 256 = x0 := by
    rw [getData_1]; simp only [List.getD_cons_zero]; omega
  have g1 : getData 1 [x0, x1, x2, x3, x4, x5, x6, c] 1 % 256 = x1 := by
    rw [getData_1]; simp only [List.getD_cons_zero, List.getD_cons_succ]; omega
  have g2 : getData 2 [x0, x1, x2, x3, x4, x5, x6, c] 2 % 2 ^ 16 = x2 + 256 * x3 := by
    rw [getData_2]
    simp only [List.getD_cons_zero, List.getD_cons_succ]
    rw [e3, e2, or_shiftLeft_of_lt x3 (by omega : x2 < 2 ^ 8)]
    omega
  have hlen : [x0, x1, x2, x3, x4, x5, x6, c].length ≥ HDR_LEN := Nat.le_refl 8
  have happ : [x0, x1, x2, x3, x4, x5, x6] ++ [c] = [x0, x1, x2, x3, x4, x5, x6, c] := rfl
  unfold ESP.storeByte
  simp only [hst, if_true, hh, happ, if_pos hlen, g0, g1, g2, List.getD_cons_zero,
    List.getD_cons_succ]
  constructor
  · intro hbad
    rw [if_pos hbad]
  · intro hgood
    rw [if_neg hgood]
    by_cases hz : x2 + 256 * x3 ≠ 0
    · rw [if_pos hz]
      exact ⟨_, rfl, rfl, rfl, by simp only [if_pos hz], rfl⟩
    · rw [if_neg hz]
      exact ⟨_, rfl, rfl, rfl, by simp only [if_neg hz], rfl⟩

/-- C25: when `readPacket` is in the header state with seven header bytes stored and decodes
the eighth, it returns `ESP_ERROR_RESP_HDR` if the direction byte (byte 0) is not 0x01, or
`op` is not 0 and the op byte (byte 1) differs from `op`; and only then: otherwise the loop
goes on with `bodyLen` taken from bytes 2..3 as u16 LE, in the body state when that is not
0 and in the end state when it is 0. -/
theorem C25_header_check (op : Nat) (wantVal wantBuf : Bool) (ms tickEnd fuel : Nat)
    (esp : ESP) (v : PktVars) (c x : Nat) (S tx : List Nat) (sc : List (List Nat))
    (hC : Chan esp.m_serial (slipEnc c ++ x :: S) tx sc)
    (hst : v.state = PKT_HEADER) (hn : v.needBytes = 2) (hl : v.hdr.length = 7)
    (hb : ∀ b ∈ v.hdr ++ [c], b < 256)
    (ht : ¬ (esp.limited ms ∧ esp.ticks esp.tickCalls % 2 ^ 32 > tickEnd)) :
    (((v.hdr ++ [c]).getD 0 0 ≠ 1 ∨ (op ≠ 0 ∧ (v.hdr ++ [c]).getD 1 0 ≠ op)) →
      ∃ e, ESP.readPacketLoop op wantVal wantBuf ms tickEnd (fuel + 1) esp v =
        some (⟨ESP_ERROR_RESP_HDR, v.value, none⟩, e)) ∧
    (¬ ((v.hdr ++ [c]).getD 0 0 ≠ 1 ∨ (op ≠ 0 ∧ (v.hdr ++ [c]).getD 1 0 ≠ op)) →
      ∃ e v1, ESP.readPacketLoop op wantVal wantBuf ms tickEnd (fuel + 1) esp v =
          ESP.readPacketLoop op wantVal wantBuf ms tickEnd fuel e v1 ∧
        Chan e.m_serial (x :: S) tx sc ∧ v1.hdr = v.hdr ++ [c] ∧
        v1.bodyLen = (v.hdr ++ [c]).getD 2 0 + 256 * (v.hdr ++ [c]).getD 3 0 ∧
        v1.state = (if v1.bodyLen ≠ 0 then PKT_BODY else PKT_END)) := by
  obtain ⟨s1, s2⟩ := storeByte_header op wantVal wantBuf v c hst hl hb
  have hv : v.state < PKT_DONE := by rw [hst]; decide
  obtain ⟨e, c1, _, _, _, c5⟩ :=
    readPacketLoop_step op wantVal wantBuf ms tickEnd fuel esp v _ tx sc hC hv ht
  have hlen : ¬ (slipEnc c ++ x :: S).length < v.needBytes := by
    have := slipEnc_length_pos c
    rw [hn]
    simp only [List.length_append, List.length_cons]
    omega
  have hs1 : ¬ (v.state = PKT_BEGIN ∨ v.state = PKT_END) := by rw [hst]; decide
  have hs2 : v.state = PKT_HEADER ∨ v.state = PKT_BODY := Or.inl hst
  have hss : ¬ ((slipStep (slipEnc c ++ x :: S)).1 ≠ 1 ∧ (slipStep (slipEnc c ++ x :: S)).1 ≠ 2) := by
    rw [slipStep_enc]
    split_ifs <;> simp
  have hstep : pktStep op wantVal wantBuf (slipEnc c ++ x :: S) v =
      match ESP.storeByte op wantVal wantBuf v c with
      | .error res => .error (res, x :: S)
      | .ok v1 => .ok (v1, x :: S) := by
    unfold pktStep
    rw [if_neg hlen, if_neg hs1, if_pos hs2, if_neg hss, slipStep_enc]
    rfl
  rw [hstep] at c1 c5
  constructor
  · intro hbad
    rw [s1 hbad] at c5
    exact ⟨e, c5⟩
  · intro hgood
    obtain ⟨v1, k1, k2, k3, k4, _⟩ := s2 hgood
    rw [k1] at c1 c5
    exact ⟨e, v1, c5, c1, k2, k3, k4⟩

/-- The header `01 0A 02 00 00 00 00 00` is accepted for op 0x0A: the reader goes on to the
body of two bytes. -/
theorem C25_header_check_witness :
    (Chan (demoChannel [0, 0, 0, 0xc0]) (slipEnc 0 ++ 0 :: [0, 0xc0]) [] [] ∧
      (hdrVars [1, 0x0a, 2, 0, 0, 0, 0]).hdr.length = 7) ∧
    ∃ e v1, ESP.readPacketLoop 0x0a false false 500 500 (12 + 1)
        { demoEsp [] with m_serial := demoChannel [0, 0, 0, 0xc0] }
        (hdrVars [1, 0x0a, 2, 0, 0, 0, 0]) =
        ESP.readPacketLoop 0x0a false false 500 500 12 e v1 ∧
      Chan e.m_serial (0 :: [0, 0xc0]) [] [] ∧ v1.hdr = [1, 0x0a, 2, 0, 0, 0, 0] ++ [0] ∧
      v1.bodyLen = ([1, 0x0a, 2, 0, 0, 0, 0] ++ [0]).getD 2 0 +
        256 * ([1, 0x0a, 2, 0, 0, 0, 0] ++ [0]).getD 3 0 ∧
      v1.state = (if v1.bodyLen ≠ 0 then PKT_BODY else PKT_END) :=
  ⟨⟨by decide, rfl⟩,
    (C25_header_check 0x0a false false 500 500 12
      { demoEsp [] with m_serial := demoChannel [0, 0, 0, 0xc0] }
      (hdrVars [1, 0x0a, 2, 0, 0, 0, 0]) 0 0 [0, 0xc0] [] [] (by decide) rfl rfl rfl
      (by decide) (by
        rintro ⟨_, h⟩
        exact absurd h (by decide))).2 (by decide)⟩

/-- C26 fails on the code: a header that announces a body of 4 bytes, read with no buffer
asked for, gets a buffer of `needBytes` = 2 bytes (`new uint8_t[needBytes]`), and the third
byte of the body is stored behind its end. -/
theorem C26_body_buffer_too_small :
    ∃ v1 v2 v3 v4, ESP.storeByte 0x0a false false (hdrVars [1, 0x0a, 4, 0, 0, 0, 0]) 0 = .ok v1 ∧
      v1.state = PKT_BODY ∧ v1.bodyLen = 4 ∧ v1.bodyCap = some 2 ∧ v1.dbuf = true ∧
      ESP.storeByte 0x0a false false v1 0x11 = .ok v2 ∧
      ESP.storeByte 0x0a false false v2 0x22 = .ok v3 ∧
      ESP.storeByte 0x0a false false v3 0x33 = .ok v4 ∧
      v4.state = PKT_BODY ∧ v4.body = [0x11, 0x22, 0x33] ∧ v4.bodyCap = some 2 :=
  ⟨_, _, _, _, rfl, rfl, rfl, rfl, rfl, rfl, rfl, rfl, rfl, rfl, rfl⟩

/-- C27 fails on the code: a sparse `AddImage` of an image of 5 bytes at address 0x1000
succeeds, stores the padded size 8 in the record and appends 8 bytes, and leaves the running
image size at 0x1006 (`bytesAdded += cnt` with cnt = 5 & 3), where addr + padded_size is
0x1008. -/
theorem C27_running_size_after_padding :
    AddImage 0 VFile.OpenVirt (imageFile [1, 2, 3, 4, 5]) 0x1000 false =
      (0, 0x1006,
        { VFile.OpenVirt with data := [0x65, 0x73, 0x70, 1, 0, 0x10, 0, 0, 8, 0, 0, 0, 1, 2, 3, 4, 5, 0, 0, 0], m_pos := 20 },
        { imageFile [1, 2, 3, 4, 5] with m_pos := 5 }) ∧
    0x1000 + roundUp4 5 = 0x1008 := by
  decide

/-! ## Lemmas: `FlashErase` -/

/-- C29, as stated, fails: for addr = 1023 and size = 2 the region passed to `flashBegin` is
[0, 1024), which does not hold byte 1024 of the requested range [1023, 1025); for addr = 0
and size = 0xFFFFFFFF the block count wraps to 0 and the region is empty. -/
theorem C29_erase_region_counterexample :
    (1023 + 2 < 2 ^ 32 ∧ flashEraseRegion 1023 2 = (0, 1024) ∧
      ¬ (1024 < (flashEraseRegion 1023 2).1 + (flashEraseRegion 1023 2).2)) ∧
    (0 + 0xffffffff < 2 ^ 32 ∧ flashEraseRegion 0 0xffffffff = (0, 0)) := by
  decide

/-- C29 (amended): for every 32-bit addr and every size with `0 < size ≤ 2^32 - 1024`,
`FlashErase` passes to `flashBegin` a region that starts at `addr` rounded down to a
multiple of 1024 and has the length ceil(size / 1024) * 1024, a multiple of 1024 not below
size; the region holds every byte of [addr, addr + size) when
`addr % 1024 + size ≤ ceil(size / 1024) * 1024`, as it is when addr is a multiple of
1024. -/
theorem C29_erase_region (esp : ESP) (fuel addr size : Nat) (hs : 0 < size)
    (hs2 : size ≤ 2 ^ 32 - 1024) (ha : addr < 2 ^ 32) :
    esp.FlashErase fuel addr size =
      esp.flashBegin fuel (flashEraseRegion addr size).1 (flashEraseRegion addr size).2 ∧
    (flashEraseRegion addr size).1 = addr / 1024 * 1024 ∧
    (flashEraseRegion addr size).2 = (size + 1023) / 1024 * 1024 ∧
    (flashEraseRegion addr size).1 % 1024 = 0 ∧ (flashEraseRegion addr size).2 % 1024 = 0 ∧
    size ≤ (flashEraseRegion addr size).2 ∧
    (addr % 1024 = 0 → addr % 1024 + size ≤ (size + 1023) / 1024 * 1024) ∧
    (addr % 1024 + size ≤ (size + 1023) / 1024 * 1024 →
      ∀ b, addr ≤ b → b < addr + size →
        (flashEraseRegion addr size).1 ≤ b ∧
          b < (flashEraseRegion addr size).1 + (flashEraseRegion addr size).2) := by
  have e1 : (flashEraseRegion addr size).1 = addr / 1024 * 1024 := and_fffffc00 addr ha
  have e2 : (flashEraseRegion addr size).2 = (size + 1023) / 1024 * 1024 := by
    have e : ESP_FLASH_BLK_SIZE = 1024 := rfl
    simp only [flashEraseRegion, e]
    omega
  rw [e1, e2]
  refine ⟨?_, rfl, rfl, by omega, by omega, by omega, by omega, ?_⟩
  · unfold ESP.FlashErase
    rw [if_pos (by omega), e1, e2]
  · intro h b hb1 hb2
    omega

/-- An erase of 0x1800 bytes at 0x2000: the region is [0x2000, 0x3800). -/
theorem C29_erase_region_witness :
    ((0 : Nat) < 0x1800 ∧ 0x1800 ≤ 2 ^ 32 - 1024 ∧ 0x2000 < 2 ^ 32) ∧
    (flashEraseRegion 0x2000 0x1800).1 = 0x2000 / 1024 * 1024 ∧
    (flashEraseRegion 0x2000 0x1800).2 = (0x1800 + 1023) / 1024 * 1024 :=
  ⟨by decide,
    (C29_erase_region (demoEsp []) 13 0x2000 0x1800 (by decide) (by decide) (by decide)).2.1,
    (C29_erase_region (demoEsp []) 13 0x2000 0x1800 (by decide) (by decide) (by decide)).2.2.1⟩

/-! ## Lemmas: writes to a virtual file read back -/

theorem runOps_spec : ∀ (ops : List VOp) (vf : VFile), AtEnd vf → (∀ op ∈ ops, op.Fits) →
    AtEnd (runOps ops vf) ∧ (runOps ops vf).data = vf.data ++ written ops
  | [], vf, h, _ => ⟨h, by simp [runOps, written]⟩
  | op :: ops, vf, h, hf => by
    have step : AtEnd (op.run vf) ∧ (op.run vf).data = vf.data ++ op.bytes := by
      cases op with
      | write buf size count =>
        by_cases h0 : size * count = 0
        · simp [VOp.run, VOp.bytes, VFile.Write, h0, h]
        · have hfit : size * count ≤ buf.length := hf _ (List.mem_cons_self _ _)
          obtain ⟨_, w2, w3⟩ := Write_atEnd h buf size count h0 hfit
          exact ⟨w3, w2⟩
      | fill c count =>
        obtain ⟨_, f2, f3⟩ := Fill_atEnd h c count
        exact ⟨f3, f2⟩
    obtain ⟨i1, i2⟩ := runOps_spec ops (op.run vf) step.1
      (fun o ho => hf o (List.mem_cons_of_mem _ ho))
    refine ⟨i1, ?_⟩
    show (runOps ops (op.run vf)).data = _
    rw [i2, step.2]
    simp only [written, List.flatMap_cons, List.append_assoc]

/-! ## Lemmas: the queue delivers what the port supplied -/

theorem take_part (q : SerialQueue) (part : Nat) (h : QInv q) (hle : part ≤ q.m_count) :
    (q.m_data.drop q.m_head).take part = q.live.take part ∧
    QInv { q with m_head := q.m_head + part, m_count := q.m_count - part } ∧
    SerialQueue.live { q with m_head := q.m_head + part, m_count := q.m_count - part } =
      q.live.drop part := by
  obtain ⟨h1, h2, h3⟩ := h
  refine ⟨?_, ⟨h1, ?_, h3⟩, ?_⟩
  · simp only [SerialQueue.live, List.take_take, Nat.min_eq_left hle]
  · simp only; omega
  · simp only [SerialQueue.live]
    rw [List.drop_take, List.drop_drop, Nat.add_comm]

theorem getDataLoop_spec (q : SerialQueue) (p : Port) (hq : QInv q) (fuel count : Nat)
    (acc : List Nat) (h0 : 0 < count) (hf : count ≤ fuel) :
    (SerialQueue.getDataLoop fuel q p count acc).1 = decide (count ≤ (q.live ++ p.rx).length) ∧
    (SerialQueue.getDataLoop fuel q p count acc).2.1 = acc ++ (q.live ++ p.rx).take count ∧
    QInv (SerialQueue.getDataLoop fuel q p count acc).2.2.1 ∧
    (SerialQueue.getDataLoop fuel q p count acc).2.2.1.live = (q.live ++ p.rx).drop count ∧
    (SerialQueue.getDataLoop fuel q p count acc).2.2.2 = { p with rx := [] } := by
  obtain ⟨f, rfl⟩ : ∃ f, fuel = f + 1 := ⟨fuel - 1, by omega⟩
  obtain ⟨r1, r2, r3, _, r5⟩ := Refresh_spec q p hq
  rw [SerialQueue.getDataLoop]
  simp only [r3, r5]
  by_cases hA : (q.live ++ p.rx).length = 0
  · have hnil : q.live ++ p.rx = [] := List.eq_nil_of_length_eq_zero hA
    have hpart : (if count > (q.live ++ p.rx).length then (q.live ++ p.rx).length else count)
        = 0 := by rw [hA]; exact if_pos h0
    simp only [hpart, gt_iff_lt, Nat.lt_irrefl, if_false]
    refine ⟨?_, ?_, r1, ?_, trivial⟩
    · rw [hA, decide_eq_false (show ¬ count ≤ 0 by omega)]
    · simp [hnil]
    · rw [r2, hnil, List.drop_nil]
  · by_cases hB : count ≤ (q.live ++ p.rx).length
    · obtain ⟨t1, t2, t3⟩ := take_part (q.Refresh p).2.1 count r1 (by rw [r5]; exact hB)
      have hpart : (if count > (q.live ++ p.rx).length then (q.live ++ p.rx).length else count)
          = count := if_neg (by omega)
      simp only [hpart, gt_iff_lt, h0, if_true, Nat.sub_self, ne_eq, not_true_eq_false, if_false]
      rw [r5] at t2 t3
      refine ⟨?_, ?_, t2, ?_, trivial⟩
      · rw [decide_eq_true hB]
      · rw [t1, r2]
      · rw [t3, r2]
    · have hm : 0 < (q.live ++ p.rx).length := by omega
      obtain ⟨t1, t2, t3⟩ := take_part (q.Refresh p).2.1 (q.live ++ p.rx).length r1
        (by rw [r5])
      have hf2 : 1 ≤ f := by omega
      obtain ⟨f2, rfl⟩ : ∃ f2, f = f2 + 1 := ⟨f - 1, by omega⟩
      have hpart : (if count > (q.live ++ p.rx).length then (q.live ++ p.rx).length else count)
          = (q.live ++ p.rx).length := if_pos (by omega)
      have hne : count - (q.live ++ p.rx).length ≠ 0 := by omega
      simp only [hpart, gt_iff_lt, hm, if_true, ne_eq, hne, not_false_eq_true, Nat.sub_self]
      rw [r5, Nat.sub_self] at t2 t3
      rw [SerialQueue.getDataLoop, Refresh_idle _ _ rfl]
      have hpart2 : (if count - (q.live ++ p.rx).length > 0 then 0
          else count - (q.live ++ p.rx).length) = 0 := if_pos (by omega)
      simp only [hpart2, gt_iff_lt, Nat.lt_irrefl, if_false]
      refine ⟨?_, ?_, t2, ?_, trivial⟩
      · rw [decide_eq_false hB]
      · rw [t1, r2, List.take_of_length_le (Nat.le_refl _), List.take_of_length_le (by omega)]
      · rw [t3, r2, List.drop_of_length_le (Nat.le_refl _), List.drop_of_length_le (by omega)]

theorem GetData_spec (q : SerialQueue) (p : Port) (hq : QInv q) (count : Nat) :
    (q.GetData p count).2.1 = (q.live ++ p.rx).take count ∧ QInv (q.GetData p count).2.2.1 ∧
    (q.GetData p count).2.2.1.live ++ (q.GetData p count).2.2.2.rx =
      (q.live ++ p.rx).drop count ∧
    ((q.GetData p count).1 = true ↔ count ≤ (q.live ++ p.rx).length) := by
  unfold SerialQueue.GetData
  by_cases h0 : count = 0
  · subst h0
    rw [if_neg (fun h => h rfl)]
    exact ⟨rfl, hq, rfl, by simp⟩
  · rw [if_pos h0]
    obtain ⟨g1, g2, g3, g4, g5⟩ := getDataLoop_spec q p hq count count [] (by omega)
      (Nat.le_refl _)
    refine ⟨by rw [g2, List.nil_append], g3, by rw [g4, g5, List.append_nil], ?_⟩
    rw [g1, decide_eq_true_iff]

theorem qRun_inv : ∀ (ops : List QOp) (s : QRun), QInv s.q →
    s.delivered ++ (s.q.live ++ s.p.rx) = s.supplied →
    QInv (qRun ops s).q ∧
    (qRun ops s).delivered ++ ((qRun ops s).q.live ++ (qRun ops s).p.rx) = (qRun ops s).supplied
  | [], s, hq, h => ⟨hq, h⟩
  | .refresh :: ops, s, hq, h => by
    obtain ⟨r1, r2, r3, _, _⟩ := Refresh_spec s.q s.p hq
    rw [qRun]
    refine qRun_inv ops _ r1 ?_
    show s.delivered ++ ((s.q.Refresh s.p).2.1.live ++ (s.q.Refresh s.p).2.2.rx) = s.supplied
    rw [r2, r3, List.append_nil]
    exact h
  | .getData count :: ops, s, hq, h => by
    obtain ⟨g1, g2, g3, _⟩ := GetData_spec s.q s.p hq count
    have key : (s.delivered ++ (s.q.GetData s.p count).2.1) ++
        ((s.q.GetData s.p count).2.2.1.live ++ (s.q.GetData s.p count).2.2.2.rx) =
        s.supplied := by
      rw [g1, g3, List.append_assoc, List.take_append_drop]
      exact h
    rw [qRun]
    by_cases hr : (s.q.GetData s.p count).1 = true
    · simp only [hr, if_true]
      exact qRun_inv ops _ g2 key
    · simp only [hr, Bool.false_eq_true, if_false]
      exact ⟨g2, key⟩
  | .arrive bytes :: ops, s, hq, h => by
    rw [qRun]
    refine qRun_inv ops _ hq ?_
    show s.delivered ++ (s.q.live ++ (s.p.rx ++ bytes)) = s.supplied ++ bytes
    rw [← h]
    simp only [List.append_assoc]

/-- With the copy of `Refresh` taken as a copy from low to high addresses: a queue in
unbounded mode, from its construction on, through any sequence of `Refresh` calls, `GetData`
calls and arrivals of bytes at the port, has delivered a prefix of what the port was supplied
with, and the bytes delivered, the bytes held in the queue and the bytes the driver still
holds are the bytes supplied, in order. -/
theorem qRun_fifo (initialSize : Nat) (tx : List Nat) (script : List (List Nat))
    (ops : List QOp) :
    (qRun ops ⟨SerialQueue.unbounded initialSize, ⟨[], tx, script⟩, [], []⟩).delivered ++
      ((qRun ops ⟨SerialQueue.unbounded initialSize, ⟨[], tx, script⟩, [], []⟩).q.live ++
        (qRun ops ⟨SerialQueue.unbounded initialSize, ⟨[], tx, script⟩, [], []⟩).p.rx) =
      (qRun ops ⟨SerialQueue.unbounded initialSize, ⟨[], tx, script⟩, [], []⟩).supplied ∧
    (qRun ops ⟨SerialQueue.unbounded initialSize, ⟨[], tx, script⟩, [], []⟩).delivered <+:
      (qRun ops ⟨SerialQueue.unbounded initialSize, ⟨[], tx, script⟩, [], []⟩).supplied := by
  have hq : QInv (SerialQueue.unbounded initialSize) := by
    simp [QInv, SerialQueue.unbounded]
  have hl : (SerialQueue.unbounded initialSize).live = [] := by
    simp [SerialQueue.live, SerialQueue.unbounded]
  obtain ⟨_, h⟩ := qRun_inv ops ⟨SerialQueue.unbounded initialSize, ⟨[], tx, script⟩, [], []⟩ hq
    (by show [] ++ ((SerialQueue.unbounded initialSize).live ++ []) = []; rw [hl]; rfl)
  exact ⟨h, ⟨_, h⟩⟩

/-! ## Lemmas: `FlashWrite` on a combined file -/

/-- What `flashWrite` does for a region of at most one block when both commands are
accepted: it returns 0, leaves the file open with its content, and has put the `FLASH_BEGIN`
frame and one `FLASH_DATA` frame on the wire, whose data is the block the file offers at
`ofst`. -/
theorem flashWrite_one (esp : ESP) (fuel : Nat) (vf : VFile)
    (ofst size addr fv fm : Nat) (r0 r1 : List Nat) (rest : List (List Nat))
    (hL : 0 < size) (hL2 : size ≤ 1024)
    (ho : vf.isOpen = true) (hofs : ofst ≤ vf.m_size) (hby : ∀ b ∈ vf.data, b < 256)
    (hq : QInv esp.m_serial.m_queue) (hs : esp.m_serial.port.script = r0 :: r1 :: rest)
    (ha0 : Accepts ESP_FLASH_BEGIN r0) (ha1 : Accepts ESP_FLASH_DATA r1)
    (ht1 : esp.inTime 10000) (ht2 : esp.inTime DEF_TIMEOUT) (hf : 13 ≤ fuel) :
    ∃ vf1 e,
      esp.flashWrite fuel vf ofst size addr fv fm = some (0, vf1, e) ∧
      vf1.isOpen = true ∧ vf1.data = vf.data ∧
      QInv e.m_serial.m_queue ∧ e.m_serial.port.script = rest ∧
      e.ticks = esp.ticks ∧ e.diagCode = esp.diagCode ∧
      e.m_serial.port.tx =
        esp.m_serial.port.tx ++ (beginFrame 1 addr ++
          commandFrame ESP_FLASH_DATA
            (xorFold ESP_CHECKSUM_MAGIC
              (patchFlashParm 0 addr (blockBytes { vf with m_pos := ofst }) fv fm))
            (le32 ESP_FLASH_BLK_SIZE ++ le32 0 ++ le32 0 ++ le32 0 ++
              patchFlashParm 0 addr (blockBytes { vf with m_pos := ofst }) fv fm)) := by
  have hcnt : (size + ESP_FLASH_BLK_SIZE - 1) % 2 ^ 32 / ESP_FLASH_BLK_SIZE = 1 := by
    unfold ESP_FLASH_BLK_SIZE
    omega
  have hmul : (1 * ESP_FLASH_BLK_SIZE) % 2 ^ 32 = 1 * ESP_FLASH_BLK_SIZE := by
    unfold ESP_FLASH_BLK_SIZE
    omega
  obtain ⟨e, b1, b2, b3, b4, b5, b6⟩ := flashBegin_ok esp fuel addr 1 r0
    (r1 :: rest) (by omega) (by omega) hq hs ha0 ht1 hf
  have hpos : (vf.SetPosition ofst) = (0, { vf with m_pos := ofst }) := by
    unfold VFile.SetPosition
    rw [if_pos ho, if_neg (by omega)]
  obtain ⟨vfa, ea, c1, _, c3, _, c5, c6, c7, c8, c9, c10⟩ := flashBlock_sent fuel addr fv fm 0 hf
    { vf with m_pos := ofst } e r1 rest ho hofs hby b2 b3 ha1
    (inTime_congr DEF_TIMEOUT b4 b5 ht2)
  refine ⟨vfa, ea, ?_, c3, c5, c6, c7, c8.trans b4, c9.trans b5, ?_⟩
  · unfold ESP.flashWrite
    simp only [hcnt, hmul, hpos, b1]
    show ESP.flashWriteLoop fuel addr fv fm (0 + 1) 0 { vf with m_pos := ofst } e = _
    rw [ESP.flashWriteLoop, c1]
    rfl
  · rw [c10, b6, List.append_assoc]

/-- One round of the entry loop of `FlashWrite` when the record is read, `flashWrite`
returns 0 and the file can be positioned behind the entry. -/
theorem flashWriteEntries_step (fuel fv fm n : Nat) (stat : Int) (vf vfh vf1 vf2 : VFile)
    (esp e : ESP) (hdr : List Nat) (pos len addr : Nat)
    (hr : vf.Read 1 8 = (8, hdr, vfh))
    (hpos : vfh.m_pos % 2 ^ 32 = pos) (hlen : getData 4 hdr 4 = len)
    (haddr : getData 4 hdr 0 = addr)
    (hw : esp.flashWrite fuel vfh pos len addr fv fm = some (0, vf1, e))
    (hsk : vf1.SetPosition ((pos + len) % 2 ^ 32) = (0, vf2)) :
    ESP.flashWriteEntries fuel fv fm (n + 1) stat vf esp =
      ESP.flashWriteEntries fuel fv fm n 0 vf2 e := by
  rw [ESP.flashWriteEntries, hr]
  simp only [hpos, hlen, haddr, hw, hsk]
  simp

/-- C28, on the code: `FlashWrite` is given the sparse combined file of the images 1, 2, 3, 4
for address 0 and 5, 6, 7, 8 for address 0x1000, as `AddImage` builds it, and the device
accepts every command.  The entries are the regions of 4 bytes at offsets 12 and 24 of the
file.  The one `FLASH_DATA` block sent for the first entry carries the 4 bytes of the entry,
then the 12 bytes 00 10 00 00 04 00 00 00 05 06 07 08, which are the record and the image
of the second entry, and only then 0xFF fill. -/
theorem C28_next_entry_sent :
    (ESP.addImages false [(0, imageFile [1, 2, 3, 4]), (0x1000, imageFile [5, 6, 7, 8])] 0
      VFile.OpenVirt).2.2.data = twoImageFile.data ∧
    FlashWriteRegions twoImageFile 0 = (0, [(12, 4, 0), (24, 4, 0x1000)]) ∧
    (∃ vf1 e,
      (demoEsp [okReply ESP_FLASH_BEGIN, okReply ESP_FLASH_DATA, okReply ESP_FLASH_BEGIN,
        okReply ESP_FLASH_DATA]).FlashWrite 13 twoImageFile 0 0 0 = some (0, vf1, e) ∧
      e.m_serial.port.tx =
        beginFrame 1 0 ++
        commandFrame ESP_FLASH_DATA
          (xorFold ESP_CHECKSUM_MAGIC ([1, 2, 3, 4] ++
            [0, 0x10, 0, 0, 4, 0, 0, 0, 5, 6, 7, 8] ++ List.replicate 1008 0xff))
          (le32 ESP_FLASH_BLK_SIZE ++ le32 0 ++ le32 0 ++ le32 0 ++ ([1, 2, 3, 4] ++
            [0, 0x10, 0, 0, 4, 0, 0, 0, 5, 6, 7, 8] ++ List.replicate 1008 0xff)) ++
        (beginFrame 1 0x1000 ++
        commandFrame ESP_FLASH_DATA
          (xorFold ESP_CHECKSUM_MAGIC ([5, 6, 7, 8] ++ List.replicate 1020 0xff))
          (le32 ESP_FLASH_BLK_SIZE ++ le32 0 ++ le32 0 ++ le32 0 ++
            ([5, 6, 7, 8] ++ List.replicate 1020 0xff)))) ∧
    [1, 2, 3, 4] ++ [0, 0x10, 0, 0, 4, 0, 0, 0, 5, 6, 7, 8] ++ List.replicate 1008 0xff ≠
      [1, 2, 3, 4] ++ List.replicate 1020 0xff := by
  refine ⟨by decide, by decide, ?_, by decide⟩
  have hF : ∀ esp : ESP, esp.FlashWrite 13 twoImageFile 0 0 0 =
      ESP.flashWriteEntries 13 0 0 2 (-1) { twoImageFile with m_pos := 4 } esp := fun _ => rfl
  have hby : ∀ b ∈ twoImageFile.data, b < 256 := by decide
  have haB : Accepts ESP_FLASH_BEGIN (okReply ESP_FLASH_BEGIN) :=
    ⟨0x78, 0x56, 0x34, 0x12, [], by decide⟩
  have haD : Accepts ESP_FLASH_DATA (okReply ESP_FLASH_DATA) :=
    ⟨0x78, 0x56, 0x34, 0x12, [], by decide⟩
  -- the first entry
  obtain ⟨vf1, e1, w1, o1, d1, q1, s1, t1, g1, x1⟩ := flashWrite_one
    (demoEsp [okReply ESP_FLASH_BEGIN, okReply ESP_FLASH_DATA, okReply ESP_FLASH_BEGIN,
      okReply ESP_FLASH_DATA]) 13 { twoImageFile with m_pos := 12 } 12 4 0 0 0
    (okReply ESP_FLASH_BEGIN) (okReply ESP_FLASH_DATA)
    [okReply ESP_FLASH_BEGIN, okReply ESP_FLASH_DATA] (by decide) (by decide) rfl (by decide)
    hby ⟨rfl, by decide, rfl⟩ rfl haB haD
    (fun _ _ _ => Nat.zero_le _) (fun _ _ _ => Nat.zero_le _) (by decide)
  have hd1 : patchFlashParm 0 0
      (blockBytes { ({ twoImageFile with m_pos := 12 } : VFile) with m_pos := 12 }) 0 0 =
      [1, 2, 3, 4] ++ [0, 0x10, 0, 0, 4, 0, 0, 0, 5, 6, 7, 8] ++ List.replicate 1008 0xff := by
    unfold ESP.patchFlashParm
    rw [if_neg (fun h => h.2.2.2 rfl)]
    rfl
  rw [hd1] at x1
  have k1 : vf1.SetPosition ((12 + 4) % 2 ^ 32) = (0, { vf1 with m_pos := 16 }) :=
    SetPosition_ok vf1 16 o1 (by rw [d1]; decide)
  have step1 := flashWriteEntries_step 13 0 0 1 (-1) { twoImageFile with m_pos := 4 }
    { twoImageFile with m_pos := 12 } vf1 { vf1 with m_pos := 16 }
    (demoEsp [okReply ESP_FLASH_BEGIN, okReply ESP_FLASH_DATA, okReply ESP_FLASH_BEGIN,
      okReply ESP_FLASH_DATA]) e1 [0, 0, 0, 0, 4, 0, 0, 0] 12 4 0 rfl rfl (by decide) (by decide)
    w1 k1
  -- the second entry
  have hsz : vf1.m_size = 28 := by rw [VFile.m_size, d1]; rfl
  have r2 : ({ vf1 with m_pos := 16 } : VFile).Read 1 8 =
      (8, [0, 0x10, 0, 0, 4, 0, 0, 0], { vf1 with m_pos := 24 }) := by
    rw [Read_part { vf1 with m_pos := 16 } 8 o1 (by decide) (by
      show 16 + 8 ≤ vf1.m_size
      rw [hsz]; decide)]
    show (((8 : Nat) : Int), List.take 8 (List.drop 16 vf1.data), _) = _
    rw [d1]
    rfl
  obtain ⟨vf2, e2, w2, o2, d2, _, _, _, _, x2⟩ := flashWrite_one e1 13
    { vf1 with m_pos := 24 } 24 4 0x1000 0 0
    (okReply ESP_FLASH_BEGIN) (okReply ESP_FLASH_DATA) [] (by decide) (by decide) o1
    (by show 24 ≤ vf1.m_size; rw [hsz]; decide)
    (by show ∀ b ∈ vf1.data, b < 256; rw [d1]; exact hby) q1 s1 haB haD
    (inTime_congr 10000 t1 g1 (fun _ _ _ => Nat.zero_le _))
    (inTime_congr DEF_TIMEOUT t1 g1 (fun _ _ _ => Nat.zero_le _)) (by decide)
  have hd2 : patchFlashParm 0 0x1000
      (blockBytes { ({ vf1 with m_pos := 24 } : VFile) with m_pos := 24 }) 0 0 =
      [5, 6, 7, 8] ++ List.replicate 1020 0xff := by
    unfold ESP.patchFlashParm
    rw [if_neg (fun h => h.2.2.2 rfl)]
    show List.take 1024 (List.drop 24 vf1.data) ++
      List.replicate (1024 - (List.take 1024 (List.drop 24 vf1.data)).length) 0xff = _
    rw [d1]
    rfl
  rw [hd2, x1] at x2
  have k2 : vf2.SetPosition ((24 + 4) % 2 ^ 32) = (0, { vf2 with m_pos := 28 }) :=
    SetPosition_ok vf2 28 o2 (by rw [d2]; show 28 ≤ vf1.data.length; rw [d1]; decide)
  have step2 := flashWriteEntries_step 13 0 0 0 0 { vf1 with m_pos := 16 }
    { vf1 with m_pos := 24 } vf2 { vf2 with m_pos := 28 } e1 e2 [0, 0x10, 0, 0, 4, 0, 0, 0]
    24 4 0x1000 r2 rfl (by decide) (by decide) w2 k2
  refine ⟨{ vf2 with m_pos := 28 }, e2, ?_, ?_⟩
  · rw [hF, step1, step2]
    rfl
  · rw [x2]
    rfl

/-! ## Lemmas: `AutoExtract` -/

theorem imageName_ne_nil (fname : List Char) (ofs : Nat) : imageName fname ofs ≠ [] := by
  intro h
  have h2 := congrArg List.length h
  simp [imageName, imageSuffix] at h2

theorem openImage_open (fs : FileSystem) (virt : Bool) (fname : List Char) (ofs : Nat)
    (h : virt = true ∨ fs.creatable (imageName fname ofs) = true) :
    openImage fs virt (imageName fname ofs) = VFile.OpenVirt := by
  unfold openImage
  rw [if_neg (imageName_ne_nil fname ofs)]
  rcases h with h | h
  · rw [if_pos h]
  · rw [if_pos h]
    split_ifs <;> rfl

/-! ## Lemmas: the segment data of an image -/

theorem segmentBytes_spec (elf : ELF) : ∀ (names : List (List Char)) (rest : List Nat),
    (∀ nm ∈ names, Emittable elf nm) →
    segmentBytes names.length (names.flatMap (specSegment elf) ++ rest) = segmentData elf names
  | [], _, _ => rfl
  | nm :: names, rest, hall => by
    have hnm := hall nm (List.mem_cons_self _ _)
    have hsz : roundUp4 (elf.namedSection nm).size < 2 ^ 32 := by
      have := hnm.2.2; omega
    have hle : (elf.namedSection nm).size ≤ roundUp4 (elf.namedSection nm).size := by
      unfold roundUp4; omega
    have hg : getData 4 ((nm :: names).flatMap (specSegment elf) ++ rest) 4
        = roundUp4 (elf.namedSection nm).size := by
      have := getData4_le32 (le32 (elf.namedSection nm).address)
        (elf.sectionBytes (elf.namedSection nm) ++
          List.replicate (roundUp4 (elf.namedSection nm).size - (elf.namedSection nm).size) 0 ++
          (names.flatMap (specSegment elf) ++ rest)) _ hsz
      rw [le32_length] at this
      rw [← this]
      simp [specSegment, List.append_assoc]
    have hd : ((nm :: names).flatMap (specSegment elf) ++ rest).drop
        (8 + roundUp4 (elf.namedSection nm).size) = names.flatMap (specSegment elf) ++ rest := by
      rw [← specSegment_length elf nm hnm, List.flatMap_cons, List.append_assoc,
        List.drop_left]
    have hdata : (((nm :: names).flatMap (specSegment elf) ++ rest).drop 8).take
        (roundUp4 (elf.namedSection nm).size) =
        elf.sectionBytes (elf.namedSection nm) ++
          List.replicate (roundUp4 (elf.namedSection nm).size - (elf.namedSection nm).size) 0 := by
      have e1 : (nm :: names).flatMap (specSegment elf) ++ rest =
          (le32 (elf.namedSection nm).address ++ le32 (roundUp4 (elf.namedSection nm).size)) ++
          ((elf.sectionBytes (elf.namedSection nm) ++
            List.replicate (roundUp4 (elf.namedSection nm).size - (elf.namedSection nm).size) 0) ++
            (names.flatMap (specSegment elf) ++ rest)) := by
        simp [specSegment, List.append_assoc]
      have e2 : (le32 (elf.namedSection nm).address ++
          le32 (roundUp4 (elf.namedSection nm).size)).length = 8 := by
        simp [le32]
      rw [e1, ← e2, List.drop_left]
      have e3 : (elf.sectionBytes (elf.namedSection nm) ++
          List.replicate (roundUp4 (elf.namedSection nm).size - (elf.namedSection nm).size) 0).length
          = roundUp4 (elf.namedSection nm).size := by
        rw [List.length_append, List.length_replicate, hnm.2.1]
        omega
      have := @List.take_left _ (elf.sectionBytes (elf.namedSection nm) ++
          List.replicate (roundUp4 (elf.namedSection nm).size - (elf.namedSection nm).size) 0)
          (names.flatMap (specSegment elf) ++ rest)
      rw [e3] at this
      exact this
    simp only [List.length_cons, segmentBytes, hg, hd, hdata]
    rw [segmentBytes_spec elf names rest (fun x hx => hall x (List.mem_cons_of_mem _ hx))]
    simp only [segmentData, List.flatMap_cons]

set_option maxRecDepth 100000 in
/-- C21, as stated, fails: for an ELF file whose `.irom0.text` is loaded at 0x40200000, the
flash base, `AutoExtract` returns -1, which is `ESP_ERROR_GENERAL`, not `ESP_ERROR_PARAM`
(-4).  And for an ELF file with a name of 1011 letters whose `.irom0.text` is loaded at
0x40300000, the name `<name>_0x100000.bin` of the image has 1024 characters and does not
fit in `name[1024]` with its final NUL. -/
theorem C21_irom_status_counterexample :
    ((iromElf 0x40200000).GetSectionNum ".irom0.text".toList ≠ 0 ∧
      iromAddress (iromElf 0x40200000) ≤ FLASH_ADDR ∧
      (ESP.AutoExtract (iromElf 0x40200000) "app.elf".toList noFiles 0 VFile.OpenVirt 0 false
        none 0).map (fun r => r.stat) = some (-1) ∧
      (-1 : Int) ≠ ESP_ERROR_PARAM) ∧
    (FLASH_ADDR < iromAddress (iromElf 0x40300000) ∧
      baseLen longName + 13 ≤ MAX_FILENAME ∧
      (imageName longName (iromAddress (iromElf 0x40300000) - FLASH_ADDR)).length = 1024 ∧
      ESP.AutoExtract (iromElf 0x40300000) longName noFiles 0 VFile.OpenVirt 0 false none 0
        = none) := by
  decide

/-- C21 (amended): when the ELF file has a section `.irom0.text`: if its load address is less
than or equal to the flash base 0x40200000, `AutoExtract` fails, and when the run gets as
far as that section (the names fit, the boot image is created and written) the value it
returns is -1 (`ESP_ERROR_GENERAL`), not `ESP_ERROR_PARAM`; if its load address is greater,
the name of the image fits in `name[1024]` and the image file of the section can be
created, the flash offset used for the section is load_addr - 0x40200000: the image record
of the section has that offset as its address and in its file name, and when a combined
file is open and the section was written the outcome is that of the loop calling `AddImage`
for the image records with their addresses. -/
theorem C21_irom_offset (elf : ELF) (fname : List Char) (fs : FileSystem) (m_imageSize : Nat)
    (vfCombine : VFile) (flashParm : Nat) (padded : Bool) (imageFile : Option (List Char))
    (imageAddr : Nat) (hn : elf.GetSectionNum ".irom0.text".toList ≠ 0) :
    (iromAddress elf ≤ FLASH_ADDR →
      ∃ r, ESP.AutoExtract elf fname fs m_imageSize vfCombine flashParm padded imageFile
          imageAddr = some r ∧ r.stat ≠ 0 ∧
        (ReachesIrom elf fname fs vfCombine flashParm imageFile → r.stat = -1)) ∧
    (FLASH_ADDR < iromAddress elf → ReachesIrom elf fname fs vfCombine flashParm imageFile →
      (imageName fname (iromAddress elf - FLASH_ADDR)).length + 1 ≤ MAX_FILENAME →
      (vfCombine.isOpen = true ∨
        fs.creatable (imageName fname (iromAddress elf - FLASH_ADDR)) = true) →
      ∃ r, ESP.AutoExtract elf fname fs m_imageSize vfCombine flashParm padded imageFile
          imageAddr = some r ∧
        (⟨imageName fname (iromAddress elf - FLASH_ADDR), iromAddress elf - FLASH_ADDR,
          (elf.WriteSection (elf.GetSectionNum ".irom0.text".toList - 1) VFile.OpenVirt 0 0).2.1⟩ :
            FileData_t) ∈ r.images ∧
        (vfCombine.isOpen = true →
          0 ≤ (elf.WriteSection (elf.GetSectionNum ".irom0.text".toList - 1) VFile.OpenVirt 0 0).1 →
          ∃ st, ESP.combineImages fs padded r.images st m_imageSize vfCombine =
            (r.stat, r.m_imageSize, r.vfCombine))) := by
  have reach : ReachesIrom elf fname fs vfCombine flashParm imageFile →
      ((effectiveImage vfCombine imageFile).any fun f => decide (f.length + 1 > MAX_FILENAME))
        = false ∧
      ¬ baseLen fname + 13 > MAX_FILENAME ∧
      openImage fs vfCombine.IsOpen (fname.take (baseLen fname) ++ imageSuffix 0) =
        VFile.OpenVirt := by
    intro hr
    obtain ⟨r1, r2, r3, _⟩ := hr
    refine ⟨?_, by omega, openImage_open fs _ fname 0 r3⟩
    cases he : effectiveImage vfCombine imageFile with
    | none => rfl
    | some f =>
      have := r1 f he
      simp only [Option.any_some, decide_eq_false_iff_not]
      omega
  have hopen : (!VFile.OpenVirt.IsOpen) = false := rfl
  refine ⟨fun hle => ?_, fun hgt hr hfit hc => ?_⟩
  · unfold iromAddress at hle
    unfold ESP.AutoExtract
    simp only [hle, if_true]
    split_ifs with h1 h2 h3 h4
    · exact ⟨_, rfl, (by decide : (ESP_ERROR_FILENAME_LENGTH : Int) ≠ 0),
        fun hr => absurd h1 (by rw [(reach hr).1]; decide)⟩
    · exact ⟨_, rfl, (by decide : (ESP_ERROR_FILENAME_LENGTH : Int) ≠ 0),
        fun hr => absurd h2 (reach hr).2.1⟩
    · exact ⟨_, rfl, (by decide : (-1 : Int) ≠ 0), fun _ => rfl⟩
    · refine ⟨_, rfl, h4, fun hr => ?_⟩
      have a3 := (reach hr).2.2
      rw [a3] at h4
      exact absurd hr.2.2.2 h4
    · exact ⟨_, rfl, (by decide : (-1 : Int) ≠ 0), fun _ => rfl⟩
  · obtain ⟨a1, a2, a3⟩ := reach hr
    have a4 : openImage fs vfCombine.IsOpen
        (fname.take (baseLen fname) ++ imageSuffix (iromAddress elf - FLASH_ADDR)) =
        VFile.OpenVirt := openImage_open fs _ fname _ hc
    have hgt2 : ¬ iromAddress elf ≤ FLASH_ADDR := by omega
    have hfit2 : ¬ (fname.take (baseLen fname) ++
        imageSuffix (iromAddress elf - FLASH_ADDR)).length + 1 > MAX_FILENAME := by
      have : (imageName fname (iromAddress elf - FLASH_ADDR)).length + 1 ≤ MAX_FILENAME := hfit
      unfold imageName at this
      omega
    unfold iromAddress at hgt2 a4 hfit2
    unfold ESP.AutoExtract
    simp only [a1, a2, a3, a4, hopen, hr.2.2.2, hn, hgt2, hfit2, if_true, if_false,
      Bool.false_eq_true, ne_eq, not_true_eq_false]
    unfold iromAddress imageName
    generalize elf.WriteSection (elf.GetSectionNum ".irom0.text".toList - 1) VFile.OpenVirt 0 0
      = r
    generalize elf.GetSectionAddress (elf.GetSectionNum ".irom0.text".toList - 1) - FLASH_ADDR
      = ofs
    generalize (⟨fname.take (baseLen fname) ++ imageSuffix 0, 0,
      (WriteSections elf VFile.OpenVirt ".text,.data,.rodata".toList flashParm).2⟩ : FileData_t)
      = boot
    cases effectiveImage vfCombine imageFile <;> simp only [] <;> split_ifs <;>
      refine ⟨_, rfl, ?_, fun ho hw => ?_⟩ <;>
      first
        | exact List.mem_append_right _ (List.mem_singleton_self _)
        | exact List.mem_append_left _ (List.mem_append_right _ (List.mem_singleton_self _))
        | exact ⟨r.1, rfl⟩
        | exact absurd hw (by omega)
        | exact absurd ho ‹_›

set_option maxRecDepth 100000 in
/-- An ELF file `app.elf` whose `.irom0.text` is loaded at 0x40210000 is extracted into an
open combined file, with the image `x.bin` for 0x7E000: the image record of the section has
the name `app_0x10000.bin` and the address 0x10000, the call returns 0, and `ImageInfo`
reports three entries in the combined file, at 0, 0x10000 and 0x7E000. -/
theorem C21_irom_offset_witness :
    ((iromElf 0x40210000).GetSectionNum ".irom0.text".toList ≠ 0 ∧
      FLASH_ADDR < iromAddress (iromElf 0x40210000) ∧
      (imageName "app.elf".toList (iromAddress (iromElf 0x40210000) - FLASH_ADDR)).length + 1 ≤
        MAX_FILENAME) ∧
    (∃ r, ESP.AutoExtract (iromElf 0x40210000) "app.elf".toList demoFiles 0 VFile.OpenVirt 0 false
        (some "x.bin".toList) 0x7e000 = some r ∧
      (⟨imageName "app.elf".toList (iromAddress (iromElf 0x40210000) - FLASH_ADDR),
        iromAddress (iromElf 0x40210000) - FLASH_ADDR,
        ((iromElf 0x40210000).WriteSection
          ((iromElf 0x40210000).GetSectionNum ".irom0.text".toList - 1) VFile.OpenVirt 0 0).2.1⟩ :
          FileData_t) ∈ r.images) ∧
    imageName "app.elf".toList (iromAddress (iromElf 0x40210000) - FLASH_ADDR) =
      "app_0x10000.bin".toList ∧
    iromAddress (iromElf 0x40210000) - FLASH_ADDR = 0x10000 ∧
    (ESP.AutoExtract (iromElf 0x40210000) "app.elf".toList demoFiles 0 VFile.OpenVirt 0 false
      (some "x.bin".toList) 0x7e000).map (fun r => r.stat) = some 0 ∧
    (ESP.AutoExtract (iromElf 0x40210000) "app.elf".toList demoFiles 0 VFile.OpenVirt 0 false
      (some "x.bin".toList) 0x7e000).map (fun r => ImageInfo r.vfCombine) =
      some (0, some (ImageReport.combined 3
        [⟨0, 48, some ⟨0, [(0x40100000, 8), (0x3ffe8000, 4), (0x3ffe8100, 0)], true, some 0xff,
            none⟩⟩,
          ⟨0x10000, 4, none⟩, ⟨0x7e000, 4, none⟩])) :=
  ⟨by decide,
    (((C21_irom_offset (iromElf 0x40210000) "app.elf".toList demoFiles 0 VFile.OpenVirt 0 false
      (some "x.bin".toList) 0x7e000 (by decide)).2 (by decide)
      ⟨fun f h => by
        have e : effectiveImage VFile.OpenVirt (some "x.bin".toList) = some "x.bin".toList := by
          decide
        rw [e] at h
        cases h
        decide, by decide, Or.inl rfl, by decide⟩ (by decide) (Or.inl rfl)).imp
      fun _ h => ⟨h.1, h.2.1⟩),
    by decide, by decide, by decide, by decide⟩

/-! ## The copy of `Refresh` -/

/-- C22, on the code: a queue in unbounded mode; four bytes arrive and `GetData` takes one of
them, so that the queue holds three bytes from offset 1 of its buffer of four; a fifth byte
arrives, and `Refresh` moves the three bytes to the front of the buffer with
`memcpy(m_data, m_data + 1, 3)`, whose source [1, 4) overlaps its destination [0, 3). -/
theorem C22_overlapping_copy :
    (qRun [.arrive [1, 2, 3, 4], .getData 1, .arrive [5]]
      ⟨SerialQueue.unbounded 0, ⟨[], [], []⟩, [], []⟩).q =
      { m_maxSize := 0, m_curSize := 4, m_count := 3, m_head := 1, m_data := [1, 2, 3, 4],
        overlap := false } ∧
    (qRun [.arrive [1, 2, 3, 4], .getData 1, .arrive [5]]
      ⟨SerialQueue.unbounded 0, ⟨[], [], []⟩, [], []⟩).p.rx = [5] ∧
    (qRun [.arrive [1, 2, 3, 4], .getData 1, .arrive [5]]
      ⟨SerialQueue.unbounded 0, ⟨[], [], []⟩, [], []⟩).delivered = [1] ∧
    ((qRun [.arrive [1, 2, 3, 4], .getData 1, .arrive [5]]
      ⟨SerialQueue.unbounded 0, ⟨[], [], []⟩, [], []⟩).q.refreshRoom 1).2.refreshCompact.overlap
      = true ∧
    (qRun [.arrive [1, 2, 3, 4], .getData 1, .arrive [5], .refresh]
      ⟨SerialQueue.unbounded 0, ⟨[], [], []⟩, [], []⟩).q.overlap = true ∧
    (qRun [.arrive [1, 2, 3, 4], .getData 1, .arrive [5], .getData 4]
      ⟨SerialQueue.unbounded 0, ⟨[], [], []⟩, [], []⟩).q.overlap = true := by
  decide

/-! ## Lemmas: the buffer of a virtual file -/

theorem NeedSpace_room (vf : VFile) (t : Nat) (h : Intact vf) (h0 : 0 < t)
    (hb : vf.data.length + t + 100 ≤ 2 ^ 32) :
    (vf.NeedSpace t).overrun = false ∧ vf.m_pos + t ≤ (vf.NeedSpace t).m_bufSize ∧
    (vf.NeedSpace t).m_increment = 100 ∧ (vf.NeedSpace t).isOpen = true := by
  obtain ⟨⟨ho, hp⟩, hov, hsz, hi⟩ := h
  have ht : t % 2 ^ 32 = t := Nat.mod_eq_of_lt (by omega)
  have hs : vf.m_size = vf.data.length := rfl
  simp only [VFile.NeedSpace, ht]
  rw [if_neg (by omega)]
  have e1 : (vf.m_pos + t) % 2 ^ 32 = vf.m_pos + t := Nat.mod_eq_of_lt (by omega)
  rw [e1]
  by_cases hfit : vf.m_pos + t ≤ vf.m_bufSize
  · rw [if_pos hfit]
    exact ⟨hov, hfit, hi, ho⟩
  · rw [if_neg hfit]
    by_cases hlt : t < vf.m_increment
    · have e2 : (vf.m_pos + vf.m_increment) % 2 ^ 32 = vf.m_pos + vf.m_increment :=
        Nat.mod_eq_of_lt (by omega)
      simp only [if_pos hlt, e2, hov, Bool.false_or, decide_eq_false_iff_not]
      exact ⟨by omega, by omega, hi, trivial⟩
    · simp only [if_neg hlt, e1, hov, Bool.false_or, decide_eq_false_iff_not]
      exact ⟨by omega, by omega, hi, trivial⟩

theorem run_intact (op : VOp) (vf : VFile) (h : Intact vf) (hf : op.Fits)
    (hb : vf.data.length + op.bytes.length + 100 ≤ 2 ^ 32) :
    Intact (op.run vf) ∧ (op.run vf).data = vf.data ++ op.bytes := by
  have hA := h.1
  cases op with
  | write buf size count =>
    by_cases h0 : size * count = 0
    · simp [VOp.run, VOp.bytes, VFile.Write, h0, h]
    · have hfit : size * count ≤ buf.length := hf
      have hlen : (buf.take (size * count)).length = size * count := by
        rw [List.length_take]; omega
      have hb2 : vf.data.length + size * count + 100 ≤ 2 ^ 32 := by
        have : (VOp.write buf size count).bytes.length = size * count := hlen
        omega
      obtain ⟨n1, n2, n3, n4⟩ := NeedSpace_room vf (size * count) h (by omega) hb2
      obtain ⟨_, w2, w3⟩ := Write_atEnd hA buf size count h0 hfit
      refine ⟨⟨w3, ?_, ?_, ?_⟩, w2⟩
      · show (vf.Write buf size count).2.overrun = false
        simp only [VFile.Write, h0, if_false, hA.1, Bool.not_true, Bool.false_eq_true, n1,
          Bool.false_or, decide_eq_false_iff_not, NeedSpace_pos]
        omega
      · show (vf.Write buf size count).2.data.length ≤ (vf.Write buf size count).2.m_bufSize
        rw [w2]
        simp only [VFile.Write, h0, if_false, hA.1, Bool.not_true, Bool.false_eq_true,
          List.length_append, hlen]
        have := hA.2
        omega
      · show (vf.Write buf size count).2.m_increment = 100
        simp only [VFile.Write, h0, if_false, hA.1, Bool.not_true, Bool.false_eq_true, n3]
  | fill c count =>
    by_cases h0 : count = 0
    · subst h0
      simp [VOp.run, VOp.bytes, VFile.Fill, h]
    · have hb2 : vf.data.length + count + 100 ≤ 2 ^ 32 := by
        have : (VOp.fill c count).bytes.length = count := List.length_replicate _ _
        omega
      obtain ⟨n1, n2, n3, n4⟩ := NeedSpace_room vf count h (by omega) hb2
      obtain ⟨_, f2, f3⟩ := Fill_atEnd hA c count
      have hpos : count > 0 := by omega
      refine ⟨⟨f3, ?_, ?_, ?_⟩, f2⟩
      · show (vf.Fill c count).2.overrun = false
        simp only [VFile.Fill, hpos, if_true, n1, Bool.false_or, decide_eq_false_iff_not,
          NeedSpace_pos]
        omega
      · show (vf.Fill c count).2.data.length ≤ (vf.Fill c count).2.m_bufSize
        rw [f2]
        simp only [VFile.Fill, hpos, if_true, List.length_append, List.length_replicate]
        have := hA.2
        omega
      · show (vf.Fill c count).2.m_increment = 100
        simp only [VFile.Fill, hpos, if_true, n3]

theorem runOps_intact : ∀ (ops : List VOp) (vf : VFile), Intact vf → (∀ op ∈ ops, op.Fits) →
    vf.data.length + (written ops).length + 100 ≤ 2 ^ 32 →
    Intact (runOps ops vf) ∧ (runOps ops vf).data = vf.data ++ written ops
  | [], vf, h, _, _ => ⟨h, by simp [runOps, written]⟩
  | op :: ops, vf, h, hf, hb => by
    have hw : (written (op :: ops)).length = op.bytes.length + (written ops).length := by
      simp only [written, List.flatMap_cons, List.length_append]
    obtain ⟨s1, s2⟩ := run_intact op vf h (hf _ (List.mem_cons_self _ _)) (by omega)
    obtain ⟨i1, i2⟩ := runOps_intact ops (op.run vf) s1
      (fun o ho => hf o (List.mem_cons_of_mem _ ho)) (by
        rw [s2, List.length_append]; omega)
    refine ⟨i1, ?_⟩
    show (runOps ops (op.run vf)).data = _
    rw [i2, s2]
    simp only [written, List.flatMap_cons, List.append_assoc]

theorem fill_wrap (n k : Nat) (hk : 0 < k) (hk2 : k < 100)
    (h2 : n + k < 2 ^ 32) (h3 : 2 ^ 32 ≤ n + 100) :
    (runOps [VOp.fill 0 n] VFile.OpenVirt).m_pos = n ∧
    (runOps [VOp.fill 0 n] VFile.OpenVirt).overrun = false ∧
    ((runOps [VOp.fill 0 n] VFile.OpenVirt).NeedSpace k).m_bufSize = n + 100 - 2 ^ 32 ∧
    (runOps [VOp.fill 0 n, VOp.fill 0 k] VFile.OpenVirt).overrun = true := by
  have hn : n % 2 ^ 32 = n := Nat.mod_eq_of_lt (by omega)
  have hpos : (VFile.OpenVirt.Fill 0 n).2.m_pos = n := by
    simp only [VFile.Fill, show n > 0 by omega, if_true, NeedSpace_pos]
    show 0 + n = n
    omega
  have hlen : (VFile.OpenVirt.Fill 0 n).2.data.length = n := by
    rw [(@Fill_atEnd VFile.OpenVirt ⟨rfl, rfl⟩ 0 n).2.1]
    show ([] ++ List.replicate n 0).length = n
    rw [List.nil_append, List.length_replicate]
  have hns : (VFile.OpenVirt.NeedSpace n).m_bufSize = n ∧
      (VFile.OpenVirt.NeedSpace n).overrun = false ∧
      (VFile.OpenVirt.NeedSpace n).m_increment = 100 := by
    simp only [VFile.NeedSpace, hn]
    rw [if_neg (by omega)]
    have e0 : (VFile.OpenVirt.m_pos + n) % 2 ^ 32 = n := by
      show (0 + n) % 2 ^ 32 = n
      rw [Nat.zero_add, hn]
    have ei : VFile.OpenVirt.m_increment = 100 := rfl
    have eb : VFile.OpenVirt.m_bufSize = 100 := rfl
    rw [e0, ei, eb]
    by_cases h100 : n ≤ 100
    · rw [if_pos h100]
      exact ⟨by rw [eb]; omega, rfl, rfl⟩
    · rw [if_neg h100, if_neg (by omega), e0]
      refine ⟨rfl, ?_, rfl⟩
      show (false || decide (n < 0)) = false
      simp
  have hbuf : (VFile.OpenVirt.Fill 0 n).2.m_bufSize = n := by
    simp only [VFile.Fill, show n > 0 by omega, if_true]
    exact hns.1
  have hov : (VFile.OpenVirt.Fill 0 n).2.overrun = false := by
    simp only [VFile.Fill, show n > 0 by omega, if_true, hns.2.1, hns.1, NeedSpace_pos,
      Bool.false_or, decide_eq_false_iff_not]
    show ¬ 0 + n > n
    omega
  have hinc : (VFile.OpenVirt.Fill 0 n).2.m_increment = 100 := by
    simp only [VFile.Fill, show n > 0 by omega, if_true]
    exact hns.2.2
  have e1 : (n + k) % 2 ^ 32 = n + k := Nat.mod_eq_of_lt h2
  have ek : k % 2 ^ 32 = k := Nat.mod_eq_of_lt (by omega)
  have hk0 : ¬ k = 0 := by omega
  have e2 : (n + 100) % 2 ^ 32 = n + 100 - 2 ^ 32 := by omega
  have hgrow : ((VFile.OpenVirt.Fill 0 n).2.NeedSpace k).m_bufSize = n + 100 - 2 ^ 32 ∧
      ((VFile.OpenVirt.Fill 0 n).2.NeedSpace k).overrun = true := by
    simp only [VFile.NeedSpace, hpos, hbuf, hinc, VFile.m_size, hlen, hov, e1, ek]
    rw [if_neg hk0, if_neg (by omega), if_pos hk2, e2]
    refine ⟨rfl, ?_⟩
    show (false || decide (n + 100 - 2 ^ 32 < n)) = true
    simp only [Bool.false_or, decide_eq_true_eq]
    omega
  refine ⟨hpos, hov, hgrow.1, ?_⟩
  show ((VFile.OpenVirt.Fill 0 n).2.Fill 0 k).2.overrun = true
  have hg2 := hgrow.2
  generalize (VFile.OpenVirt.Fill 0 n).2 = v at hg2 ⊢
  simp only [VFile.Fill, show k > 0 from hk, if_true, hg2, Bool.true_or]

/-- C30, as stated, fails: after `Fill(0, 2^32 - 100)` the position is `2^32 - 100`.  For
`Fill(0, 1)`, `NeedSpace(1)` adds the increment 100 to the position in 32 bits, gets 0, and
reallocates the buffer to 0 bytes; the byte is then written 4 GiB behind it.  The two calls
write `2^32 - 99` bytes in all, less than 4 GiB.  Likewise `Fill(0, 2^32 - 50)` and
`Fill(0, 10)` leave a buffer of 50 bytes for `2^32 - 40` bytes. -/
theorem C30_buffer_wrap_counterexample :
    ((2 ^ 32 - 100) + 1 < 2 ^ 32 ∧
      (runOps [VOp.fill 0 (2 ^ 32 - 100)] VFile.OpenVirt).m_pos = 2 ^ 32 - 100 ∧
      (runOps [VOp.fill 0 (2 ^ 32 - 100)] VFile.OpenVirt).overrun = false ∧
      ((runOps [VOp.fill 0 (2 ^ 32 - 100)] VFile.OpenVirt).NeedSpace 1).m_bufSize = 0 ∧
      (runOps [VOp.fill 0 (2 ^ 32 - 100), VOp.fill 0 1] VFile.OpenVirt).overrun = true) ∧
    ((2 ^ 32 - 50) + 10 < 2 ^ 32 ∧
      (runOps [VOp.fill 0 (2 ^ 32 - 50)] VFile.OpenVirt).m_pos = 2 ^ 32 - 50 ∧
      (runOps [VOp.fill 0 (2 ^ 32 - 50)] VFile.OpenVirt).overrun = false ∧
      ((runOps [VOp.fill 0 (2 ^ 32 - 50)] VFile.OpenVirt).NeedSpace 10).m_bufSize = 50 ∧
      (runOps [VOp.fill 0 (2 ^ 32 - 50), VOp.fill 0 10] VFile.OpenVirt).overrun = true) :=
  ⟨⟨by norm_num,
    (fill_wrap (2 ^ 32 - 100) 1 (by norm_num) (by norm_num) (by norm_num) (by norm_num)).1,
    (fill_wrap (2 ^ 32 - 100) 1 (by norm_num) (by norm_num) (by norm_num) (by norm_num)).2.1,
    (fill_wrap (2 ^ 32 - 100) 1 (by norm_num) (by norm_num) (by norm_num) (by norm_num)).2.2.1.trans (by norm_num),
    (fill_wrap (2 ^ 32 - 100) 1 (by norm_num) (by norm_num) (by norm_num) (by norm_num)).2.2.2⟩,
   ⟨by norm_num,
    (fill_wrap (2 ^ 32 - 50) 10 (by norm_num) (by norm_num) (by norm_num) (by norm_num)).1,
    (fill_wrap (2 ^ 32 - 50) 10 (by norm_num) (by norm_num) (by norm_num) (by norm_num)).2.1,
    (fill_wrap (2 ^ 32 - 50) 10 (by norm_num) (by norm_num) (by norm_num) (by norm_num)).2.2.1.trans (by norm_num),
    (fill_wrap (2 ^ 32 - 50) 10 (by norm_num) (by norm_num) (by norm_num) (by norm_num)).2.2.2⟩⟩

/-- C30 (amended): after any sequence of `Write` and `Fill` calls on a freshly opened empty
virtual file, each `Write` with a buffer that holds the bytes to write, at most
`2^32 - 100` bytes in all: `NeedSpace` has grown the buffer so that no copy went past its
end and the buffer holds the file, `Size()` is the number of bytes written, `Position(0)`
succeeds, and `Read(buf, 1, Size())` then returns that number and delivers exactly the
bytes written, in order. -/
theorem C30_write_read_back (ops : List VOp) (hfit : ∀ op ∈ ops, op.Fits)
    (hsize : (written ops).length + 100 ≤ 2 ^ 32) :
    (runOps ops VFile.OpenVirt).overrun = false ∧
    (runOps ops VFile.OpenVirt).m_size ≤ (runOps ops VFile.OpenVirt).m_bufSize ∧
    (runOps ops VFile.OpenVirt).Size = ((written ops).length : Int) ∧
    ((runOps ops VFile.OpenVirt).SetPosition 0).1 = 0 ∧
    (((runOps ops VFile.OpenVirt).SetPosition 0).2.Read 1 (runOps ops VFile.OpenVirt).m_size).1 =
      ((written ops).length : Int) ∧
    (((runOps ops VFile.OpenVirt).SetPosition 0).2.Read 1
      (runOps ops VFile.OpenVirt).m_size).2.1 = written ops := by
  obtain ⟨⟨hA, hov, hbuf, _⟩, hd⟩ := runOps_intact ops VFile.OpenVirt
    ⟨⟨rfl, rfl⟩, rfl, by decide, rfl⟩ hfit (by
      show 0 + (written ops).length + 100 ≤ 2 ^ 32
      omega)
  have hd1 : (runOps ops VFile.OpenVirt).data = written ops := by
    rw [hd]; rfl
  have hsz : (runOps ops VFile.OpenVirt).m_size = (written ops).length := by
    rw [VFile.m_size, hd1]
  have hS := SetPosition_ok (runOps ops VFile.OpenVirt) 0 hA.1 (Nat.zero_le _)
  refine ⟨hov, hbuf, ?_⟩
  rw [hS, hsz]
  refine ⟨?_, rfl, ?_⟩
  · rw [VFile.Size, if_pos hA.1, hsz]
  · by_cases h0 : (written ops).length = 0
    · have e : written ops = [] := List.eq_nil_of_length_eq_zero h0
      rw [e]
      simp [VFile.Read]
    · have hR := Read_part { runOps ops VFile.OpenVirt with m_pos := 0 } (written ops).length
        hA.1 h0 (by
          show 0 + _ ≤ (runOps ops VFile.OpenVirt).m_size
          rw [hsz]; omega)
      rw [hR]
      refine ⟨rfl, ?_⟩
      show List.take _ (List.drop 0 (runOps ops VFile.OpenVirt).data) = _
      rw [hd1, List.drop_zero, List.take_length]

/-- Ninety bytes are written, twenty filled in, none written by an empty `Write`, one more
written: the buffer has grown from 100 to 190 bytes, no copy left it, and the file reads
back as the 111 bytes. -/
theorem C30_write_read_back_witness :
    ((written [VOp.write (List.replicate 90 1) 1 90, VOp.fill 0xff 20, VOp.write [9] 1 0,
        VOp.write [7, 8] 1 1]).length = 111 ∧
      (runOps [VOp.write (List.replicate 90 1) 1 90, VOp.fill 0xff 20, VOp.write [9] 1 0,
        VOp.write [7, 8] 1 1] VFile.OpenVirt).m_bufSize = 190) ∧
    (runOps [VOp.write (List.replicate 90 1) 1 90, VOp.fill 0xff 20, VOp.write [9] 1 0,
      VOp.write [7, 8] 1 1] VFile.OpenVirt).overrun = false ∧
    (((runOps [VOp.write (List.replicate 90 1) 1 90, VOp.fill 0xff 20, VOp.write [9] 1 0,
      VOp.write [7, 8] 1 1] VFile.OpenVirt).SetPosition 0).2.Read 1
        (runOps [VOp.write (List.replicate 90 1) 1 90, VOp.fill 0xff 20, VOp.write [9] 1 0,
          VOp.write [7, 8] 1 1] VFile.OpenVirt).m_size).2.1 =
      written [VOp.write (List.replicate 90 1) 1 90, VOp.fill 0xff 20, VOp.write [9] 1 0,
        VOp.write [7, 8] 1 1] :=
  ⟨by decide,
    (C30_write_read_back [VOp.write (List.replicate 90 1) 1 90, VOp.fill 0xff 20,
      VOp.write [9] 1 0, VOp.write [7, 8] 1 1] (by
        intro op hop
        simp only [List.mem_cons, List.mem_singleton, List.not_mem_nil, or_false] at hop
        rcases hop with rfl | rfl | rfl | rfl <;> simp [VOp.Fits]) (by decide)).1,
    (C30_write_read_back [VOp.write (List.replicate 90 1) 1 90, VOp.fill 0xff 20,
      VOp.write [9] 1 0, VOp.write [7, 8] 1 1] (by
        intro op hop
        simp only [List.mem_cons, List.mem_singleton, List.not_mem_nil, or_false] at hop
        rcases hop with rfl | rfl | rfl | rfl <;> simp [VOp.Fits]) (by decide)).2.2.2.2.2⟩

/-! ## Lemmas: `FlashWrite` on a sparse combined file -/

theorem blockBytes_eq (vf : VFile) : blockBytes vf = blockAt vf.data vf.m_pos := rfl

theorem blockAt_min (data : List Nat) (p : Nat) :
    blockAt data (min p data.length) = blockAt data p := by
  by_cases h : p ≤ data.length
  · rw [Nat.min_eq_left h]
  · have h1 : data.length ≤ p := by omega
    rw [Nat.min_eq_right h1]
    unfold blockAt
    rw [List.drop_of_length_le h1, List.drop_of_length_le (Nat.le_refl _)]

theorem blockAt_shift (pre data : List Nat) (q : Nat) :
    blockAt (pre ++ data) (pre.length + q) = blockAt data q := by
  unfold blockAt
  rw [List.drop_append]

theorem regionBlocks_shift (pre data : List Nat) (addr fv fm : Nat) : ∀ (n k q : Nat),
    regionBlocks (pre ++ data) addr fv fm n k (pre.length + q) =
      regionBlocks data addr fv fm n k q
  | 0, _, _ => rfl
  | n + 1, k, q => by
    rw [regionBlocks, regionBlocks, blockAt_shift, Nat.add_assoc,
      regionBlocks_shift pre data addr fv fm n (k + 1) (q + 1024)]

theorem Read_block_pos (vf : VFile) (ho : vf.isOpen = true) (hp : vf.m_pos ≤ vf.m_size) :
    (vf.Read 1 ESP_FLASH_BLK_SIZE).2.2.m_pos = min (vf.m_pos + 1024) vf.m_size := by
  unfold VFile.Read
  simp only [ESP_FLASH_BLK_SIZE, Nat.one_mul, ho, Bool.not_true, Nat.div_one, Nat.mul_one]
  norm_num
  by_cases h1 : vf.m_size ≤ vf.m_pos + 1024
  · rw [if_pos h1, Nat.min_eq_right h1]
    by_cases h2 : vf.m_size - vf.m_pos = 0
    · rw [if_pos h2]
      show vf.m_pos = _
      omega
    · rw [if_neg h2]
      show vf.m_pos + (vf.m_size - vf.m_pos) = _
      omega
  · rw [if_neg h1, Nat.min_eq_left (by omega)]

theorem flashBlock_file (fuel addr fv fm blkIdx : Nat) (vf : VFile) (esp : ESP)
    (r : Int × VFile × ESP) (h : ESP.flashBlock fuel addr fv fm blkIdx vf esp = some r) :
    r.2.1 = (vf.Read 1 ESP_FLASH_BLK_SIZE).2.2 := by
  unfold ESP.flashBlock at h
  simp only [] at h
  split_ifs at h
  · cases h; rfl
  · rw [Option.map_eq_some'] at h
    obtain ⟨s, _, rfl⟩ := h
    rfl

theorem flashWriteLoop_sent (fuel addr fv fm : Nat) (hf : 13 ≤ fuel) : ∀ (n blkIdx p : Nat)
    (vf : VFile) (esp : ESP) (rs rest : List (List Nat)),
    vf.isOpen = true → vf.m_pos = min p vf.data.length → (∀ b ∈ vf.data, b < 256) →
    QInv esp.m_serial.m_queue → esp.m_serial.port.script = rs ++ rest → rs.length = n →
    (∀ r ∈ rs, Accepts ESP_FLASH_DATA r) → esp.inTime DEF_TIMEOUT → blkIdx + n < 2 ^ 32 →
    ∃ vf1 esp1,
      ESP.flashWriteLoop fuel addr fv fm n blkIdx vf esp = some (0, vf1, esp1) ∧
      vf1.isOpen = true ∧ vf1.data = vf.data ∧
      QInv esp1.m_serial.m_queue ∧ esp1.m_serial.port.script = rest ∧
      esp1.ticks = esp.ticks ∧ esp1.diagCode = esp.diagCode ∧
      esp1.m_serial.port.tx = esp.m_serial.port.tx ++
        dataFrames blkIdx (regionBlocks vf.data addr fv fm n blkIdx p)
  | 0, blkIdx, p, vf, esp, rs, rest, ho, _, _, hq, hs, hl, _, _, _ => by
    have : rs = [] := List.eq_nil_of_length_eq_zero hl
    subst this
    exact ⟨vf, esp, rfl, ho, rfl, hq, by simpa using hs, rfl, rfl, by simp [regionBlocks, dataFrames]⟩
  | n + 1, blkIdx, p, vf, esp, rs, rest, ho, hp, hby, hq, hs, hl, ha, ht, hi => by
    obtain ⟨r0, rs1, rfl⟩ : ∃ r0 rs1, rs = r0 :: rs1 := by
      cases rs with
      | nil => simp at hl
      | cons a l => exact ⟨a, l, rfl⟩
    have hpm : vf.m_pos ≤ vf.m_size := by rw [hp, VFile.m_size]; exact Nat.min_le_right _ _
    obtain ⟨vfa, e, c1, _, c3, _, c5, c6, c7, c8, c9, c10⟩ := flashBlock_sent fuel addr fv fm
      blkIdx hf vf esp r0 (rs1 ++ rest) ho hpm hby hq (by simpa using hs)
      (ha r0 (List.mem_cons_self _ _)) ht
    have hfile := flashBlock_file fuel addr fv fm blkIdx vf esp _ c1
    have hpa : vfa.m_pos = min (p + 1024) vfa.data.length := by
      show vfa.m_pos = _
      rw [c5]
      have := Read_block_pos vf ho hpm
      rw [← hfile] at this
      show vfa.m_pos = _
      rw [this, hp, VFile.m_size]
      omega
    have hsucc : (blkIdx + 1) % 2 ^ 32 = blkIdx + 1 := Nat.mod_eq_of_lt (by omega)
    obtain ⟨vf1, esp1, d1, d2, d3, d4, d5, d6, d7, d8⟩ := flashWriteLoop_sent fuel addr fv fm hf n
      (blkIdx + 1) (p + 1024) vfa e rs1 rest c3 hpa (by rw [c5]; exact hby)
      c6 c7 (by simpa using hl) (fun r hr => ha r (List.mem_cons_of_mem _ hr))
      (inTime_congr DEF_TIMEOUT c8 c9 ht) (by omega)
    refine ⟨vf1, esp1, ?_, d2, d3.trans c5, d4, d5, d6.trans c8, d7.trans c9, ?_⟩
    · rw [ESP.flashWriteLoop, c1]
      simp only [ne_eq, not_true_eq_false, if_false, hsucc]
      exact d1
    · rw [d8, c10, c5, regionBlocks, dataFrames, List.append_assoc, blockBytes_eq, hp,
        blockAt_min]

/-- What `flashWrite` does for a region of `0 < size ≤ 2^32 - 1024` bytes at `ofst` when
every command is accepted: it returns 0, leaves the file open with its content, and has put
on the wire the `FLASH_BEGIN` frame and the `FLASH_DATA` frames of the blocks the file offers
from `ofst` on. -/
theorem flashWrite_full (esp : ESP) (fuel : Nat) (vf : VFile)
    (ofst size addr fv fm : Nat) (r0 : List Nat) (rs rest : List (List Nat))
    (hL : 0 < size) (hL2 : size ≤ 2 ^ 32 - 1024)
    (ho : vf.isOpen = true) (hofs : ofst ≤ vf.m_size) (hby : ∀ b ∈ vf.data, b < 256)
    (hq : QInv esp.m_serial.m_queue) (hs : esp.m_serial.port.script = r0 :: (rs ++ rest))
    (ha0 : Accepts ESP_FLASH_BEGIN r0) (hn : rs.length = (size + 1023) / 1024)
    (ha : ∀ r ∈ rs, Accepts ESP_FLASH_DATA r)
    (ht1 : esp.inTime 10000) (ht2 : esp.inTime DEF_TIMEOUT) (hf : 13 ≤ fuel) :
    ∃ vf1 e,
      esp.flashWrite fuel vf ofst size addr fv fm = some (0, vf1, e) ∧
      vf1.isOpen = true ∧ vf1.data = vf.data ∧
      QInv e.m_serial.m_queue ∧ e.m_serial.port.script = rest ∧
      e.ticks = esp.ticks ∧ e.diagCode = esp.diagCode ∧
      e.m_serial.port.tx =
        esp.m_serial.port.tx ++ (beginFrame ((size + 1023) / 1024) addr ++
          dataFrames 0 (regionBlocks vf.data addr fv fm ((size + 1023) / 1024) 0 ofst)) := by
  have hcnt : (size + ESP_FLASH_BLK_SIZE - 1) % 2 ^ 32 / ESP_FLASH_BLK_SIZE =
      (size + 1023) / 1024 := by
    unfold ESP_FLASH_BLK_SIZE
    omega
  have hmul : ((size + 1023) / 1024 * ESP_FLASH_BLK_SIZE) % 2 ^ 32 =
      (size + 1023) / 1024 * ESP_FLASH_BLK_SIZE := by
    unfold ESP_FLASH_BLK_SIZE
    omega
  obtain ⟨e, b1, b2, b3, b4, b5, b6⟩ := flashBegin_ok esp fuel addr ((size + 1023) / 1024) r0
    (rs ++ rest) (by omega) (by omega) hq hs ha0 ht1 hf
  have hpos : (vf.SetPosition ofst) = (0, { vf with m_pos := ofst }) := by
    unfold VFile.SetPosition
    rw [if_pos ho, if_neg (by omega)]
  obtain ⟨vf1, esp1, d1, d2, d3, d4, d5, d6, d7, d8⟩ := flashWriteLoop_sent fuel addr fv fm hf
    ((size + 1023) / 1024) 0 ofst { vf with m_pos := ofst } e rs rest ho
    (by show ofst = min ofst vf.data.length; rw [VFile.m_size] at hofs; omega) hby b2 b3 hn ha
    (inTime_congr DEF_TIMEOUT b4 b5 ht2) (by omega)
  refine ⟨vf1, esp1, ?_, d2, d3, d4, d5, d6.trans b4, d7.trans b5, ?_⟩
  · unfold ESP.flashWrite
    simp only [hcnt, hmul, hpos, b1]
    simpa using d1
  · rw [d8, b6, List.append_assoc]

theorem okReply_begin : Accepts ESP_FLASH_BEGIN (okReply ESP_FLASH_BEGIN) :=
  ⟨0x78, 0x56, 0x34, 0x12, [], by decide⟩

theorem okReply_data : Accepts ESP_FLASH_DATA (okReply ESP_FLASH_DATA) :=
  ⟨0x78, 0x56, 0x34, 0x12, [], by decide⟩

theorem roundUp4_pos (n : Nat) (h : n ≠ 0) : 0 < roundUp4 n := by
  unfold roundUp4; omega

/-- The entry loop of `FlashWrite` over the records of the images `rest`, which lie in the
file from its position on, when every command is accepted: it returns 0 and has put the
frames of every image on the wire, in order. -/
theorem flashWriteEntries_walk (fuel fv fm : Nat) (hf : 13 ≤ fuel) :
    ∀ (rest : List (Nat × VFile)) (pre : List Nat) (vf : VFile) (stat : Int) (esp : ESP)
      (tail : List (List Nat)),
    vf.isOpen = true →
    vf.data = pre ++ (rest.flatMap fun p => sparseRecord p.1 p.2.data) →
    vf.m_pos = pre.length → vf.data.length ≤ 2 ^ 32 - 1024 → (∀ b ∈ vf.data, b < 256) →
    (∀ p ∈ rest, p.1 < 2 ^ 32 ∧ p.2.m_size ≠ 0) →
    QInv esp.m_serial.m_queue → esp.m_serial.port.script = acceptAll rest ++ tail →
    esp.inTime 10000 → esp.inTime DEF_TIMEOUT →
    ∃ vf1 e1, ESP.flashWriteEntries fuel fv fm rest.length stat vf esp =
        some (if rest = [] then stat else 0, vf1, e1) ∧
      e1.m_serial.port.script = tail ∧
      e1.m_serial.port.tx = esp.m_serial.port.tx ++ sparseFrames fv fm rest
  | [], pre, vf, stat, esp, tail, _, _, _, _, _, _, _, hs, _, _ =>
    ⟨vf, esp, rfl, by simpa [acceptAll] using hs, by simp [sparseFrames]⟩
  | (a, img) :: rest, pre, vf, stat, esp, tail, ho, hd, hp, hlen, hby, hg, hq, hs, ht1, ht2 => by
    have ha : a < 2 ^ 32 := (hg _ (List.mem_cons_self _ _)).1
    have hne : img.m_size ≠ 0 := (hg _ (List.mem_cons_self _ _)).2
    have hd0 := hd
    rw [List.flatMap_cons, sparseRecord_split, List.append_assoc] at hd
    have hl8 : (le32 a ++ le32 (roundUp4 img.m_size)).length = 8 := rfl
    have hdl : vf.data.length = pre.length + 8 + roundUp4 img.m_size +
        (rest.flatMap fun p => sparseRecord p.1 p.2.data).length := by
      rw [hd]
      simp only [List.length_append, hl8, imagePadded_length]
      omega
    have hr4 : roundUp4 img.m_size < 2 ^ 32 := by omega
    have hR := Read_at vf pre (le32 a ++ le32 (roundUp4 img.m_size)) _ ho hd hp (by simp [le32])
    rw [hl8] at hR
    obtain ⟨w1, w2⟩ := record_words a (roundUp4 img.m_size) ha hr4
    have hsc : esp.m_serial.port.script = okReply ESP_FLASH_BEGIN ::
        (List.replicate ((roundUp4 img.m_size + 1023) / 1024) (okReply ESP_FLASH_DATA) ++
          (acceptAll rest ++ tail)) := by
      rw [hs]
      simp only [acceptAll, List.flatMap_cons, List.cons_append, List.append_assoc]
    obtain ⟨vf1, e, f1, f2, f3, f4, f5, f6, f7, f8⟩ := flashWrite_full esp fuel
      { vf with m_pos := pre.length + 8 } (pre.length + 8) (roundUp4 img.m_size) a fv fm
      (okReply ESP_FLASH_BEGIN)
      (List.replicate ((roundUp4 img.m_size + 1023) / 1024) (okReply ESP_FLASH_DATA))
      (acceptAll rest ++ tail) (roundUp4_pos _ hne) (by omega) ho
      (by show pre.length + 8 ≤ vf.data.length; omega) hby hq hsc okReply_begin
      (List.length_replicate _ _)
      (fun r hr => by rw [(List.mem_replicate.1 hr).2]; exact okReply_data) ht1 ht2 hf
    have f3a : vf1.data = vf.data := f3
    have hS := SetPosition_ok vf1 (pre.length + 8 + roundUp4 img.m_size) f2
      (by rw [f3a]; omega)
    have step := flashWriteEntries_step fuel fv fm rest.length stat vf
      { vf with m_pos := pre.length + 8 } vf1
      { vf1 with m_pos := pre.length + 8 + roundUp4 img.m_size } esp e
      (le32 a ++ le32 (roundUp4 img.m_size)) (pre.length + 8) (roundUp4 img.m_size) a hR
      (Nat.mod_eq_of_lt (show pre.length + 8 < 2 ^ 32 by omega)) w2 w1 f1
      (by rw [Nat.mod_eq_of_lt (show pre.length + 8 + roundUp4 img.m_size < 2 ^ 32 by omega)]
          exact hS)
    have hd2 : vf.data = (pre ++ sparseRecord a img.data) ++
        (rest.flatMap fun p => sparseRecord p.1 p.2.data) := by
      rw [hd, sparseRecord_split]
      simp only [List.append_assoc]
    obtain ⟨vf2, e2, g1, g2, g3⟩ := flashWriteEntries_walk fuel fv fm hf rest
      (pre ++ sparseRecord a img.data)
      { vf1 with m_pos := pre.length + 8 + roundUp4 img.m_size } 0 e tail f2
      (by show vf1.data = _; rw [f3a]; exact hd2)
      (by
        show pre.length + 8 + roundUp4 img.m_size = _
        rw [List.length_append, sparseRecord_split, List.length_append, hl8,
          imagePadded_length]
        omega)
      (by show vf1.data.length ≤ _; rw [f3a]; exact hlen)
      (by show ∀ b ∈ vf1.data, b < 256; rw [f3a]; exact hby)
      (fun p hp => hg p (List.mem_cons_of_mem _ hp)) f4 f5
      (inTime_congr 10000 f6 f7 ht1) (inTime_congr DEF_TIMEOUT f6 f7 ht2)
    have hblocks : regionBlocks vf.data a fv fm ((roundUp4 img.m_size + 1023) / 1024) 0
        (pre.length + 8) =
        regionBlocks (imagePadded img ++ rest.flatMap fun p => sparseRecord p.1 p.2.data)
          a fv fm ((roundUp4 img.m_size + 1023) / 1024) 0 0 := by
      have e1 : vf.data = (pre ++ (le32 a ++ le32 (roundUp4 img.m_size))) ++ (imagePadded img ++
          (rest.flatMap fun p => sparseRecord p.1 p.2.data)) := by
        rw [hd]; simp only [List.append_assoc]
      have e2 : pre.length + 8 = (pre ++ (le32 a ++ le32 (roundUp4 img.m_size))).length + 0 := by
        rw [List.length_append, hl8]
      rw [e1, e2, regionBlocks_shift]
    refine ⟨vf2, e2, ?_, g2, ?_⟩
    · rw [List.length_cons, step, g1, if_neg (List.cons_ne_nil _ _)]
      split_ifs <;> rfl
    · rw [g3, f8]
      show _ = _ ++ sparseFrames fv fm ((a, img) :: rest)
      rw [sparseFrames]
      have f3b : ({ vf with m_pos := pre.length + 8 } : VFile).data = vf.data := rfl
      rw [f3b, hblocks]
      simp only [List.append_assoc]

theorem le32_bytes (v : Nat) : ∀ b ∈ le32 v, b < 256 := by
  intro b hb
  simp only [le32, List.mem_cons, List.mem_singleton, List.not_mem_nil, or_false] at hb
  rcases hb with rfl | rfl | rfl | rfl <;> exact Nat.mod_lt _ (by decide)

theorem sparseContainer_bytes (imgs : List (Nat × VFile)) (hk : imgs.length ≤ 255)
    (hby : ∀ p ∈ imgs, ∀ b ∈ p.2.data, b < 256) : ∀ b ∈ sparseContainer imgs, b < 256 := by
  intro b hb
  rw [sparseContainer, List.mem_append] at hb
  rcases hb with hb | hb
  · simp only [List.mem_cons, List.mem_singleton, List.not_mem_nil, or_false] at hb
    rcases hb with rfl | rfl | rfl | rfl <;> omega
  · obtain ⟨p, hp, hb⟩ := List.mem_flatMap.1 hb
    simp only [sparseRecord, List.mem_append] at hb
    rcases hb with ((hb | hb) | hb) | hb
    · exact le32_bytes _ b hb
    · exact le32_bytes _ b hb
    · exact hby p hp b hb
    · rw [(List.mem_replicate.1 hb).2]; decide

theorem FlashWrite_container (esp : ESP) (fuel : Nat) (c : VFile) (imgs : List (Nat × VFile))
    (addr fv fm : Nat) (ho : c.isOpen = true) (hd : c.data = sparseContainer imgs) :
    esp.FlashWrite fuel c addr fv fm =
      ESP.flashWriteEntries fuel fv fm imgs.length (-1) { c with m_pos := 4 } esp := by
  have hd1 : c.data = [] ++ ([0x65, 0x73, 0x70, imgs.length] ++
      (imgs.flatMap fun p => sparseRecord p.1 p.2.data)) := hd
  have hS := SetPosition_ok c 0 ho (Nat.zero_le _)
  have hR : ({ c with m_pos := 0 } : VFile).Read 1 4 =
      (((4 : Nat) : Int), [0x65, 0x73, 0x70, imgs.length], { c with m_pos := 4 }) :=
    Read_at { c with m_pos := 0 } [] [0x65, 0x73, 0x70, imgs.length] _ ho hd1 rfl (by simp)
  have hsz : c.m_size ≠ 0 := by rw [VFile.m_size, hd]; simp [sparseContainer]
  have hopen : (!c.IsOpen) = false := by rw [VFile.IsOpen, ho]; rfl
  have ht : ([0x65, 0x73, 0x70, imgs.length] : List Nat).take 3 = COMPOSITE_SIG := rfl
  unfold ESP.FlashWrite
  simp only [hopen, Bool.false_eq_true, if_false, hsz, hS, hR, ht, Nat.cast_ofNat, ne_eq,
    not_true_eq_false]
  rfl

theorem imagePadded_first (img : VFile) (h : img.m_size ≠ 0) :
    ((imagePadded img).take 4).getD 0 0 = img.data.getD 0 0 := by
  unfold imagePadded
  cases hdata : img.data with
  | nil => rw [VFile.m_size, hdata] at h; exact absurd rfl h
  | cons x xs => rfl

/-- The entry loop of `ImageInfo` over the records of the images `rest`, none of which
begins with the image magic 0xE9: it returns 0 and reports every image with its address and
its padded size. -/
theorem infoEntries_plain : ∀ (rest : List (Nat × VFile)) (pre : List Nat) (vf : VFile)
    (acc : List CombinedEntryReport), vf.isOpen = true →
    vf.data = pre ++ (rest.flatMap fun p => sparseRecord p.1 p.2.data) →
    vf.m_pos = pre.length → vf.data.length < 2 ^ 32 →
    (∀ p ∈ rest, p.1 < 2 ^ 32 ∧ p.2.m_size < 2 ^ 32 - 3 ∧ p.2.m_size ≠ 0 ∧
      p.2.data.getD 0 0 ≠ ESP_IMAGE_MAGIC) →
    infoEntries rest.length vf acc =
      (0, acc ++ rest.map fun p => ⟨p.1, roundUp4 p.2.m_size, none⟩)
  | [], pre, vf, acc, _, _, _, _, _ => by
    simp [infoEntries]
  | (a, img) :: rest, pre, vf, acc, ho, hd, hp, hlen, hg => by
    have ha : a < 2 ^ 32 := (hg _ (List.mem_cons_self _ _)).1
    have hs : img.m_size < 2 ^ 32 - 3 := (hg _ (List.mem_cons_self _ _)).2.1
    have hne : img.m_size ≠ 0 := (hg _ (List.mem_cons_self _ _)).2.2.1
    have hmag : img.data.getD 0 0 ≠ ESP_IMAGE_MAGIC := (hg _ (List.mem_cons_self _ _)).2.2.2
    have hr4 := roundUp4_lt _ hs
    rw [List.flatMap_cons, sparseRecord_split, List.append_assoc] at hd
    have hR := Read_at vf pre (le32 a ++ le32 (roundUp4 img.m_size)) _ ho hd hp (by simp [le32])
    have hl8 : (le32 a ++ le32 (roundUp4 img.m_size)).length = 8 := rfl
    rw [hl8] at hR
    obtain ⟨w1, w2⟩ := record_words a (roundUp4 img.m_size) ha hr4
    have hdl : vf.data.length = pre.length + 8 + roundUp4 img.m_size +
        (rest.flatMap fun p => sparseRecord p.1 p.2.data).length := by
      rw [hd]
      simp only [List.length_append, hl8, imagePadded_length]
      omega
    have hge : 4 ≤ roundUp4 img.m_size := by unfold roundUp4; omega
    have hml : ((imagePadded img).take 4).length = 4 := by
      rw [List.length_take, imagePadded_length]; omega
    have hd3 : vf.data = (pre ++ (le32 a ++ le32 (roundUp4 img.m_size))) ++
        ((imagePadded img).take 4 ++ ((imagePadded img).drop 4 ++
          (rest.flatMap fun p => sparseRecord p.1 p.2.data))) := by
      rw [hd, ← List.append_assoc ((imagePadded img).take 4), List.take_append_drop]
      simp only [List.append_assoc]
    have hB := Read_at { vf with m_pos := pre.length + 8 }
      (pre ++ (le32 a ++ le32 (roundUp4 img.m_size))) ((imagePadded img).take 4) _ ho hd3
      (by rw [List.length_append, hl8]) (by
        intro h0
        rw [h0] at hml
        exact absurd hml (by decide))
    rw [hml, List.length_append, hl8] at hB
    have hS := SetPosition_ok { vf with m_pos := pre.length + 8 + 4 }
      (pre.length + 8 + roundUp4 img.m_size) ho (by show _ ≤ vf.data.length; omega)
    have hd2 : vf.data = (pre ++ sparseRecord a img.data) ++
        (rest.flatMap fun p => sparseRecord p.1 p.2.data) := by
      rw [hd, sparseRecord_split]
      simp only [List.append_assoc]
    have hm2 : ¬ ((imagePadded img).take 4).getD 0 0 = ESP_IMAGE_MAGIC := by
      rw [imagePadded_first img hne]; exact hmag
    have step : infoEntries (rest.length + 1) vf acc =
        infoEntries rest.length { vf with m_pos := pre.length + 8 + roundUp4 img.m_size }
          (acc ++ [⟨a, roundUp4 img.m_size, none⟩]) := by
      rw [infoEntries, hR]
      simp only [Nat.cast_ofNat, ne_eq, not_true_eq_false, if_false, w1, w2,
        Nat.mod_eq_of_lt (show pre.length + 8 < 2 ^ 32 by omega),
        Nat.mod_eq_of_lt (show pre.length + 8 + roundUp4 img.m_size < 2 ^ 32 by omega), hB, hS,
        lt_self_iff_false, hm2]
    rw [List.length_cons, step]
    have ih := infoEntries_plain rest (pre ++ sparseRecord a img.data)
      { vf with m_pos := pre.length + 8 + roundUp4 img.m_size }
      (acc ++ [⟨a, roundUp4 img.m_size, none⟩]) ho hd2 (by
        show pre.length + 8 + roundUp4 img.m_size = _
        rw [List.length_append, sparseRecord_split, List.length_append, hl8,
          imagePadded_length]
        omega) hlen (fun p hp => hg p (List.mem_cons_of_mem _ hp))
    rw [ih, List.map_cons, List.append_assoc]
    rfl

/-- C14, as stated, fails, in two ways.  The addresses 0 and 4 are strictly increasing, but
the first image has 8 bytes, so the second `AddImage` call returns `ESP_ERROR_FILE_READ`;
the container holds one image and `ImageInfo` reports one.  And for the images E9 01 02 03
at 0 and 09 0A 0B 0C at 0x1000 both calls return 0, but `ImageInfo` takes the first entry,
which begins with 0xE9, for a standard image, cannot read the segment its header announces,
and returns `ESP_ERROR_FILE_READ` having reported no image. -/
theorem C14_round_trip_counterexample :
    ((0 : Nat) < 4 ∧
      ESP.addImages false [(0, imageFile [1, 2, 3, 4, 5, 6, 7, 8]), (4, imageFile [9, 10, 11, 12])]
        0 VFile.OpenVirt =
        (ESP_ERROR_FILE_READ, 8,
          { VFile.OpenVirt with data := [0x65, 0x73, 0x70, 1, 0, 0, 0, 0, 8, 0, 0, 0, 1, 2, 3, 4, 5, 6, 7, 8], m_pos := 20 }) ∧
      ImageInfo { VFile.OpenVirt with data := [0x65, 0x73, 0x70, 1, 0, 0, 0, 0, 8, 0, 0, 0, 1, 2, 3, 4, 5, 6, 7, 8], m_pos := 20 } =
        (0, some (ImageReport.combined 1 [⟨0, 8, none⟩]))) ∧
    ((0 : Nat) < 0x1000 ∧
      (ESP.addImages false [(0, imageFile [0xe9, 1, 2, 3]), (0x1000, imageFile [9, 10, 11, 12])]
        0 VFile.OpenVirt).1 = 0 ∧
      ImageInfo (ESP.addImages false [(0, imageFile [0xe9, 1, 2, 3]),
        (0x1000, imageFile [9, 10, 11, 12])] 0 VFile.OpenVirt).2.2 =
        (ESP_ERROR_FILE_READ, none)) := by
  decide

/-- C14, amended: let every sparse `AddImage` call for the images `I1..In`, `1 ≤ n ≤ 255`, in
order on an empty container return 0, and the container be shorter than 4 GiB.  Then
`FlashWrite`, given the container and a device that accepts every command, returns 0 and has
sent, for each image in order, the `FLASH_BEGIN` command for its address and the blocks of
its padded size, and the `FLASH_DATA` blocks that carry its bytes zero-padded (followed by
what follows them in the file); the padded sizes are multiples of 4; `ImageInfo` returns 0
and reports `n` images with these addresses and padded sizes in order when no image begins
with 0xE9, and reports them so whenever it returns 0. -/
theorem C14_sparse_round_trip (imgs : List (Nat × VFile)) (m : Nat) (out : VFile)
    (hout : out.data = [] ∧ out.m_pos = 0)
    (hk : 1 ≤ imgs.length ∧ imgs.length ≤ 255)
    (himg : ∀ p ∈ imgs, GoodImage p.2 ∧ p.1 < 2 ^ 32)
    (hok : (ESP.addImages false imgs m out).1 = 0)
    (hlen : (ESP.addImages false imgs m out).2.2.data.length < 2 ^ 32) :
    (∀ (esp : ESP) (fuel addr fv fm : Nat) (tail : List (List Nat)),
      (ESP.addImages false imgs m out).2.2.data.length ≤ 2 ^ 32 - 1024 →
      (∀ p ∈ imgs, ∀ b ∈ p.2.data, b < 256) →
      QInv esp.m_serial.m_queue → esp.m_serial.port.script = acceptAll imgs ++ tail →
      esp.inTime 10000 → esp.inTime DEF_TIMEOUT → 13 ≤ fuel →
      ∃ vf1 e1,
        esp.FlashWrite fuel (ESP.addImages false imgs m out).2.2 addr fv fm = some (0, vf1, e1) ∧
        e1.m_serial.port.tx = esp.m_serial.port.tx ++ sparseFrames fv fm imgs) ∧
    (∀ p ∈ imgs, roundUp4 p.2.m_size % 4 = 0) ∧
    ((∀ p ∈ imgs, p.2.data.getD 0 0 ≠ ESP_IMAGE_MAGIC) →
      ImageInfo (ESP.addImages false imgs m out).2.2 =
        (0, some (ImageReport.combined imgs.length
          (imgs.map fun p => ⟨p.1, roundUp4 p.2.m_size, none⟩)))) ∧
    ((ImageInfo (ESP.addImages false imgs m out).2.2).1 = 0 →
      ∃ entries, (ImageInfo (ESP.addImages false imgs m out).2.2).2 =
          some (ImageReport.combined imgs.length entries) ∧
        entries.map (fun e => (e.addr, e.len)) = imgs.map fun p => (p.1, roundUp4 p.2.m_size)) := by
  obtain ⟨hd, ho⟩ := addImages_container imgs m out hout hk (fun p hp => (himg p hp).1) hok
  have hne := addImages_nonempty false imgs m out hok
  have hne0 : imgs ≠ [] := by
    intro h0
    rw [h0] at hk
    exact absurd hk.1 (by decide)
  refine ⟨?_, fun p _ => roundUp4_mod _, ?_, ?_⟩
  · intro esp fuel addr fv fm tail hl2 hby hq hs ht1 ht2 hf
    have hcb : ∀ b ∈ (ESP.addImages false imgs m out).2.2.data, b < 256 := by
      rw [hd]; exact sparseContainer_bytes imgs hk.2 hby
    obtain ⟨vf1, e1, g1, _, g3⟩ := flashWriteEntries_walk fuel fv fm hf imgs
      [0x65, 0x73, 0x70, imgs.length]
      { (ESP.addImages false imgs m out).2.2 with m_pos := 4 } (-1) esp tail ho hd rfl hl2 hcb
      (fun p hp => ⟨(himg p hp).2, hne p hp⟩) hq hs ht1 ht2
    rw [if_neg hne0] at g1
    exact ⟨vf1, e1, by rw [FlashWrite_container esp fuel _ imgs addr fv fm ho hd]; exact g1, g3⟩
  · intro hmag
    rw [container_info _ imgs ho hd]
    have hi := infoEntries_plain imgs [0x65, 0x73, 0x70, imgs.length]
      { (ESP.addImages false imgs m out).2.2 with m_pos := 4 } [] ho hd rfl hlen
      (fun p hp => ⟨(himg p hp).2, (himg p hp).1.2, hne p hp, hmag p hp⟩)
    rw [hi]
    rfl
  · rw [container_info _ imgs ho hd]
    intro h0
    have hi := infoEntries_walk imgs [0x65, 0x73, 0x70, imgs.length]
      { (ESP.addImages false imgs m out).2.2 with m_pos := 4 } [] ho hd rfl hlen
      (fun p hp => ⟨(himg p hp).2, (himg p hp).1.2, hne p hp⟩) h0
    refine ⟨_, ?_, hi⟩
    show (if _ then _ else _) = _
    rw [if_pos h0]

/-- Images at 0x00000, 0x10000 and 0x7E000: the calls succeed, the file begins with 'e',
's', 'p', 3, `ImageInfo` returns 0 and reports three images at those addresses, and
`FlashWrite` returns 0 having sent the frames of the three images to a device that accepts
every command. -/
theorem C14_sparse_round_trip_witness :
    ((([] : List Nat) = [] ∧ (0 : Nat) = 0) ∧
      (ESP.addImages false [(0x00000, imageFile [1, 2, 3, 4, 5]), (0x10000, imageFile [6, 7]),
        (0x7e000, imageFile [8, 9, 10, 11])] 0 VFile.OpenVirt).1 = 0 ∧
      (ESP.addImages false [(0x00000, imageFile [1, 2, 3, 4, 5]), (0x10000, imageFile [6, 7]),
        (0x7e000, imageFile [8, 9, 10, 11])] 0 VFile.OpenVirt).2.2.data.take 4 =
          [0x65, 0x73, 0x70, 3]) ∧
    ImageInfo (ESP.addImages false [(0x00000, imageFile [1, 2, 3, 4, 5]), (0x10000, imageFile [6, 7]),
      (0x7e000, imageFile [8, 9, 10, 11])] 0 VFile.OpenVirt).2.2 =
      (0, some (ImageReport.combined 3 [⟨0x00000, 8, none⟩, ⟨0x10000, 4, none⟩, ⟨0x7e000, 4, none⟩])) ∧
    ∃ vf1 e1,
      (demoEsp (acceptAll [(0x00000, imageFile [1, 2, 3, 4, 5]), (0x10000, imageFile [6, 7]),
        (0x7e000, imageFile [8, 9, 10, 11])])).FlashWrite 13
        (ESP.addImages false [(0x00000, imageFile [1, 2, 3, 4, 5]), (0x10000, imageFile [6, 7]),
          (0x7e000, imageFile [8, 9, 10, 11])] 0 VFile.OpenVirt).2.2 0 0 0 = some (0, vf1, e1) ∧
      e1.m_serial.port.tx =
        (demoEsp (acceptAll [(0x00000, imageFile [1, 2, 3, 4, 5]), (0x10000, imageFile [6, 7]),
          (0x7e000, imageFile [8, 9, 10, 11])])).m_serial.port.tx ++
        sparseFrames 0 0 [(0x00000, imageFile [1, 2, 3, 4, 5]), (0x10000, imageFile [6, 7]),
          (0x7e000, imageFile [8, 9, 10, 11])] :=
  ⟨⟨⟨rfl, rfl⟩, by decide, by decide⟩,
    (C14_sparse_round_trip [(0x00000, imageFile [1, 2, 3, 4, 5]), (0x10000, imageFile [6, 7]),
      (0x7e000, imageFile [8, 9, 10, 11])] 0 VFile.OpenVirt ⟨rfl, rfl⟩ (by decide) (by
        intro p hp
        simp only [List.mem_cons, List.mem_singleton, List.not_mem_nil, or_false] at hp
        rcases hp with rfl | rfl | rfl <;> exact ⟨⟨rfl, by decide⟩, by decide⟩)
      (by decide) (by decide)).2.2.1 (by
        intro p hp
        simp only [List.mem_cons, List.mem_singleton, List.not_mem_nil, or_false] at hp
        rcases hp with rfl | rfl | rfl <;> decide),
    (C14_sparse_round_trip [(0x00000, imageFile [1, 2, 3, 4, 5]), (0x10000, imageFile [6, 7]),
      (0x7e000, imageFile [8, 9, 10, 11])] 0 VFile.OpenVirt ⟨rfl, rfl⟩ (by decide) (by
        intro p hp
        simp only [List.mem_cons, List.mem_singleton, List.not_mem_nil, or_false] at hp
        rcases hp with rfl | rfl | rfl <;> exact ⟨⟨rfl, by decide⟩, by decide⟩)
      (by decide) (by decide)).1
      (demoEsp (acceptAll [(0x00000, imageFile [1, 2, 3, 4, 5]), (0x10000, imageFile [6, 7]),
        (0x7e000, imageFile [8, 9, 10, 11])])) 13 0 0 0 [] (by decide) (by
        intro p hp
        simp only [List.mem_cons, List.mem_singleton, List.not_mem_nil, or_false] at hp
        rcases hp with rfl | rfl | rfl <;> decide)
      ⟨rfl, by decide, rfl⟩ (List.append_nil _).symm
      (fun _ _ _ => Nat.zero_le _) (fun _ _ _ => Nat.zero_le _) (by decide)⟩

/-! ## Lemmas: the regions of `FlashWrite` -/

theorem Read_file (vf : VFile) (size count : Nat) :
    ∃ p, (vf.Read size count).2.2 = { vf with m_pos := p } := by
  unfold VFile.Read
  simp only []
  split_ifs
  all_goals first | exact ⟨vf.m_pos, rfl⟩ | exact ⟨_, rfl⟩

theorem SetPosition_file (vf : VFile) (pos : Nat) :
    ∃ p, (vf.SetPosition pos).2 = { vf with m_pos := p } := by
  unfold VFile.SetPosition
  split_ifs
  all_goals first | exact ⟨vf.m_pos, rfl⟩ | exact ⟨_, rfl⟩

theorem flashWriteLoop_file (fuel addr fv fm : Nat) : ∀ (n blkIdx : Nat) (vf : VFile)
    (esp : ESP) (r : Int × VFile × ESP),
    ESP.flashWriteLoop fuel addr fv fm n blkIdx vf esp = some r →
    ∃ p, r.2.1 = { vf with m_pos := p }
  | 0, _, vf, _, r, h => by
    rw [ESP.flashWriteLoop] at h
    cases h
    exact ⟨vf.m_pos, rfl⟩
  | n + 1, blkIdx, vf, esp, r, h => by
    rw [ESP.flashWriteLoop] at h
    cases hb : ESP.flashBlock fuel addr fv fm blkIdx vf esp with
    | none => rw [hb] at h; cases h
    | some s =>
      rw [hb] at h
      have hs := flashBlock_file fuel addr fv fm blkIdx vf esp s hb
      obtain ⟨p, hp⟩ := Read_file vf 1 ESP_FLASH_BLK_SIZE
      rw [hp] at hs
      simp only [] at h
      split_ifs at h
      · cases h
        exact ⟨p, hs⟩
      · obtain ⟨p2, hp2⟩ := flashWriteLoop_file fuel addr fv fm n _ _ _ r h
        rw [hs] at hp2
        exact ⟨p2, hp2⟩

theorem flashWrite_file (esp : ESP) (fuel : Nat) (vf : VFile) (ofst size addr fv fm : Nat)
    (r : Int × VFile × ESP) (h : esp.flashWrite fuel vf ofst size addr fv fm = some r) :
    ∃ p, r.2.1 = { vf with m_pos := p } := by
  unfold ESP.flashWrite at h
  simp only [] at h
  obtain ⟨p, hp⟩ := SetPosition_file vf ofst
  split_ifs at h
  · cases h
    exact ⟨p, hp⟩
  · cases hb : esp.flashBegin fuel addr
        (((size + ESP_FLASH_BLK_SIZE - 1) % 2 ^ 32 / ESP_FLASH_BLK_SIZE * ESP_FLASH_BLK_SIZE) % 2 ^ 32) with
    | none => rw [hb] at h; cases h
    | some b =>
      rw [hb] at h
      simp only [] at h
      split_ifs at h
      · obtain ⟨p2, hp2⟩ := flashWriteLoop_file fuel addr fv fm _ _ _ _ r h
        rw [hp] at hp2
        exact ⟨p2, hp2⟩
      · cases h
        exact ⟨p, hp⟩

theorem SetPosition_pos (vf : VFile) (q pos : Nat) :
    (({ vf with m_pos := q } : VFile).SetPosition pos).1 = (vf.SetPosition pos).1 ∧
    ((vf.SetPosition pos).1 = 0 →
      (({ vf with m_pos := q } : VFile).SetPosition pos).2 = (vf.SetPosition pos).2) ∧
    ((vf.SetPosition pos).1 < 0 ∨ (vf.SetPosition pos).1 = 0) := by
  unfold VFile.SetPosition VFile.m_size
  simp only []
  split_ifs <;> simp

theorem flashWrite_pos (esp : ESP) (fuel : Nat) (vf : VFile) (q ofst size addr fv fm : Nat) :
    (esp.flashWrite fuel { vf with m_pos := q } ofst size addr fv fm).map
        (fun r => (r.1, r.2.2)) =
      (esp.flashWrite fuel vf ofst size addr fv fm).map (fun r => (r.1, r.2.2)) := by
  obtain ⟨h1, h2, h3⟩ := SetPosition_pos vf q ofst
  unfold ESP.flashWrite
  simp only [h1]
  rcases h3 with h3 | h3
  · rw [if_pos h3, if_pos h3]
    rfl
  · rw [if_neg (by omega), if_neg (by omega), h2 h3]

theorem flashWriteRegions_acc : ∀ (n : Nat) (vf : VFile) (stat : Int)
    (acc : List (Nat × Nat × Nat)),
    flashWriteRegions n vf stat acc =
      ((flashWriteRegions n vf stat []).1, acc ++ (flashWriteRegions n vf stat []).2)
  | 0, vf, stat, acc => by simp [flashWriteRegions]
  | n + 1, vf, stat, acc => by
    rw [flashWriteRegions, flashWriteRegions]
    simp only []
    split_ifs
    · simp
    · simp
    · rw [flashWriteRegions_acc n _ 0 (acc ++ _), flashWriteRegions_acc n _ 0 ([] ++ _)]
      simp

/-- The entry loop of `FlashWrite` makes the calls of `flashWrite` that `flashWriteRegions`
lists, in order, until one does not return 0, and returns the status of that call, or the
status `flashWriteRegions` gives when every call returns 0. -/
theorem flashWriteEntries_regions (fuel fv fm : Nat) : ∀ (n : Nat) (vf : VFile) (q : Nat)
    (stat : Int) (esp : ESP),
    (ESP.flashWriteEntries fuel fv fm n stat { vf with m_pos := q } esp).map
        (fun r => (r.1, r.2.2)) =
      flashWriteCalls fuel fv fm vf (flashWriteRegions n { vf with m_pos := q } stat []).2
        (flashWriteRegions n { vf with m_pos := q } stat []).1 esp
  | 0, vf, q, stat, esp => rfl
  | n + 1, vf, q, stat, esp => by
    obtain ⟨p1, hp1⟩ := Read_file { vf with m_pos := q } 1 8
    have hp1a : (({ vf with m_pos := q } : VFile).Read 1 8).2.2 = { vf with m_pos := p1 } := hp1
    rw [ESP.flashWriteEntries, flashWriteRegions]
    simp only [hp1a]
    by_cases h8 : (({ vf with m_pos := q } : VFile).Read 1 8).1 ≠ 8
    · rw [if_pos h8, if_pos h8]
      rfl
    · rw [if_neg h8, if_neg h8]
      generalize getData 4 (({ vf with m_pos := q } : VFile).Read 1 8).2.1 0 = addr
      generalize getData 4 (({ vf with m_pos := q } : VFile).Read 1 8).2.1 4 = len
      have hB := flashWrite_pos esp fuel vf p1 (p1 % 2 ^ 32) len addr fv fm
      obtain ⟨s1, s2, s3⟩ := SetPosition_pos vf p1 ((p1 % 2 ^ 32 + len) % 2 ^ 32)
      have hlist : (if (({ vf with m_pos := p1 } : VFile).SetPosition
              ((p1 % 2 ^ 32 + len) % 2 ^ 32)).1 < 0 then
            (ESP_ERROR_FILE_SEEK, [] ++ [(p1 % 2 ^ 32, len, addr)])
          else flashWriteRegions n (({ vf with m_pos := p1 } : VFile).SetPosition
              ((p1 % 2 ^ 32 + len) % 2 ^ 32)).2 0 ([] ++ [(p1 % 2 ^ 32, len, addr)])) =
          ((if (vf.SetPosition ((p1 % 2 ^ 32 + len) % 2 ^ 32)).1 < 0 then ESP_ERROR_FILE_SEEK
            else (flashWriteRegions n (({ vf with m_pos := p1 } : VFile).SetPosition
              ((p1 % 2 ^ 32 + len) % 2 ^ 32)).2 0 []).1),
            (p1 % 2 ^ 32, len, addr) ::
              (if (vf.SetPosition ((p1 % 2 ^ 32 + len) % 2 ^ 32)).1 < 0 then []
              else (flashWriteRegions n (({ vf with m_pos := p1 } : VFile).SetPosition
              ((p1 % 2 ^ 32 + len) % 2 ^ 32)).2 0 []).2)) := by
        rw [flashWriteRegions_acc, s1]
        split_ifs <;> rfl
      rw [hlist]
      simp only []
      rw [flashWriteCalls]
      simp only []
      cases hw : esp.flashWrite fuel { vf with m_pos := p1 } (p1 % 2 ^ 32) len addr fv fm with
      | none =>
        rw [hw] at hB
        cases hw0 : esp.flashWrite fuel vf (p1 % 2 ^ 32) len addr fv fm with
        | none => rfl
        | some w0 => rw [hw0] at hB; cases hB
      | some w =>
        rw [hw] at hB
        cases hw0 : esp.flashWrite fuel vf (p1 % 2 ^ 32) len addr fv fm with
        | none => rw [hw0] at hB; cases hB
        | some w0 =>
          rw [hw0] at hB
          simp only [Option.map_some', Option.some.injEq, Prod.mk.injEq] at hB
          obtain ⟨e1, e2⟩ := hB
          obtain ⟨p2, hp2⟩ := flashWrite_file esp fuel _ _ _ _ _ _ w hw
          have hp2a : w.2.1 = { vf with m_pos := p2 } := hp2
          simp only []
          by_cases hz : w.1 ≠ 0
          · have hz0 : w0.1 ≠ 0 := by rw [← e1]; exact hz
            rw [if_pos hz, if_pos hz0, ← e1, ← e2]
            rfl
          · have hz0 : ¬ w0.1 ≠ 0 := by rw [← e1]; exact hz
            rw [if_neg hz, if_neg hz0, hp2a]
            obtain ⟨t1, t2, _⟩ := SetPosition_pos vf p2 ((p1 % 2 ^ 32 + len) % 2 ^ 32)
            rw [t1]
            rcases s3 with s3 | s3
            · rw [if_pos s3, if_pos s3, if_pos s3, e2]
              rfl
            · rw [if_neg (by omega), if_neg (by omega), if_neg (by omega), t2 s3, ← s2 s3, e2]
              obtain ⟨p3, hp3⟩ := SetPosition_file { vf with m_pos := p1 }
                ((p1 % 2 ^ 32 + len) % 2 ^ 32)
              have hp3a : (({ vf with m_pos := p1 } : VFile).SetPosition
                  ((p1 % 2 ^ 32 + len) % 2 ^ 32)).2 = { vf with m_pos := p3 } := hp3
              rw [hp3a]
              exact flashWriteEntries_regions fuel fv fm n vf p3 0 w0.2.2

/-- The two models of `FlashWrite` agree: `ESP.FlashWrite` makes the calls of `flashWrite`
for the regions that `FlashWriteRegions` lists, in order, until one does not return 0, and
returns the status of that call, or the status `FlashWriteRegions` gives when every call
returns 0. -/
theorem FlashWrite_regions (esp : ESP) (fuel : Nat) (vf : VFile) (addr fv fm : Nat) :
    (esp.FlashWrite fuel vf addr fv fm).map (fun r => (r.1, r.2.2)) =
      flashWriteCalls fuel fv fm vf (FlashWriteRegions vf addr).2 (FlashWriteRegions vf addr).1
        esp := by
  unfold ESP.FlashWrite FlashWriteRegions
  by_cases ho : (!vf.IsOpen) = true
  · rw [if_pos ho, if_pos ho]
    rfl
  rw [if_neg ho, if_neg ho]
  simp only []
  by_cases hz : vf.m_size = 0
  · rw [if_pos hz, if_pos hz]
    rfl
  rw [if_neg hz, if_neg hz]
  obtain ⟨p0, hp0⟩ := SetPosition_file vf 0
  obtain ⟨p1, hp1⟩ := Read_file (vf.SetPosition 0).2 1 4
  have hp1a : ((vf.SetPosition 0).2.Read 1 4).2.2 = { vf with m_pos := p1 } := by
    rw [hp1, hp0]
  by_cases hs : (vf.SetPosition 0).1 ≠ 0
  · rw [if_pos hs, if_pos (Or.inl hs)]
    rfl
  rw [if_neg hs]
  by_cases hr : ((vf.SetPosition 0).2.Read 1 4).1 ≠ 4
  · rw [if_pos hr, if_pos (Or.inr hr)]
    rfl
  have hsr : ¬ ((vf.SetPosition 0).1 ≠ 0 ∨ ((vf.SetPosition 0).2.Read 1 4).1 ≠ 4) := by
    intro h
    rcases h with h | h
    · exact hs h
    · exact hr h
  rw [if_neg hr, if_neg hsr]
  by_cases hc : List.take 3 ((vf.SetPosition 0).2.Read 1 4).2.1 ≠ COMPOSITE_SIG
  · rw [if_pos hc, if_pos hc, hp1a]
    have hB := flashWrite_pos esp fuel vf p1 0 (vf.m_size % 2 ^ 32) addr fv fm
    rw [hB]
    show _ = flashWriteCalls fuel fv fm vf [(0, vf.m_size % 2 ^ 32, addr)] 0 esp
    rw [flashWriteCalls]
    cases esp.flashWrite fuel vf 0 (vf.m_size % 2 ^ 32) addr fv fm with
    | none => rfl
    | some w =>
      simp only [Option.map_some']
      by_cases hw : w.1 ≠ 0
      · rw [if_pos hw]
      · rw [if_neg hw, flashWriteCalls]
        have : w.1 = 0 := not_not.mp hw
        rw [this]
  · rw [if_neg hc, if_neg hc, hp1a]
    exact flashWriteEntries_regions fuel fv fm _ vf p1 (-1) esp

theorem blockAt_length (data : List Nat) (p : Nat) : (blockAt data p).length = 1024 := by
  unfold blockAt
  rw [List.length_append, List.length_replicate]
  have : ((data.drop p).take 1024).length ≤ 1024 := by
    rw [List.length_take]; omega
  omega

/-- The blocks of a region carry the bytes of the region: without a flash parameter patch,
the data of the `n` blocks sent from offset `p` begin with the `len` bytes the file holds at
`p`, for every `len` that the blocks and the file can hold. -/
theorem regionBlocks_bytes (data : List Nat) (addr fv : Nat) : ∀ (n k p len : Nat),
    len ≤ n * 1024 → p + len ≤ data.length →
    ((regionBlocks data addr fv 0 n k p).flatten).take len = (data.drop p).take len
  | 0, k, p, len, h1, _ => by
    have : len = 0 := by omega
    subst this
    rfl
  | n + 1, k, p, len, h1, h2 => by
    have hpatch : ESP.patchFlashParm k addr (blockAt data p) fv 0 = blockAt data p := by
      unfold ESP.patchFlashParm
      rw [if_neg (fun h => h.2.2.2 rfl)]
    rw [regionBlocks, List.flatten_cons, hpatch]
    by_cases hl : len ≤ 1024
    · rw [List.take_append_of_le_length (by rw [blockAt_length]; exact hl)]
      unfold blockAt
      rw [List.take_append_of_le_length (by
        rw [List.length_take, List.length_drop]; omega), List.take_take,
        Nat.min_eq_left hl]
    · have hfull : blockAt data p = (data.drop p).take 1024 := by
        unfold blockAt
        have : ((data.drop p).take 1024).length = 1024 := by
          rw [List.length_take, List.length_drop]; omega
        rw [this]
        simp
      have hlen : len = (blockAt data p).length + (len - 1024) := by
        rw [blockAt_length]; omega
      rw [hlen, List.take_append, ← hlen,
        regionBlocks_bytes data addr fv n (k + 1) (p + 1024) (len - 1024) (by omega) (by omega),
        hfull]
      have e : len = 1024 + (len - 1024) := by omega
      conv_rhs => rw [e, List.take_add, List.drop_drop]

end EspTool
